import Mathlib

/-!
# libgbinder parcel codec: writer (`gbinder_writer.c`) and reader (`gbinder_reader.c`)

Shallow embedding of the two C files.

* An octet is a `Fin 256`; memory is a function from addresses to octets.
* A `GByteArray` is its `data` block together with `len` and the allocated size `alloc`.
  The block is a function on offsets: an offset at or past `len` holds whatever the
  allocator left there (uninitialised), so every statement about appended octets is a
  statement for every such content.  A store that leaves the allocated block is
  undefined behaviour in C; the embedding records it in the flag `overflow` and does not
  let it change the block.  Sizes are natural numbers (`guint len` does not wrap: parcels
  stay below 4 GiB).
* Multi-octet loads and stores are host-endian; the host byte order is the parameter `be`
  (`false` = little-endian).
* A `const char*` argument is `Option (List Octet)`: `none` is `NULL`, `some s` is a
  pointer to the octets `s`, which are followed by a NUL.
* An optional out pointer is a `Bool` (is it non-NULL); the value stored through it is
  returned as an `Option`.
-/

namespace GBinder

/-! ## Octets, memory, host byte order -/

abbrev Octet := Fin 256

abbrev Memory := Nat → Octet

/-- Conversion of an integer to `guint8` (keeps the low 8 bits). -/
def octet (n : Nat) : Octet := ⟨n % 256, Nat.mod_lt _ (by decide)⟩

/-- Macro `G_ALIGN4(value)` of gutil_macros.h: `((value)+3) & ~3`. -/
def G_ALIGN4 (value : Nat) : Nat := (value + 3) / 4 * 4

/-- Macro `G_ALIGN8(value)` of gutil_macros.h: `((value)+7) & ~7`. -/
def G_ALIGN8 (value : Nat) : Nat := (value + 7) / 8 * 8

/-- Libc `memcpy(dest, src, n)` into the block `m`: offsets `dest .. dest+n` receive the
first `n` octets of `src` (an offset past the modelled source keeps its content). -/
def memcpy (m : Nat → Octet) (dest : Nat) (src : List Octet) (n : Nat) : Nat → Octet :=
  fun i => if dest ≤ i ∧ i < dest + n then src.getD (i - dest) (m i) else m i

/-- Libc `memset(dest, c, n)` on the block `m`. -/
def memset (m : Nat → Octet) (dest : Nat) (c : Octet) (n : Nat) : Nat → Octet :=
  fun i => if dest ≤ i ∧ i < dest + n then c else m i

/-- The `w` low octets of `x`, least significant first. -/
def le_bytes : Nat → Nat → List Octet
  | 0, _ => []
  | w + 1, x => octet x :: le_bytes w (x / 256)

/-- Value of a list of octets, least significant first. -/
def le_value : List Octet → Nat
  | [] => 0
  | b :: bs => b.val + 256 * le_value bs

/-- Object representation of the `w`-octet unsigned integer `x` on the host. -/
def host_bytes (be : Bool) (w : Nat) (x : Nat) : List Octet :=
  if be then (le_bytes w x).reverse else le_bytes w x

/-- Unsigned integer whose object representation on the host is `bs`. -/
def host_value (be : Bool) (bs : List Octet) : Nat :=
  if be then le_value bs.reverse else le_value bs

/-- The `n` octets of memory starting at address `a`. -/
def octets_at (mem : Nat → Octet) (a n : Nat) : List Octet :=
  (List.range n).map (fun i => mem (a + i))

/-- Store through a `guintN*` (N = 8·w): `*(guintN*)(m + addr) = x`. -/
def store (be : Bool) (m : Nat → Octet) (addr w x : Nat) : Nat → Octet :=
  memcpy m addr (host_bytes be w x) w

/-- Load through a `guintN*` (N = 8·w): `*(guintN*)(mem + addr)`. -/
def load (be : Bool) (mem : Nat → Octet) (addr w : Nat) : Nat :=
  host_value be (octets_at mem addr w)

/-- Memory that holds `bytes` at address `base` and `rest` everywhere else. -/
def place (base : Nat) (bytes : List Octet) (rest : Memory) : Memory :=
  fun a => if base ≤ a ∧ a < base + bytes.length then bytes.getD (a - base) (rest a) else rest a

/-! ## GLib byte arrays -/

/-- GLib `GByteArray` with the `alloc` of the `GRealArray` behind it.  `data i` for
`i ≥ alloc` is what a reallocation will expose there.  `overflow` is not a C field: it
records that a store went past the allocated block. -/
structure GByteArray where
  data : Nat → Octet
  len : Nat
  alloc : Nat
  overflow : Bool

/-- The octets `data[0 .. len)` of the array. -/
def GByteArray.toList (a : GByteArray) : List Octet := octets_at a.data 0 a.len

/-- The loop `while (n < num) n <<= 1` of GLib `g_nearest_pow`, started at 1; it makes at
most `num` steps. -/
def g_nearest_pow_loop : Nat → Nat → Nat → Nat
  | 0, n, _ => n
  | fuel + 1, n, num => if n < num then g_nearest_pow_loop fuel (2 * n) num else n

/-- GLib `g_nearest_pow`: the least power of two that is at least `num`. -/
def g_nearest_pow (num : Nat) : Nat := g_nearest_pow_loop num 1 num

/-- GLib `g_array_maybe_expand(array, len)` for a byte array: the block is reallocated to
`MAX(g_nearest_pow(want), MIN_ARRAY_SIZE)` octets when `want = array->len + len` exceeds
`alloc`; the octets of the old block are kept. -/
def g_array_maybe_expand (array : GByteArray) (len : Nat) : GByteArray :=
  if array.len + len > array.alloc then
    { array with alloc := max (g_nearest_pow (array.len + len)) 16 }
  else array

/-- GLib `g_byte_array_set_size`: the array was created without `clear`, so octets exposed
by growing are whatever the block holds. -/
def g_byte_array_set_size (array : GByteArray) (length : Nat) : GByteArray :=
  if length > array.len then
    { g_array_maybe_expand array (length - array.len) with len := length }
  else { array with len := length }

/-- Libc `memcpy(array->data + dest, src, n)`: the octets that fall inside the allocated
block are stored; a copy that runs past the block sets `overflow`. -/
def block_memcpy (a : GByteArray) (dest : Nat) (src : List Octet) (n : Nat) : GByteArray :=
  { a with
    data := fun i => if i < a.alloc then memcpy a.data dest src n i else a.data i
    overflow := a.overflow || decide (n ≠ 0 ∧ a.alloc < dest + n) }

/-- Libc `memset(array->data + dest, c, n)`, as `block_memcpy`. -/
def block_memset (a : GByteArray) (dest : Nat) (c : Octet) (n : Nat) : GByteArray :=
  { a with
    data := fun i => if i < a.alloc then memset a.data dest c n i else a.data i
    overflow := a.overflow || decide (n ≠ 0 ∧ a.alloc < dest + n) }

/-- Store through a `guintN*` (N = 8·w) into the block: `*(guintN*)(array->data + addr) = x`. -/
def block_store (be : Bool) (a : GByteArray) (addr w x : Nat) : GByteArray :=
  block_memcpy a addr (host_bytes be w x) w

/-- GLib `g_byte_array_append(array, data, len)`. -/
def g_byte_array_append (array : GByteArray) (data : List Octet) (len : Nat) : GByteArray :=
  block_memcpy (g_byte_array_set_size array (array.len + len)) array.len data len

/-! ## Writer data model -/

/-- Type `GBinderParent`: patch point `{index, offset}` of a child buffer. -/
structure GBinderParent where
  index : Nat
  offset : Nat
deriving DecidableEq, Repr

/-- The part of `GBinderWriterData` the codec touches.  `offsets` is `none` until the
`GUtilIntArray` is created; `cleanup` lists the pointers registered for `g_free`. -/
structure GBinderWriterData where
  bytes : GByteArray
  offsets : Option (List Nat)
  buffers_size : Nat
  cleanup : List Nat

/-- Type `GBinderWriterPriv`: the public writer is a pointer to the data. -/
structure GBinderWriter where
  data : Option GBinderWriterData

/-- `gbinder_writer_data(pub)`: `pub ? cast(pub)->data : NULL`. -/
def gbinder_writer_data (pub : Option GBinderWriter) : Option GBinderWriterData :=
  match pub with
  | some w => w.data
  | none => none

/-- A parcel with no octets (`g_byte_array_new()`: nothing allocated yet), no offsets
array and no buffers; `junk` is the content the allocator will hand out. -/
def GBinderWriterData.empty (junk : Nat → Octet) : GBinderWriterData :=
  { bytes := { data := junk, len := 0, alloc := 0, overflow := false },
    offsets := none, buffers_size := 0, cleanup := [] }

/-! ## Writer: scalars -/

def gbinder_writer_data_append_int32 (be : Bool) (data : GBinderWriterData) (value : Nat) :
    GBinderWriterData :=
  let bytes := g_byte_array_set_size data.bytes (data.bytes.len + 4)
  let ptr := bytes.len - 4
  { data with bytes := block_store be bytes ptr 4 value }

def gbinder_writer_append_int32 (be : Bool) (self : Option GBinderWriter) (value : Nat) :
    Option GBinderWriter :=
  match gbinder_writer_data self with
  | some data => some { data := some (gbinder_writer_data_append_int32 be data value) }
  | none => self

def gbinder_writer_data_append_int64 (be : Bool) (data : GBinderWriterData) (value : Nat) :
    GBinderWriterData :=
  let bytes := g_byte_array_set_size data.bytes (data.bytes.len + 8)
  let ptr := bytes.len - 8
  { data with bytes := block_store be bytes ptr 8 value }

def gbinder_writer_append_int64 (be : Bool) (self : Option GBinderWriter) (value : Nat) :
    Option GBinderWriter :=
  match gbinder_writer_data self with
  | some data => some { data := some (gbinder_writer_data_append_int64 be data value) }
  | none => self

def gbinder_writer_append_bytes (self : Option GBinderWriter) (ptr : List Octet) (size : Nat) :
    Option GBinderWriter :=
  match gbinder_writer_data self with
  | some data =>
    some { data := some { data with bytes := g_byte_array_append data.bytes ptr size } }
  | none => self

/-- Boolean values are padded to 4-byte boundary; `value` is a `gboolean` (a `gint`). -/
def gbinder_writer_append_bool (self : Option GBinderWriter) (value : Int) :
    Option GBinderWriter :=
  let padded : List Octet := [if value ≠ 0 then 1 else 0, 0xff, 0xff, 0xff]
  gbinder_writer_append_bytes self padded 4

/-! ## Reader data model -/

/-- Type `GBinderBuffer`: address and size of a region of memory. -/
structure GBinderBuffer where
  data : Nat
  size : Nat
deriving DecidableEq, Repr

/-- The driver interface (`GBinderIo`), a table of pure functions.  An encoder is given
the object (`ptr`, `size`, `parent` for a buffer) and returns the octets it writes at
`dest`; their count is the C return value.  A decoder returns the C return value (the
octets eaten) and the value it stores through `out`: `decode_binder_object` is given the
memory, `data`, `size` and the registry pointer, `decode_buffer_object` the memory, the
enclosing buffer and the offset within it. -/
structure GBinderIo where
  encode_local_object : Nat → List Octet
  encode_remote_object : Nat → List Octet
  encode_buffer_object : Nat → Nat → Option GBinderParent → List Octet
  decode_binder_object : Memory → Nat → Nat → Nat → Nat × Option Nat
  decode_buffer_object : Memory → GBinderBuffer → Nat → Nat × Option GBinderBuffer

/-- Type `GBinderObjectRegistry`: `addr` is the pointer to the registry itself. -/
structure GBinderObjectRegistry where
  addr : Nat
  io : GBinderIo

/-- Type `GBinderReaderData`: `objects` is the NULL-terminated array of object addresses. -/
structure GBinderReaderData where
  buffer : Option GBinderBuffer
  reg : Option GBinderObjectRegistry
  objects : Option (List Nat)

/-- Type `GBinderReaderPriv`.  `end_` is the C field `end`; `NULL` is address 0. -/
structure GBinderReaderPriv where
  start : Nat
  end_ : Nat
  ptr : Nat
  data : Option GBinderReaderData
  objects : Option (List Nat)

def gbinder_reader_init (data : Option GBinderReaderData) (offset len : Nat) :
    GBinderReaderPriv :=
  match data with
  | some d =>
    match d.buffer with
    | some buffer =>
      { start := buffer.data + offset, ptr := buffer.data + offset,
        end_ := buffer.data + offset + len, data := data, objects := d.objects }
    | none => { start := 0, ptr := 0, end_ := 0, data := data, objects := d.objects }
  | none => { start := 0, ptr := 0, end_ := 0, data := none, objects := none }

/-- A reader over the `n` octets at address `base` (no registry, no objects). -/
def reader_over (base n : Nat) : GBinderReaderPriv :=
  gbinder_reader_init
    (some { buffer := some { data := base, size := n }, reg := none, objects := none }) 0 n

def gbinder_reader_at_end (p : GBinderReaderPriv) : Bool := decide (p.ptr ≥ p.end_)

/-- The C expression is `(p->end - p->ptr) >= len`; the difference is non-negative under
the reader invariant `ptr ≤ end`. -/
def gbinder_reader_can_read (p : GBinderReaderPriv) (len : Nat) : Bool :=
  decide (p.end_ - p.ptr ≥ len)

/-! ## Reader: scalars

Each read returns the C return value, the value stored through the out pointer (if one
was passed and the read stored anything), and the reader afterwards. -/

def gbinder_reader_read_byte (mem : Memory) (p : GBinderReaderPriv) (value : Bool) :
    Bool × Option Octet × GBinderReaderPriv :=
  if p.ptr < p.end_ then
    (true, if value then some (mem p.ptr) else none, { p with ptr := p.ptr + 1 })
  else (false, none, p)

def gbinder_reader_read_bool (mem : Memory) (p : GBinderReaderPriv) (value : Bool) :
    Bool × Option Int × GBinderReaderPriv :=
  if gbinder_reader_can_read p 4 then
    (true, if value then some (if mem p.ptr ≠ 0 then 1 else 0) else none,
      { p with ptr := p.ptr + 4 })
  else (false, none, p)

def gbinder_reader_read_uint32 (be : Bool) (mem : Memory) (p : GBinderReaderPriv)
    (value : Bool) : Bool × Option Nat × GBinderReaderPriv :=
  if gbinder_reader_can_read p 4 then
    (true, if value then some (load be mem p.ptr 4) else none, { p with ptr := p.ptr + 4 })
  else (false, none, p)

def gbinder_reader_read_uint64 (be : Bool) (mem : Memory) (p : GBinderReaderPriv)
    (value : Bool) : Bool × Option Nat × GBinderReaderPriv :=
  if gbinder_reader_can_read p 8 then
    (true, if value then some (load be mem p.ptr 8) else none, { p with ptr := p.ptr + 8 })
  else (false, none, p)

/-- Value of the 32-bit pattern `x` as a `gint32`. -/
def to_gint32 (x : Nat) : Int := if x < 2 ^ 31 then (x : Int) else (x : Int) - 2 ^ 32

/-- Value of the 64-bit pattern `x` as a `gint64`. -/
def to_gint64 (x : Nat) : Int := if x < 2 ^ 63 then (x : Int) else (x : Int) - 2 ^ 64

/-- `gbinder_reader_read_uint32(reader, (guint32*)value)`: the same 4 octets, stored in a
`gint32`. -/
def gbinder_reader_read_int32 (be : Bool) (mem : Memory) (p : GBinderReaderPriv)
    (value : Bool) : Bool × Option Int × GBinderReaderPriv :=
  ((gbinder_reader_read_uint32 be mem p value).1,
   (gbinder_reader_read_uint32 be mem p value).2.1.map to_gint32,
   (gbinder_reader_read_uint32 be mem p value).2.2)

/-- `gbinder_reader_read_uint64(reader, (guint64*)value)`: the same 8 octets, stored in a
`gint64`. -/
def gbinder_reader_read_int64 (be : Bool) (mem : Memory) (p : GBinderReaderPriv)
    (value : Bool) : Bool × Option Int × GBinderReaderPriv :=
  ((gbinder_reader_read_uint64 be mem p value).1,
   (gbinder_reader_read_uint64 be mem p value).2.1.map to_gint64,
   (gbinder_reader_read_uint64 be mem p value).2.2)

def gbinder_reader_bytes_read (p : GBinderReaderPriv) : Nat := p.ptr - p.start

def gbinder_reader_bytes_remaining (p : GBinderReaderPriv) : Nat := p.end_ - p.ptr

/-! ## AIDL string8 -/

/-- Libc `strlen`: the number of octets before the first NUL. -/
def strlen (s : List Octet) : Nat := (s.takeWhile (fun b => b ≠ 0)).length

def gbinder_writer_data_append_string8_len (be : Bool) (data : GBinderWriterData)
    (str : Option (List Octet)) (len : Nat) : GBinderWriterData :=
  match str with
  | some s =>
    let old_size := data.bytes.len
    let padded_len := G_ALIGN4 (len + 1)
    /- Preallocate space -/
    let bytes := g_byte_array_set_size data.bytes (old_size + padded_len)
    /- Zero the last word: `dest[padded_len/4 - 1] = 0` with `guint32* dest` -/
    let dest := old_size
    let zeroed := block_store be bytes (dest + 4 * (padded_len / 4 - 1)) 4 0
    /- Copy the data -/
    let copied := block_memcpy zeroed dest s len
    { data with bytes := copied }
  | none => data

def gbinder_writer_data_append_string8 (be : Bool) (data : GBinderWriterData)
    (str : Option (List Octet)) : GBinderWriterData :=
  gbinder_writer_data_append_string8_len be data str
    (match str with
     | some s => strlen s
     | none => 0)

def gbinder_writer_append_string8_len (be : Bool) (self : Option GBinderWriter)
    (str : Option (List Octet)) (len : Nat) : Option GBinderWriter :=
  match gbinder_writer_data self with
  | some data => some { data := some (gbinder_writer_data_append_string8_len be data str len) }
  | none => self

def gbinder_writer_append_string8 (be : Bool) (self : Option GBinderWriter)
    (str : Option (List Octet)) : Option GBinderWriter :=
  gbinder_writer_append_string8_len be self str
    (match str with
     | some s => strlen s
     | none => 0)

/-- The loop `while (ptr < p->end && *ptr) ptr++` of `gbinder_reader_read_string8`;
it makes at most `end - ptr` steps, which is the fuel it is started with. -/
def string8_scan (mem : Memory) (end_ : Nat) : Nat → Nat → Nat
  | 0, ptr => ptr
  | fuel + 1, ptr =>
    if ptr < end_ ∧ mem ptr ≠ 0 then string8_scan mem end_ fuel (ptr + 1) else ptr

/-- Returns the `const char*` result (`none` is `NULL`) and the reader afterwards. -/
def gbinder_reader_read_string8 (mem : Memory) (p : GBinderReaderPriv) :
    Option Nat × GBinderReaderPriv :=
  /- Calculate the length -/
  let ptr := string8_scan mem p.end_ (p.end_ - p.ptr) p.ptr
  if ptr < p.end_ then
    /- Zero terminator has been found within the bounds -/
    let len := ptr - p.ptr
    let size := G_ALIGN4 (len + 1)
    if p.ptr + size ≤ p.end_ then (some p.ptr, { p with ptr := p.ptr + size })
    else (none, p)
  else (none, p)

/-- The C string a `const char*` with value `a` denotes: the octets of memory from `a`
up to the first NUL, looking at no more than `n` octets. -/
def string_at (mem : Memory) : Nat → Nat → List Octet
  | _, 0 => []
  | a, n + 1 => if mem a = 0 then [] else mem a :: string_at mem (a + 1) n

/-! ## GLib UTF-8 and UTF-16 routines

GLib is an external library; these definitions follow its documented behaviour and the
structure of its `gutf8.c`.  A UTF-16 code unit and a Unicode code point are natural
numbers. -/

/-- Macro `UNICODE_VALID(Char)`: below 0x110000 and not a surrogate. -/
def UNICODE_VALID (c : Nat) : Prop := c < 0x110000 ∧ ¬(0xD800 ≤ c ∧ c < 0xE000)

instance (c : Nat) : Decidable (UNICODE_VALID c) := by
  unfold UNICODE_VALID
  infer_instance

/-- Test `(b & 0xc0) == 0x80` of `CONTINUATION_CHAR`. -/
def utf8_continuation (b : Octet) : Prop := b.val / 64 = 2

instance (b : Octet) : Decidable (utf8_continuation b) := by
  unfold utf8_continuation
  infer_instance

/-- One step of `g_utf8_validate`: the code point and the length of the well-formed
sequence at the head of `s`; `none` at a NUL, at a malformed, overlong or truncated
sequence, and at a sequence for a value that is not `UNICODE_VALID`. -/
def utf8_char : List Octet → Option (Nat × Nat)
  | [] => none
  | b0 :: t =>
    if b0.val = 0 then none
    else if b0.val < 128 then some (b0.val, 1)
    else if b0.val / 32 = 6 then
      /- 110xxxxx -/
      match t with
      | b1 :: _ =>
        if b0.val % 32 / 2 = 0 then none
        else if utf8_continuation b1 then some (b0.val % 32 * 64 + b1.val % 64, 2)
        else none
      | [] => none
    else if b0.val / 16 = 14 then
      /- 1110xxxx -/
      match t with
      | b1 :: b2 :: _ =>
        if utf8_continuation b1 ∧ utf8_continuation b2
            ∧ 0x800 ≤ (b0.val % 16 * 64 + b1.val % 64) * 64 + b2.val % 64
            ∧ UNICODE_VALID ((b0.val % 16 * 64 + b1.val % 64) * 64 + b2.val % 64)
        then some ((b0.val % 16 * 64 + b1.val % 64) * 64 + b2.val % 64, 3)
        else none
      | _ => none
    else if b0.val / 8 = 30 then
      /- 11110xxx -/
      match t with
      | b1 :: b2 :: b3 :: _ =>
        if utf8_continuation b1 ∧ utf8_continuation b2 ∧ utf8_continuation b3
            ∧ 0x10000 ≤ ((b0.val % 8 * 64 + b1.val % 64) * 64 + b2.val % 64) * 64 + b3.val % 64
            ∧ UNICODE_VALID
                (((b0.val % 8 * 64 + b1.val % 64) * 64 + b2.val % 64) * 64 + b3.val % 64)
        then some (((b0.val % 8 * 64 + b1.val % 64) * 64 + b2.val % 64) * 64 + b3.val % 64, 4)
        else none
      | _ => none
    else none

/-- The loop of `fast_validate_len`: the number of octets before the first NUL or the
first octet that does not start a well-formed sequence.  Every step consumes at least one
octet, so `fuel = |s|` is enough. -/
def utf8_validate_loop : Nat → List Octet → Nat
  | 0, _ => 0
  | fuel + 1, s =>
    match utf8_char s with
    | some (_, n) => n + utf8_validate_loop fuel (s.drop n)
    | none => 0

/-- GLib `g_utf8_validate(str, max_len, &end)`: returns `end - str`.  A negative `max_len`
means "up to the terminating NUL". -/
def g_utf8_validate (str : List Octet) (max_len : Int) : Nat :=
  utf8_validate_loop (if max_len < 0 then str else str.take max_len.toNat).length
    (if max_len < 0 then str else str.take max_len.toNat)

/-- Table `g_utf8_skip` behind `g_utf8_next_char`. -/
def g_utf8_skip (b : Octet) : Nat :=
  if b.val < 0xc0 then 1
  else if b.val < 0xe0 then 2
  else if b.val < 0xf0 then 3
  else if b.val < 0xf8 then 4
  else if b.val < 0xfc then 5
  else if b.val < 0xfe then 6
  else 1

/-- The loop `while (p - start < max && *p) { ++len; p = g_utf8_next_char (p); }` of
`g_utf8_strlen`, on the offset `p - start`; it makes at most `max` steps. -/
def utf8_strlen_loop (p : List Octet) (max : Nat) : Nat → Nat → Nat → Nat × Nat
  | 0, off, len => (off, len)
  | fuel + 1, off, len =>
    if off < max ∧ p.getD off 0 ≠ 0
    then utf8_strlen_loop p max fuel (off + g_utf8_skip (p.getD off 0)) (len + 1)
    else (off, len)

/-- GLib `g_utf8_strlen(p, max)` for `max ≥ 0` (the writer calls it with `max > 0`). -/
def g_utf8_strlen (p : List Octet) (max : Nat) : Nat :=
  if max = 0 ∨ p.getD 0 0 = 0 then 0
  else
    if (utf8_strlen_loop p max max (g_utf8_skip (p.getD 0 0)) 0).1 ≤ max
    then (utf8_strlen_loop p max max (g_utf8_skip (p.getD 0 0)) 0).2 + 1
    else (utf8_strlen_loop p max max (g_utf8_skip (p.getD 0 0)) 0).2

/-- UTF-16 code units of a code point, as `g_utf8_to_utf16` writes them. -/
def utf16_units (wc : Nat) : List Nat :=
  if wc < 0x10000 then [wc]
  else [(wc - 0x10000) / 0x400 + 0xd800, (wc - 0x10000) % 0x400 + 0xdc00]

/-- The conversion loop of `g_utf8_to_utf16`: stops at a NUL or at the end, fails
(`none`, the C `NULL`) at a sequence that is not well-formed. -/
def utf8_to_utf16_loop : Nat → List Octet → Option (List Nat)
  | 0, _ => some []
  | fuel + 1, s =>
    /- `while (str + len - in > 0 && *in)` -/
    if s.length = 0 ∨ s.getD 0 0 = 0 then some []
    else
      match utf8_char s with
      | some (wc, n) => (utf8_to_utf16_loop fuel (s.drop n)).map (fun r => utf16_units wc ++ r)
      | none => none

/-- GLib `g_utf8_to_utf16(str, len, NULL, &items_written, NULL)`: the code units written
before the terminating 0; `items_written` is the length of the result. -/
def g_utf8_to_utf16 (str : List Octet) (len : Nat) : Option (List Nat) :=
  utf8_to_utf16_loop (str.take len).length (str.take len)

/-- GLib `g_unichar_to_utf8(c, outbuf)`. -/
def g_unichar_to_utf8 (c : Nat) : List Octet :=
  if c < 0x80 then [octet c]
  else if c < 0x800 then [octet (c / 64 + 0xc0), octet (c % 64 + 0x80)]
  else if c < 0x10000 then
    [octet (c / 4096 + 0xe0), octet (c / 64 % 64 + 0x80), octet (c % 64 + 0x80)]
  else if c < 0x200000 then
    [octet (c / 262144 + 0xf0), octet (c / 4096 % 64 + 0x80), octet (c / 64 % 64 + 0x80),
     octet (c % 64 + 0x80)]
  else if c < 0x4000000 then
    [octet (c / 16777216 + 0xf8), octet (c / 262144 % 64 + 0x80),
     octet (c / 4096 % 64 + 0x80), octet (c / 64 % 64 + 0x80), octet (c % 64 + 0x80)]
  else
    [octet (c / 1073741824 + 0xfc), octet (c / 16777216 % 64 + 0x80),
     octet (c / 262144 % 64 + 0x80), octet (c / 4096 % 64 + 0x80),
     octet (c / 64 % 64 + 0x80), octet (c % 64 + 0x80)]

/-- Macro `SURROGATE_VALUE(h,l)`. -/
def SURROGATE_VALUE (h l : Nat) : Nat := (h - 0xd800) * 0x400 + l - 0xdc00 + 0x10000

/-- The scan of `g_utf16_to_utf8` over the code units, carrying `high_surrogate`: the
code points up to the first 0 unit or the end; `none` (the C `NULL`) at an unpaired
surrogate. -/
def utf16_to_ucs : List Nat → Nat → Option (List Nat)
  | [], hs => if hs ≠ 0 then none else some []
  | c :: t, hs =>
    if c = 0 then (if hs ≠ 0 then none else some [])
    else if 0xdc00 ≤ c ∧ c < 0xe000 then
      /- low surrogate -/
      if hs ≠ 0 then (utf16_to_ucs t 0).map (fun r => SURROGATE_VALUE hs c :: r) else none
    else if hs ≠ 0 then none
    else if 0xd800 ≤ c ∧ c < 0xdc00 then utf16_to_ucs t c
    else (utf16_to_ucs t 0).map (fun r => c :: r)

/-- GLib `g_utf16_to_utf8(str, len, NULL, NULL, NULL)` for `len ≥ 0`, on the code units
at `str`: the new C string, or `none` for `NULL`. -/
def g_utf16_to_utf8 (str : List Nat) (len : Nat) : Option (List Octet) :=
  (utf16_to_ucs (str.take len) 0).map (fun cs => cs.flatMap g_unichar_to_utf8)

/-! ## AIDL string16 -/

/-- Object representation of an array of `gunichar2`. -/
def utf16_bytes (be : Bool) (units : List Nat) : List Octet :=
  units.flatMap (host_bytes be 2)

/-- The `n` values of the `gunichar2` array at address `a`. -/
def utf16_at (be : Bool) (mem : Memory) (a n : Nat) : List Nat :=
  (List.range n).map (fun i => load be mem (a + 2 * i) 2)

def gbinder_writer_data_append_string16_len (be : Bool) (data : GBinderWriterData)
    (utf8 : Option (List Octet)) (num_bytes : Int) : GBinderWriterData :=
  let old_size := data.bytes.len
  /- `g_utf8_validate(utf8, num_bytes, &end); num_bytes = end - utf8;` or 0 for NULL -/
  let num_bytes : Nat :=
    match utf8 with
    | some s => g_utf8_validate s num_bytes
    | none => 0
  if num_bytes > 0 then
    let s := utf8.getD []
    let len0 := g_utf8_strlen s num_bytes
    let padded_len0 := G_ALIGN4 ((len0 + 1) * 2)
    /- Preallocate space -/
    let bytes := g_byte_array_set_size data.bytes (old_size + padded_len0 + 4)
    let len_ptr := old_size
    let utf16_ptr := old_size + 4
    let utf16 : Option (List Nat) := if len0 > 0 then g_utf8_to_utf16 s num_bytes else none
    let len := match utf16 with
      | some u => u.length
      | none => len0
    let padded_len := match utf16 with
      | some u => G_ALIGN4 ((u.length + 1) * 2)
      | none => padded_len0
    let b1 := match utf16 with
      | some u => block_memcpy bytes utf16_ptr (utf16_bytes be (u ++ [0])) ((u.length + 1) * 2)
      | none => bytes
    /- Actual length -/
    let b2 := block_store be b1 len_ptr 4 len
    /- Zero padding -/
    let b3 := if padded_len - (len + 1) * 2 ≠ 0
      then block_memset b2 (utf16_ptr + 2 * (len + 1)) 0 (padded_len - (len + 1) * 2)
      else b2
    /- Correct the packet size if necessary -/
    { data with bytes := g_byte_array_set_size b3 (old_size + padded_len + 4) }
  else if utf8.isSome then
    /- Empty string -/
    let bytes := g_byte_array_set_size data.bytes (old_size + 8)
    let ptr16 := old_size
    let b1 := block_store be bytes (ptr16 + 2 * 2) 2 0
    let b2 := block_store be b1 (ptr16 + 2 * 1) 2 0
    let b3 := block_store be b2 (ptr16 + 2 * 0) 2 0
    let b4 := block_store be b3 (ptr16 + 2 * 3) 2 0xffff
    { data with bytes := b4 }
  else
    /- NULL string: `gbinder_writer_data_append_int32(data, -1)` -/
    gbinder_writer_data_append_int32 be data 0xffffffff

def gbinder_writer_data_append_string16 (be : Bool) (data : GBinderWriterData)
    (utf8 : Option (List Octet)) : GBinderWriterData :=
  gbinder_writer_data_append_string16_len be data utf8
    (match utf8 with
     | some s => (strlen s : Int)
     | none => 0)

def gbinder_writer_append_string16_len (be : Bool) (self : Option GBinderWriter)
    (utf8 : Option (List Octet)) (num_bytes : Int) : Option GBinderWriter :=
  match gbinder_writer_data self with
  | some data =>
    some { data := some (gbinder_writer_data_append_string16_len be data utf8 num_bytes) }
  | none => self

def gbinder_writer_append_string16 (be : Bool) (self : Option GBinderWriter)
    (utf8 : Option (List Octet)) : Option GBinderWriter :=
  gbinder_writer_append_string16_len be self utf8
    (match utf8 with
     | some s => (strlen s : Int)
     | none => 0)

/-- Returns the `gboolean` result, the `char*` stored through `out` (`some none` is a
stored `NULL`) and the reader afterwards.  `len` is the `gint32` at the cursor, held as
its 32-bit pattern: `-1` is `0xffffffff`, `len >= 0` is `len < 2^31`.  `padded_len` is a
`guint32`; the C computes `G_ALIGN4((len+1)*2)` in 32-bit arithmetic. -/
def gbinder_reader_read_nullable_string16 (be : Bool) (mem : Memory) (p : GBinderReaderPriv)
    (out : Bool) : Bool × Option (Option (List Octet)) × GBinderReaderPriv :=
  if p.ptr + 4 ≤ p.end_ then
    let len := load be mem p.ptr 4
    if len = 0xffffffff then
      /- NULL string -/
      (true, if out then some none else none, { p with ptr := p.ptr + 4 })
    else if len < 0x80000000 then
      let padded_len := G_ALIGN4 ((len + 1) * 2) % 2 ^ 32
      let utf16 := p.ptr + 4
      if p.ptr + padded_len + 4 ≤ p.end_ then
        (true,
         if out then some (g_utf16_to_utf8 (utf16_at be mem utf16 len) len) else none,
         { p with ptr := p.ptr + padded_len + 4 })
      else (false, none, p)
    else (false, none, p)
  else (false, none, p)

/-- Returns the `char*` result: `str` is initialised to `NULL` and overwritten by what
`gbinder_reader_read_nullable_string16` stores. -/
def gbinder_reader_read_string16 (be : Bool) (mem : Memory) (p : GBinderReaderPriv) :
    Option (List Octet) × GBinderReaderPriv :=
  ((gbinder_reader_read_nullable_string16 be mem p true).2.1.getD none,
   (gbinder_reader_read_nullable_string16 be mem p true).2.2)

def gbinder_reader_skip_string16 (be : Bool) (mem : Memory) (p : GBinderReaderPriv) :
    Bool × GBinderReaderPriv :=
  if p.ptr + 4 ≤ p.end_ then
    let len := load be mem p.ptr 4
    if len = 0xffffffff then
      /- NULL string -/
      (true, { p with ptr := p.ptr + 4 })
    else if len < 0x80000000 then
      let padded_len := G_ALIGN4 ((len + 1) * 2) % 2 ^ 32
      if p.ptr + padded_len + 4 ≤ p.end_ then
        (true, { p with ptr := p.ptr + padded_len + 4 })
      else (false, p)
    else (false, p)
  else (false, p)

/-! ## Reader: objects and buffer objects

`p->objects` is a NULL-terminated array of addresses: `p->objects[0]` is the head of the
list, or 0 (`NULL`) when the list is empty, and `p->objects++` drops the head. -/

/-- Returns the `gboolean` result, the object stored through `out` (`some none` is a
stored `NULL`) and the reader afterwards. -/
def gbinder_reader_read_nullable_object (mem : Memory) (p : GBinderReaderPriv) (out : Bool) :
    Bool × Option (Option Nat) × GBinderReaderPriv :=
  match p.data, p.objects with
  | some data, some objects =>
    match data.reg with
    | some reg =>
      if objects.headD 0 ≠ 0 ∧ p.ptr = objects.headD 0 then
        if (reg.io.decode_binder_object mem p.ptr (gbinder_reader_bytes_remaining p)
              reg.addr).1 ≠ 0 then
          (true,
           if out then some (reg.io.decode_binder_object mem p.ptr
             (gbinder_reader_bytes_remaining p) reg.addr).2 else none,
           { p with
             ptr := p.ptr + (reg.io.decode_binder_object mem p.ptr
               (gbinder_reader_bytes_remaining p) reg.addr).1
             objects := some objects.tail })
        else (false, if out then some none else none, p)
      else (false, if out then some none else none, p)
    | none => (false, if out then some none else none, p)
  | _, _ => (false, if out then some none else none, p)

/-- Returns the object: `obj` is initialised to `NULL` and overwritten by what
`gbinder_reader_read_nullable_object` stores. -/
def gbinder_reader_read_object (mem : Memory) (p : GBinderReaderPriv) :
    Option Nat × GBinderReaderPriv :=
  ((gbinder_reader_read_nullable_object mem p true).2.1.getD none,
   (gbinder_reader_read_nullable_object mem p true).2.2)

/-- Returns the `gboolean` result, the buffer stored through `out` and the reader
afterwards.  The C takes `buf = data->buffer` without a test: a reader that
`gbinder_reader_init` made without a buffer has `ptr = NULL`, which no pending object
equals, and the embedding lets the read fail there.  The offset `p->ptr - buf->data` is
that of a cursor at or after the start of the buffer (`buf->data ≤ ptr`), as in every
reader `gbinder_reader_init` makes and the reads advance. -/
def gbinder_reader_read_buffer_impl (mem : Memory) (p : GBinderReaderPriv) (out : Bool) :
    Bool × Option (Option GBinderBuffer) × GBinderReaderPriv :=
  match p.data, p.objects with
  | some data, some objects =>
    match data.reg with
    | some reg =>
      if objects.headD 0 ≠ 0 ∧ p.ptr = objects.headD 0 then
        match data.buffer with
        | some buf =>
          /- `offset = p->ptr - (guint8*)buf->data` -/
          if (reg.io.decode_buffer_object mem buf (p.ptr - buf.data)).1 ≠ 0 then
            (true,
             if out then some (reg.io.decode_buffer_object mem buf (p.ptr - buf.data)).2
             else none,
             { p with
               ptr := p.ptr + (reg.io.decode_buffer_object mem buf (p.ptr - buf.data)).1
               objects := some objects.tail })
          else (false, if out then some none else none, p)
        | none => (false, if out then some none else none, p)
      else (false, if out then some none else none, p)
    | none => (false, if out then some none else none, p)
  | _, _ => (false, if out then some none else none, p)

/-- Returns the buffer: `buf` is initialised to `NULL` and overwritten by what
`gbinder_reader_read_buffer_impl` stores. -/
def gbinder_reader_read_buffer (mem : Memory) (p : GBinderReaderPriv) :
    Option GBinderBuffer × GBinderReaderPriv :=
  ((gbinder_reader_read_buffer_impl mem p true).2.1.getD none,
   (gbinder_reader_read_buffer_impl mem p true).2.2)

def gbinder_reader_skip_buffer (mem : Memory) (p : GBinderReaderPriv) :
    Bool × GBinderReaderPriv :=
  ((gbinder_reader_read_buffer_impl mem p false).1,
   (gbinder_reader_read_buffer_impl mem p false).2.2)

/-! ## Reader: HIDL strings -/

/-- Modelled from the spec: `sizeof(HidlString)`; the struct is
`{ pointer str; uint32 len; bool owns_buffer; padding to 16 }` (its declaration is not
among the sources). -/
def sizeof_HidlString : Nat := 16

/-- Modelled from the spec: `sizeof(HidlVec)`; the struct is
`{ pointer data; uint32 count; bool owns_buffer; padding to 16 }`. -/
def sizeof_HidlVec : Nat := 16

/-- Modelled from the spec: the field `data.str` of the `HidlString` at address `s`, a
pointer of 8 octets at offset 0. -/
def HidlString_str (be : Bool) (mem : Memory) (s : Nat) : Nat := load be mem s 8

/-- Modelled from the spec: the field `len` of the `HidlString` at address `s`, a `guint32`
after the pointer. -/
def HidlString_len (be : Bool) (mem : Memory) (s : Nat) : Nat := load be mem (s + 8) 4

/-- Modelled from the spec: the field `data.ptr` of the `HidlVec` at address `vec`. -/
def HidlVec_ptr (be : Bool) (mem : Memory) (vec : Nat) : Nat := load be mem vec 8

/-- Modelled from the spec: the field `count` of the `HidlVec` at address `vec`. -/
def HidlVec_count (be : Bool) (mem : Memory) (vec : Nat) : Nat := load be mem (vec + 8) 4

/-- The test `sbuf->size == s->len + 1 && sbuf->data == s->data.str &&
s->data.str[s->len] == 0` on the `HidlString` at address `s`; `s->len + 1` is computed in
`guint32`. -/
def hidl_string_matches (be : Bool) (mem : Memory) (sbuf : GBinderBuffer) (s : Nat) : Prop :=
  sbuf.size = (HidlString_len be mem s + 1) % 2 ^ 32 ∧
  sbuf.data = HidlString_str be mem s ∧
  mem (HidlString_str be mem s + HidlString_len be mem s) = 0

instance (be : Bool) (mem : Memory) (sbuf : GBinderBuffer) (s : Nat) :
    Decidable (hidl_string_matches be mem sbuf s) := by
  unfold hidl_string_matches
  infer_instance

/-- GLib `g_strdup(str)` of the C string at address `str`, which has its NUL within the
first `n` octets. -/
def g_strdup (mem : Memory) (str n : Nat) : List Octet := string_at mem str n

/-- Returns the `char*` result (`none` is `NULL`) and the reader afterwards. -/
def gbinder_reader_read_hidl_string (be : Bool) (mem : Memory) (p : GBinderReaderPriv) :
    Option (List Octet) × GBinderReaderPriv :=
  match (gbinder_reader_read_buffer mem p).1 with
  | some buf =>
    if buf.size = sizeof_HidlString then
      match (gbinder_reader_read_buffer mem (gbinder_reader_read_buffer mem p).2).1 with
      | some sbuf =>
        if hidl_string_matches be mem sbuf buf.data then
          (some (g_strdup mem (HidlString_str be mem buf.data)
             (HidlString_len be mem buf.data + 1)),
           (gbinder_reader_read_buffer mem (gbinder_reader_read_buffer mem p).2).2)
        else (none, (gbinder_reader_read_buffer mem (gbinder_reader_read_buffer mem p).2).2)
      | none => (none, (gbinder_reader_read_buffer mem (gbinder_reader_read_buffer mem p).2).2)
    else (none, (gbinder_reader_read_buffer mem p).2)
  | none => (none, (gbinder_reader_read_buffer mem p).2)

/-- The loop `for (i=0; i<n && (sbuf = gbinder_reader_read_buffer(reader)); i++)` of
`gbinder_reader_read_hidl_string_vec`, from index `i` with `k = n - i` rounds to go:
`some list` when it ends with `i == n`, `none` when a buffer read fails or a buffer does
not match its `HidlString` (the `break`). -/
def hidl_string_vec_loop (be : Bool) (mem : Memory) (strings : Nat) :
    Nat → Nat → GBinderReaderPriv → Option (List (List Octet)) × GBinderReaderPriv
  | 0, _, p => (some [], p)
  | k + 1, i, p =>
    match (gbinder_reader_read_buffer mem p).1 with
    | some sbuf =>
      if hidl_string_matches be mem sbuf (strings + sizeof_HidlString * i) then
        ((hidl_string_vec_loop be mem strings k (i + 1)
            (gbinder_reader_read_buffer mem p).2).1.map
          (fun l => g_strdup mem (HidlString_str be mem (strings + sizeof_HidlString * i))
            (HidlString_len be mem (strings + sizeof_HidlString * i) + 1) :: l),
         (hidl_string_vec_loop be mem strings k (i + 1)
            (gbinder_reader_read_buffer mem p).2).2)
      else (none, (gbinder_reader_read_buffer mem p).2)
    | none => (none, (gbinder_reader_read_buffer mem p).2)

/-- Returns the `char**` result as the list of strings before the terminating `NULL`
(`none` is `NULL`) and the reader afterwards. -/
def gbinder_reader_read_hidl_string_vec (be : Bool) (mem : Memory) (p : GBinderReaderPriv) :
    Option (List (List Octet)) × GBinderReaderPriv :=
  match (gbinder_reader_read_buffer mem p).1 with
  | some buf =>
    /- First buffer contains hidl_vector -/
    if buf.size = sizeof_HidlVec then
      if HidlVec_ptr be mem buf.data = 0 ∧ HidlVec_count be mem buf.data = 0 then
        (some [], (gbinder_reader_read_buffer mem p).2)
      else
        /- The second buffer (if any) contains n hidl_string's -/
        match (gbinder_reader_read_buffer mem (gbinder_reader_read_buffer mem p).2).1 with
        | some buf2 =>
          if buf2.data = HidlVec_ptr be mem buf.data
              ∧ buf2.size = sizeof_HidlString * HidlVec_count be mem buf.data then
            /- Now we expect n buffers containing the actual data -/
            hidl_string_vec_loop be mem buf2.data (HidlVec_count be mem buf.data) 0
              (gbinder_reader_read_buffer mem (gbinder_reader_read_buffer mem p).2).2
          else (none, (gbinder_reader_read_buffer mem (gbinder_reader_read_buffer mem p).2).2)
        | none =>
          (none, (gbinder_reader_read_buffer mem (gbinder_reader_read_buffer mem p).2).2)
    else (none, (gbinder_reader_read_buffer mem p).2)
  | none => (none, (gbinder_reader_read_buffer mem p).2)

/-! ## Writer: buffer objects

`data->io` is the parameter `io`; the macro `GBINDER_MAX_BUFFER_OBJECT_SIZE` of
gbinder_io.h is the parameter of the same name. -/

def gbinder_writer_data_record_offset (data : GBinderWriterData) (offset : Nat) :
    GBinderWriterData :=
  match data.offsets with
  | some offsets => { data with offsets := some (offsets ++ [offset]) }
  | none => { data with offsets := some [offset] }

def gbinder_writer_data_write_buffer_object (io : GBinderIo)
    (GBINDER_MAX_BUFFER_OBJECT_SIZE : Nat) (data : GBinderWriterData) (ptr size : Nat)
    (parent : Option GBinderParent) : GBinderWriterData :=
  let offset := data.bytes.len
  /- Preallocate enough space -/
  let dest := g_byte_array_set_size data.bytes (offset + GBINDER_MAX_BUFFER_OBJECT_SIZE)
  /- Write the object -/
  let written := io.encode_buffer_object ptr size parent
  let n := written.length
  let dest := block_memcpy dest offset written n
  /- Fix the data size -/
  let dest := g_byte_array_set_size dest (offset + n)
  /- Record the offset -/
  let data := gbinder_writer_data_record_offset { data with bytes := dest } offset
  /- The driver seems to require each buffer to be 8-byte aligned -/
  { data with buffers_size := data.buffers_size + G_ALIGN8 size }

/-- Returns `data->offsets->count` and the data, in which the offsets array exists. -/
def gbinder_writer_data_prepare (data : GBinderWriterData) : Nat × GBinderWriterData :=
  match data.offsets with
  | some offsets => (offsets.length, data)
  | none => (0, { data with offsets := some [] })

/-- Returns the index and the data afterwards. -/
def gbinder_writer_data_append_buffer_object (io : GBinderIo)
    (GBINDER_MAX_BUFFER_OBJECT_SIZE : Nat) (data : GBinderWriterData) (ptr size : Nat)
    (parent : Option GBinderParent) : Nat × GBinderWriterData :=
  ((gbinder_writer_data_prepare data).1,
   gbinder_writer_data_write_buffer_object io GBINDER_MAX_BUFFER_OBJECT_SIZE
     (gbinder_writer_data_prepare data).2 ptr size parent)

/-- Returns the index (0 without data) and the writer afterwards. -/
def gbinder_writer_append_buffer_object_with_parent (io : GBinderIo)
    (GBINDER_MAX_BUFFER_OBJECT_SIZE : Nat) (self : Option GBinderWriter) (buf len : Nat)
    (parent : Option GBinderParent) : Nat × Option GBinderWriter :=
  match gbinder_writer_data self with
  | some data =>
    ((gbinder_writer_data_append_buffer_object io GBINDER_MAX_BUFFER_OBJECT_SIZE data buf len
        parent).1,
     some { data := some (gbinder_writer_data_append_buffer_object io
        GBINDER_MAX_BUFFER_OBJECT_SIZE data buf len parent).2 })
  | none => (0, self)

/-- Returns the index (0 without data) and the writer afterwards. -/
def gbinder_writer_append_buffer_object (io : GBinderIo)
    (GBINDER_MAX_BUFFER_OBJECT_SIZE : Nat) (self : Option GBinderWriter) (buf len : Nat) :
    Nat × Option GBinderWriter :=
  match gbinder_writer_data self with
  | some data =>
    ((gbinder_writer_data_append_buffer_object io GBINDER_MAX_BUFFER_OBJECT_SIZE data buf len
        none).1,
     some { data := some (gbinder_writer_data_append_buffer_object io
        GBINDER_MAX_BUFFER_OBJECT_SIZE data buf len none).2 })
  | none => (0, self)

/-! ## Writer: binder objects

The macro `GBINDER_MAX_BINDER_OBJECT_SIZE` of gbinder_io.h is the parameter of the same
name; `obj` is the pointer to the object. -/

def gbinder_writer_data_append_local_object (io : GBinderIo)
    (GBINDER_MAX_BINDER_OBJECT_SIZE : Nat) (data : GBinderWriterData) (obj : Nat) :
    GBinderWriterData :=
  let offset := data.bytes.len
  /- Preallocate enough space -/
  let dest := g_byte_array_set_size data.bytes (offset + GBINDER_MAX_BINDER_OBJECT_SIZE)
  /- Write the object -/
  let written := io.encode_local_object obj
  let n := written.length
  let dest := block_memcpy dest offset written n
  /- Fix the data size -/
  let dest := g_byte_array_set_size dest (offset + n)
  /- Record the offset -/
  gbinder_writer_data_record_offset { data with bytes := dest } offset

def gbinder_writer_append_local_object (io : GBinderIo)
    (GBINDER_MAX_BINDER_OBJECT_SIZE : Nat) (self : Option GBinderWriter) (obj : Nat) :
    Option GBinderWriter :=
  match gbinder_writer_data self with
  | some data =>
    some { data := some (gbinder_writer_data_append_local_object io
      GBINDER_MAX_BINDER_OBJECT_SIZE data obj) }
  | none => self

def gbinder_writer_data_append_remote_object (io : GBinderIo)
    (GBINDER_MAX_BINDER_OBJECT_SIZE : Nat) (data : GBinderWriterData) (obj : Nat) :
    GBinderWriterData :=
  let offset := data.bytes.len
  /- Preallocate enough space -/
  let dest := g_byte_array_set_size data.bytes (offset + GBINDER_MAX_BINDER_OBJECT_SIZE)
  /- Write the object -/
  let written := io.encode_remote_object obj
  let n := written.length
  let dest := block_memcpy dest offset written n
  /- Fix the data size -/
  let dest := g_byte_array_set_size dest (offset + n)
  /- Record the offset -/
  gbinder_writer_data_record_offset { data with bytes := dest } offset

def gbinder_writer_append_remote_object (io : GBinderIo)
    (GBINDER_MAX_BINDER_OBJECT_SIZE : Nat) (self : Option GBinderWriter) (obj : Nat) :
    Option GBinderWriter :=
  match gbinder_writer_data self with
  | some data =>
    some { data := some (gbinder_writer_data_append_remote_object io
      GBINDER_MAX_BINDER_OBJECT_SIZE data obj) }
  | none => self

/-! ## Writer: HIDL strings

A `const char*` whose value is embedded in the parcel is a `CString`: the pointer and the
octets it points to.  `g_new0` returns a block of its own: the structure in it is held as
a record while the function fills it, and the process memory afterwards holds the
record's object representation at the address of the block (the parameter named as the C
variable that receives it). -/

/-- A `const char*` argument: `addr` is the pointer (0 is `NULL`), `octets` what it points
to, followed by a NUL. -/
structure CString where
  addr : Nat
  octets : List Octet
deriving DecidableEq, Repr

/-- Modelled from the spec: type `HidlString`,
`{ pointer str; uint32 len; bool owns_buffer; padding to 16 }`. -/
structure HidlString where
  str : Nat
  len : Nat
  owns_buffer : Bool
deriving DecidableEq, Repr

/-- Modelled from the spec: type `HidlVec`,
`{ pointer data; uint32 count; bool owns_buffer; padding to 16 }`. -/
structure HidlVec where
  ptr : Nat
  count : Nat
  owns_buffer : Bool
deriving DecidableEq, Repr

/-- Modelled from the spec: macro `HIDL_STRING_BUFFER_OFFSET`, the offset of the pointer
field `data.str` in `HidlString`. -/
def HIDL_STRING_BUFFER_OFFSET : Nat := 0

/-- Modelled from the spec: macro `HIDL_VEC_BUFFER_OFFSET`, the offset of the pointer
field `data.ptr` in `HidlVec`. -/
def HIDL_VEC_BUFFER_OFFSET : Nat := 0

/-- Object representation of a `HidlString` (16 octets, padding zero as `g_new0` left it). -/
def HidlString.bytes (be : Bool) (s : HidlString) : List Octet :=
  host_bytes be 8 s.str ++ host_bytes be 4 s.len ++ [if s.owns_buffer then 1 else 0, 0, 0, 0]

/-- Object representation of a `HidlVec` (16 octets, padding zero as `g_new0` left it). -/
def HidlVec.bytes (be : Bool) (v : HidlVec) : List Octet :=
  host_bytes be 8 v.ptr ++ host_bytes be 4 v.count ++ [if v.owns_buffer then 1 else 0, 0, 0, 0]

/-- `gbinder_cleanup_add(cleanup, g_free, pointer)`. -/
def gbinder_cleanup_add (cleanup : List Nat) (pointer : Nat) : List Nat := cleanup ++ [pointer]

/-- Returns the process memory and the data afterwards; `hidl_string` is the block
`g_new0(HidlString, 1)` returned. -/
def gbinder_writer_data_append_hidl_string (be : Bool) (io : GBinderIo)
    (GBINDER_MAX_BUFFER_OBJECT_SIZE : Nat) (mem : Memory) (data : GBinderWriterData)
    (hidl_string : Nat) (str : CString) : Memory × GBinderWriterData :=
  let len := if str.addr ≠ 0 then strlen str.octets else 0
  /- Prepare parent descriptor for the string data -/
  let str_parent : GBinderParent :=
    { index := (gbinder_writer_data_prepare data).1, offset := HIDL_STRING_BUFFER_OFFSET }
  let data := (gbinder_writer_data_prepare data).2
  /- Fill in the string descriptor and store it -/
  let s : HidlString := { str := str.addr, len := len % 2 ^ 32, owns_buffer := true }
  let mem := place hidl_string (s.bytes be) mem
  let data := { data with cleanup := gbinder_cleanup_add data.cleanup hidl_string }
  /- Write the buffer object pointing to the string descriptor -/
  let data := gbinder_writer_data_write_buffer_object io GBINDER_MAX_BUFFER_OBJECT_SIZE data
    hidl_string sizeof_HidlString none
  if str.addr ≠ 0 then
    /- Write the buffer pointing to the string data including the NULL terminator,
       referencing string descriptor as a parent. -/
    (mem, gbinder_writer_data_write_buffer_object io GBINDER_MAX_BUFFER_OBJECT_SIZE data
      str.addr (len + 1) (some str_parent))
  else (mem, data)

def gbinder_writer_append_hidl_string (be : Bool) (io : GBinderIo)
    (GBINDER_MAX_BUFFER_OBJECT_SIZE : Nat) (mem : Memory) (self : Option GBinderWriter)
    (hidl_string : Nat) (str : CString) : Memory × Option GBinderWriter :=
  match gbinder_writer_data self with
  | some data =>
    ((gbinder_writer_data_append_hidl_string be io GBINDER_MAX_BUFFER_OBJECT_SIZE mem data
        hidl_string str).1,
     some { data := some (gbinder_writer_data_append_hidl_string be io
        GBINDER_MAX_BUFFER_OBJECT_SIZE mem data hidl_string str).2 })
  | none => (mem, self)

/-- GLib utility `gutil_strv_length`: the number of pointers before the first `NULL` of
the array. -/
def gutil_strv_length (strv : List CString) : Nat :=
  (strv.takeWhile (fun str => str.addr ≠ 0)).length

/-- One round of the loop "Fill in string descriptors": the element `strings[i]`, zeroed by
`g_new0`, after `hidl_str->data.str = str` and, for a non-null `str`, the stores to `len`
and `owns_buffer`.  An index past the end of `strv` reads as `NULL`. -/
def hidl_string_vec_fill (strv : List CString) (i : Nat) : HidlString :=
  if (strv.getD i ⟨0, []⟩).addr ≠ 0 then
    { str := (strv.getD i ⟨0, []⟩).addr
      len := strlen (strv.getD i ⟨0, []⟩).octets % 2 ^ 32
      owns_buffer := true }
  else { str := (strv.getD i ⟨0, []⟩).addr, len := 0, owns_buffer := false }

/-- The loop "Write the string data" of `gbinder_writer_data_append_hidl_string_vec`, from
index `i` with `k = count - i` rounds to go; `hidl_str->len + 1` is `guint32`
arithmetic. -/
def hidl_string_vec_write (io : GBinderIo) (GBINDER_MAX_BUFFER_OBJECT_SIZE : Nat)
    (strings : List HidlString) :
    Nat → Nat → GBinderParent → GBinderWriterData → GBinderWriterData
  | 0, _, _, data => data
  | k + 1, i, str_parent, data =>
    hidl_string_vec_write io GBINDER_MAX_BUFFER_OBJECT_SIZE strings k (i + 1)
      { str_parent with offset := str_parent.offset + sizeof_HidlString }
      (if (strings.getD i ⟨0, 0, false⟩).str ≠ 0 then
        gbinder_writer_data_write_buffer_object io GBINDER_MAX_BUFFER_OBJECT_SIZE data
          (strings.getD i ⟨0, 0, false⟩).str
          (((strings.getD i ⟨0, 0, false⟩).len + 1) % 2 ^ 32) (some str_parent)
       else data)

/-- Returns the process memory and the data afterwards; `vec` is the block
`g_new0(HidlVec, 1)` returned and `strings` the block `g_new0(HidlString, count)` returns
when `count > 0`. -/
def gbinder_writer_data_append_hidl_string_vec (be : Bool) (io : GBinderIo)
    (GBINDER_MAX_BUFFER_OBJECT_SIZE : Nat) (mem : Memory) (data : GBinderWriterData)
    (vec strings : Nat) (strv : List CString) (count : Int) : Memory × GBinderWriterData :=
  /- Assume NULL terminated array -/
  let count : Nat := if count < 0 then gutil_strv_length strv else count.toNat
  /- Prepare parent descriptor for the vector data -/
  let vec_parent : GBinderParent :=
    { index := (gbinder_writer_data_prepare data).1, offset := HIDL_VEC_BUFFER_OFFSET }
  let data := (gbinder_writer_data_prepare data).2
  /- Fill in the vector descriptor -/
  let strings_ptr := if count > 0 then strings else 0
  let data :=
    if count > 0 then { data with cleanup := gbinder_cleanup_add data.cleanup strings }
    else data
  let v : HidlVec := { ptr := strings_ptr, count := count % 2 ^ 32, owns_buffer := true }
  let data := { data with cleanup := gbinder_cleanup_add data.cleanup vec }
  /- Fill in string descriptors -/
  let descs : List HidlString := (List.range count).map (hidl_string_vec_fill strv)
  let mem :=
    place vec (v.bytes be)
      (if count > 0 then place strings (descs.flatMap (HidlString.bytes be)) mem else mem)
  /- Write the vector object -/
  let data := gbinder_writer_data_write_buffer_object io GBINDER_MAX_BUFFER_OBJECT_SIZE data
    vec sizeof_HidlVec none
  if strings_ptr ≠ 0 then
    /- Prepare parent descriptor for the string data -/
    let str_parent : GBinderParent :=
      { index := (data.offsets.getD []).length, offset := HIDL_STRING_BUFFER_OFFSET }
    /- Write the vector data (it's parent for the string data) -/
    let data := gbinder_writer_data_write_buffer_object io GBINDER_MAX_BUFFER_OBJECT_SIZE data
      strings_ptr (sizeof_HidlString * count) (some vec_parent)
    /- Write the string data -/
    (mem, hidl_string_vec_write io GBINDER_MAX_BUFFER_OBJECT_SIZE descs count 0 str_parent data)
  else (mem, data)

def gbinder_writer_append_hidl_string_vec (be : Bool) (io : GBinderIo)
    (GBINDER_MAX_BUFFER_OBJECT_SIZE : Nat) (mem : Memory) (self : Option GBinderWriter)
    (vec strings : Nat) (strv : List CString) (count : Int) : Memory × Option GBinderWriter :=
  match gbinder_writer_data self with
  | some data =>
    ((gbinder_writer_data_append_hidl_string_vec be io GBINDER_MAX_BUFFER_OBJECT_SIZE mem data
        vec strings strv count).1,
     some { data := some (gbinder_writer_data_append_hidl_string_vec be io
        GBINDER_MAX_BUFFER_OBJECT_SIZE mem data vec strings strv count).2 })
  | none => (mem, self)

/-! ## Sequences of writer operations -/

/-- A call of the public writer interface, with its arguments (and, for the HIDL appends,
the blocks `g_new0` returned to it). -/
inductive WriterOp where
  | int32 (value : Nat)
  | int64 (value : Nat)
  | bool (value : Int)
  | bytes (ptr : List Octet) (size : Nat)
  | string8 (str : Option (List Octet))
  | string8_len (str : Option (List Octet)) (len : Nat)
  | string16 (utf8 : Option (List Octet))
  | string16_len (utf8 : Option (List Octet)) (num_bytes : Int)
  | buffer_object (buf len : Nat)
  | buffer_object_with_parent (buf len : Nat) (parent : Option GBinderParent)
  | hidl_string (block : Nat) (str : CString)
  | hidl_string_vec (vec strings : Nat) (strv : List CString) (count : Int)
  | local_object (obj : Nat)
  | remote_object (obj : Nat)

/-- The call `op` on the writer `self`, in the process memory `mem`. -/
def WriterOp.run (be : Bool) (io : GBinderIo)
    (GBINDER_MAX_BUFFER_OBJECT_SIZE GBINDER_MAX_BINDER_OBJECT_SIZE : Nat)
    (state : Memory × Option GBinderWriter) : WriterOp → Memory × Option GBinderWriter
  | .int32 value => (state.1, gbinder_writer_append_int32 be state.2 value)
  | .int64 value => (state.1, gbinder_writer_append_int64 be state.2 value)
  | .bool value => (state.1, gbinder_writer_append_bool state.2 value)
  | .bytes ptr size => (state.1, gbinder_writer_append_bytes state.2 ptr size)
  | .string8 str => (state.1, gbinder_writer_append_string8 be state.2 str)
  | .string8_len str len => (state.1, gbinder_writer_append_string8_len be state.2 str len)
  | .string16 utf8 => (state.1, gbinder_writer_append_string16 be state.2 utf8)
  | .string16_len utf8 num_bytes =>
    (state.1, gbinder_writer_append_string16_len be state.2 utf8 num_bytes)
  | .buffer_object buf len =>
    (state.1, (gbinder_writer_append_buffer_object io GBINDER_MAX_BUFFER_OBJECT_SIZE state.2
      buf len).2)
  | .buffer_object_with_parent buf len parent =>
    (state.1, (gbinder_writer_append_buffer_object_with_parent io
      GBINDER_MAX_BUFFER_OBJECT_SIZE state.2 buf len parent).2)
  | .hidl_string block str =>
    gbinder_writer_append_hidl_string be io GBINDER_MAX_BUFFER_OBJECT_SIZE state.1 state.2
      block str
  | .hidl_string_vec vec strings strv count =>
    gbinder_writer_append_hidl_string_vec be io GBINDER_MAX_BUFFER_OBJECT_SIZE state.1 state.2
      vec strings strv count
  | .local_object obj =>
    (state.1, gbinder_writer_append_local_object io GBINDER_MAX_BINDER_OBJECT_SIZE state.2 obj)
  | .remote_object obj =>
    (state.1, gbinder_writer_append_remote_object io GBINDER_MAX_BINDER_OBJECT_SIZE state.2 obj)

/-- The calls `ops`, in order, on a writer whose parcel is empty. -/
def run_writer (be : Bool) (io : GBinderIo)
    (GBINDER_MAX_BUFFER_OBJECT_SIZE GBINDER_MAX_BINDER_OBJECT_SIZE : Nat)
    (mem : Memory) (junk : Nat → Octet) (ops : List WriterOp) :
    Memory × Option GBinderWriter :=
  ops.foldl
    (WriterOp.run be io GBINDER_MAX_BUFFER_OBJECT_SIZE GBINDER_MAX_BINDER_OBJECT_SIZE)
    (mem, some { data := some (GBinderWriterData.empty junk) })

/-- The element count `gbinder_writer_data_append_hidl_string_vec` works with: the
argument, or the length of the NULL-terminated array when the argument is negative. -/
def hidl_string_vec_count (strv : List CString) (count : Int) : Nat :=
  if count < 0 then gutil_strv_length strv else count.toNat

/-- The indices below `n` of the non-null elements of `strv`, in increasing order. -/
def hidl_string_vec_leaves (strv : List CString) (n : Nat) : List Nat :=
  (List.range n).filter (fun i => decide ((strv.getD i ⟨0, []⟩).addr ≠ 0))

/-- The size passed for the string `str` of a vector: `hidl_str->len + 1` on the `guint32`
field, which is `strlen(str) + 1` for a string shorter than `2^32 - 1` octets. -/
def hidl_string_vec_leaf_size (str : CString) : Nat := (strlen str.octets % 2 ^ 32 + 1) % 2 ^ 32

/-- The number of binder-object and buffer-object descriptors a call writes. -/
def WriterOp.descriptors : WriterOp → Nat
  | .buffer_object _ _ => 1
  | .buffer_object_with_parent _ _ _ => 1
  | .local_object _ => 1
  | .remote_object _ => 1
  | .hidl_string _ str => if str.addr = 0 then 1 else 2
  | .hidl_string_vec _ _ strv count =>
    if hidl_string_vec_count strv count = 0 then 1
    else 2 + (hidl_string_vec_leaves strv (hidl_string_vec_count strv count)).length
  | _ => 0

/-- The sizes of the buffer objects a call writes, in the order it writes them. -/
def WriterOp.buffer_sizes : WriterOp → List Nat
  | .buffer_object _ len => [len]
  | .buffer_object_with_parent _ len _ => [len]
  | .hidl_string _ str =>
    if str.addr = 0 then [sizeof_HidlString] else [sizeof_HidlString, strlen str.octets + 1]
  | .hidl_string_vec _ _ strv count =>
    if hidl_string_vec_count strv count = 0 then [sizeof_HidlVec]
    else sizeof_HidlVec :: sizeof_HidlString * hidl_string_vec_count strv count ::
      (hidl_string_vec_leaves strv (hidl_string_vec_count strv count)).map
        (fun i => hidl_string_vec_leaf_size (strv.getD i ⟨0, []⟩))
  | _ => []

/-- The parcel `d2` is the parcel `d1` after more was appended: `bytes` did not shrink,
`n` offsets were recorded, each a length `bytes` had on the way (related by `R`, which is
`≤` or `<`, to the later ones and to the final length), and `buffers_size` grew by
`total`. -/
def appended (R : Nat → Nat → Prop) (d1 d2 : GBinderWriterData) (n total : Nat) : Prop :=
  d1.bytes.len ≤ d2.bytes.len ∧
  d2.buffers_size = d1.buffers_size + total ∧
  ∃ new : List Nat, d2.offsets.getD [] = d1.offsets.getD [] ++ new ∧ new.length = n ∧
    new.Pairwise R ∧ ∀ o ∈ new, d1.bytes.len ≤ o ∧ R o d2.bytes.len

/-- The blocks `g_new0` returned to the call are not `NULL`. -/
def WriterOp.allocated : WriterOp → Prop
  | .hidl_string block _ => block ≠ 0
  | .hidl_string_vec vec strings _ _ => vec ≠ 0 ∧ strings ≠ 0
  | _ => True

/-- A buffer object handed to `gbinder_writer_data_write_buffer_object`: the pointer, the
size and the parent. -/
structure BufferObject where
  ptr : Nat
  size : Nat
  parent : Option GBinderParent
deriving DecidableEq, Repr

/-- The calls `gbinder_writer_data_write_buffer_object(data, ptr, size, parent)` for the
buffer objects `objs`, in order. -/
def write_buffer_objects (io : GBinderIo) (GBINDER_MAX_BUFFER_OBJECT_SIZE : Nat)
    (data : GBinderWriterData) (objs : List BufferObject) : GBinderWriterData :=
  objs.foldl (fun d o => gbinder_writer_data_write_buffer_object io
    GBINDER_MAX_BUFFER_OBJECT_SIZE d o.ptr o.size o.parent) data

/-- The offsets at which the descriptors of `objs` start when the first starts at
`start`. -/
def buffer_object_offsets (io : GBinderIo) : Nat → List BufferObject → List Nat
  | _, [] => []
  | start, o :: rest =>
    start :: buffer_object_offsets io
      (start + (io.encode_buffer_object o.ptr o.size o.parent).length) rest

/-- The buffer objects of a HIDL string, in the words of the specification: the
descriptor in `block`, without parent, and for a non-null string the string with its NUL,
whose parent is the descriptor (at index `index`). -/
def hidl_string_objects (block : Nat) (str : CString) (index : Nat) : List BufferObject :=
  if str.addr = 0 then [⟨block, sizeof_HidlString, none⟩]
  else [⟨block, sizeof_HidlString, none⟩,
        ⟨str.addr, strlen str.octets + 1, some ⟨index, HIDL_STRING_BUFFER_OFFSET⟩⟩]

/-- The buffer objects of a HIDL string vector of `n` elements, in the words of the
specification: the vector descriptor in `vec`, without parent; for `n > 0` the array of
`n` string descriptors in `strings`, whose parent is the vector (at index `index`), and
for each non-null element `i`, in increasing `i`, the string with its NUL, whose parent
is the array (at index `index + 1`) at offset
`HIDL_STRING_BUFFER_OFFSET + i * sizeof(HidlString)`. -/
def hidl_string_vec_objects (vec strings : Nat) (strv : List CString) (n index : Nat) :
    List BufferObject :=
  if n = 0 then [⟨vec, sizeof_HidlVec, none⟩]
  else
    ⟨vec, sizeof_HidlVec, none⟩ ::
    ⟨strings, sizeof_HidlString * n, some ⟨index, HIDL_VEC_BUFFER_OFFSET⟩⟩ ::
    (hidl_string_vec_leaves strv n).map (fun i =>
      ⟨(strv.getD i ⟨0, []⟩).addr, hidl_string_vec_leaf_size (strv.getD i ⟨0, []⟩),
       some ⟨index + 1, HIDL_STRING_BUFFER_OFFSET + i * sizeof_HidlString⟩⟩)

/-- The `HidlString` of the specification for the string `str`: the pointer, the length
(0 and not owned for `NULL` in a vector) in its 32 bits. -/
def hidl_string_of (str : CString) : HidlString :=
  if str.addr ≠ 0 then { str := str.addr, len := strlen str.octets % 2 ^ 32, owns_buffer := true }
  else { str := 0, len := 0, owns_buffer := false }

/-- The parcel `d2` holds what the parcel `d1` held and possibly more after it: no octet
of `d1` has changed, and the offsets of `d1` are the first offsets of `d2`. -/
def kept (d1 d2 : GBinderWriterData) : Prop :=
  d1.bytes.len ≤ d2.bytes.len ∧
  (∀ i, i < d1.bytes.len → d2.bytes.data i = d1.bytes.data i) ∧
  ∃ new, d2.offsets.getD [] = d1.offsets.getD [] ++ new

/-- Modelled from the spec: the size of a pointer, the field of the parent buffer that a
parent offset designates; 8 octets, as in the layouts of `HidlString` and `HidlVec`. -/
def sizeof_pointer : Nat := 8

/-- The parents of the buffer objects `objs`, written in this order to a parcel that has
`index` offsets before the first, are valid at the moment the child is written.  For the
`k`-th object, written when `index + k` offsets are recorded, a parent `{index, offset}`
names an object written before it by the same call (at position `parent.index - index` of
the list), that object is one of the `descriptors`, and the pointer field at `offset`
lies inside it. -/
def parents_valid (index : Nat) (descriptors : List Nat) (objs : List BufferObject) : Prop :=
  ∀ k parent, k < objs.length → (objs.getD k ⟨0, 0, none⟩).parent = some parent →
    index ≤ parent.index ∧ parent.index < index + k ∧
    (objs.getD (parent.index - index) ⟨0, 0, none⟩).ptr ∈ descriptors ∧
    parent.offset + sizeof_pointer ≤ (objs.getD (parent.index - index) ⟨0, 0, none⟩).size

/-! ## The driver's side of the contract, and a stub driver

The encoders and decoders of `GBinderIo` live in the driver layer; the codec calls them
through the table. -/

/-- Modelled from the spec: the tag that opens the buffer-object descriptor of the stub
driver (the value of `BINDER_TYPE_PTR`). -/
def stub_tag : Nat := 0x70742a85

/-- Modelled from the spec: the stub driver's buffer-object descriptor, a 40-octet
little-endian record `tag` (4 octets), `size` (4), `ptr` (8), `parent_index` (8),
`parent_offset` (8), `pad` (8); without a parent both parent fields are 0. -/
def stub_encode_buffer_object (ptr size : Nat) (parent : Option GBinderParent) : List Octet :=
  le_bytes 4 stub_tag ++ le_bytes 4 size ++ le_bytes 8 ptr
    ++ le_bytes 8 (match parent with | some q => q.index | none => 0)
    ++ le_bytes 8 (match parent with | some q => q.offset | none => 0)
    ++ le_bytes 8 0

/-- Modelled from the spec: the stub driver's decoder.  A descriptor that lies within the
enclosing buffer at `offset` and opens with the tag is consumed (40 octets) and yields the
sub-buffer `ptr`, `size` it describes; anything else consumes nothing. -/
def stub_decode_buffer_object (mem : Memory) (buf : GBinderBuffer) (offset : Nat) :
    Nat × Option GBinderBuffer :=
  if offset + 40 ≤ buf.size ∧ load false mem (buf.data + offset) 4 = stub_tag then
    (40, some { data := load false mem (buf.data + offset + 8) 8,
                size := load false mem (buf.data + offset + 4) 4 })
  else (0, none)

/-- Modelled from the spec: the stub driver's binder-object descriptor, a 24-octet
little-endian record `tag` (4 octets), `flags` (4, zero), `object` (8), `cookie` (8, zero). -/
def stub_encode_binder_object (tag obj : Nat) : List Octet :=
  le_bytes 4 tag ++ le_bytes 4 0 ++ le_bytes 8 obj ++ le_bytes 8 0

/-- Modelled from the spec: the stub driver table; local objects carry the tag of
`BINDER_TYPE_BINDER`, remote ones that of `BINDER_TYPE_HANDLE`, and its decoder knows no
binder objects. -/
def stub_io : GBinderIo :=
  { encode_local_object := stub_encode_binder_object 0x73622a85
    encode_remote_object := stub_encode_binder_object 0x73682a85
    encode_buffer_object := stub_encode_buffer_object
    decode_binder_object := fun _ _ _ _ => (0, none)
    decode_buffer_object := stub_decode_buffer_object }

/-- A reader made by `gbinder_reader_init` at `offset` of the `size`-octet buffer at
address `base`, with the stub driver and the pending objects `objects`. -/
def stub_reader (base size offset len : Nat) (objects : List Nat) : GBinderReaderPriv :=
  gbinder_reader_init
    (some { buffer := some { data := base, size := size },
            reg := some { addr := 0x1000, io := stub_io },
            objects := some objects }) offset len

/-- The reader `q` is the reader `p` after `k` pending objects were read: nothing changed
when `k = 0`; otherwise range and data are the same, the cursor is ahead and the first `k`
entries of the pending object list are gone. -/
def reader_consumed (p q : GBinderReaderPriv) (k : Nat) : Prop :=
  (k = 0 ∧ q = p) ∨
  (0 < k ∧ q.start = p.start ∧ q.end_ = p.end_ ∧ q.data = p.data ∧ p.ptr < q.ptr ∧
    ∃ objs, p.objects = some objs ∧ k ≤ objs.length ∧ q.objects = some (objs.drop k))

/-- An example sequence of calls: an `int32`, the HIDL string "x", a local object and the
HIDL string vector ["a", "b"]. -/
def example_ops : List WriterOp :=
  [.int32 7,
   .hidl_string 0x2000 ⟨0x3000, [0x78]⟩,
   .local_object 0x1234,
   .hidl_string_vec 0x4000 0x5000 [⟨0x6000, [0x61]⟩, ⟨0x6010, [0x62]⟩] 2]

/-- The reader of the receiving side for the parcel `d` whose octets lie at address
`base`: the buffer is the parcel, the pending objects are the recorded offsets as
addresses, and the driver is the stub. -/
def parcel_reader (base : Nat) (d : GBinderWriterData) : GBinderReaderPriv :=
  stub_reader base d.bytes.len 0 d.bytes.len ((d.offsets.getD []).map (fun o => base + o))

/-- The regions `[a, a + n)` and `[b, b + m)` of memory do not overlap. -/
def apart (a n b m : Nat) : Prop := a + n ≤ b ∨ b + m ≤ a

/-- A string as the round trips take it: a non-null pointer below `2^64` to NUL-free
octets, shorter than 4 GiB, that stand in the memory `mem` followed by a NUL. -/
def CString.in_memory (mem : Memory) (str : CString) : Prop :=
  str.addr ≠ 0 ∧ str.addr < 2 ^ 64 ∧ (∀ b ∈ str.octets, b ≠ 0) ∧
  str.octets.length + 1 < 2 ^ 32 ∧
  octets_at mem str.addr (str.octets.length + 1) = str.octets ++ [0]

/-- An example array of strings: "a" at 0x6000 and "b" at 0x6010. -/
def example_strv : List CString := [⟨0x6000, [0x61]⟩, ⟨0x6010, [0x62]⟩]

/-- A memory that holds the strings of `example_strv`, each followed by a NUL. -/
def example_memory : Memory :=
  place 0x6000 [0x61, 0] (place 0x6010 [0x62, 0] (fun _ => 0xaa))

/-! ## Sequences of reader operations -/

/-- A call of one of the functions of `gbinder_reader.c` on a reader; `value` and `out`
tell whether the out pointer of the call is non-null. -/
inductive ReaderOp where
  | at_end
  | read_byte (value : Bool)
  | read_bool (value : Bool)
  | read_int32 (value : Bool)
  | read_uint32 (value : Bool)
  | read_int64 (value : Bool)
  | read_uint64 (value : Bool)
  | read_nullable_object (out : Bool)
  | read_object
  | read_buffer
  | skip_buffer
  | read_hidl_string
  | read_hidl_string_vec
  | read_string8
  | read_nullable_string16 (out : Bool)
  | read_string16
  | skip_string16
  | bytes_read
  | bytes_remaining

/-- The reader after the call.  The bodies of `gbinder_reader_at_end`,
`gbinder_reader_bytes_read` and `gbinder_reader_bytes_remaining` load fields of the reader
and have no store. -/
def ReaderOp.run (be : Bool) (mem : Memory) (p : GBinderReaderPriv) :
    ReaderOp → GBinderReaderPriv
  | .at_end => p
  | .read_byte value => (gbinder_reader_read_byte mem p value).2.2
  | .read_bool value => (gbinder_reader_read_bool mem p value).2.2
  | .read_int32 value => (gbinder_reader_read_int32 be mem p value).2.2
  | .read_uint32 value => (gbinder_reader_read_uint32 be mem p value).2.2
  | .read_int64 value => (gbinder_reader_read_int64 be mem p value).2.2
  | .read_uint64 value => (gbinder_reader_read_uint64 be mem p value).2.2
  | .read_nullable_object out => (gbinder_reader_read_nullable_object mem p out).2.2
  | .read_object => (gbinder_reader_read_object mem p).2
  | .read_buffer => (gbinder_reader_read_buffer mem p).2
  | .skip_buffer => (gbinder_reader_skip_buffer mem p).2
  | .read_hidl_string => (gbinder_reader_read_hidl_string be mem p).2
  | .read_hidl_string_vec => (gbinder_reader_read_hidl_string_vec be mem p).2
  | .read_string8 => (gbinder_reader_read_string8 mem p).2
  | .read_nullable_string16 out => (gbinder_reader_read_nullable_string16 be mem p out).2.2
  | .read_string16 => (gbinder_reader_read_string16 be mem p).2
  | .skip_string16 => (gbinder_reader_skip_string16 be mem p).2
  | .bytes_read => p
  | .bytes_remaining => p

/-- The reader after the calls `ops`, made one after the other. -/
def run_reader (be : Bool) (mem : Memory) (p : GBinderReaderPriv) (ops : List ReaderOp) :
    GBinderReaderPriv :=
  ops.foldl (ReaderOp.run be mem) p

/-- The reader `q` is the reader `p` moved on: the range is the same, the cursor is not
before that of `p` and not after the end, and the pending object list is that of `p` or
that of `p` without its head. -/
def reader_moved (p q : GBinderReaderPriv) : Prop :=
  q.start = p.start ∧ q.end_ = p.end_ ∧ p.ptr ≤ q.ptr ∧ q.ptr ≤ q.end_ ∧
  (q.objects = p.objects ∨
    ∃ head rest, p.objects = some (head :: rest) ∧ q.objects = some rest)

/-- The cursor of `p` is strictly past the address at the head of its pending object
list. -/
def cursor_past_head (p : GBinderReaderPriv) : Prop :=
  ∃ head rest, p.objects = some (head :: rest) ∧ head < p.ptr

/-- An example reader of the stub driver over 48 octets at 0x1000 with one pending object
at 0x1000, after a `gbinder_reader_read_uint32` consumed the first 4 octets of it. -/
def example_reader_past_head : GBinderReaderPriv :=
  (gbinder_reader_read_uint32 false (fun _ => 0) (stub_reader 0x1000 48 0 48 [0x1000])
    false).2.2

/-! ## Typed values and their round trip -/

/-- A value one of the scalar and string appends takes: a boolean, a 32-bit and a 64-bit
integer (the bit pattern), a non-null string8 and a string16 (`none` is the null
string). -/
inductive Value where
  | bool (v : Bool)
  | int32 (x : Nat)
  | int64 (x : Nat)
  | string8 (s : List Octet)
  | string16 (s : Option (List Octet))
deriving DecidableEq

/-- The kind of a value, which tells the reader which function to call. -/
inductive Kind where
  | bool
  | int32
  | int64
  | string8
  | string16
deriving DecidableEq

def Value.kind : Value → Kind
  | .bool _ => .bool
  | .int32 _ => .int32
  | .int64 _ => .int64
  | .string8 _ => .string8
  | .string16 _ => .string16

/-- The values the round trip is stated for: integers that fit their width, a NUL-free
string8, and a string16 that is null, empty or ASCII (NUL-free octets below 0x80) with a
length the `gint32` arithmetic of the reader does not wrap on. -/
def Value.admitted : Value → Prop
  | .bool _ => True
  | .int32 x => x < 2 ^ 32
  | .int64 x => x < 2 ^ 64
  | .string8 s => ∀ b ∈ s, b ≠ 0
  | .string16 none => True
  | .string16 (some s) => (∀ b ∈ s, b ≠ 0 ∧ b.val < 128) ∧ s.length + 2 < 2 ^ 31

/-- The append of the writer interface for the value: `gbinder_writer_append_bool`,
`_int32`, `_int64`, `_string8` or `_string16`. -/
def write_value (be : Bool) (self : Option GBinderWriter) : Value → Option GBinderWriter
  | .bool v => gbinder_writer_append_bool self (if v then 1 else 0)
  | .int32 x => gbinder_writer_append_int32 be self x
  | .int64 x => gbinder_writer_append_int64 be self x
  | .string8 s => gbinder_writer_append_string8 be self (some s)
  | .string16 s => gbinder_writer_append_string16 be self s

/-- The values `vs` appended in order to a writer whose parcel is empty. -/
def write_values (be : Bool) (junk : Nat → Octet) (vs : List Value) : Option GBinderWriter :=
  vs.foldl (write_value be) (some { data := some (GBinderWriterData.empty junk) })

/-- The read of the reader interface for the kind: `gbinder_reader_read_bool`,
`_read_uint32`, `_read_uint64`, `_read_string8` or `_read_nullable_string16`, each with
an out pointer.  The result is the value read (`none` when the read fails) and the reader
afterwards; the string8 is the C string at the pointer returned, which lies in the
reader's range. -/
def read_kind (be : Bool) (mem : Memory) (p : GBinderReaderPriv) :
    Kind → Option Value × GBinderReaderPriv
  | .bool =>
    ((gbinder_reader_read_bool mem p true).2.1.map (fun v => Value.bool (decide (v ≠ 0))),
     (gbinder_reader_read_bool mem p true).2.2)
  | .int32 =>
    ((gbinder_reader_read_uint32 be mem p true).2.1.map Value.int32,
     (gbinder_reader_read_uint32 be mem p true).2.2)
  | .int64 =>
    ((gbinder_reader_read_uint64 be mem p true).2.1.map Value.int64,
     (gbinder_reader_read_uint64 be mem p true).2.2)
  | .string8 =>
    ((gbinder_reader_read_string8 mem p).1.map
        (fun a => Value.string8 (string_at mem a (p.end_ - a))),
     (gbinder_reader_read_string8 mem p).2)
  | .string16 =>
    ((gbinder_reader_read_nullable_string16 be mem p true).2.1.map Value.string16,
     (gbinder_reader_read_nullable_string16 be mem p true).2.2)

/-- The reads for `kinds`, one after the other, up to the first that fails: the values
read (`none` when a read fails) and the reader afterwards. -/
def read_kinds (be : Bool) (mem : Memory) :
    GBinderReaderPriv → List Kind → Option (List Value) × GBinderReaderPriv
  | p, [] => (some [], p)
  | p, k :: ks =>
    match (read_kind be mem p k).1 with
    | some v =>
      ((read_kinds be mem (read_kind be mem p k).2 ks).1.map (fun l => v :: l),
       (read_kinds be mem (read_kind be mem p k).2 ks).2)
    | none => (none, (read_kind be mem p k).2)

/-- The octets of a value on the wire, in the words of the specification: a boolean is
its octet and three 0xFF; an integer its 4 or 8 octets in host order; a string8 its
octets, a NUL and zero padding to a multiple of 4; a null string16 the length -1; an
empty string16 the length 0, a terminator and the padding 0xFFFF; any other string16 its
length, its UTF-16 code units, a terminator and zero padding to a multiple of 4. -/
def Value.octets (be : Bool) : Value → List Octet
  | .bool v => [if v then 1 else 0, 0xff, 0xff, 0xff]
  | .int32 x => host_bytes be 4 x
  | .int64 x => host_bytes be 8 x
  | .string8 s => s ++ List.replicate (G_ALIGN4 (s.length + 1) - s.length) 0
  | .string16 none => [0xff, 0xff, 0xff, 0xff]
  | .string16 (some s) =>
    if s = [] then utf16_bytes be [0, 0, 0, 0xffff]
    else
      host_bytes be 4 s.length ++ (utf16_bytes be (s.map (fun b => b.val) ++ [0]) ++
        List.replicate (G_ALIGN4 ((s.length + 1) * 2) - (s.length + 1) * 2) 0)

/-- An example list of values: TRUE, the integers 7 and 2^40, the string8 "hi", a null
string16, the empty string16 and the string16 "A". -/
def example_values : List Value :=
  [.bool true, .int32 7, .int64 (2 ^ 40), .string8 [0x68, 0x69], .string16 none,
   .string16 (some []), .string16 (some [0x41])]

theorem octets_at_length (mem : Nat → Octet) (a n : Nat) : (octets_at mem a n).length = n := by
  simp [octets_at]

theorem octets_at_add (mem : Nat → Octet) (a n k : Nat) :
    octets_at mem a (n + k) = octets_at mem a n ++ octets_at mem (a + n) k := by
  simp only [octets_at, List.range_add, List.map_append, List.map_map]
  congr 1
  apply List.map_congr_left
  intro i _
  simp [Nat.add_assoc]

theorem octets_at_congr (m1 m2 : Nat → Octet) (a n : Nat)
    (h : ∀ i, i < n → m1 (a + i) = m2 (a + i)) : octets_at m1 a n = octets_at m2 a n := by
  simp only [octets_at]
  apply List.map_congr_left
  intro i hi
  exact h i (List.mem_range.mp hi)

theorem octets_at_eq_list (m : Nat → Octet) (a : Nat) (l : List Octet)
    (h : ∀ i (hi : i < l.length), m (a + i) = l[i]) : octets_at m a l.length = l := by
  apply List.ext_getElem
  · simp [octets_at]
  · intro i h1 h2
    simp only [octets_at, List.getElem_map, List.getElem_range]
    exact h i h2

theorem octets_at_eq_of_length (m : Nat → Octet) (a n : Nat) (l : List Octet)
    (hn : l.length = n) (h : ∀ i (hi : i < l.length), m (a + i) = l[i]) :
    octets_at m a n = l := by
  subst hn
  exact octets_at_eq_list m a l h

theorem octets_at_place (base : Nat) (bytes : List Octet) (rest : Memory) :
    octets_at (place base bytes rest) base bytes.length = bytes := by
  apply octets_at_eq_list
  intro i hi
  simp [place, hi, List.getD_eq_getElem]

theorem place_at (base : Nat) (bytes : List Octet) (rest : Memory) (i : Nat)
    (hi : i < bytes.length) : place base bytes rest (base + i) = bytes[i] := by
  simp [place, hi, List.getD_eq_getElem]

theorem le_bytes_length (w x : Nat) : (le_bytes w x).length = w := by
  induction w generalizing x with
  | zero => rfl
  | succ w ih => simp [le_bytes, ih]

theorem host_bytes_length (be : Bool) (w x : Nat) : (host_bytes be w x).length = w := by
  unfold host_bytes
  split <;> simp [le_bytes_length]

theorem le_value_le_bytes (w x : Nat) : le_value (le_bytes w x) = x % 256 ^ w := by
  induction w generalizing x with
  | zero => simp [le_bytes, le_value, Nat.mod_one]
  | succ w ih =>
    simp only [le_bytes, le_value, ih, octet]
    rw [pow_succ, Nat.mul_comm (256 ^ w) 256, Nat.mod_mul]

theorem host_value_host_bytes (be : Bool) (w x : Nat) :
    host_value be (host_bytes be w x) = x % 256 ^ w := by
  unfold host_value host_bytes
  cases be <;> simp [le_value_le_bytes]

theorem host_bytes_zero (be : Bool) : host_bytes be 4 0 = List.replicate 4 0 := by
  cases be <;> rfl

theorem host_bytes_zero_getElem (be : Bool) (j : Nat) (h : j < (host_bytes be 4 0).length) :
    (host_bytes be 4 0)[j] = 0 := by
  have key : ∀ (l : List Octet) (hj : j < l.length), l = List.replicate 4 0 → l[j] = 0 := by
    intro l hj e
    subst e
    exact List.getElem_replicate _ _
  exact key _ h (host_bytes_zero be)

theorem memcpy_inside (m : Nat → Octet) (dest : Nat) (src : List Octet) (n i : Nat)
    (h1 : dest ≤ i) (h2 : i < dest + n) (h3 : i - dest < src.length) :
    memcpy m dest src n i = src[i - dest] := by
  simp [memcpy, h1, h2, List.getD_eq_getElem, h3]

theorem memcpy_outside (m : Nat → Octet) (dest : Nat) (src : List Octet) (n i : Nat)
    (h : i < dest ∨ dest + n ≤ i) : memcpy m dest src n i = m i := by
  unfold memcpy
  rw [if_neg]
  omega

theorem store_outside (be : Bool) (m : Nat → Octet) (addr w x i : Nat)
    (h : i < addr ∨ addr + w ≤ i) : store be m addr w x i = m i :=
  memcpy_outside m addr _ w i h

theorem octets_at_store (be : Bool) (m : Nat → Octet) (addr w x : Nat) :
    octets_at (store be m addr w x) addr w = host_bytes be w x := by
  have hl := host_bytes_length be w x
  have := octets_at_eq_list (store be m addr w x) addr (host_bytes be w x) (by
    intro i hi
    unfold store
    rw [memcpy_inside _ _ _ _ _ (by omega) (by omega) (by simpa using hi)]
    simp)
  rwa [hl] at this

theorem octets_at_memcpy (m : Nat → Octet) (dest : Nat) (src : List Octet) :
    octets_at (memcpy m dest src src.length) dest src.length = src := by
  apply octets_at_eq_list
  intro i hi
  rw [memcpy_inside _ _ _ _ _ (by omega) (by omega) (by simpa using hi)]
  simp

theorem G_ALIGN4_ge (v : Nat) : v ≤ G_ALIGN4 v := by
  unfold G_ALIGN4; omega

theorem G_ALIGN4_lt (v : Nat) : G_ALIGN4 v < v + 4 := by
  unfold G_ALIGN4; omega

theorem G_ALIGN4_mod (v : Nat) : G_ALIGN4 v % 4 = 0 := by
  unfold G_ALIGN4; omega

/-! ## Byte arrays -/

theorem g_nearest_pow_loop_ge (num : Nat) :
    ∀ fuel n, num ≤ n * 2 ^ fuel → num ≤ g_nearest_pow_loop fuel n num := by
  intro fuel
  induction fuel with
  | zero => intro n h; simpa [g_nearest_pow_loop] using h
  | succ fuel ih =>
    intro n h
    unfold g_nearest_pow_loop
    split_ifs with hlt
    · apply ih
      rw [pow_succ] at h
      calc num ≤ n * (2 ^ fuel * 2) := h
        _ = 2 * n * 2 ^ fuel := by ring
    · omega

theorem g_nearest_pow_ge (num : Nat) : num ≤ g_nearest_pow num := by
  apply g_nearest_pow_loop_ge
  rw [Nat.one_mul]
  exact Nat.le_of_lt (Nat.lt_two_pow num)

@[simp] theorem set_size_len (a : GByteArray) (n : Nat) : (g_byte_array_set_size a n).len = n := by
  unfold g_byte_array_set_size
  split_ifs <;> rfl

@[simp] theorem set_size_data (a : GByteArray) (n : Nat) :
    (g_byte_array_set_size a n).data = a.data := by
  unfold g_byte_array_set_size g_array_maybe_expand
  split_ifs <;> rfl

@[simp] theorem set_size_overflow (a : GByteArray) (n : Nat) :
    (g_byte_array_set_size a n).overflow = a.overflow := by
  unfold g_byte_array_set_size g_array_maybe_expand
  split_ifs <;> rfl

theorem set_size_alloc_ge (a : GByteArray) (n : Nat) (h : a.len < n) :
    n ≤ (g_byte_array_set_size a n).alloc := by
  unfold g_byte_array_set_size g_array_maybe_expand
  rw [if_pos h]
  have := g_nearest_pow_ge (a.len + (n - a.len))
  split_ifs with h2
  · simp only
    omega
  · simp only
    omega

theorem set_size_alloc_mono (a : GByteArray) (n : Nat) :
    a.alloc ≤ (g_byte_array_set_size a n).alloc := by
  unfold g_byte_array_set_size g_array_maybe_expand
  have := g_nearest_pow_ge (a.len + (n - a.len))
  split_ifs <;> simp only <;> omega

@[simp] theorem block_memcpy_len (a : GByteArray) (dest : Nat) (src : List Octet) (n : Nat) :
    (block_memcpy a dest src n).len = a.len := rfl

@[simp] theorem block_memcpy_alloc (a : GByteArray) (dest : Nat) (src : List Octet) (n : Nat) :
    (block_memcpy a dest src n).alloc = a.alloc := rfl

theorem block_memcpy_data (a : GByteArray) (dest : Nat) (src : List Octet) (n : Nat)
    (h : dest + n ≤ a.alloc) : (block_memcpy a dest src n).data = memcpy a.data dest src n := by
  funext i
  simp only [block_memcpy]
  split_ifs with hi
  · rfl
  · rw [memcpy_outside _ _ _ _ _ (by omega)]

theorem block_memcpy_overflow (a : GByteArray) (dest : Nat) (src : List Octet) (n : Nat)
    (h : dest + n ≤ a.alloc) : (block_memcpy a dest src n).overflow = a.overflow := by
  simp only [block_memcpy]
  rw [decide_eq_false (by omega), Bool.or_false]

@[simp] theorem block_store_len (be : Bool) (a : GByteArray) (addr w x : Nat) :
    (block_store be a addr w x).len = a.len := rfl

@[simp] theorem block_store_alloc (be : Bool) (a : GByteArray) (addr w x : Nat) :
    (block_store be a addr w x).alloc = a.alloc := rfl

theorem block_store_data (be : Bool) (a : GByteArray) (addr w x : Nat)
    (h : addr + w ≤ a.alloc) : (block_store be a addr w x).data = store be a.data addr w x :=
  block_memcpy_data a addr _ w h

theorem block_store_overflow (be : Bool) (a : GByteArray) (addr w x : Nat)
    (h : addr + w ≤ a.alloc) : (block_store be a addr w x).overflow = a.overflow :=
  block_memcpy_overflow a addr _ w h

@[simp] theorem block_memset_len (a : GByteArray) (dest : Nat) (c : Octet) (n : Nat) :
    (block_memset a dest c n).len = a.len := rfl

@[simp] theorem block_memset_alloc (a : GByteArray) (dest : Nat) (c : Octet) (n : Nat) :
    (block_memset a dest c n).alloc = a.alloc := rfl

theorem block_memset_data (a : GByteArray) (dest : Nat) (c : Octet) (n : Nat)
    (h : dest + n ≤ a.alloc) : (block_memset a dest c n).data = memset a.data dest c n := by
  funext i
  simp only [block_memset]
  split_ifs with hi
  · rfl
  · unfold memset
    rw [if_neg (by omega)]

theorem block_memset_overflow (a : GByteArray) (dest : Nat) (c : Octet) (n : Nat)
    (h : dest + n ≤ a.alloc) : (block_memset a dest c n).overflow = a.overflow := by
  simp only [block_memset]
  rw [decide_eq_false (by omega), Bool.or_false]

/-! ## Scalars -/

theorem append_int32_toList (be : Bool) (data : GBinderWriterData) (value : Nat) :
    (gbinder_writer_data_append_int32 be data value).bytes.toList
      = data.bytes.toList ++ host_bytes be 4 value ∧
    (gbinder_writer_data_append_int32 be data value).bytes.overflow = data.bytes.overflow := by
  have hfit := set_size_alloc_ge data.bytes (data.bytes.len + 4) (by omega)
  simp only [gbinder_writer_data_append_int32, GByteArray.toList, block_store_len, set_size_len,
    Nat.add_sub_cancel]
  rw [block_store_data _ _ _ _ _ (by omega), block_store_overflow _ _ _ _ _ (by omega),
    set_size_data, set_size_overflow, octets_at_add, Nat.zero_add, octets_at_store]
  refine ⟨?_, rfl⟩
  congr 1
  apply octets_at_congr
  intro i hi
  apply store_outside
  omega

theorem append_int64_toList (be : Bool) (data : GBinderWriterData) (value : Nat) :
    (gbinder_writer_data_append_int64 be data value).bytes.toList
      = data.bytes.toList ++ host_bytes be 8 value ∧
    (gbinder_writer_data_append_int64 be data value).bytes.overflow = data.bytes.overflow := by
  have hfit := set_size_alloc_ge data.bytes (data.bytes.len + 8) (by omega)
  simp only [gbinder_writer_data_append_int64, GByteArray.toList, block_store_len, set_size_len,
    Nat.add_sub_cancel]
  rw [block_store_data _ _ _ _ _ (by omega), block_store_overflow _ _ _ _ _ (by omega),
    set_size_data, set_size_overflow, octets_at_add, Nat.zero_add, octets_at_store]
  refine ⟨?_, rfl⟩
  congr 1
  apply octets_at_congr
  intro i hi
  apply store_outside
  omega

theorem byte_array_append_toList (a : GByteArray) (l : List Octet) (hl : 0 < l.length) :
    (g_byte_array_append a l l.length).toList = a.toList ++ l ∧
    (g_byte_array_append a l l.length).overflow = a.overflow := by
  have hfit := set_size_alloc_ge a (a.len + l.length) (by omega)
  simp only [g_byte_array_append, GByteArray.toList, block_memcpy_len, set_size_len]
  rw [block_memcpy_data _ _ _ _ (by omega), block_memcpy_overflow _ _ _ _ (by omega),
    set_size_data, set_size_overflow, octets_at_add, Nat.zero_add, octets_at_memcpy]
  refine ⟨?_, rfl⟩
  congr 1
  apply octets_at_congr
  intro i hi
  apply memcpy_outside
  omega

theorem load_place (be : Bool) (base : Nat) (bytes : List Octet) (rest : Memory) :
    load be (place base bytes rest) base bytes.length = host_value be bytes := by
  unfold load
  rw [octets_at_place]

/-! ## AIDL string8 -/

theorem append_string8_len_toList (be : Bool) (data : GBinderWriterData) (s : List Octet)
    (len : Nat) (h : len ≤ s.length) :
    (gbinder_writer_data_append_string8_len be data (some s) len).bytes.toList
      = data.bytes.toList ++ (s.take len ++ List.replicate (G_ALIGN4 (len + 1) - len) 0) ∧
    (gbinder_writer_data_append_string8_len be data (some s) len).bytes.overflow
      = data.bytes.overflow := by
  have hge := G_ALIGN4_ge (len + 1)
  have hlt := G_ALIGN4_lt (len + 1)
  have hmod := G_ALIGN4_mod (len + 1)
  have hfit := set_size_alloc_ge data.bytes (data.bytes.len + G_ALIGN4 (len + 1)) (by omega)
  simp only [gbinder_writer_data_append_string8_len, GByteArray.toList, block_memcpy_len,
    block_store_len, set_size_len]
  rw [block_memcpy_data _ _ _ _ (by simp only [block_store_alloc]; omega),
    block_memcpy_overflow _ _ _ _ (by simp only [block_store_alloc]; omega),
    block_store_data _ _ _ _ _ (by omega), block_store_overflow _ _ _ _ _ (by omega),
    set_size_data, set_size_overflow, octets_at_add, Nat.zero_add]
  refine ⟨?_, rfl⟩
  congr 1
  · apply octets_at_congr
    intro i hi
    rw [memcpy_outside _ _ _ _ _ (by omega), store_outside _ _ _ _ _ _ (by omega)]
  · have hlen : (s.take len ++ List.replicate (G_ALIGN4 (len + 1) - len) (0 : Octet)).length
        = G_ALIGN4 (len + 1) := by
      simp [List.length_take, Nat.min_eq_left h]; omega
    apply octets_at_eq_of_length _ _ _ _ hlen
    intro i hi
    rw [hlen] at hi
    by_cases hil : i < len
    · rw [memcpy_inside _ _ _ _ _ (by omega) (by omega) (by omega)]
      rw [List.getElem_append_left (by simp [List.length_take]; omega)]
      simp
    · rw [memcpy_outside _ _ _ _ _ (by omega)]
      unfold store
      rw [memcpy_inside _ _ _ _ _ (by omega) (by omega)
        (by rw [host_bytes_length]; omega)]
      rw [List.getElem_append_right (by simp [List.length_take]; omega)]
      rw [host_bytes_zero_getElem]
      simp

theorem string8_scan_finds (mem : Memory) (end_ : Nat) (k : Nat) :
    ∀ (fuel ptr : Nat), k ≤ fuel → ptr + k < end_ →
      (∀ i, i < k → mem (ptr + i) ≠ 0) → mem (ptr + k) = 0 →
      string8_scan mem end_ fuel ptr = ptr + k := by
  induction k with
  | zero =>
    intro fuel ptr _ _ _ h0
    cases fuel with
    | zero => rfl
    | succ f => simp [string8_scan, show mem ptr = 0 from h0]
  | succ k ih =>
    intro fuel ptr hf hlt hnz h0
    cases fuel with
    | zero => omega
    | succ f =>
      have h1 : mem ptr ≠ 0 := by simpa using hnz 0 (by omega)
      have h2 : ptr < end_ := by omega
      simp only [string8_scan, h1, h2, ne_eq, not_false_eq_true, and_self, if_true]
      rw [ih f (ptr + 1) (by omega) (by omega) (fun i hi => by
        have := hnz (i + 1) (by omega)
        rwa [show ptr + 1 + i = ptr + (i + 1) by omega]) (by
        rwa [show ptr + 1 + k = ptr + (k + 1) by omega])]
      omega

theorem read_string8_found (mem : Memory) (p : GBinderReaderPriv) (k : Nat)
    (hlt : p.ptr + k < p.end_) (hnz : ∀ i, i < k → mem (p.ptr + i) ≠ 0)
    (h0 : mem (p.ptr + k) = 0) :
    gbinder_reader_read_string8 mem p =
      if p.ptr + G_ALIGN4 (k + 1) ≤ p.end_
      then (some p.ptr, { p with ptr := p.ptr + G_ALIGN4 (k + 1) })
      else (none, p) := by
  unfold gbinder_reader_read_string8
  rw [string8_scan_finds mem p.end_ k (p.end_ - p.ptr) p.ptr (by omega) hlt hnz h0]
  simp [hlt]

theorem string_at_eq (mem : Memory) (k : Nat) :
    ∀ (a n : Nat), k < n → (∀ i, i < k → mem (a + i) ≠ 0) → mem (a + k) = 0 →
      string_at mem a n = octets_at mem a k := by
  induction k with
  | zero =>
    intro a n hn _ h0
    cases n with
    | zero => omega
    | succ n => simp [string_at, show mem a = 0 from h0, octets_at]
  | succ k ih =>
    intro a n hn hnz h0
    cases n with
    | zero => omega
    | succ n =>
      have h1 : mem a ≠ 0 := by simpa using hnz 0 (by omega)
      rw [string_at, if_neg h1, ih (a + 1) n (by omega) (fun i hi => by
        have := hnz (i + 1) (by omega)
        rwa [show a + 1 + i = a + (i + 1) by omega]) (by
        rwa [show a + 1 + k = a + (k + 1) by omega])]
      rw [show k + 1 = 1 + k by omega, octets_at_add]
      simp [octets_at, show List.range 1 = [0] from rfl]

theorem empty_toList (junk : Nat → Octet) : (GBinderWriterData.empty junk).bytes.toList = [] := by
  simp [GBinderWriterData.empty, GByteArray.toList, octets_at]

theorem place_string8 (base : Nat) (s : List Octet) (m : Nat) (rest : Memory)
    (hs : ∀ b ∈ s, b ≠ 0) (hm : 0 < m) :
    (∀ i, i < s.length → place base (s ++ List.replicate m 0) rest (base + i) ≠ 0) ∧
    place base (s ++ List.replicate m 0) rest (base + s.length) = 0 ∧
    octets_at (place base (s ++ List.replicate m 0) rest) base s.length = s := by
  refine ⟨?_, ?_, ?_⟩
  · intro i hi
    rw [place_at _ _ _ _ (by simp; omega), List.getElem_append_left hi]
    exact hs _ (List.getElem_mem _)
  · rw [place_at _ _ _ _ (by simp; omega), List.getElem_append_right (by omega)]
    simp
  · apply octets_at_eq_list
    intro i hi
    rw [place_at _ _ _ _ (by simp; omega), List.getElem_append_left hi]

/-! ## UTF-8 and UTF-16 -/

theorem utf8_char_encodes (t : List Octet) (c k : Nat) (h : utf8_char t = some (c, k)) :
    UNICODE_VALID c ∧ c ≠ 0 ∧ g_unichar_to_utf8 c = t.take k ∧ k ≤ t.length ∧ 0 < k := by
  rcases t with _ | ⟨b0, t⟩
  · simp [utf8_char] at h
  have hb0 := b0.isLt
  simp only [utf8_char] at h
  by_cases h1 : b0.val = 0
  · rw [if_pos h1] at h; simp at h
  rw [if_neg h1] at h
  by_cases h2 : b0.val < 128
  · rw [if_pos h2] at h
    simp only [Option.some.injEq, Prod.mk.injEq] at h
    obtain ⟨rfl, rfl⟩ := h
    refine ⟨by unfold UNICODE_VALID; omega, h1, ?_, by simp, by omega⟩
    unfold g_unichar_to_utf8
    rw [if_pos (by omega)]
    simp only [List.take_succ_cons, List.take_zero, List.cons.injEq, and_true, octet]
    apply Fin.ext; simp
  rw [if_neg h2] at h
  by_cases h3 : b0.val / 32 = 6
  · rw [if_pos h3] at h
    rcases t with _ | ⟨b1, t⟩
    · simp at h
    have hb1 := b1.isLt
    simp only at h
    by_cases h4 : b0.val % 32 / 2 = 0
    · rw [if_pos h4] at h; simp at h
    rw [if_neg h4] at h
    by_cases h5 : utf8_continuation b1
    · rw [if_pos h5] at h
      simp only [Option.some.injEq, Prod.mk.injEq] at h
      obtain ⟨rfl, rfl⟩ := h
      unfold utf8_continuation at h5
      refine ⟨by unfold UNICODE_VALID; omega, by omega, ?_, by simp, by omega⟩
      unfold g_unichar_to_utf8
      rw [if_neg (by omega), if_pos (by omega)]
      simp only [List.take_succ_cons, List.take_zero, List.cons.injEq, and_true, octet]
      constructor <;> (apply Fin.ext; simp; omega)
    · rw [if_neg h5] at h; simp at h
  rw [if_neg h3] at h
  by_cases h6 : b0.val / 16 = 14
  · rw [if_pos h6] at h
    rcases t with _ | ⟨b1, _ | ⟨b2, t⟩⟩
    · simp at h
    · simp at h
    have hb1 := b1.isLt
    have hb2 := b2.isLt
    simp only at h
    split_ifs at h with h7
    simp only [Option.some.injEq, Prod.mk.injEq] at h
    obtain ⟨rfl, rfl⟩ := h
    obtain ⟨c1, c2, hmin, hv⟩ := h7
    unfold utf8_continuation at c1 c2
    refine ⟨hv, by omega, ?_, by simp, by omega⟩
    unfold g_unichar_to_utf8
    rw [if_neg (by omega), if_neg (by omega), if_pos (by omega)]
    simp only [List.take_succ_cons, List.take_zero, List.cons.injEq, and_true, octet]
    refine ⟨?_, ?_, ?_⟩ <;> (apply Fin.ext; simp; omega)
  rw [if_neg h6] at h
  by_cases h8 : b0.val / 8 = 30
  · rw [if_pos h8] at h
    rcases t with _ | ⟨b1, _ | ⟨b2, _ | ⟨b3, t⟩⟩⟩
    · simp at h
    · simp at h
    · simp at h
    have hb1 := b1.isLt
    have hb2 := b2.isLt
    have hb3 := b3.isLt
    simp only at h
    split_ifs at h with h7
    simp only [Option.some.injEq, Prod.mk.injEq] at h
    obtain ⟨rfl, rfl⟩ := h
    obtain ⟨c1, c2, c3, hmin, hv⟩ := h7
    unfold utf8_continuation at c1 c2 c3
    have hv2 := hv
    unfold UNICODE_VALID at hv2
    refine ⟨hv, by omega, ?_, by simp, by omega⟩
    unfold g_unichar_to_utf8
    rw [if_neg (by omega), if_neg (by omega), if_neg (by omega), if_pos (by omega)]
    simp only [List.take_succ_cons, List.take_zero, List.cons.injEq, and_true, octet]
    refine ⟨?_, ?_, ?_, ?_⟩ <;> (apply Fin.ext; simp; omega)
  rw [if_neg h8] at h
  simp at h

theorem utf8_char_of_encoded (c : Nat) (r : List Octet) (hv : UNICODE_VALID c) (h0 : c ≠ 0) :
    utf8_char (g_unichar_to_utf8 c ++ r) = some (c, (g_unichar_to_utf8 c).length) := by
  unfold UNICODE_VALID at hv
  unfold g_unichar_to_utf8
  by_cases h1 : c < 0x80
  · rw [if_pos h1]
    simp only [List.singleton_append, utf8_char, octet, List.length_singleton]
    rw [if_neg (by omega), if_pos (by omega)]
    simp; omega
  rw [if_neg h1]
  by_cases h2 : c < 0x800
  · rw [if_pos h2]
    simp only [List.cons_append, List.nil_append, utf8_char, octet, utf8_continuation,
      List.length_cons, List.length_nil]
    rw [if_neg (by omega), if_neg (by omega), if_pos (by omega), if_neg (by omega),
      if_pos (by omega)]
    simp; omega
  rw [if_neg h2]
  by_cases h3 : c < 0x10000
  · rw [if_pos h3]
    simp only [List.cons_append, List.nil_append, utf8_char, octet, utf8_continuation,
      List.length_cons, List.length_nil, UNICODE_VALID]
    rw [if_neg (by omega), if_neg (by omega), if_neg (by omega), if_pos (by omega),
      if_pos (by omega)]
    simp; omega
  rw [if_neg h3, if_pos (by omega)]
  simp only [List.cons_append, List.nil_append, utf8_char, octet, utf8_continuation,
    List.length_cons, List.length_nil, UNICODE_VALID]
  rw [if_neg (by omega), if_neg (by omega), if_neg (by omega), if_neg (by omega),
    if_pos (by omega), if_pos (by omega)]
  simp; omega

theorem utf8_skip_of_encoded (c : Nat) (r : List Octet) (hv : UNICODE_VALID c) (h0 : c ≠ 0) :
    (g_unichar_to_utf8 c ++ r).getD 0 0 ≠ 0 ∧
    g_utf8_skip ((g_unichar_to_utf8 c ++ r).getD 0 0) = (g_unichar_to_utf8 c).length := by
  unfold UNICODE_VALID at hv
  unfold g_unichar_to_utf8 g_utf8_skip
  by_cases h1 : c < 0x80
  · rw [if_pos h1]
    simp only [List.singleton_append, List.getD_cons_zero, octet, List.length_singleton]
    constructor
    · intro h; have := congrArg Fin.val h; simp at this; omega
    · rw [if_pos (by omega)]
  rw [if_neg h1]
  by_cases h2 : c < 0x800
  · rw [if_pos h2]
    simp only [List.cons_append, List.getD_cons_zero, octet, List.length_cons, List.length_nil]
    constructor
    · intro h; have := congrArg Fin.val h; simp at this; omega
    · rw [if_neg (by omega), if_pos (by omega)]
  rw [if_neg h2]
  by_cases h3 : c < 0x10000
  · rw [if_pos h3]
    simp only [List.cons_append, List.getD_cons_zero, octet, List.length_cons, List.length_nil]
    constructor
    · intro h; have := congrArg Fin.val h; simp at this; omega
    · rw [if_neg (by omega), if_neg (by omega), if_pos (by omega)]
  rw [if_neg h3, if_pos (by omega)]
  simp only [List.cons_append, List.getD_cons_zero, octet, List.length_cons, List.length_nil]
  constructor
  · intro h; have := congrArg Fin.val h; simp at this; omega
  · rw [if_neg (by omega), if_neg (by omega), if_neg (by omega), if_pos (by omega)]

theorem utf8_validate_loop_spec (fuel : Nat) :
    ∀ t : List Octet, t.length ≤ fuel →
      ∃ cs : List Nat, (∀ c ∈ cs, UNICODE_VALID c ∧ c ≠ 0) ∧
        t.take (utf8_validate_loop fuel t) = cs.flatMap g_unichar_to_utf8 ∧
        utf8_validate_loop fuel t ≤ t.length ∧
        utf8_char (t.drop (utf8_validate_loop fuel t)) = none := by
  induction fuel with
  | zero =>
    intro t ht
    have : t = [] := List.length_eq_zero.mp (by omega)
    subst this
    exact ⟨[], by simp, by simp [utf8_validate_loop], by simp [utf8_validate_loop],
      by simp [utf8_validate_loop, utf8_char]⟩
  | succ fuel ih =>
    intro t ht
    unfold utf8_validate_loop
    cases hc : utf8_char t with
    | none => exact ⟨[], by simp, by simp, by simp, by simpa using hc⟩
    | some ck =>
      obtain ⟨c, k⟩ := ck
      obtain ⟨hv, h0, henc, hk, hkpos⟩ := utf8_char_encodes t c k hc
      obtain ⟨cs, hcs, htake, hle, hmax⟩ := ih (t.drop k) (by simp; omega)
      refine ⟨c :: cs, ?_, ?_, ?_, ?_⟩
      · intro x hx
        rcases List.mem_cons.mp hx with rfl | hx
        · exact ⟨hv, h0⟩
        · exact hcs x hx
      · simp only [List.flatMap_cons, List.take_add, henc, htake]
      · simp only [List.length_drop] at hle
        show k + _ ≤ _
        omega
      · simpa [List.drop_drop, Nat.add_comm] using hmax

theorem utf8_to_utf16_loop_encoded (cs : List Nat) (hcs : ∀ c ∈ cs, UNICODE_VALID c ∧ c ≠ 0) :
    ∀ fuel, (cs.flatMap g_unichar_to_utf8).length ≤ fuel →
      utf8_to_utf16_loop fuel (cs.flatMap g_unichar_to_utf8) = some (cs.flatMap utf16_units) := by
  induction cs with
  | nil =>
    intro fuel _
    cases fuel <;> simp [utf8_to_utf16_loop]
  | cons c cs ih =>
    intro fuel hf
    obtain ⟨hv, h0⟩ := hcs c (List.mem_cons_self _ _)
    have hdec := utf8_char_of_encoded c (cs.flatMap g_unichar_to_utf8) hv h0
    obtain ⟨hne, _⟩ := utf8_skip_of_encoded c (cs.flatMap g_unichar_to_utf8) hv h0
    obtain ⟨_, _, henc, hk, hkpos⟩ := utf8_char_encodes _ _ _ hdec
    simp only [List.flatMap_cons, List.length_append] at hf
    simp only [List.flatMap_cons]
    cases fuel with
    | zero => omega
    | succ fuel =>
      unfold utf8_to_utf16_loop
      rw [if_neg (by
        intro h
        rcases h with h | h
        · rw [List.length_append] at h; omega
        · exact hne h), hdec]
      simp only [List.drop_left]
      rw [ih (fun x hx => hcs x (List.mem_cons_of_mem _ hx)) fuel (by omega)]
      rfl

theorem utf16_to_ucs_units (cs : List Nat) (hcs : ∀ c ∈ cs, UNICODE_VALID c ∧ c ≠ 0) :
    utf16_to_ucs (cs.flatMap utf16_units) 0 = some cs := by
  induction cs with
  | nil => simp [utf16_to_ucs]
  | cons c cs ih =>
    obtain ⟨hv, h0⟩ := hcs c (List.mem_cons_self _ _)
    have ih2 := ih (fun x hx => hcs x (List.mem_cons_of_mem _ hx))
    unfold UNICODE_VALID at hv
    simp only [List.flatMap_cons, utf16_units]
    by_cases h1 : c < 0x10000
    · rw [if_pos h1]
      show utf16_to_ucs (c :: cs.flatMap utf16_units) 0 = _
      simp only [utf16_to_ucs]
      rw [if_neg h0, if_neg (by omega), if_neg (by simp), if_neg (by omega), ih2]
      rfl
    · rw [if_neg h1]
      show utf16_to_ucs (((c - 0x10000) / 0x400 + 0xd800)
        :: ((c - 0x10000) % 0x400 + 0xdc00) :: cs.flatMap utf16_units) 0 = _
      simp only [utf16_to_ucs]
      rw [if_neg (by omega), if_neg (by omega), if_neg (by simp), if_pos (by omega),
        if_neg (by omega), if_pos (by omega), if_pos (by omega), ih2]
      simp [SURROGATE_VALUE]
      omega

theorem utf8_strlen_loop_encoded (cs : List Nat) (hcs : ∀ c ∈ cs, UNICODE_VALID c ∧ c ≠ 0) :
    ∀ (pre post : List Octet) (fuel len : Nat),
      (cs.flatMap g_unichar_to_utf8).length ≤ fuel →
      utf8_strlen_loop (pre ++ (cs.flatMap g_unichar_to_utf8 ++ post))
          (pre.length + (cs.flatMap g_unichar_to_utf8).length) fuel pre.length len
        = (pre.length + (cs.flatMap g_unichar_to_utf8).length, len + cs.length) := by
  induction cs with
  | nil =>
    intro pre post fuel len _
    cases fuel <;> simp [utf8_strlen_loop]
  | cons c cs ih =>
    intro pre post fuel len hf
    obtain ⟨hv, h0⟩ := hcs c (List.mem_cons_self _ _)
    obtain ⟨hne, hskip⟩ := utf8_skip_of_encoded c (cs.flatMap g_unichar_to_utf8 ++ post) hv h0
    have hdec := utf8_char_of_encoded c [] hv h0
    obtain ⟨_, _, _, _, hkpos⟩ := utf8_char_encodes _ _ _ hdec
    simp only [List.flatMap_cons, List.length_append] at hf
    simp only [List.flatMap_cons, List.length_append, List.append_assoc]
    have hget : (pre ++ (g_unichar_to_utf8 c ++ (cs.flatMap g_unichar_to_utf8 ++ post))).getD
        pre.length 0
        = (g_unichar_to_utf8 c ++ (cs.flatMap g_unichar_to_utf8 ++ post)).getD 0 0 := by
      rw [List.getD_append_right _ _ _ _ (Nat.le_refl _), Nat.sub_self]
    cases fuel with
    | zero => omega
    | succ fuel =>
      unfold utf8_strlen_loop
      rw [hget, if_pos ⟨by omega, hne⟩, hskip]
      have := ih (fun x hx => hcs x (List.mem_cons_of_mem _ hx)) (pre ++ g_unichar_to_utf8 c)
        post fuel (len + 1) (by omega)
      simp only [List.length_append, List.append_assoc, Nat.add_assoc] at this
      rw [this]
      simp only [List.length_cons, Prod.mk.injEq, true_and]
      omega

theorem g_utf8_strlen_encoded (c : Nat) (cs : List Nat)
    (hcs : ∀ x ∈ c :: cs, UNICODE_VALID x ∧ x ≠ 0) (post : List Octet) :
    g_utf8_strlen ((c :: cs).flatMap g_unichar_to_utf8 ++ post)
      ((c :: cs).flatMap g_unichar_to_utf8).length = cs.length + 1 := by
  obtain ⟨hv, h0⟩ := hcs c (List.mem_cons_self _ _)
  obtain ⟨hne, hskip⟩ := utf8_skip_of_encoded c (cs.flatMap g_unichar_to_utf8 ++ post) hv h0
  have hdec := utf8_char_of_encoded c [] hv h0
  obtain ⟨_, _, _, _, hkpos⟩ := utf8_char_encodes _ _ _ hdec
  have hloop := utf8_strlen_loop_encoded cs (fun x hx => hcs x (List.mem_cons_of_mem _ hx))
    (g_unichar_to_utf8 c) post
    ((g_unichar_to_utf8 c).length + (cs.flatMap g_unichar_to_utf8).length) 0 (by omega)
  unfold g_utf8_strlen
  simp only [List.flatMap_cons, List.length_append, List.append_assoc]
  rw [if_neg (by
    intro h
    rcases h with h | h
    · omega
    · exact hne h), hskip, hloop]
  simp

/-! ## AIDL string16 -/

theorem octets_at_memcpy_disjoint (m : Nat → Octet) (dest : Nat) (src : List Octet)
    (n b k : Nat) (h : b + k ≤ dest ∨ dest + n ≤ b) :
    octets_at (memcpy m dest src n) b k = octets_at m b k := by
  apply octets_at_congr
  intro i hi
  apply memcpy_outside
  omega

theorem octets_at_store_disjoint (be : Bool) (m : Nat → Octet) (addr w x b k : Nat)
    (h : b + k ≤ addr ∨ addr + w ≤ b) :
    octets_at (store be m addr w x) b k = octets_at m b k :=
  octets_at_memcpy_disjoint m addr _ w b k h

theorem octets_at_memset_disjoint (m : Nat → Octet) (dest : Nat) (c : Octet)
    (n b k : Nat) (h : b + k ≤ dest ∨ dest + n ≤ b) :
    octets_at (memset m dest c n) b k = octets_at m b k := by
  apply octets_at_congr
  intro i hi
  unfold memset
  rw [if_neg]
  omega

theorem octets_at_memset (m : Nat → Octet) (dest : Nat) (c : Octet) (n : Nat) :
    octets_at (memset m dest c n) dest n = List.replicate n c := by
  apply octets_at_eq_of_length _ _ _ _ (List.length_replicate _ _)
  intro i hi
  rw [List.length_replicate] at hi
  unfold memset
  rw [if_pos (by omega), List.getElem_replicate]

theorem memset_nothing (m : Nat → Octet) (dest : Nat) (c : Octet) : memset m dest c 0 = m := by
  funext i
  unfold memset
  rw [if_neg]
  omega

theorem utf16_bytes_length (be : Bool) (u : List Nat) :
    (utf16_bytes be u).length = 2 * u.length := by
  induction u with
  | nil => rfl
  | cons x u ih =>
    simp only [utf16_bytes, List.flatMap_cons, List.length_append, host_bytes_length,
      List.length_cons] at ih ⊢
    omega

theorem utf16_bytes_append (be : Bool) (u v : List Nat) :
    utf16_bytes be (u ++ v) = utf16_bytes be u ++ utf16_bytes be v := by
  simp [utf16_bytes, List.flatMap_append]

theorem utf16_at_succ (be : Bool) (mem : Memory) (a n : Nat) :
    utf16_at be mem a (n + 1) = load be mem a 2 :: utf16_at be mem (a + 2) n := by
  simp only [utf16_at, List.range_succ_eq_map, List.map_cons, List.map_map, Nat.mul_zero,
    Nat.add_zero, List.cons.injEq, true_and]
  apply List.map_congr_left
  intro i _
  simp only [Function.comp_apply]
  congr 1
  omega

theorem utf16_at_of_bytes (be : Bool) (mem : Memory) (u : List Nat)
    (hu : ∀ x ∈ u, x < 65536) :
    ∀ a, octets_at mem a (2 * u.length) = utf16_bytes be u → utf16_at be mem a u.length = u := by
  induction u with
  | nil => intro a _; rfl
  | cons x u ih =>
    intro a h
    have hx := hu x (List.mem_cons_self _ _)
    rw [List.length_cons, show 2 * (u.length + 1) = 2 + 2 * u.length by omega, octets_at_add] at h
    simp only [utf16_bytes, List.flatMap_cons] at h
    obtain ⟨h1, h2⟩ := List.append_inj h (by simp [octets_at_length, host_bytes_length])
    rw [List.length_cons, utf16_at_succ, ih (fun y hy => hu y (List.mem_cons_of_mem _ hy))
      (a + 2) h2]
    unfold load
    rw [h1, host_value_host_bytes, Nat.mod_eq_of_lt (by simpa using hx)]

theorem utf16_units_lt (cs : List Nat) (hcs : ∀ c ∈ cs, UNICODE_VALID c ∧ c ≠ 0) :
    ∀ x ∈ cs.flatMap utf16_units, x < 65536 := by
  intro x hx
  obtain ⟨c, hc, hxc⟩ := List.mem_flatMap.mp hx
  obtain ⟨hv, _⟩ := hcs c hc
  unfold UNICODE_VALID at hv
  unfold utf16_units at hxc
  split_ifs at hxc with h1
  · simp at hxc; omega
  · simp at hxc
    rcases hxc with rfl | rfl <;> omega

theorem string16_block (be : Bool) (m : Nat → Octet) (old : Nat) (u : List Nat) :
    octets_at
      (memset
          (store be (memcpy m (old + 4) (utf16_bytes be (u ++ [0])) ((u.length + 1) * 2))
            old 4 u.length)
          (old + 4 + 2 * (u.length + 1)) 0
          (G_ALIGN4 ((u.length + 1) * 2) - (u.length + 1) * 2))
      0 (old + G_ALIGN4 ((u.length + 1) * 2) + 4)
    = octets_at m 0 old ++ (host_bytes be 4 u.length ++ (utf16_bytes be (u ++ [0]) ++
        List.replicate (G_ALIGN4 ((u.length + 1) * 2) - (u.length + 1) * 2) 0)) := by
  have hge := G_ALIGN4_ge ((u.length + 1) * 2)
  have hlen : (utf16_bytes be (u ++ [0])).length = (u.length + 1) * 2 := by
    rw [utf16_bytes_length]; simp; omega
  rw [show old + G_ALIGN4 ((u.length + 1) * 2) + 4
    = old + (4 + ((u.length + 1) * 2 + (G_ALIGN4 ((u.length + 1) * 2) - (u.length + 1) * 2)))
    by omega, octets_at_add, octets_at_add, octets_at_add]
  simp only [Nat.zero_add]
  congr 1
  · rw [octets_at_memset_disjoint _ _ _ _ _ _ (by omega),
      octets_at_store_disjoint _ _ _ _ _ _ _ (by omega),
      octets_at_memcpy_disjoint _ _ _ _ _ _ (by omega)]
  congr 1
  · rw [octets_at_memset_disjoint _ _ _ _ _ _ (by omega), octets_at_store]
  congr 1
  · rw [octets_at_memset_disjoint _ _ _ _ _ _ (by omega),
      octets_at_store_disjoint _ _ _ _ _ _ _ (by omega)]
    have := octets_at_memcpy m (old + 4) (utf16_bytes be (u ++ [0]))
    rwa [hlen] at this
  · rw [show old + 4 + (u.length + 1) * 2 = old + 4 + 2 * (u.length + 1) by omega,
      octets_at_memset]

theorem string16_block_stores (be : Bool) (B : GByteArray) (old : Nat) (u : List Nat)
    (hfit : old + G_ALIGN4 ((u.length + 1) * 2) + 4 ≤ B.alloc) :
    (if G_ALIGN4 ((u.length + 1) * 2) - (u.length + 1) * 2 ≠ 0
      then block_memset
          (block_store be
            (block_memcpy B (old + 4) (utf16_bytes be (u ++ [0])) ((u.length + 1) * 2))
            old 4 u.length)
          (old + 4 + 2 * (u.length + 1)) 0
          (G_ALIGN4 ((u.length + 1) * 2) - (u.length + 1) * 2)
      else block_store be
            (block_memcpy B (old + 4) (utf16_bytes be (u ++ [0])) ((u.length + 1) * 2))
            old 4 u.length).data
      = memset
          (store be (memcpy B.data (old + 4) (utf16_bytes be (u ++ [0])) ((u.length + 1) * 2))
            old 4 u.length)
          (old + 4 + 2 * (u.length + 1)) 0
          (G_ALIGN4 ((u.length + 1) * 2) - (u.length + 1) * 2) ∧
    (if G_ALIGN4 ((u.length + 1) * 2) - (u.length + 1) * 2 ≠ 0
      then block_memset
          (block_store be
            (block_memcpy B (old + 4) (utf16_bytes be (u ++ [0])) ((u.length + 1) * 2))
            old 4 u.length)
          (old + 4 + 2 * (u.length + 1)) 0
          (G_ALIGN4 ((u.length + 1) * 2) - (u.length + 1) * 2)
      else block_store be
            (block_memcpy B (old + 4) (utf16_bytes be (u ++ [0])) ((u.length + 1) * 2))
            old 4 u.length).overflow = B.overflow := by
  have hge := G_ALIGN4_ge ((u.length + 1) * 2)
  have h1 : (block_store be
      (block_memcpy B (old + 4) (utf16_bytes be (u ++ [0])) ((u.length + 1) * 2))
      old 4 u.length).data
      = store be (memcpy B.data (old + 4) (utf16_bytes be (u ++ [0])) ((u.length + 1) * 2))
          old 4 u.length := by
    rw [block_store_data _ _ _ _ _ (by simp only [block_memcpy_alloc]; omega),
      block_memcpy_data _ _ _ _ (by omega)]
  have h2 : (block_store be
      (block_memcpy B (old + 4) (utf16_bytes be (u ++ [0])) ((u.length + 1) * 2))
      old 4 u.length).overflow = B.overflow := by
    rw [block_store_overflow _ _ _ _ _ (by simp only [block_memcpy_alloc]; omega),
      block_memcpy_overflow _ _ _ _ (by omega)]
  split_ifs with hp
  · rw [block_memset_data _ _ _ _
        (by simp only [block_store_alloc, block_memcpy_alloc]; omega),
      block_memset_overflow _ _ _ _
        (by simp only [block_store_alloc, block_memcpy_alloc]; omega), h1, h2]
    exact ⟨rfl, rfl⟩
  · rw [h1, h2, show G_ALIGN4 ((u.length + 1) * 2) - (u.length + 1) * 2 = 0 by omega,
      memset_nothing]
    exact ⟨rfl, rfl⟩

theorem g_utf8_validate_spec (s : List Octet) (num_bytes : Int) :
    ∃ cs : List Nat, (∀ c ∈ cs, UNICODE_VALID c ∧ c ≠ 0) ∧
      s.take (g_utf8_validate s num_bytes) = cs.flatMap g_unichar_to_utf8 ∧
      (cs.flatMap g_unichar_to_utf8).length = g_utf8_validate s num_bytes ∧
      utf8_char ((if num_bytes < 0 then s else s.take num_bytes.toNat).drop
        (g_utf8_validate s num_bytes)) = none := by
  obtain ⟨cs, hcs, htake, hle, hmax⟩ := utf8_validate_loop_spec
    (if num_bytes < 0 then s else s.take num_bytes.toNat).length
    (if num_bytes < 0 then s else s.take num_bytes.toNat) (Nat.le_refl _)
  have hst : s.take (g_utf8_validate s num_bytes) = cs.flatMap g_unichar_to_utf8 := by
    rw [← htake]
    unfold g_utf8_validate
    split_ifs with h
    · rfl
    · rw [if_neg h] at hle
      have hl2 : (s.take num_bytes.toNat).length ≤ num_bytes.toNat := by
        rw [List.length_take]; omega
      rw [List.take_take, Nat.min_eq_left (by omega)]
  refine ⟨cs, hcs, hst, ?_, hmax⟩
  rw [← hst, List.length_take, Nat.min_eq_left]
  have : (if num_bytes < 0 then s else s.take num_bytes.toNat).length ≤ s.length := by
    split_ifs <;> simp [List.length_take]
  unfold g_utf8_validate
  omega

theorem append_string16_len_nonempty (be : Bool) (data : GBinderWriterData) (s : List Octet)
    (num_bytes : Int) (cs : List Nat) (hcs : ∀ c ∈ cs, UNICODE_VALID c ∧ c ≠ 0)
    (hn : 0 < g_utf8_validate s num_bytes)
    (htake : s.take (g_utf8_validate s num_bytes) = cs.flatMap g_unichar_to_utf8)
    (hlen : (cs.flatMap g_unichar_to_utf8).length = g_utf8_validate s num_bytes)
    (hfit : data.bytes.len + G_ALIGN4 (((cs.flatMap utf16_units).length + 1) * 2) + 4
      ≤ (g_byte_array_set_size data.bytes
          (data.bytes.len + G_ALIGN4 ((cs.length + 1) * 2) + 4)).alloc) :
    (gbinder_writer_data_append_string16_len be data (some s) num_bytes).bytes.toList
      = data.bytes.toList ++ (host_bytes be 4 (cs.flatMap utf16_units).length ++
          (utf16_bytes be (cs.flatMap utf16_units ++ [0]) ++
            List.replicate (G_ALIGN4 (((cs.flatMap utf16_units).length + 1) * 2)
              - ((cs.flatMap utf16_units).length + 1) * 2) 0)) ∧
    (gbinder_writer_data_append_string16_len be data (some s) num_bytes).bytes.overflow
      = data.bytes.overflow := by
  have hconv : g_utf8_to_utf16 s (g_utf8_validate s num_bytes) = some (cs.flatMap utf16_units) := by
    unfold g_utf8_to_utf16
    rw [htake]
    exact utf8_to_utf16_loop_encoded cs hcs _ (Nat.le_refl _)
  have hstrlen : g_utf8_strlen s (g_utf8_validate s num_bytes) = cs.length ∧ 0 < cs.length := by
    rcases cs with _ | ⟨c, cs⟩
    · simp at hlen; omega
    · have := g_utf8_strlen_encoded c cs hcs (s.drop (g_utf8_validate s num_bytes))
      rw [← htake, List.take_append_drop, htake, hlen] at this
      exact ⟨by simpa using this, by simp⟩
  obtain ⟨hsl, hpos⟩ := hstrlen
  obtain ⟨hd, ho⟩ := string16_block_stores be
    (g_byte_array_set_size data.bytes (data.bytes.len + G_ALIGN4 ((cs.length + 1) * 2) + 4))
    data.bytes.len (cs.flatMap utf16_units) hfit
  simp only [gbinder_writer_data_append_string16_len, gt_iff_lt, hn, if_true, hsl, hpos,
    Option.getD_some, hconv, GByteArray.toList, set_size_len, set_size_data, set_size_overflow]
  rw [hd, ho, set_size_data, set_size_overflow]
  exact ⟨string16_block be data.bytes.data data.bytes.len (cs.flatMap utf16_units), rfl⟩

theorem append_string16_len_empty (be : Bool) (data : GBinderWriterData) (s : List Octet)
    (num_bytes : Int) (hn : g_utf8_validate s num_bytes = 0) :
    (gbinder_writer_data_append_string16_len be data (some s) num_bytes).bytes.toList
      = data.bytes.toList ++ utf16_bytes be [0, 0, 0, 0xffff] ∧
    (gbinder_writer_data_append_string16_len be data (some s) num_bytes).bytes.overflow
      = data.bytes.overflow := by
  have hfit := set_size_alloc_ge data.bytes (data.bytes.len + 8) (by omega)
  simp only [gbinder_writer_data_append_string16_len, gt_iff_lt, hn, Nat.lt_irrefl, if_false,
    Option.isSome_some, if_true, GByteArray.toList, block_store_len, set_size_len]
  rw [block_store_data _ _ _ _ _ (by simp only [block_store_alloc]; omega),
    block_store_data _ _ _ _ _ (by simp only [block_store_alloc]; omega),
    block_store_data _ _ _ _ _ (by simp only [block_store_alloc]; omega),
    block_store_data _ _ _ _ _ (by omega),
    block_store_overflow _ _ _ _ _ (by simp only [block_store_alloc]; omega),
    block_store_overflow _ _ _ _ _ (by simp only [block_store_alloc]; omega),
    block_store_overflow _ _ _ _ _ (by simp only [block_store_alloc]; omega),
    block_store_overflow _ _ _ _ _ (by omega), set_size_data, set_size_overflow]
  refine ⟨?_, rfl⟩
  rw [show data.bytes.len + 8 = data.bytes.len + (2 + (2 + (2 + 2))) by omega, octets_at_add,
    octets_at_add, octets_at_add, octets_at_add]
  simp only [Nat.zero_add, utf16_bytes, List.flatMap_cons, List.flatMap_nil, List.append_nil,
    Nat.mul_zero, Nat.add_zero, Nat.mul_one]
  congr 1
  · rw [octets_at_store_disjoint _ _ _ _ _ _ _ (by omega),
      octets_at_store_disjoint _ _ _ _ _ _ _ (by omega),
      octets_at_store_disjoint _ _ _ _ _ _ _ (by omega),
      octets_at_store_disjoint _ _ _ _ _ _ _ (by omega)]
  congr 1
  · rw [octets_at_store_disjoint _ _ _ _ _ _ _ (by omega), octets_at_store]
  congr 1
  · rw [octets_at_store_disjoint _ _ _ _ _ _ _ (by omega),
      octets_at_store_disjoint _ _ _ _ _ _ _ (by omega), octets_at_store]
  congr 1
  · rw [octets_at_store_disjoint _ _ _ _ _ _ _ (by omega),
      octets_at_store_disjoint _ _ _ _ _ _ _ (by omega),
      octets_at_store_disjoint _ _ _ _ _ _ _ (by omega),
      show data.bytes.len + 2 + 2 = data.bytes.len + 2 * 2 by omega, octets_at_store]
  · rw [show data.bytes.len + 2 + 2 + 2 = data.bytes.len + 2 * 3 by omega, octets_at_store]

theorem append_string16_len_null (be : Bool) (data : GBinderWriterData) (num_bytes : Int) :
    (gbinder_writer_data_append_string16_len be data none num_bytes).bytes.toList
      = data.bytes.toList ++ [0xff, 0xff, 0xff, 0xff] ∧
    (gbinder_writer_data_append_string16_len be data none num_bytes).bytes.overflow
      = data.bytes.overflow := by
  simp only [gbinder_writer_data_append_string16_len, gt_iff_lt, Nat.lt_irrefl, if_false,
    Option.isSome_none, Bool.false_eq_true]
  rw [(append_int32_toList be data 0xffffffff).1, (append_int32_toList be data 0xffffffff).2]
  refine ⟨?_, rfl⟩
  cases be <;> rfl

theorem octets_at_place_mid (base : Nat) (A B C : List Octet) (rest : Memory) :
    octets_at (place base (A ++ (B ++ C)) rest) (base + A.length) B.length = B := by
  have h := octets_at_place base (A ++ (B ++ C)) rest
  rw [List.length_append, List.length_append, octets_at_add, octets_at_add] at h
  have h2 := (List.append_inj h (by simp [octets_at_length])).2
  exact (List.append_inj h2 (by simp [octets_at_length])).1

theorem read_nullable_string16_written (be : Bool) (base : Nat) (rest : Memory) (u : List Nat)
    (pad : List Octet) (hu : ∀ x ∈ u, x < 65536) (hsize : u.length + 2 < 2 ^ 31)
    (out : Bool) :
    gbinder_reader_read_nullable_string16 be
        (place base (host_bytes be 4 u.length ++ (utf16_bytes be (u ++ [0]) ++ pad)) rest)
        (reader_over base (4 + G_ALIGN4 ((u.length + 1) * 2))) out
      = (true, if out then some (g_utf16_to_utf8 u u.length) else none,
         { reader_over base (4 + G_ALIGN4 ((u.length + 1) * 2)) with
           ptr := base + (4 + G_ALIGN4 ((u.length + 1) * 2)) }) := by
  have hlt := G_ALIGN4_lt ((u.length + 1) * 2)
  have hload : load be
      (place base (host_bytes be 4 u.length ++ (utf16_bytes be (u ++ [0]) ++ pad)) rest)
      base 4 = u.length := by
    unfold load
    have := octets_at_place_mid base [] (host_bytes be 4 u.length)
      (utf16_bytes be (u ++ [0]) ++ pad) rest
    simp only [List.nil_append, List.length_nil, Nat.add_zero, host_bytes_length] at this
    rw [this, host_value_host_bytes, Nat.mod_eq_of_lt]
    norm_num at hsize ⊢
    omega
  have hunits : utf16_at be
      (place base (host_bytes be 4 u.length ++ (utf16_bytes be (u ++ [0]) ++ pad)) rest)
      (base + 4) u.length = u := by
    apply utf16_at_of_bytes be _ u hu
    have := octets_at_place_mid base (host_bytes be 4 u.length) (utf16_bytes be u)
      (utf16_bytes be [0] ++ pad) rest
    rw [host_bytes_length, utf16_bytes_length] at this
    rw [utf16_bytes_append, List.append_assoc]
    exact this
  have hmod : G_ALIGN4 ((u.length + 1) * 2) % 2 ^ 32 = G_ALIGN4 ((u.length + 1) * 2) := by
    apply Nat.mod_eq_of_lt
    unfold G_ALIGN4
    norm_num at hsize ⊢
    omega
  simp only [gbinder_reader_read_nullable_string16, reader_over, gbinder_reader_init,
    Nat.add_zero, hload, hunits, hmod]
  rw [if_pos (by omega), if_neg (by norm_num at hsize ⊢; omega),
    if_pos (by norm_num at hsize ⊢; omega), if_pos (by omega)]
  simp only [Prod.mk.injEq, true_and]
  congr 1
  omega

theorem g_unichar_to_utf8_nonzero (c : Nat) (hv : UNICODE_VALID c) (h0 : c ≠ 0) :
    ∀ b ∈ g_unichar_to_utf8 c, b ≠ 0 := by
  unfold UNICODE_VALID at hv
  have key : ∀ n : Nat, n % 256 ≠ 0 → octet n ≠ 0 := by
    intro n hn h
    have := congrArg Fin.val h
    simp [octet] at this
    exact hn this
  intro b hb
  unfold g_unichar_to_utf8 at hb
  split_ifs at hb with h1 h2 h3 h4
  · simp only [List.mem_singleton] at hb
    subst hb; apply key; omega
  · simp only [List.mem_cons, List.mem_singleton, List.not_mem_nil, or_false] at hb
    rcases hb with rfl | rfl <;> (apply key; omega)
  · simp only [List.mem_cons, List.mem_singleton, List.not_mem_nil, or_false] at hb
    rcases hb with rfl | rfl | rfl <;> (apply key; omega)
  · simp only [List.mem_cons, List.mem_singleton, List.not_mem_nil, or_false] at hb
    rcases hb with rfl | rfl | rfl | rfl <;> (apply key; omega)
  · omega
  · omega

theorem encoded_nonzero (cs : List Nat) (hcs : ∀ c ∈ cs, UNICODE_VALID c ∧ c ≠ 0) :
    ∀ b ∈ cs.flatMap g_unichar_to_utf8, b ≠ 0 := by
  intro b hb
  obtain ⟨c, hc, hbc⟩ := List.mem_flatMap.mp hb
  exact g_unichar_to_utf8_nonzero c (hcs c hc).1 (hcs c hc).2 b hbc

theorem strlen_eq_length (s : List Octet) (hs : ∀ b ∈ s, b ≠ 0) : strlen s = s.length := by
  unfold strlen
  rw [List.takeWhile_eq_self_iff.mpr]
  intro b hb
  simpa using hs b hb

theorem utf16_units_length_le (cs : List Nat) (hcs : ∀ c ∈ cs, UNICODE_VALID c ∧ c ≠ 0) :
    (cs.flatMap utf16_units).length ≤ (cs.flatMap g_unichar_to_utf8).length := by
  induction cs with
  | nil => simp
  | cons c cs ih =>
    have ih2 := ih (fun x hx => hcs x (List.mem_cons_of_mem _ hx))
    obtain ⟨hv, h0⟩ := hcs c (List.mem_cons_self _ _)
    unfold UNICODE_VALID at hv
    simp only [List.flatMap_cons, List.length_append]
    have : (utf16_units c).length ≤ (g_unichar_to_utf8 c).length := by
      unfold utf16_units g_unichar_to_utf8
      split_ifs <;> first | omega | simp
    omega

theorem g_utf8_validate_whole (s : List Octet) :
    g_utf8_validate s (s.length : Int) = g_utf8_validate s (-1) := by
  unfold g_utf8_validate
  have h1 : ¬ ((s.length : Int) < 0) := by omega
  have h2 : ((-1 : Int) < 0) := by decide
  simp only [h1, h2, if_true, if_false, Int.toNat_ofNat, List.take_length]

theorem host_bytes_4_zero (be : Bool) : host_bytes be 4 0 = host_bytes be 2 0 ++ host_bytes be 2 0 := by
  cases be <;> rfl

theorem utf16_units_bmp (cs : List Nat) (hbmp : ∀ c ∈ cs, c < 0x10000) :
    cs.flatMap utf16_units = cs := by
  induction cs with
  | nil => rfl
  | cons c cs ih =>
    have hc := hbmp c (List.mem_cons_self _ _)
    simp only [List.flatMap_cons, utf16_units, if_pos hc,
      ih (fun x hx => hbmp x (List.mem_cons_of_mem _ hx))]
    rfl

theorem bmp_of_octets (cs : List Nat) (hcs : ∀ c ∈ cs, UNICODE_VALID c ∧ c ≠ 0)
    (h : ∀ b ∈ cs.flatMap g_unichar_to_utf8, b.val < 0xf0) : ∀ c ∈ cs, c < 0x10000 := by
  intro c hc
  by_contra hge
  obtain ⟨hv, _⟩ := hcs c hc
  unfold UNICODE_VALID at hv
  have hmem : octet (c / 262144 + 0xf0) ∈ cs.flatMap g_unichar_to_utf8 := by
    apply List.mem_flatMap.mpr
    refine ⟨c, hc, ?_⟩
    unfold g_unichar_to_utf8
    rw [if_neg (by omega), if_neg (by omega), if_neg (by omega), if_pos (by omega)]
    exact List.mem_cons_self _ _
  have := h _ hmem
  simp only [octet] at this
  omega

theorem append_string16_valid_form (be : Bool) (data : GBinderWriterData) (s : List Octet)
    (hvalid : g_utf8_validate s (-1) = s.length) (hbmp : ∀ b ∈ s, b.val < 0xf0) :
    ∃ (u : List Nat) (pad : List Octet), (∀ x ∈ u, x < 65536) ∧ u.length ≤ s.length ∧
      (gbinder_writer_data_append_string16 be data (some s)).bytes.toList
        = data.bytes.toList ++ (host_bytes be 4 u.length ++ (utf16_bytes be (u ++ [0]) ++ pad)) ∧
      (host_bytes be 4 u.length ++ (utf16_bytes be (u ++ [0]) ++ pad)).length
        = 4 + G_ALIGN4 ((u.length + 1) * 2) ∧
      g_utf16_to_utf8 u u.length = some s ∧
      (gbinder_writer_data_append_string16 be data (some s)).bytes.overflow
        = data.bytes.overflow := by
  obtain ⟨cs, hcs, htake, hlen, _⟩ := g_utf8_validate_spec s (-1)
  rw [hvalid, List.take_length] at htake
  have hnz := encoded_nonzero cs hcs
  rw [← htake] at hnz
  have hstr := strlen_eq_length s hnz
  have hv2 : g_utf8_validate s (s.length : Int) = s.length := by
    rw [g_utf8_validate_whole, hvalid]
  have hule := utf16_units_length_le cs hcs
  rw [← htake] at hule
  have hu := utf16_units_bmp cs (bmp_of_octets cs hcs (by rw [← htake]; exact hbmp))
  have hdec : g_utf16_to_utf8 (cs.flatMap utf16_units) (cs.flatMap utf16_units).length
      = some s := by
    unfold g_utf16_to_utf8
    rw [List.take_length, utf16_to_ucs_units cs hcs, htake]
    rfl
  unfold gbinder_writer_data_append_string16
  simp only [hstr]
  by_cases hs0 : s.length = 0
  · have hnil : s = [] := List.length_eq_zero.mp hs0
    have hcsnil : cs.flatMap utf16_units = [] := by
      apply List.length_eq_zero.mp
      omega
    have hw := append_string16_len_empty be data s (s.length : Int) (by rw [hv2, hs0])
    refine ⟨[], host_bytes be 2 0xffff, by simp, by simp, ?_, ?_, ?_, hw.2⟩
    · rw [hw.1]
      cases be <;> rfl
    · cases be <;> rfl
    · rw [hcsnil] at hdec
      exact hdec
  · have hw := append_string16_len_nonempty be data s (s.length : Int) cs hcs
      (by rw [hv2]; omega) (by rw [hv2, List.take_length]; exact htake) (by rw [hv2, ← htake])
      (by
        rw [hu]
        exact set_size_alloc_ge _ _ (by omega))
    refine ⟨cs.flatMap utf16_units,
      List.replicate (G_ALIGN4 (((cs.flatMap utf16_units).length + 1) * 2)
        - ((cs.flatMap utf16_units).length + 1) * 2) 0,
      utf16_units_lt cs hcs, hule, hw.1, ?_, hdec, hw.2⟩
    have hge := G_ALIGN4_ge (((cs.flatMap utf16_units).length + 1) * 2)
    simp only [List.length_append, host_bytes_length, utf16_bytes_length,
      List.length_replicate, List.length_cons, List.length_nil]
    omega

/-- For a string that GLib accepts as valid UTF-8, with no character above U+FFFF (no
octet from 0xF0 up) and fewer than `2^31 - 2` octets: `gbinder_reader_read_string16` on a
reader over what `gbinder_writer_data_append_string16` wrote into an empty parcel returns
the string, the cursor ends at the end of the octets written, and no store left the
allocated block. -/
theorem string16_roundtrip_bmp (be : Bool) (junk : Nat → Octet) (s : List Octet)
    (hvalid : g_utf8_validate s (-1) = s.length) (hbmp : ∀ b ∈ s, b.val < 0xf0)
    (hsize : s.length + 2 < 2 ^ 31) (base : Nat) (rest : Memory) :
    gbinder_reader_read_nullable_string16 be
        (place base (gbinder_writer_data_append_string16 be (GBinderWriterData.empty junk)
          (some s)).bytes.toList rest)
        (reader_over base (gbinder_writer_data_append_string16 be
          (GBinderWriterData.empty junk) (some s)).bytes.toList.length) true
      = (true, some (some s),
         { reader_over base (gbinder_writer_data_append_string16 be
             (GBinderWriterData.empty junk) (some s)).bytes.toList.length with
           ptr := base + (gbinder_writer_data_append_string16 be
             (GBinderWriterData.empty junk) (some s)).bytes.toList.length }) ∧
    (gbinder_writer_data_append_string16 be (GBinderWriterData.empty junk)
      (some s)).bytes.overflow = false := by
  obtain ⟨u, pad, hu, hul, hW, hWlen, hdec, hov⟩ :=
    append_string16_valid_form be (GBinderWriterData.empty junk) s hvalid hbmp
  rw [empty_toList, List.nil_append] at hW
  have hr := read_nullable_string16_written be base rest u pad hu (by omega) true
  rw [hW, hWlen, hr, hdec]
  exact ⟨rfl, hov⟩

theorem string8_scan_runs (mem : Memory) (end_ : Nat) :
    ∀ (fuel ptr : Nat), ptr + fuel = end_ → (∀ a, ptr ≤ a → a < end_ → mem a ≠ 0) →
      string8_scan mem end_ fuel ptr = end_ := by
  intro fuel
  induction fuel with
  | zero => intro ptr h _; simpa [string8_scan] using h
  | succ fuel ih =>
    intro ptr h hnz
    have h1 : mem ptr ≠ 0 := hnz ptr (Nat.le_refl _) (by omega)
    have h2 : ptr < end_ := by omega
    simp only [string8_scan, h1, h2, ne_eq, not_false_eq_true, and_self, if_true]
    exact ih (ptr + 1) (by omega) (fun a ha hb => hnz a (by omega) hb)

/-! ## Object and buffer reads -/

theorem read_nullable_object_eq (mem : Memory) (p : GBinderReaderPriv) (out : Bool)
    (d : GBinderReaderData) (reg : GBinderObjectRegistry) (objs : List Nat)
    (hd : p.data = some d) (hr : d.reg = some reg) (ho : p.objects = some objs) :
    gbinder_reader_read_nullable_object mem p out =
      if objs.headD 0 ≠ 0 ∧ p.ptr = objs.headD 0 ∧
          (reg.io.decode_binder_object mem p.ptr (gbinder_reader_bytes_remaining p)
            reg.addr).1 ≠ 0 then
        (true,
         if out then some (reg.io.decode_binder_object mem p.ptr
           (gbinder_reader_bytes_remaining p) reg.addr).2 else none,
         { p with
           ptr := p.ptr + (reg.io.decode_binder_object mem p.ptr
             (gbinder_reader_bytes_remaining p) reg.addr).1
           objects := some objs.tail })
      else (false, if out then some none else none, p) := by
  obtain ⟨start, end_, ptr, data, objects⟩ := p
  simp only at hd ho
  subst hd ho
  simp only [gbinder_reader_read_nullable_object, hr]
  split_ifs <;> first | rfl | (exfalso; tauto)

theorem read_nullable_object_none (mem : Memory) (p : GBinderReaderPriv) (out : Bool)
    (h : p.data = none ∨ p.objects = none ∨ ∃ d, p.data = some d ∧ d.reg = none) :
    gbinder_reader_read_nullable_object mem p out
      = (false, if out then some none else none, p) := by
  obtain ⟨start, end_, ptr, data, objects⟩ := p
  simp only at h
  rcases h with h | h | ⟨d, h, hr⟩
  · subst h
    simp only [gbinder_reader_read_nullable_object]
  · subst h
    cases data <;> simp only [gbinder_reader_read_nullable_object]
  · subst h
    cases objects <;> simp only [gbinder_reader_read_nullable_object, hr]

theorem read_buffer_impl_eq (mem : Memory) (p : GBinderReaderPriv) (out : Bool)
    (d : GBinderReaderData) (reg : GBinderObjectRegistry) (buf : GBinderBuffer)
    (objs : List Nat)
    (hd : p.data = some d) (hr : d.reg = some reg) (hb : d.buffer = some buf)
    (ho : p.objects = some objs) :
    gbinder_reader_read_buffer_impl mem p out =
      if objs.headD 0 ≠ 0 ∧ p.ptr = objs.headD 0 ∧
          (reg.io.decode_buffer_object mem buf (p.ptr - buf.data)).1 ≠ 0 then
        (true,
         if out then some (reg.io.decode_buffer_object mem buf (p.ptr - buf.data)).2 else none,
         { p with
           ptr := p.ptr + (reg.io.decode_buffer_object mem buf (p.ptr - buf.data)).1
           objects := some objs.tail })
      else (false, if out then some none else none, p) := by
  obtain ⟨start, end_, ptr, data, objects⟩ := p
  simp only at hd ho
  subst hd ho
  simp only [gbinder_reader_read_buffer_impl, hr, hb]
  split_ifs <;> first | rfl | (exfalso; tauto)

theorem read_buffer_impl_none (mem : Memory) (p : GBinderReaderPriv) (out : Bool)
    (h : p.data = none ∨ p.objects = none ∨
      ∃ d, p.data = some d ∧ (d.reg = none ∨ d.buffer = none)) :
    gbinder_reader_read_buffer_impl mem p out
      = (false, if out then some none else none, p) := by
  obtain ⟨start, end_, ptr, data, objects⟩ := p
  simp only at h
  rcases h with h | h | ⟨d, h, hr | hb⟩
  · subst h
    simp only [gbinder_reader_read_buffer_impl]
  · subst h
    cases data <;> simp only [gbinder_reader_read_buffer_impl]
  · subst h
    cases objects <;> simp only [gbinder_reader_read_buffer_impl, hr]
  · subst h
    cases objects with
    | none => simp only [gbinder_reader_read_buffer_impl]
    | some objs =>
      cases hr : d.reg with
      | none => simp only [gbinder_reader_read_buffer_impl, hr]
      | some reg =>
        simp only [gbinder_reader_read_buffer_impl, hr, hb]
        split_ifs <;> rfl

/-- Either way a failed object read leaves the reader and stores `NULL`. -/
theorem read_nullable_object_false (mem : Memory) (p : GBinderReaderPriv) (out : Bool)
    (h : (gbinder_reader_read_nullable_object mem p out).1 = false) :
    gbinder_reader_read_nullable_object mem p out
      = (false, if out then some none else none, p) := by
  cases hd : p.data with
  | none => exact read_nullable_object_none mem p out (Or.inl hd)
  | some d =>
    cases ho : p.objects with
    | none => exact read_nullable_object_none mem p out (Or.inr (Or.inl ho))
    | some objs =>
      cases hr : d.reg with
      | none => exact read_nullable_object_none mem p out (Or.inr (Or.inr ⟨d, hd, hr⟩))
      | some reg =>
        rw [read_nullable_object_eq mem p out d reg objs hd hr ho] at h ⊢
        split_ifs at h ⊢ <;> rfl

theorem read_buffer_impl_false (mem : Memory) (p : GBinderReaderPriv) (out : Bool)
    (h : (gbinder_reader_read_buffer_impl mem p out).1 = false) :
    gbinder_reader_read_buffer_impl mem p out
      = (false, if out then some none else none, p) := by
  cases hd : p.data with
  | none => exact read_buffer_impl_none mem p out (Or.inl hd)
  | some d =>
    cases ho : p.objects with
    | none => exact read_buffer_impl_none mem p out (Or.inr (Or.inl ho))
    | some objs =>
      cases hr : d.reg with
      | none =>
        exact read_buffer_impl_none mem p out (Or.inr (Or.inr ⟨d, hd, Or.inl hr⟩))
      | some reg =>
        cases hb : d.buffer with
        | none =>
          exact read_buffer_impl_none mem p out (Or.inr (Or.inr ⟨d, hd, Or.inr hb⟩))
        | some buf =>
          rw [read_buffer_impl_eq mem p out d reg buf objs hd hr hb ho] at h ⊢
          split_ifs at h ⊢ <;> rfl

/-- The success flag of a buffer read does not depend on the out pointer. -/
theorem read_buffer_impl_flag (mem : Memory) (p : GBinderReaderPriv) (out out2 : Bool) :
    (gbinder_reader_read_buffer_impl mem p out).1
      = (gbinder_reader_read_buffer_impl mem p out2).1 ∧
    (gbinder_reader_read_buffer_impl mem p out).2.2
      = (gbinder_reader_read_buffer_impl mem p out2).2.2 := by
  cases hd : p.data with
  | none =>
    rw [read_buffer_impl_none mem p out (Or.inl hd),
      read_buffer_impl_none mem p out2 (Or.inl hd)]
    exact ⟨rfl, rfl⟩
  | some d =>
    cases ho : p.objects with
    | none =>
      rw [read_buffer_impl_none mem p out (Or.inr (Or.inl ho)),
        read_buffer_impl_none mem p out2 (Or.inr (Or.inl ho))]
      exact ⟨rfl, rfl⟩
    | some objs =>
      cases hr : d.reg with
      | none =>
        rw [read_buffer_impl_none mem p out (Or.inr (Or.inr ⟨d, hd, Or.inl hr⟩)),
          read_buffer_impl_none mem p out2 (Or.inr (Or.inr ⟨d, hd, Or.inl hr⟩))]
        exact ⟨rfl, rfl⟩
      | some reg =>
        cases hb : d.buffer with
        | none =>
          rw [read_buffer_impl_none mem p out (Or.inr (Or.inr ⟨d, hd, Or.inr hb⟩)),
            read_buffer_impl_none mem p out2 (Or.inr (Or.inr ⟨d, hd, Or.inr hb⟩))]
          exact ⟨rfl, rfl⟩
        | some buf =>
          rw [read_buffer_impl_eq mem p out d reg buf objs hd hr hb ho,
            read_buffer_impl_eq mem p out2 d reg buf objs hd hr hb ho]
          split_ifs <;> exact ⟨rfl, rfl⟩

theorem reader_consumed_trans (p q r : GBinderReaderPriv) (j k : Nat)
    (h1 : reader_consumed p q j) (h2 : reader_consumed q r k) :
    reader_consumed p r (j + k) := by
  rcases h1 with ⟨hj, hq⟩ | ⟨hj, hs, he, hd, hp, objs, ho, hlen, hqo⟩
  · subst hj
    subst hq
    rw [Nat.zero_add]
    exact h2
  · rcases h2 with ⟨hk, hr⟩ | ⟨hk, hs2, he2, hd2, hp2, objs2, ho2, hlen2, hro⟩
    · subst hk
      subst hr
      exact Or.inr ⟨hj, hs, he, hd, hp, objs, ho, hlen, hqo⟩
    · rw [hqo, Option.some.injEq] at ho2
      subst ho2
      rw [List.length_drop] at hlen2
      refine Or.inr ⟨by omega, hs2.trans hs, he2.trans he, hd2.trans hd, by omega, objs, ho,
        by omega, ?_⟩
      rw [hro, List.drop_drop, Nat.add_comm]

/-- One buffer read either fails and leaves the reader, or consumes one pending object. -/
theorem read_buffer_consumed (mem : Memory) (p : GBinderReaderPriv) :
    ((gbinder_reader_read_buffer_impl mem p true).1 = false ∧
      gbinder_reader_read_buffer mem p = (none, p)) ∨
    ((gbinder_reader_read_buffer_impl mem p true).1 = true ∧
      reader_consumed p (gbinder_reader_read_buffer mem p).2 1) := by
  cases hf : (gbinder_reader_read_buffer_impl mem p true).1 with
  | false =>
    left
    refine ⟨rfl, ?_⟩
    simp only [gbinder_reader_read_buffer]
    rw [read_buffer_impl_false mem p true hf]
    rfl
  | true =>
    right
    refine ⟨rfl, ?_⟩
    cases hd : p.data with
    | none => rw [read_buffer_impl_none mem p true (Or.inl hd)] at hf; simp at hf
    | some d =>
      cases ho : p.objects with
      | none => rw [read_buffer_impl_none mem p true (Or.inr (Or.inl ho))] at hf; simp at hf
      | some objs =>
        cases hr : d.reg with
        | none =>
          rw [read_buffer_impl_none mem p true (Or.inr (Or.inr ⟨d, hd, Or.inl hr⟩))] at hf
          simp at hf
        | some reg =>
          cases hb : d.buffer with
          | none =>
            rw [read_buffer_impl_none mem p true (Or.inr (Or.inr ⟨d, hd, Or.inr hb⟩))] at hf
            simp at hf
          | some buf =>
            rw [read_buffer_impl_eq mem p true d reg buf objs hd hr hb ho] at hf
            by_cases hc : objs.headD 0 ≠ 0 ∧ p.ptr = objs.headD 0 ∧
                (reg.io.decode_buffer_object mem buf (p.ptr - buf.data)).1 ≠ 0
            · simp only [gbinder_reader_read_buffer]
              rw [read_buffer_impl_eq mem p true d reg buf objs hd hr hb ho, if_pos hc]
              have hne : objs ≠ [] := by
                intro h0
                rw [h0] at hc
                exact hc.1 rfl
              have hlen : 1 ≤ objs.length := by
                cases objs with
                | nil => exact absurd rfl hne
                | cons a t => simp
              refine Or.inr ⟨Nat.one_pos, rfl, rfl, rfl, ?_, objs, ho, hlen, ?_⟩
              · have := hc.2.2
                show p.ptr < p.ptr + _
                omega
              · show some objs.tail = some (objs.drop 1)
                rw [List.drop_one]
            · rw [if_neg hc] at hf
              simp at hf

theorem hidl_string_vec_loop_consumed (be : Bool) (mem : Memory) (strings : Nat) :
    ∀ (k i : Nat) (p : GBinderReaderPriv),
      ∃ j, j ≤ k ∧ reader_consumed p (hidl_string_vec_loop be mem strings k i p).2 j := by
  intro k
  induction k with
  | zero =>
    intro i p
    exact ⟨0, Nat.le_refl _, Or.inl ⟨rfl, rfl⟩⟩
  | succ k ih =>
    intro i p
    rcases read_buffer_consumed mem p with ⟨_, h0⟩ | ⟨_, h1⟩
    · refine ⟨0, Nat.zero_le _, Or.inl ⟨rfl, ?_⟩⟩
      simp only [hidl_string_vec_loop, h0]
    · cases hb : (gbinder_reader_read_buffer mem p).1 with
      | none =>
        refine ⟨1, by omega, ?_⟩
        simp only [hidl_string_vec_loop, hb]
        exact h1
      | some sbuf =>
        by_cases hm : hidl_string_matches be mem sbuf (strings + sizeof_HidlString * i)
        · obtain ⟨j, hj, hcons⟩ := ih (i + 1) (gbinder_reader_read_buffer mem p).2
          refine ⟨1 + j, by omega, ?_⟩
          simp only [hidl_string_vec_loop, hb, if_pos hm]
          exact reader_consumed_trans _ _ _ 1 j h1 hcons
        · refine ⟨1, by omega, ?_⟩
          simp only [hidl_string_vec_loop, hb, if_neg hm]
          exact h1

/-- A HIDL string read for which the first buffer read fails returns null and leaves the
reader; otherwise one or two pending objects are consumed. -/
theorem read_hidl_string_consumed (be : Bool) (mem : Memory) (p : GBinderReaderPriv) :
    ((gbinder_reader_read_buffer_impl mem p true).1 = false ∧
      gbinder_reader_read_hidl_string be mem p = (none, p)) ∨
    ((gbinder_reader_read_buffer_impl mem p true).1 = true ∧
      ∃ j, 0 < j ∧ j ≤ 2 ∧
        reader_consumed p (gbinder_reader_read_hidl_string be mem p).2 j) := by
  rcases read_buffer_consumed mem p with ⟨hf, h0⟩ | ⟨hf, h1⟩
  · left
    refine ⟨hf, ?_⟩
    simp only [gbinder_reader_read_hidl_string, h0]
  · right
    refine ⟨hf, ?_⟩
    cases hb : (gbinder_reader_read_buffer mem p).1 with
    | none =>
      refine ⟨1, by omega, by omega, ?_⟩
      simp only [gbinder_reader_read_hidl_string, hb]
      exact h1
    | some buf =>
      by_cases hsz : buf.size = sizeof_HidlString
      · have hsecond : ∃ j, j ≤ 1 ∧ reader_consumed (gbinder_reader_read_buffer mem p).2
            (gbinder_reader_read_buffer mem (gbinder_reader_read_buffer mem p).2).2 j := by
          rcases read_buffer_consumed mem (gbinder_reader_read_buffer mem p).2
            with ⟨_, h2⟩ | ⟨_, h2⟩
          · exact ⟨0, by omega, Or.inl ⟨rfl, by rw [h2]⟩⟩
          · exact ⟨1, by omega, h2⟩
        obtain ⟨j, hj, h2⟩ := hsecond
        refine ⟨1 + j, by omega, by omega, ?_⟩
        have h3 := reader_consumed_trans _ _ _ 1 j h1 h2
        simp only [gbinder_reader_read_hidl_string, hb, if_pos hsz]
        cases hb2 : (gbinder_reader_read_buffer mem (gbinder_reader_read_buffer mem p).2).1 with
        | none => exact h3
        | some sbuf =>
          simp only
          split_ifs <;> exact h3
      · refine ⟨1, by omega, by omega, ?_⟩
        simp only [gbinder_reader_read_hidl_string, hb, if_neg hsz]
        exact h1

/-- A HIDL string vector read for which the first buffer read fails returns null and
leaves the reader; otherwise at least one pending object is consumed. -/
theorem read_hidl_string_vec_consumed (be : Bool) (mem : Memory) (p : GBinderReaderPriv) :
    ((gbinder_reader_read_buffer_impl mem p true).1 = false ∧
      gbinder_reader_read_hidl_string_vec be mem p = (none, p)) ∨
    ((gbinder_reader_read_buffer_impl mem p true).1 = true ∧
      ∃ j, 0 < j ∧
        reader_consumed p (gbinder_reader_read_hidl_string_vec be mem p).2 j) := by
  rcases read_buffer_consumed mem p with ⟨hf, h0⟩ | ⟨hf, h1⟩
  · left
    refine ⟨hf, ?_⟩
    simp only [gbinder_reader_read_hidl_string_vec, h0]
  · right
    refine ⟨hf, ?_⟩
    cases hb : (gbinder_reader_read_buffer mem p).1 with
    | none =>
      refine ⟨1, by omega, ?_⟩
      simp only [gbinder_reader_read_hidl_string_vec, hb]
      exact h1
    | some buf =>
      by_cases hsz : buf.size = sizeof_HidlVec
      · by_cases hempty : HidlVec_ptr be mem buf.data = 0 ∧ HidlVec_count be mem buf.data = 0
        · refine ⟨1, by omega, ?_⟩
          simp only [gbinder_reader_read_hidl_string_vec, hb, if_pos hsz, if_pos hempty]
          exact h1
        · have hsecond : ∃ j, j ≤ 1 ∧ reader_consumed (gbinder_reader_read_buffer mem p).2
              (gbinder_reader_read_buffer mem (gbinder_reader_read_buffer mem p).2).2 j := by
            rcases read_buffer_consumed mem (gbinder_reader_read_buffer mem p).2
              with ⟨_, h2⟩ | ⟨_, h2⟩
            · exact ⟨0, by omega, Or.inl ⟨rfl, by rw [h2]⟩⟩
            · exact ⟨1, by omega, h2⟩
          obtain ⟨j, hj, h2⟩ := hsecond
          have h3 := reader_consumed_trans _ _ _ 1 j h1 h2
          simp only [gbinder_reader_read_hidl_string_vec, hb, if_pos hsz, if_neg hempty]
          cases hb2 : (gbinder_reader_read_buffer mem (gbinder_reader_read_buffer mem p).2).1
            with
          | none => exact ⟨1 + j, by omega, h3⟩
          | some buf2 =>
            simp only
            by_cases hm : buf2.data = HidlVec_ptr be mem buf.data
                ∧ buf2.size = sizeof_HidlString * HidlVec_count be mem buf.data
            · rw [if_pos hm]
              obtain ⟨i, _, h4⟩ := hidl_string_vec_loop_consumed be mem buf2.data
                (HidlVec_count be mem buf.data) 0
                (gbinder_reader_read_buffer mem (gbinder_reader_read_buffer mem p).2).2
              exact ⟨1 + j + i, by omega, reader_consumed_trans _ _ _ (1 + j) i h3 h4⟩
            · rw [if_neg hm]
              exact ⟨1 + j, by omega, h3⟩
      · refine ⟨1, by omega, ?_⟩
        simp only [gbinder_reader_read_hidl_string_vec, hb, if_neg hsz]
        exact h1

/-! ## Buffer objects on the writer side -/

theorem block_memcpy_nothing (a : GByteArray) (dest : Nat) (src : List Octet) :
    block_memcpy a dest src 0 = a := by
  have hd : (fun i => if i < a.alloc then memcpy a.data dest src 0 i else a.data i) = a.data := by
    funext i
    rw [memcpy_outside _ _ _ _ _ (by omega)]
    split_ifs <;> rfl
  have ho : (a.overflow || decide (0 ≠ 0 ∧ a.alloc < dest + 0)) = a.overflow := by
    rw [decide_eq_false (by omega), Bool.or_false]
  simp only [block_memcpy, hd, ho]

/-- The buffer object is stored whole, within the block, after the octets already there. -/
theorem write_buffer_object_bytes (a : GByteArray) (w : List Octet) (MAX : Nat)
    (h : w.length ≤ MAX) :
    (g_byte_array_set_size
      (block_memcpy (g_byte_array_set_size a (a.len + MAX)) a.len w w.length)
      (a.len + w.length)).toList = a.toList ++ w ∧
    (g_byte_array_set_size
      (block_memcpy (g_byte_array_set_size a (a.len + MAX)) a.len w w.length)
      (a.len + w.length)).overflow = a.overflow := by
  by_cases h0 : w.length = 0
  · have hw : w = [] := List.length_eq_zero.mp h0
    subst hw
    simp only [List.length_nil, block_memcpy_nothing, GByteArray.toList, set_size_len,
      set_size_data, set_size_overflow, Nat.add_zero, List.append_nil, and_self]
  · have hfit := set_size_alloc_ge a (a.len + MAX) (by omega)
    simp only [GByteArray.toList, set_size_len, set_size_data, set_size_overflow]
    rw [block_memcpy_data _ _ _ _ (by omega), block_memcpy_overflow _ _ _ _ (by omega),
      set_size_data, set_size_overflow, octets_at_add, Nat.zero_add, octets_at_memcpy]
    refine ⟨?_, rfl⟩
    congr 1
    apply octets_at_congr
    intro i hi
    apply memcpy_outside
    omega

theorem write_buffer_object_fields (io : GBinderIo) (MAX : Nat) (data : GBinderWriterData)
    (ptr size : Nat) (parent : Option GBinderParent) :
    (gbinder_writer_data_write_buffer_object io MAX data ptr size parent).offsets
      = some (data.offsets.getD [] ++ [data.bytes.len]) ∧
    (gbinder_writer_data_write_buffer_object io MAX data ptr size parent).bytes.len
      = data.bytes.len + (io.encode_buffer_object ptr size parent).length ∧
    (gbinder_writer_data_write_buffer_object io MAX data ptr size parent).buffers_size
      = data.buffers_size + G_ALIGN8 size ∧
    (gbinder_writer_data_write_buffer_object io MAX data ptr size parent).cleanup
      = data.cleanup := by
  cases ho : data.offsets <;>
    simp [gbinder_writer_data_write_buffer_object, gbinder_writer_data_record_offset, ho]

theorem write_buffer_object_octets (io : GBinderIo) (MAX : Nat) (data : GBinderWriterData)
    (ptr size : Nat) (parent : Option GBinderParent)
    (hmax : (io.encode_buffer_object ptr size parent).length ≤ MAX) :
    (gbinder_writer_data_write_buffer_object io MAX data ptr size parent).bytes.toList
      = data.bytes.toList ++ io.encode_buffer_object ptr size parent ∧
    (gbinder_writer_data_write_buffer_object io MAX data ptr size parent).bytes.overflow
      = data.bytes.overflow := by
  have hb := write_buffer_object_bytes data.bytes (io.encode_buffer_object ptr size parent)
    MAX hmax
  cases ho : data.offsets <;>
    simpa [gbinder_writer_data_write_buffer_object, gbinder_writer_data_record_offset, ho]
      using hb

theorem append_local_object_fields (io : GBinderIo) (MAX : Nat) (data : GBinderWriterData)
    (obj : Nat) :
    (gbinder_writer_data_append_local_object io MAX data obj).offsets
      = some (data.offsets.getD [] ++ [data.bytes.len]) ∧
    (gbinder_writer_data_append_local_object io MAX data obj).bytes.len
      = data.bytes.len + (io.encode_local_object obj).length ∧
    (gbinder_writer_data_append_local_object io MAX data obj).buffers_size
      = data.buffers_size ∧
    (gbinder_writer_data_append_local_object io MAX data obj).cleanup = data.cleanup := by
  cases ho : data.offsets <;>
    simp [gbinder_writer_data_append_local_object, gbinder_writer_data_record_offset, ho]

theorem append_remote_object_fields (io : GBinderIo) (MAX : Nat) (data : GBinderWriterData)
    (obj : Nat) :
    (gbinder_writer_data_append_remote_object io MAX data obj).offsets
      = some (data.offsets.getD [] ++ [data.bytes.len]) ∧
    (gbinder_writer_data_append_remote_object io MAX data obj).bytes.len
      = data.bytes.len + (io.encode_remote_object obj).length ∧
    (gbinder_writer_data_append_remote_object io MAX data obj).buffers_size
      = data.buffers_size ∧
    (gbinder_writer_data_append_remote_object io MAX data obj).cleanup = data.cleanup := by
  cases ho : data.offsets <;>
    simp [gbinder_writer_data_append_remote_object, gbinder_writer_data_record_offset, ho]

theorem append_local_object_octets (io : GBinderIo) (MAX : Nat) (data : GBinderWriterData)
    (obj : Nat) (hmax : (io.encode_local_object obj).length ≤ MAX) :
    (gbinder_writer_data_append_local_object io MAX data obj).bytes.toList
      = data.bytes.toList ++ io.encode_local_object obj ∧
    (gbinder_writer_data_append_local_object io MAX data obj).bytes.overflow
      = data.bytes.overflow := by
  have hb := write_buffer_object_bytes data.bytes (io.encode_local_object obj) MAX hmax
  cases ho : data.offsets <;>
    simpa [gbinder_writer_data_append_local_object, gbinder_writer_data_record_offset, ho]
      using hb

theorem append_remote_object_octets (io : GBinderIo) (MAX : Nat) (data : GBinderWriterData)
    (obj : Nat) (hmax : (io.encode_remote_object obj).length ≤ MAX) :
    (gbinder_writer_data_append_remote_object io MAX data obj).bytes.toList
      = data.bytes.toList ++ io.encode_remote_object obj ∧
    (gbinder_writer_data_append_remote_object io MAX data obj).bytes.overflow
      = data.bytes.overflow := by
  have hb := write_buffer_object_bytes data.bytes (io.encode_remote_object obj) MAX hmax
  cases ho : data.offsets <;>
    simpa [gbinder_writer_data_append_remote_object, gbinder_writer_data_record_offset, ho]
      using hb

/-! ## What a writer call appends -/

theorem appended_nothing (R : Nat → Nat → Prop) (d1 d2 : GBinderWriterData)
    (hlen : d1.bytes.len ≤ d2.bytes.len) (hoff : d2.offsets.getD [] = d1.offsets.getD [])
    (hsize : d2.buffers_size = d1.buffers_size) : appended R d1 d2 0 0 :=
  ⟨hlen, by rw [hsize]; rfl, [], by rw [hoff, List.append_nil], rfl, List.Pairwise.nil,
    fun o ho => absurd ho (List.not_mem_nil o)⟩

theorem appended_trans (R : Nat → Nat → Prop) (hR : ∀ a x y, R a x → x ≤ y → R a y)
    (d1 d2 d3 : GBinderWriterData) (n m t u : Nat)
    (h1 : appended R d1 d2 n t) (h2 : appended R d2 d3 m u) :
    appended R d1 d3 (n + m) (t + u) := by
  obtain ⟨hl1, hs1, new1, ho1, hn1, hp1, hb1⟩ := h1
  obtain ⟨hl2, hs2, new2, ho2, hn2, hp2, hb2⟩ := h2
  refine ⟨Nat.le_trans hl1 hl2, by rw [hs2, hs1, Nat.add_assoc], new1 ++ new2, ?_, ?_, ?_, ?_⟩
  · rw [ho2, ho1, List.append_assoc]
  · rw [List.length_append, hn1, hn2]
  · rw [List.pairwise_append]
    exact ⟨hp1, hp2, fun a ha b hb => hR a _ b (hb1 a ha).2 (hb2 b hb).1⟩
  · intro o ho
    rcases List.mem_append.mp ho with h | h
    · exact ⟨(hb1 o h).1, hR o _ _ (hb1 o h).2 hl2⟩
    · exact ⟨Nat.le_trans hl1 (hb2 o h).1, (hb2 o h).2⟩

theorem appended_one (R : Nat → Nat → Prop) (d1 d2 : GBinderWriterData) (n total : Nat)
    (hoff : d2.offsets = some (d1.offsets.getD [] ++ [d1.bytes.len]))
    (hlen : d2.bytes.len = d1.bytes.len + n)
    (hsize : d2.buffers_size = d1.buffers_size + total)
    (hstep : R d1.bytes.len (d1.bytes.len + n)) : appended R d1 d2 1 total := by
  refine ⟨by omega, hsize, [d1.bytes.len], by rw [hoff]; rfl, rfl, List.pairwise_singleton _ _,
    ?_⟩
  intro o ho
  rw [List.mem_singleton] at ho
  subst ho
  exact ⟨Nat.le_refl _, by rw [hlen]; exact hstep⟩

theorem write_buffer_object_appended (R : Nat → Nat → Prop) (io : GBinderIo) (MAX : Nat)
    (data : GBinderWriterData) (ptr size : Nat) (parent : Option GBinderParent)
    (hstep : ∀ ptr size parent x, R x (x + (io.encode_buffer_object ptr size parent).length)) :
    appended R data (gbinder_writer_data_write_buffer_object io MAX data ptr size parent) 1
      (G_ALIGN8 size) := by
  obtain ⟨h1, h2, h3, _⟩ := write_buffer_object_fields io MAX data ptr size parent
  exact appended_one R _ _ _ _ h1 h2 h3 (hstep ptr size parent _)

theorem append_local_object_appended (R : Nat → Nat → Prop) (io : GBinderIo) (MAX : Nat)
    (data : GBinderWriterData) (obj : Nat)
    (hstep : ∀ obj x, R x (x + (io.encode_local_object obj).length)) :
    appended R data (gbinder_writer_data_append_local_object io MAX data obj) 1 0 := by
  obtain ⟨h1, h2, h3, _⟩ := append_local_object_fields io MAX data obj
  exact appended_one R _ _ _ _ h1 h2 h3 (hstep obj _)

theorem append_remote_object_appended (R : Nat → Nat → Prop) (io : GBinderIo) (MAX : Nat)
    (data : GBinderWriterData) (obj : Nat)
    (hstep : ∀ obj x, R x (x + (io.encode_remote_object obj).length)) :
    appended R data (gbinder_writer_data_append_remote_object io MAX data obj) 1 0 := by
  obtain ⟨h1, h2, h3, _⟩ := append_remote_object_fields io MAX data obj
  exact appended_one R _ _ _ _ h1 h2 h3 (hstep obj _)

theorem prepare_appended (R : Nat → Nat → Prop) (data : GBinderWriterData) :
    appended R data (gbinder_writer_data_prepare data).2 0 0 ∧
    (gbinder_writer_data_prepare data).1 = (data.offsets.getD []).length := by
  cases ho : data.offsets with
  | none =>
    simp only [gbinder_writer_data_prepare, ho, Option.getD_none, List.length_nil, and_true]
    exact appended_nothing R _ _ (Nat.le_refl _) (by simp [ho]) rfl
  | some offsets =>
    simp only [gbinder_writer_data_prepare, ho, Option.getD_some, and_true]
    exact appended_nothing R _ _ (Nat.le_refl _) rfl rfl

theorem appended_congr (R : Nat → Nat → Prop) (d1 d2 : GBinderWriterData) (n m t u : Nat)
    (h : appended R d1 d2 n t) (hn : n = m) (ht : t = u) : appended R d1 d2 m u := by
  subst hn
  subst ht
  exact h

theorem cleanup_appended (R : Nat → Nat → Prop) (data : GBinderWriterData) (c : List Nat) :
    appended R data { data with cleanup := c } 0 0 :=
  appended_nothing R _ _ (Nat.le_refl _) rfl rfl

theorem append_hidl_string_appended (R : Nat → Nat → Prop)
    (hR : ∀ a x y, R a x → x ≤ y → R a y) (be : Bool) (io : GBinderIo) (MAX : Nat)
    (mem : Memory) (data : GBinderWriterData) (block : Nat) (str : CString)
    (hstep : ∀ ptr size parent x, R x (x + (io.encode_buffer_object ptr size parent).length)) :
    appended R data (gbinder_writer_data_append_hidl_string be io MAX mem data block str).2
      (WriterOp.descriptors (.hidl_string block str))
      ((WriterOp.buffer_sizes (.hidl_string block str)).map G_ALIGN8).sum := by
  have h1 := (prepare_appended R data).1
  have h2 := cleanup_appended R (gbinder_writer_data_prepare data).2
    (gbinder_cleanup_add (gbinder_writer_data_prepare data).2.cleanup block)
  have h3 := write_buffer_object_appended R io MAX
    { (gbinder_writer_data_prepare data).2 with
      cleanup := gbinder_cleanup_add (gbinder_writer_data_prepare data).2.cleanup block }
    block sizeof_HidlString none hstep
  have h123 := appended_trans R hR _ _ _ _ _ _ _ (appended_trans R hR _ _ _ _ _ _ _ h1 h2) h3
  by_cases h0 : str.addr = 0
  · simp only [gbinder_writer_data_append_hidl_string, h0, ne_eq, not_true_eq_false, if_false,
      WriterOp.descriptors, WriterOp.buffer_sizes, if_true, List.map_cons, List.map_nil,
      List.sum_cons, List.sum_nil]
    exact appended_congr R _ _ _ _ _ _ h123 (by omega) (by omega)
  · simp only [gbinder_writer_data_append_hidl_string, h0, ne_eq, not_false_eq_true, if_true,
      WriterOp.descriptors, WriterOp.buffer_sizes, if_false, List.map_cons, List.map_nil,
      List.sum_cons, List.sum_nil]
    have h4 := write_buffer_object_appended R io MAX
      (gbinder_writer_data_write_buffer_object io MAX
        { (gbinder_writer_data_prepare data).2 with
          cleanup := gbinder_cleanup_add (gbinder_writer_data_prepare data).2.cleanup block }
        block sizeof_HidlString none)
      str.addr (strlen str.octets + 1)
      (some { index := (gbinder_writer_data_prepare data).1,
              offset := HIDL_STRING_BUFFER_OFFSET }) hstep
    exact appended_congr R _ _ _ _ _ _ (appended_trans R hR _ _ _ _ _ _ _ h123 h4)
      (by omega) (by omega)

theorem getD_map_range {α : Type} (f : Nat → α) (n j : Nat) (d : α) (h : j < n) :
    ((List.range n).map f).getD j d = f j := by
  rw [List.getD_eq_getElem _ _ (by simpa using h)]
  simp

theorem hidl_string_vec_fill_str (strv : List CString) (i : Nat) :
    (hidl_string_vec_fill strv i).str = (strv.getD i ⟨0, []⟩).addr := by
  unfold hidl_string_vec_fill
  split_ifs <;> rfl

theorem hidl_string_vec_fill_len (strv : List CString) (i : Nat)
    (h : (strv.getD i ⟨0, []⟩).addr ≠ 0) :
    ((hidl_string_vec_fill strv i).len + 1) % 2 ^ 32
      = hidl_string_vec_leaf_size (strv.getD i ⟨0, []⟩) := by
  unfold hidl_string_vec_fill hidl_string_vec_leaf_size
  rw [if_pos h]

theorem hidl_string_vec_write_appended (R : Nat → Nat → Prop)
    (hR : ∀ a x y, R a x → x ≤ y → R a y) (io : GBinderIo) (MAX : Nat)
    (strv : List CString) (strings : List HidlString)
    (hstep : ∀ ptr size parent x, R x (x + (io.encode_buffer_object ptr size parent).length)) :
    ∀ (k i : Nat) (str_parent : GBinderParent) (data : GBinderWriterData),
      (∀ j, i ≤ j → j < i + k → strings.getD j ⟨0, 0, false⟩ = hidl_string_vec_fill strv j) →
      appended R data (hidl_string_vec_write io MAX strings k i str_parent data)
        ((List.range' i k).filter
          (fun j => decide ((strv.getD j ⟨0, []⟩).addr ≠ 0))).length
        (((List.range' i k).filter
          (fun j => decide ((strv.getD j ⟨0, []⟩).addr ≠ 0))).map
            (fun j => G_ALIGN8 (hidl_string_vec_leaf_size (strv.getD j ⟨0, []⟩)))).sum := by
  intro k
  induction k with
  | zero =>
    intro i str_parent data _
    exact appended_nothing R _ _ (Nat.le_refl _) rfl rfl
  | succ k ih =>
    intro i str_parent data hs
    have hi := hs i (Nat.le_refl _) (by omega)
    have hrest := fun d => ih (i + 1)
      { str_parent with offset := str_parent.offset + sizeof_HidlString } d
      (fun j h1 h2 => hs j (by omega) (by omega))
    rw [List.range'_succ]
    simp only [hidl_string_vec_write, hi, hidl_string_vec_fill_str]
    by_cases h0 : (strv.getD i ⟨0, []⟩).addr ≠ 0
    · rw [if_pos h0, List.filter_cons_of_pos (by simpa using h0), hidl_string_vec_fill_len strv i h0]
      have h1 := write_buffer_object_appended R io MAX data (strv.getD i ⟨0, []⟩).addr
        (hidl_string_vec_leaf_size (strv.getD i ⟨0, []⟩)) (some str_parent) hstep
      exact appended_congr R _ _ _ _ _ _ (appended_trans R hR _ _ _ _ _ _ _ h1 (hrest _))
        (by simp [Nat.add_comm]) (by simp)
    · rw [if_neg h0, List.filter_cons_of_neg (by simpa using h0)]
      exact hrest _

theorem append_hidl_string_vec_appended (R : Nat → Nat → Prop)
    (hR : ∀ a x y, R a x → x ≤ y → R a y) (be : Bool) (io : GBinderIo) (MAX : Nat)
    (mem : Memory) (data : GBinderWriterData) (vec strings : Nat) (strv : List CString)
    (count : Int) (hstrings : strings ≠ 0)
    (hstep : ∀ ptr size parent x, R x (x + (io.encode_buffer_object ptr size parent).length)) :
    appended R data
      (gbinder_writer_data_append_hidl_string_vec be io MAX mem data vec strings strv count).2
      (WriterOp.descriptors (.hidl_string_vec vec strings strv count))
      ((WriterOp.buffer_sizes (.hidl_string_vec vec strings strv count)).map G_ALIGN8).sum := by
  have h1 := (prepare_appended R data).1
  by_cases h0 : hidl_string_vec_count strv count = 0
  · have h0' : (if count < 0 then gutil_strv_length strv else count.toNat) = 0 := h0
    simp only [gbinder_writer_data_append_hidl_string_vec, h0', WriterOp.descriptors,
      WriterOp.buffer_sizes, h0, if_true, gt_iff_lt, Nat.lt_irrefl, if_false, ne_eq,
      not_true_eq_false, List.map_cons, List.map_nil, List.sum_cons, List.sum_nil]
    have h2 := cleanup_appended R (gbinder_writer_data_prepare data).2
      (gbinder_cleanup_add (gbinder_writer_data_prepare data).2.cleanup vec)
    have h3 := write_buffer_object_appended R io MAX
      { (gbinder_writer_data_prepare data).2 with
        cleanup := gbinder_cleanup_add (gbinder_writer_data_prepare data).2.cleanup vec }
      vec sizeof_HidlVec none hstep
    exact appended_congr R _ _ _ _ _ _
      (appended_trans R hR _ _ _ _ _ _ _ (appended_trans R hR _ _ _ _ _ _ _ h1 h2) h3)
      (by omega) (by omega)
  · have hpos : 0 < hidl_string_vec_count strv count := Nat.pos_of_ne_zero h0
    have hpos' : 0 < (if count < 0 then gutil_strv_length strv else count.toNat) := hpos
    have hc : (if count < 0 then gutil_strv_length strv else count.toNat)
        = hidl_string_vec_count strv count := rfl
    simp only [gbinder_writer_data_append_hidl_string_vec, gt_iff_lt, hpos', hpos, if_true,
      ne_eq, hstrings, not_false_eq_true, WriterOp.descriptors, WriterOp.buffer_sizes, h0,
      if_false, List.map_cons, List.sum_cons, hc, hidl_string_vec_leaves, List.map_map]
    have h2 := cleanup_appended R (gbinder_writer_data_prepare data).2
      (gbinder_cleanup_add
        (gbinder_cleanup_add (gbinder_writer_data_prepare data).2.cleanup strings) vec)
    have h3 := write_buffer_object_appended R io MAX
      { (gbinder_writer_data_prepare data).2 with
        cleanup := gbinder_cleanup_add
          (gbinder_cleanup_add (gbinder_writer_data_prepare data).2.cleanup strings) vec }
      vec sizeof_HidlVec none hstep
    have h4 := fun d parent => write_buffer_object_appended R io MAX d strings
      (sizeof_HidlString * hidl_string_vec_count strv count) parent hstep
    have h5 := fun parent d => hidl_string_vec_write_appended R hR io MAX strv
      ((List.range (hidl_string_vec_count strv count)).map (hidl_string_vec_fill strv)) hstep
      (hidl_string_vec_count strv count) 0 parent d
      (fun j _ hj => getD_map_range _ _ _ _ (by omega))
    rw [← List.range_eq_range'] at h5
    refine appended_congr R _ _ _ _ _ _
      (appended_trans R hR _ _ _ _ _ _ _
        (appended_trans R hR _ _ _ _ _ _ _
          (appended_trans R hR _ _ _ _ _ _ _ (appended_trans R hR _ _ _ _ _ _ _ h1 h2) h3)
          (h4 _ _)) (h5 _ _)) ?_ ?_
    · simp only [ne_eq]
    · simp only [Function.comp_def, ne_eq]
      omega

theorem append_int32_appended (R : Nat → Nat → Prop) (be : Bool) (data : GBinderWriterData)
    (value : Nat) : appended R data (gbinder_writer_data_append_int32 be data value) 0 0 :=
  appended_nothing R _ _ (by simp [gbinder_writer_data_append_int32]) rfl rfl

theorem append_int64_appended (R : Nat → Nat → Prop) (be : Bool) (data : GBinderWriterData)
    (value : Nat) : appended R data (gbinder_writer_data_append_int64 be data value) 0 0 :=
  appended_nothing R _ _ (by simp [gbinder_writer_data_append_int64]) rfl rfl

theorem append_bytes_appended (R : Nat → Nat → Prop) (data : GBinderWriterData)
    (ptr : List Octet) (size : Nat) :
    appended R data { data with bytes := g_byte_array_append data.bytes ptr size } 0 0 :=
  appended_nothing R _ _ (by simp [g_byte_array_append]) rfl rfl

theorem append_string8_len_appended (R : Nat → Nat → Prop) (be : Bool)
    (data : GBinderWriterData) (str : Option (List Octet)) (len : Nat) :
    appended R data (gbinder_writer_data_append_string8_len be data str len) 0 0 := by
  cases str with
  | none => exact appended_nothing R _ _ (Nat.le_refl _) rfl rfl
  | some s =>
    exact appended_nothing R _ _ (by simp [gbinder_writer_data_append_string8_len]) rfl rfl

theorem append_string16_len_appended (R : Nat → Nat → Prop) (be : Bool)
    (data : GBinderWriterData) (utf8 : Option (List Octet)) (num_bytes : Int) :
    appended R data (gbinder_writer_data_append_string16_len be data utf8 num_bytes) 0 0 := by
  unfold gbinder_writer_data_append_string16_len
  simp only
  split_ifs <;>
    first
    | exact append_int32_appended R be data _
    | exact appended_nothing R _ _ (by simp only [set_size_len, block_store_len]; omega) rfl rfl

/-- Every call of the writer interface on a writer with data appends what
`WriterOp.descriptors` and `WriterOp.buffer_sizes` say. -/
theorem run_op_appended (R : Nat → Nat → Prop) (hR : ∀ a x y, R a x → x ≤ y → R a y)
    (be : Bool) (io : GBinderIo) (MAXB MAXO : Nat)
    (hb : ∀ ptr size parent x, R x (x + (io.encode_buffer_object ptr size parent).length))
    (hl : ∀ obj x, R x (x + (io.encode_local_object obj).length))
    (hr : ∀ obj x, R x (x + (io.encode_remote_object obj).length))
    (mem : Memory) (d : GBinderWriterData) (op : WriterOp) (hop : op.allocated) :
    ∃ mem2 d2, WriterOp.run be io MAXB MAXO (mem, some { data := some d }) op
        = (mem2, some { data := some d2 }) ∧
      appended R d d2 op.descriptors ((op.buffer_sizes.map G_ALIGN8).sum) := by
  cases op with
  | int32 value => exact ⟨mem, _, rfl, append_int32_appended R be d value⟩
  | int64 value => exact ⟨mem, _, rfl, append_int64_appended R be d value⟩
  | bool value => exact ⟨mem, _, rfl, append_bytes_appended R d _ 4⟩
  | bytes ptr size => exact ⟨mem, _, rfl, append_bytes_appended R d ptr size⟩
  | string8 str => exact ⟨mem, _, rfl, append_string8_len_appended R be d str _⟩
  | string8_len str len => exact ⟨mem, _, rfl, append_string8_len_appended R be d str len⟩
  | string16 utf8 => exact ⟨mem, _, rfl, append_string16_len_appended R be d utf8 _⟩
  | string16_len utf8 num_bytes =>
    exact ⟨mem, _, rfl, append_string16_len_appended R be d utf8 num_bytes⟩
  | buffer_object buf len =>
    refine ⟨mem, _, rfl, ?_⟩
    exact appended_congr R _ _ _ _ _ _
      (appended_trans R hR _ _ _ _ _ _ _ (prepare_appended R d).1
        (write_buffer_object_appended R io MAXB _ buf len none hb))
      (by simp [WriterOp.descriptors]) (by simp [WriterOp.buffer_sizes])
  | buffer_object_with_parent buf len parent =>
    refine ⟨mem, _, rfl, ?_⟩
    exact appended_congr R _ _ _ _ _ _
      (appended_trans R hR _ _ _ _ _ _ _ (prepare_appended R d).1
        (write_buffer_object_appended R io MAXB _ buf len parent hb))
      (by simp [WriterOp.descriptors]) (by simp [WriterOp.buffer_sizes])
  | hidl_string block str =>
    exact ⟨_, _, rfl, append_hidl_string_appended R hR be io MAXB mem d block str hb⟩
  | hidl_string_vec vec strings strv count =>
    exact ⟨_, _, rfl,
      append_hidl_string_vec_appended R hR be io MAXB mem d vec strings strv count hop.2 hb⟩
  | local_object obj =>
    exact ⟨mem, _, rfl, append_local_object_appended R io MAXO d obj hl⟩
  | remote_object obj =>
    exact ⟨mem, _, rfl, append_remote_object_appended R io MAXO d obj hr⟩

theorem run_ops_appended (R : Nat → Nat → Prop) (hR : ∀ a x y, R a x → x ≤ y → R a y)
    (be : Bool) (io : GBinderIo) (MAXB MAXO : Nat)
    (hb : ∀ ptr size parent x, R x (x + (io.encode_buffer_object ptr size parent).length))
    (hl : ∀ obj x, R x (x + (io.encode_local_object obj).length))
    (hr : ∀ obj x, R x (x + (io.encode_remote_object obj).length)) :
    ∀ (ops : List WriterOp) (mem : Memory) (d : GBinderWriterData),
      (∀ op ∈ ops, op.allocated) →
      ∃ mem2 d2, ops.foldl (WriterOp.run be io MAXB MAXO) (mem, some { data := some d })
          = (mem2, some { data := some d2 }) ∧
        appended R d d2 (ops.map WriterOp.descriptors).sum
          (((ops.flatMap WriterOp.buffer_sizes).map G_ALIGN8).sum) := by
  intro ops
  induction ops with
  | nil =>
    intro mem d _
    exact ⟨mem, d, rfl, appended_nothing R _ _ (Nat.le_refl _) rfl rfl⟩
  | cons op rest ih =>
    intro mem d hall
    obtain ⟨mem1, d1, hrun, h1⟩ := run_op_appended R hR be io MAXB MAXO hb hl hr mem d op
      (hall op (List.mem_cons_self _ _))
    obtain ⟨mem2, d2, hrest, h2⟩ := ih mem1 d1 (fun o ho => hall o (List.mem_cons_of_mem _ ho))
    refine ⟨mem2, d2, ?_, ?_⟩
    · rw [List.foldl_cons, hrun, hrest]
    · exact appended_congr R _ _ _ _ _ _ (appended_trans R hR _ _ _ _ _ _ _ h1 h2)
        (by simp) (by simp)

/-- The outcome of a sequence of calls on an empty parcel. -/
theorem run_writer_appended (R : Nat → Nat → Prop) (hR : ∀ a x y, R a x → x ≤ y → R a y)
    (be : Bool) (io : GBinderIo) (MAXB MAXO : Nat)
    (hb : ∀ ptr size parent x, R x (x + (io.encode_buffer_object ptr size parent).length))
    (hl : ∀ obj x, R x (x + (io.encode_local_object obj).length))
    (hr : ∀ obj x, R x (x + (io.encode_remote_object obj).length))
    (mem : Memory) (junk : Nat → Octet) (ops : List WriterOp)
    (hall : ∀ op ∈ ops, op.allocated) :
    ∃ mem2 d2, run_writer be io MAXB MAXO mem junk ops = (mem2, some { data := some d2 }) ∧
      d2.buffers_size = (((ops.flatMap WriterOp.buffer_sizes).map G_ALIGN8).sum) ∧
      (d2.offsets.getD []).length = (ops.map WriterOp.descriptors).sum ∧
      (d2.offsets.getD []).Pairwise R ∧
      ∀ o ∈ d2.offsets.getD [], R o d2.bytes.len := by
  obtain ⟨mem2, d2, hrun, _, hsize, new, hoff, hlen, hpair, hbound⟩ :=
    run_ops_appended R hR be io MAXB MAXO hb hl hr ops mem (GBinderWriterData.empty junk) hall
  have hoff2 : d2.offsets.getD [] = new := by
    rw [hoff]
    rfl
  refine ⟨mem2, d2, hrun, ?_, ?_, ?_, ?_⟩
  · rw [hsize]
    exact Nat.zero_add _
  · rw [hoff2, hlen]
  · rw [hoff2]
    exact hpair
  · intro o ho
    rw [hoff2] at ho
    exact (hbound o ho).2

theorem example_ops_allocated : ∀ op ∈ example_ops, op.allocated := by
  intro op hop
  simp only [example_ops, List.mem_cons, List.mem_singleton, List.not_mem_nil, or_false] at hop
  rcases hop with rfl | rfl | rfl | rfl <;> simp [WriterOp.allocated]

theorem stub_io_writes :
    (∀ ptr size parent, 0 < (stub_io.encode_buffer_object ptr size parent).length) ∧
    (∀ obj, 0 < (stub_io.encode_local_object obj).length) ∧
    (∀ obj, 0 < (stub_io.encode_remote_object obj).length) := by
  refine ⟨fun ptr size parent => ?_, fun obj => ?_, fun obj => ?_⟩ <;>
    simp [stub_io, stub_encode_buffer_object, stub_encode_binder_object, le_bytes_length]

/-! ## The buffer objects of the HIDL appends -/

theorem write_buffer_objects_cons (io : GBinderIo) (MAX : Nat) (data : GBinderWriterData)
    (o : BufferObject) (rest : List BufferObject) :
    write_buffer_objects io MAX data (o :: rest)
      = write_buffer_objects io MAX
          (gbinder_writer_data_write_buffer_object io MAX data o.ptr o.size o.parent) rest :=
  rfl

theorem write_buffer_objects_append (io : GBinderIo) (MAX : Nat) (data : GBinderWriterData)
    (l1 l2 : List BufferObject) :
    write_buffer_objects io MAX data (l1 ++ l2)
      = write_buffer_objects io MAX (write_buffer_objects io MAX data l1) l2 := by
  simp only [write_buffer_objects, List.foldl_append]

/-- What a run of buffer-object writes leaves in the parcel. -/
theorem write_buffer_objects_effect (io : GBinderIo) (MAX : Nat)
    (hmax : ∀ ptr size parent, (io.encode_buffer_object ptr size parent).length ≤ MAX) :
    ∀ (objs : List BufferObject) (data : GBinderWriterData),
      (write_buffer_objects io MAX data objs).bytes.toList
        = data.bytes.toList
          ++ objs.flatMap (fun o => io.encode_buffer_object o.ptr o.size o.parent) ∧
      (write_buffer_objects io MAX data objs).bytes.overflow = data.bytes.overflow ∧
      (write_buffer_objects io MAX data objs).offsets.getD []
        = data.offsets.getD [] ++ buffer_object_offsets io data.bytes.len objs ∧
      (write_buffer_objects io MAX data objs).buffers_size
        = data.buffers_size + (objs.map (fun o => G_ALIGN8 o.size)).sum ∧
      (write_buffer_objects io MAX data objs).cleanup = data.cleanup := by
  intro objs
  induction objs with
  | nil =>
    intro data
    simp [write_buffer_objects, buffer_object_offsets]
  | cons o rest ih =>
    intro data
    obtain ⟨f1, f2, f3, f4⟩ := write_buffer_object_fields io MAX data o.ptr o.size o.parent
    obtain ⟨g1, g2⟩ := write_buffer_object_octets io MAX data o.ptr o.size o.parent
      (hmax _ _ _)
    obtain ⟨i1, i2, i3, i4, i5⟩ :=
      ih (gbinder_writer_data_write_buffer_object io MAX data o.ptr o.size o.parent)
    rw [write_buffer_objects_cons]
    refine ⟨?_, ?_, ?_, ?_, ?_⟩
    · rw [i1, g1, List.flatMap_cons, List.append_assoc]
    · rw [i2, g2]
    · rw [i3, f1, f2]
      simp [buffer_object_offsets]
    · rw [i4, f3, List.map_cons, List.sum_cons, Nat.add_assoc]
    · rw [i5, f4]

theorem prepare_eq (data : GBinderWriterData) :
    (gbinder_writer_data_prepare data).2 = { data with offsets := some (data.offsets.getD []) } ∧
    (gbinder_writer_data_prepare data).1 = (data.offsets.getD []).length := by
  cases ho : data.offsets with
  | none => simp [gbinder_writer_data_prepare, ho]
  | some offsets =>
    obtain ⟨b, o, s, c⟩ := data
    simp only at ho
    subst ho
    simp [gbinder_writer_data_prepare]

theorem append_hidl_string_eq (be : Bool) (io : GBinderIo) (MAX : Nat) (mem : Memory)
    (data : GBinderWriterData) (block : Nat) (str : CString) :
    gbinder_writer_data_append_hidl_string be io MAX mem data block str =
      (place block
        (HidlString.bytes be
          { str := str.addr
            len := (if str.addr ≠ 0 then strlen str.octets else 0) % 2 ^ 32
            owns_buffer := true }) mem,
       write_buffer_objects io MAX
         { data with
           offsets := some (data.offsets.getD [])
           cleanup := data.cleanup ++ [block] }
         (hidl_string_objects block str (data.offsets.getD []).length)) := by
  obtain ⟨hp, hi⟩ := prepare_eq data
  by_cases h0 : str.addr = 0
  · simp only [gbinder_writer_data_append_hidl_string, hidl_string_objects, h0, hp, ne_eq,
      not_true_eq_false, if_false, if_true, gbinder_cleanup_add, write_buffer_objects,
      List.foldl_cons, List.foldl_nil]
  · simp only [gbinder_writer_data_append_hidl_string, hidl_string_objects, h0, hp, hi, ne_eq,
      not_false_eq_true, if_false, if_true, gbinder_cleanup_add, write_buffer_objects,
      List.foldl_cons, List.foldl_nil]

theorem stub_io_max :
    ∀ ptr size parent, (stub_io.encode_buffer_object ptr size parent).length ≤ 40 := by
  intro ptr size parent
  simp [stub_io, stub_encode_buffer_object, le_bytes_length]

theorem HidlString_bytes_length (be : Bool) (s : HidlString) :
    (HidlString.bytes be s).length = sizeof_HidlString := by
  simp [HidlString.bytes, host_bytes_length, sizeof_HidlString]

theorem HidlVec_bytes_length (be : Bool) (v : HidlVec) :
    (HidlVec.bytes be v).length = sizeof_HidlVec := by
  simp [HidlVec.bytes, host_bytes_length, sizeof_HidlVec]

theorem hidl_string_vec_fill_eq (strv : List CString) (i : Nat) :
    hidl_string_vec_fill strv i = hidl_string_of (strv.getD i ⟨0, []⟩) := by
  unfold hidl_string_vec_fill hidl_string_of
  by_cases h : (strv.getD i ⟨0, []⟩).addr ≠ 0
  · rw [if_pos h, if_pos h]
  · rw [if_neg h, if_neg h]
    have h0 : (strv.getD i ⟨0, []⟩).addr = 0 := Classical.not_not.mp h
    rw [h0]

theorem hidl_string_vec_write_eq (io : GBinderIo) (MAX : Nat) (strv : List CString)
    (strings : List HidlString) (index base : Nat) :
    ∀ (k i : Nat) (data : GBinderWriterData),
      (∀ j, i ≤ j → j < i + k → strings.getD j ⟨0, 0, false⟩ = hidl_string_vec_fill strv j) →
      hidl_string_vec_write io MAX strings k i ⟨index, base + i * sizeof_HidlString⟩ data
        = write_buffer_objects io MAX data
            (((List.range' i k).filter
                (fun j => decide ((strv.getD j ⟨0, []⟩).addr ≠ 0))).map
              (fun j => ⟨(strv.getD j ⟨0, []⟩).addr,
                hidl_string_vec_leaf_size (strv.getD j ⟨0, []⟩),
                some ⟨index, base + j * sizeof_HidlString⟩⟩)) := by
  intro k
  induction k with
  | zero =>
    intro i data _
    rfl
  | succ k ih =>
    intro i data hs
    have hi := hs i (Nat.le_refl _) (by omega)
    have hoff : base + i * sizeof_HidlString + sizeof_HidlString
        = base + (i + 1) * sizeof_HidlString := by
      rw [Nat.add_mul, Nat.one_mul, Nat.add_assoc]
    have hrest := fun d => ih (i + 1) d (fun j h1 h2 => hs j (by omega) (by omega))
    rw [List.range'_succ]
    simp only [hidl_string_vec_write, hi, hidl_string_vec_fill_str, hoff]
    by_cases h0 : (strv.getD i ⟨0, []⟩).addr ≠ 0
    · rw [if_pos h0, List.filter_cons_of_pos (by simpa using h0), List.map_cons,
        write_buffer_objects_cons, hidl_string_vec_fill_len strv i h0, hrest]
    · rw [if_neg h0, List.filter_cons_of_neg (by simpa using h0), hrest]

theorem append_hidl_string_vec_eq (be : Bool) (io : GBinderIo) (MAX : Nat) (mem : Memory)
    (data : GBinderWriterData) (vec strings : Nat) (strv : List CString) (count : Int)
    (hstrings : strings ≠ 0) :
    gbinder_writer_data_append_hidl_string_vec be io MAX mem data vec strings strv count =
      (place vec
        (HidlVec.bytes be
          { ptr := if hidl_string_vec_count strv count > 0 then strings else 0
            count := hidl_string_vec_count strv count % 2 ^ 32
            owns_buffer := true })
        (if hidl_string_vec_count strv count > 0 then
          place strings
            (((List.range (hidl_string_vec_count strv count)).map
              (fun i => hidl_string_of (strv.getD i ⟨0, []⟩))).flatMap (HidlString.bytes be)) mem
         else mem),
       write_buffer_objects io MAX
         { data with
           offsets := some (data.offsets.getD [])
           cleanup :=
             if hidl_string_vec_count strv count > 0 then data.cleanup ++ [strings] ++ [vec]
             else data.cleanup ++ [vec] }
         (hidl_string_vec_objects vec strings strv (hidl_string_vec_count strv count)
           (data.offsets.getD []).length)) := by
  obtain ⟨hp, hi⟩ := prepare_eq data
  have hfill : hidl_string_vec_fill strv = fun i => hidl_string_of (strv.getD i ⟨0, []⟩) :=
    funext (hidl_string_vec_fill_eq strv)
  have hc : (if count < 0 then gutil_strv_length strv else count.toNat)
      = hidl_string_vec_count strv count := rfl
  by_cases h0 : hidl_string_vec_count strv count = 0
  · simp only [gbinder_writer_data_append_hidl_string_vec, hc, h0, hp, gt_iff_lt,
      Nat.lt_irrefl, if_false, ne_eq, not_true_eq_false, hidl_string_vec_objects, if_true,
      gbinder_cleanup_add, write_buffer_objects, List.foldl_cons, List.foldl_nil]
  · have hpos : 0 < hidl_string_vec_count strv count := Nat.pos_of_ne_zero h0
    have hidx : ((gbinder_writer_data_write_buffer_object io MAX
        { data with
          offsets := some (data.offsets.getD [])
          cleanup := data.cleanup ++ [strings] ++ [vec] }
        vec sizeof_HidlVec none).offsets.getD []).length = (data.offsets.getD []).length + 1 := by
      rw [(write_buffer_object_fields io MAX _ vec sizeof_HidlVec none).1]
      simp
    have hloop := hidl_string_vec_write_eq io MAX strv
      ((List.range (hidl_string_vec_count strv count)).map (hidl_string_vec_fill strv))
      ((data.offsets.getD []).length + 1) HIDL_STRING_BUFFER_OFFSET
      (hidl_string_vec_count strv count) 0
      (gbinder_writer_data_write_buffer_object io MAX
        (gbinder_writer_data_write_buffer_object io MAX
          { data with
            offsets := some (data.offsets.getD [])
            cleanup := data.cleanup ++ [strings] ++ [vec] }
          vec sizeof_HidlVec none)
        strings (sizeof_HidlString * hidl_string_vec_count strv count)
        (some ⟨(data.offsets.getD []).length, HIDL_VEC_BUFFER_OFFSET⟩))
      (fun j _ hj => getD_map_range _ _ _ _ (by omega))
    rw [← List.range_eq_range'] at hloop
    simp only [Nat.zero_mul, Nat.add_zero] at hloop
    simp only [gbinder_writer_data_append_hidl_string_vec, hc, hpos, hp, hi, gt_iff_lt, if_true,
      ne_eq, hstrings, not_false_eq_true, hidl_string_vec_objects, h0, if_false,
      gbinder_cleanup_add, hidx, hloop, write_buffer_objects_cons, hidl_string_vec_leaves]
    simp only [hfill, ne_eq]

theorem le_value_lt (l : List Octet) : le_value l < 256 ^ l.length := by
  induction l with
  | nil => simp [le_value]
  | cons b bs ih =>
    simp only [le_value, List.length_cons, pow_succ]
    have := b.isLt
    omega

/-! ## Reading back what the stub driver wrote -/

theorem place_outside (base : Nat) (bytes : List Octet) (rest : Memory) (a : Nat)
    (h : a < base ∨ base + bytes.length ≤ a) : place base bytes rest a = rest a := by
  unfold place
  rw [if_neg]
  omega

theorem octets_at_place_outside (base : Nat) (bytes : List Octet) (rest : Memory) (a n : Nat)
    (h : a + n ≤ base ∨ base + bytes.length ≤ a) :
    octets_at (place base bytes rest) a n = octets_at rest a n := by
  apply octets_at_congr
  intro i hi
  apply place_outside
  omega

theorem load_of_octets (be : Bool) (m : Memory) (a w x : Nat)
    (h : octets_at m a w = host_bytes be w x) (hx : x < 256 ^ w) : load be m a w = x := by
  unfold load
  rw [h, host_value_host_bytes, Nat.mod_eq_of_lt hx]

theorem octets_at_split3 (m : Memory) (a n1 n2 n3 : Nat) (l1 l2 l3 : List Octet)
    (h1 : l1.length = n1) (h2 : l2.length = n2)
    (h : octets_at m a (n1 + n2 + n3) = l1 ++ l2 ++ l3) :
    octets_at m a n1 = l1 ∧ octets_at m (a + n1) n2 = l2 ∧
      octets_at m (a + n1 + n2) n3 = l3 := by
  rw [octets_at_add, octets_at_add] at h
  have ha := List.append_inj h (by simp [octets_at_length, h1, h2])
  have hb := List.append_inj ha.1 (by simp [octets_at_length, h1])
  exact ⟨hb.1, hb.2, by rw [Nat.add_assoc]; exact ha.2⟩

theorem stub_decode_encoded (m : Memory) (buf : GBinderBuffer) (offset ptr size : Nat)
    (parent : Option GBinderParent) (hfit : offset + 40 ≤ buf.size)
    (hmem : octets_at m (buf.data + offset) 40 = stub_encode_buffer_object ptr size parent)
    (hptr : ptr < 2 ^ 64) (hsize : size < 2 ^ 32) :
    stub_decode_buffer_object m buf offset = (40, some { data := ptr, size := size }) := by
  unfold stub_encode_buffer_object at hmem
  rw [List.append_assoc (le_bytes 4 stub_tag ++ le_bytes 4 size ++ le_bytes 8 ptr),
    List.append_assoc (le_bytes 4 stub_tag ++ le_bytes 4 size ++ le_bytes 8 ptr)] at hmem
  have h1 := octets_at_split3 m (buf.data + offset) 16 0 24
    (le_bytes 4 stub_tag ++ le_bytes 4 size ++ le_bytes 8 ptr) [] _
    (by simp [le_bytes_length]) rfl (by simpa using hmem)
  obtain ⟨a1, a2, a3⟩ := octets_at_split3 m (buf.data + offset) 4 4 8 _ _ _
    (le_bytes_length 4 stub_tag) (le_bytes_length 4 size) h1.1
  have htag : load false m (buf.data + offset) 4 = stub_tag :=
    load_of_octets false m _ 4 stub_tag a1 (by decide)
  have hsz : load false m (buf.data + offset + 4) 4 = size :=
    load_of_octets false m _ 4 size a2 (by norm_num at hsize ⊢; omega)
  have hp : load false m (buf.data + offset + 8) 8 = ptr :=
    load_of_octets false m _ 8 ptr (by rw [Nat.add_assoc] at a3; exact a3)
      (by norm_num at hptr ⊢; omega)
  unfold stub_decode_buffer_object
  rw [if_pos ⟨hfit, htag⟩, hsz, hp]

theorem read_buffer_step (mem : Memory) (p : GBinderReaderPriv) (d : GBinderReaderData)
    (reg : GBinderObjectRegistry) (buf : GBinderBuffer) (a : Nat) (rest : List Nat) (e : Nat)
    (sub : GBinderBuffer)
    (hd : p.data = some d) (hr : d.reg = some reg) (hb : d.buffer = some buf)
    (ho : p.objects = some (a :: rest)) (ha : a ≠ 0) (hp : p.ptr = a)
    (hdec : reg.io.decode_buffer_object mem buf (p.ptr - buf.data) = (e, some sub))
    (he : e ≠ 0) :
    gbinder_reader_read_buffer mem p
      = (some sub, { p with ptr := p.ptr + e, objects := some rest }) := by
  have hc : (a :: rest).headD 0 ≠ 0 ∧ p.ptr = (a :: rest).headD 0 ∧
      (reg.io.decode_buffer_object mem buf (p.ptr - buf.data)).1 ≠ 0 := by
    rw [hdec]
    exact ⟨ha, hp, he⟩
  simp only [gbinder_reader_read_buffer]
  rw [read_buffer_impl_eq mem p true d reg buf (a :: rest) hd hr hb ho, if_pos hc, hdec]
  rfl

theorem HidlString_fields (be : Bool) (m : Memory) (s : Nat) (h : HidlString)
    (hm : octets_at m s sizeof_HidlString = HidlString.bytes be h)
    (hstr : h.str < 2 ^ 64) (hlen : h.len < 2 ^ 32) :
    HidlString_str be m s = h.str ∧ HidlString_len be m s = h.len := by
  unfold HidlString.bytes at hm
  obtain ⟨a1, a2, _⟩ := octets_at_split3 m s 8 4 4 _ _ _
    (host_bytes_length be 8 h.str) (host_bytes_length be 4 h.len) hm
  exact ⟨load_of_octets be m s 8 h.str a1 (by norm_num at hstr ⊢; omega),
    load_of_octets be m (s + 8) 4 h.len a2 (by norm_num at hlen ⊢; omega)⟩

theorem HidlVec_fields (be : Bool) (m : Memory) (s : Nat) (v : HidlVec)
    (hm : octets_at m s sizeof_HidlVec = HidlVec.bytes be v)
    (hptr : v.ptr < 2 ^ 64) (hcount : v.count < 2 ^ 32) :
    HidlVec_ptr be m s = v.ptr ∧ HidlVec_count be m s = v.count := by
  unfold HidlVec.bytes at hm
  obtain ⟨a1, a2, _⟩ := octets_at_split3 m s 8 4 4 _ _ _
    (host_bytes_length be 8 v.ptr) (host_bytes_length be 4 v.count) hm
  exact ⟨load_of_octets be m s 8 v.ptr a1 (by norm_num at hptr ⊢; omega),
    load_of_octets be m (s + 8) 4 v.count a2 (by norm_num at hcount ⊢; omega)⟩

theorem read_buffer_stub (M : Memory) (p : GBinderReaderPriv) (d : GBinderReaderData)
    (ra : Nat) (buf : GBinderBuffer) (a : Nat) (rest : List Nat) (ptr size : Nat)
    (parent : Option GBinderParent)
    (hd : p.data = some d) (hr : d.reg = some ⟨ra, stub_io⟩) (hb : d.buffer = some buf)
    (ho : p.objects = some (a :: rest)) (ha : a ≠ 0) (hp : p.ptr = a)
    (hin : buf.data ≤ a) (hfit : a - buf.data + 40 ≤ buf.size)
    (hmem : octets_at M a 40 = stub_encode_buffer_object ptr size parent)
    (hptr : ptr < 2 ^ 64) (hsize : size < 2 ^ 32) :
    gbinder_reader_read_buffer M p
      = (some { data := ptr, size := size },
         { p with ptr := a + 40, objects := some rest }) := by
  have hdec : stub_decode_buffer_object M buf (p.ptr - buf.data)
      = (40, some { data := ptr, size := size }) := by
    rw [hp]
    apply stub_decode_encoded M buf (a - buf.data) ptr size parent hfit _ hptr hsize
    rw [show buf.data + (a - buf.data) = a by omega]
    exact hmem
  rw [read_buffer_step M p d ⟨ra, stub_io⟩ buf a rest 40 _ hd hr hb ho ha hp hdec (by decide), hp]

theorem string_at_octets (M : Memory) (addr : Nat) (s : List Octet)
    (hnz : ∀ b ∈ s, b ≠ 0) (hM : octets_at M addr (s.length + 1) = s ++ [0]) :
    M (addr + s.length) = 0 ∧ string_at M addr (s.length + 1) = s := by
  rw [octets_at_add] at hM
  have h := List.append_inj hM (by simp [octets_at_length])
  have h0 : M (addr + s.length) = 0 := by
    have := h.2
    simp only [octets_at, show List.range 1 = [0] from rfl, List.map_cons, List.map_nil,
      Nat.add_zero, List.cons.injEq, and_true] at this
    exact this
  refine ⟨h0, ?_⟩
  rw [string_at_eq M s.length addr (s.length + 1) (by omega) _ h0, h.1]
  intro i hi
  have hmem : M (addr + i) = s[i] := by
    have hg : (octets_at M addr s.length).getD i 0 = s.getD i 0 := by rw [h.1]
    rw [List.getD_eq_getElem _ _ (by simpa [octets_at_length] using hi),
      List.getD_eq_getElem _ _ hi] at hg
    simpa [octets_at] using hg
  rw [hmem]
  exact hnz _ (List.getElem_mem _)

/-- The `HidlString` at `h` describes the string `s` at `addr`, and the buffer object of
the string matches it. -/
theorem hidl_string_matches_written (be : Bool) (M : Memory) (h addr : Nat) (s : List Octet)
    (owns : Bool) (hnz : ∀ b ∈ s, b ≠ 0)
    (hH : octets_at M h sizeof_HidlString = HidlString.bytes be ⟨addr, s.length, owns⟩)
    (hM : octets_at M addr (s.length + 1) = s ++ [0])
    (haddr : addr < 2 ^ 64) (hlen : s.length + 1 < 2 ^ 32) :
    hidl_string_matches be M { data := addr, size := s.length + 1 } h ∧
    g_strdup M (HidlString_str be M h) (HidlString_len be M h + 1) = s := by
  obtain ⟨f1, f2⟩ := HidlString_fields be M h ⟨addr, s.length, owns⟩ hH haddr
    (by show s.length < 2 ^ 32; omega)
  obtain ⟨g1, g2⟩ := string_at_octets M addr s hnz hM
  simp only at f1 f2
  refine ⟨⟨?_, ?_, ?_⟩, ?_⟩
  · rw [f2, Nat.mod_eq_of_lt hlen]
  · rw [f1]
  · rw [f1, f2, g1]
  · rw [f1, f2]
    exact g2

theorem toList_length (a : GByteArray) : a.toList.length = a.len := by
  simp [GByteArray.toList, octets_at_length]

theorem stub_encode_length (ptr size : Nat) (parent : Option GBinderParent) :
    (stub_encode_buffer_object ptr size parent).length = 40 := by
  simp [stub_encode_buffer_object, le_bytes_length]

/-- Two stub descriptors at the cursor, the first for a `HidlString` block that describes
the string of the second: the HIDL string read returns the string and consumes both. -/
theorem read_hidl_string_stub (be : Bool) (M : Memory) (p : GBinderReaderPriv)
    (d : GBinderReaderData) (ra : Nat) (buf : GBinderBuffer) (a : Nat) (rest : List Nat)
    (block addr : Nat) (s : List Octet) (owns : Bool) (q1 q2 : Option GBinderParent)
    (hd : p.data = some d) (hr : d.reg = some ⟨ra, stub_io⟩) (hb : d.buffer = some buf)
    (ho : p.objects = some (a :: (a + 40) :: rest)) (ha : a ≠ 0) (hp : p.ptr = a)
    (hin : buf.data ≤ a) (hfit : a - buf.data + 80 ≤ buf.size)
    (h1 : octets_at M a 40 = stub_encode_buffer_object block sizeof_HidlString q1)
    (h2 : octets_at M (a + 40) 40 = stub_encode_buffer_object addr (s.length + 1) q2)
    (hH : octets_at M block sizeof_HidlString = HidlString.bytes be ⟨addr, s.length, owns⟩)
    (hM : octets_at M addr (s.length + 1) = s ++ [0])
    (hnz : ∀ b ∈ s, b ≠ 0) (hblock : block < 2 ^ 64) (haddr : addr < 2 ^ 64)
    (hlen : s.length + 1 < 2 ^ 32) :
    gbinder_reader_read_hidl_string be M p
      = (some s, { p with ptr := a + 80, objects := some rest }) := by
  have r1 := read_buffer_stub M p d ra buf a ((a + 40) :: rest) block sizeof_HidlString q1
    hd hr hb ho ha hp hin (by omega) h1 hblock (by decide)
  have r2 := read_buffer_stub M { p with ptr := a + 40, objects := some ((a + 40) :: rest) }
    d ra buf (a + 40) rest addr (s.length + 1) q2 hd hr hb rfl (by omega) rfl (by omega)
    (by omega) h2 haddr hlen
  obtain ⟨m1, m2⟩ := hidl_string_matches_written be M block addr s owns hnz hH hM haddr hlen
  simp only [gbinder_reader_read_hidl_string, r1, r2, if_true, m1, m2]

theorem hidl_string_roundtrip (be : Bool) (mem : Memory) (junk : Nat → Octet)
    (block base : Nat) (str : CString) (w : Memory × GBinderWriterData)
    (hw : w = gbinder_writer_data_append_hidl_string be stub_io 40 mem
      (GBinderWriterData.empty junk) block str)
    (hnull : str.addr ≠ 0) (hnz : ∀ b ∈ str.octets, b ≠ 0)
    (hlen : str.octets.length + 1 < 2 ^ 32)
    (hstr : octets_at mem str.addr (str.octets.length + 1) = str.octets ++ [0])
    (haddr : str.addr < 2 ^ 64) (hblock : block < 2 ^ 64) (hbase : base ≠ 0)
    (hd1 : block + 16 ≤ str.addr ∨ str.addr + (str.octets.length + 1) ≤ block)
    (hd2 : base + 80 ≤ block ∨ block + 16 ≤ base)
    (hd3 : base + 80 ≤ str.addr ∨ str.addr + (str.octets.length + 1) ≤ base) :
    w.2.bytes.len = 80 ∧ w.2.offsets = some [0, 40] ∧ w.2.bytes.overflow = false ∧
    gbinder_reader_read_hidl_string be (place base w.2.bytes.toList w.1) (parcel_reader base w.2)
      = (some str.octets,
         { parcel_reader base w.2 with ptr := base + 80, objects := some [] }) := by
  have hsl := strlen_eq_length str.octets hnz
  rw [append_hidl_string_eq] at hw
  simp only [hidl_string_objects, hnull, if_false, ne_eq, not_false_eq_true, if_true, hsl,
    Nat.mod_eq_of_lt (show str.octets.length < 2 ^ 32 by omega)] at hw
  obtain ⟨e1, e2, e3, _, _⟩ := write_buffer_objects_effect stub_io 40 stub_io_max
    [⟨block, sizeof_HidlString, none⟩,
     ⟨str.addr, str.octets.length + 1,
      some ⟨((GBinderWriterData.empty junk).offsets.getD []).length,
        HIDL_STRING_BUFFER_OFFSET⟩⟩]
    { GBinderWriterData.empty junk with
      offsets := some ((GBinderWriterData.empty junk).offsets.getD [])
      cleanup := (GBinderWriterData.empty junk).cleanup ++ [block] }
  have hB : w.2.bytes.toList
      = stub_encode_buffer_object block sizeof_HidlString none
        ++ stub_encode_buffer_object str.addr (str.octets.length + 1)
            (some ⟨0, HIDL_STRING_BUFFER_OFFSET⟩) := by
    rw [hw]
    simp only
    rw [e1]
    simp [GBinderWriterData.empty, GByteArray.toList, octets_at, stub_io]
  have hO : w.2.offsets.getD [] = [0, 40] := by
    rw [hw]
    simp only
    rw [e3]
    simp [GBinderWriterData.empty, buffer_object_offsets, stub_io, stub_encode_length]
  have hL : w.2.bytes.len = 80 := by
    rw [← toList_length, hB]
    simp [stub_encode_length]
  have hOs : w.2.offsets = some [0, 40] := by
    cases hoff : w.2.offsets with
    | none => rw [hoff] at hO; simp at hO
    | some l => rw [hoff] at hO; simpa using hO
  have hV : w.2.bytes.overflow = false := by
    rw [hw]
    simp only
    rw [e2]
    rfl
  have hM1 : w.1 = place block
      (HidlString.bytes be ⟨str.addr, str.octets.length, true⟩) mem := by
    rw [hw]
  refine ⟨hL, hOs, hV, ?_⟩
  have hHl := HidlString_bytes_length be ⟨str.addr, str.octets.length, true⟩
  have hsz : sizeof_HidlString = 16 := rfl
  have hp0 : parcel_reader base w.2 =
      { start := base, end_ := base + 80, ptr := base,
        data := some { buffer := some { data := base, size := 80 },
                       reg := some { addr := 0x1000, io := stub_io },
                       objects := some [base, base + 40] },
        objects := some [base, base + 40] } := by
    simp only [parcel_reader, stub_reader, gbinder_reader_init, hO, hL, List.map_cons,
      List.map_nil, Nat.add_zero]
  rw [hp0, hB, hM1]
  have k1 := octets_at_place_mid base []
    (stub_encode_buffer_object block sizeof_HidlString none)
    (stub_encode_buffer_object str.addr (str.octets.length + 1)
      (some ⟨0, HIDL_STRING_BUFFER_OFFSET⟩))
    (place block (HidlString.bytes be ⟨str.addr, str.octets.length, true⟩) mem)
  have k2 := octets_at_place_mid base
    (stub_encode_buffer_object block sizeof_HidlString none)
    (stub_encode_buffer_object str.addr (str.octets.length + 1)
      (some ⟨0, HIDL_STRING_BUFFER_OFFSET⟩)) []
    (place block (HidlString.bytes be ⟨str.addr, str.octets.length, true⟩) mem)
  simp only [List.nil_append, List.length_nil, Nat.add_zero, List.append_nil,
    stub_encode_length] at k1 k2
  have k3 : octets_at
      (place base
        (stub_encode_buffer_object block sizeof_HidlString none
          ++ stub_encode_buffer_object str.addr (str.octets.length + 1)
              (some ⟨0, HIDL_STRING_BUFFER_OFFSET⟩))
        (place block (HidlString.bytes be ⟨str.addr, str.octets.length, true⟩) mem))
      block sizeof_HidlString
      = HidlString.bytes be ⟨str.addr, str.octets.length, true⟩ := by
    rw [octets_at_place_outside _ _ _ _ _
      (by simp only [List.length_append, stub_encode_length, hsz]; omega)]
    have := octets_at_place block
      (HidlString.bytes be ⟨str.addr, str.octets.length, true⟩) mem
    rwa [hHl] at this
  have k4 : octets_at
      (place base
        (stub_encode_buffer_object block sizeof_HidlString none
          ++ stub_encode_buffer_object str.addr (str.octets.length + 1)
              (some ⟨0, HIDL_STRING_BUFFER_OFFSET⟩))
        (place block (HidlString.bytes be ⟨str.addr, str.octets.length, true⟩) mem))
      str.addr (str.octets.length + 1) = str.octets ++ [0] := by
    rw [octets_at_place_outside _ _ _ _ _
      (by simp only [List.length_append, stub_encode_length]; omega),
      octets_at_place_outside _ _ _ _ _ (by rw [hHl, hsz]; omega)]
    exact hstr
  exact read_hidl_string_stub be _ _ _ 0x1000 ⟨base, 80⟩ base [] block str.addr str.octets
    true none (some ⟨0, HIDL_STRING_BUFFER_OFFSET⟩) rfl rfl rfl rfl hbase rfl
    (Nat.le_refl _) (by simp) k1 k2 k3 k4 hnz hblock haddr hlen

theorem flatMap_length_const {α : Type} (f : α → List Octet) (c : Nat)
    (hf : ∀ x, (f x).length = c) (l : List α) : (l.flatMap f).length = c * l.length := by
  induction l with
  | nil => simp
  | cons x xs ih =>
    rw [List.flatMap_cons, List.length_append, ih, hf, List.length_cons, Nat.mul_succ,
      Nat.add_comm]

/-- The `j`-th of the equally long records laid out one after the other. -/
theorem octets_at_place_flatMap {α : Type} (base : Nat) (A C : List Octet) (l : List α)
    (f : α → List Octet) (c : Nat) (hf : ∀ x, (f x).length = c) (rest : Memory) (j : Nat)
    (hj : j < l.length) :
    octets_at (place base (A ++ (l.flatMap f ++ C)) rest) (base + (A.length + c * j)) c
      = f l[j] := by
  have hsplit : l = l.take j ++ (l[j] :: l.drop (j + 1)) := by
    rw [← List.drop_eq_getElem_cons hj, List.take_append_drop]
  have hlen : (l.take j).length = j := by
    rw [List.length_take]
    omega
  have h := octets_at_place_mid base (A ++ (l.take j).flatMap f) (f l[j])
    ((l.drop (j + 1)).flatMap f ++ C) rest
  rw [List.length_append, flatMap_length_const f c hf, hlen, hf] at h
  have hl : A ++ (l.flatMap f ++ C)
      = (A ++ (l.take j).flatMap f) ++ (f l[j] ++ ((l.drop (j + 1)).flatMap f ++ C)) := by
    conv_lhs => rw [hsplit]
    simp only [List.flatMap_append, List.flatMap_cons, List.append_assoc]
  rw [hl]
  exact h

/-- The loop of the vector read over the stub descriptors of the strings `strs`, whose
`HidlString` records stand in the array at `strings`. -/
theorem hidl_string_vec_loop_stub (be : Bool) (M : Memory) (d : GBinderReaderData) (ra : Nat)
    (buf : GBinderBuffer) (strings a0 : Nat) (strs : List CString) (rest : List Nat)
    (hr : d.reg = some ⟨ra, stub_io⟩) (hb : d.buffer = some buf)
    (ha0 : a0 ≠ 0) (hin : buf.data ≤ a0) (hfit : a0 - buf.data + 40 * strs.length ≤ buf.size)
    (H : ∀ j (hj : j < strs.length),
      (∃ q, octets_at M (a0 + 40 * j) 40
        = stub_encode_buffer_object strs[j].addr (strs[j].octets.length + 1) q) ∧
      octets_at M (strings + sizeof_HidlString * j) sizeof_HidlString
        = HidlString.bytes be ⟨strs[j].addr, strs[j].octets.length, true⟩ ∧
      octets_at M strs[j].addr (strs[j].octets.length + 1) = strs[j].octets ++ [0] ∧
      (∀ b ∈ strs[j].octets, b ≠ 0) ∧ strs[j].addr < 2 ^ 64 ∧
      strs[j].octets.length + 1 < 2 ^ 32) :
    ∀ (k i : Nat), i + k = strs.length → ∀ (p : GBinderReaderPriv), p.data = some d →
      p.ptr = a0 + 40 * i →
      p.objects = some ((List.range' i k).map (fun j => a0 + 40 * j) ++ rest) →
      hidl_string_vec_loop be M strings k i p
        = (some ((List.range' i k).map (fun j => (strs.getD j ⟨0, []⟩).octets)),
           { p with ptr := a0 + 40 * (i + k), objects := some rest }) := by
  intro k
  induction k with
  | zero =>
    intro i _ p _ hp ho
    obtain ⟨st, en, ptr, dat, objs⟩ := p
    simp only at hp ho
    subst hp
    simp only [List.range'_zero, List.map_nil, List.nil_append] at ho
    subst ho
    simp only [hidl_string_vec_loop, List.range'_zero, List.map_nil, Nat.add_zero]
  | succ k ih =>
    intro i hik p hd hp ho
    have hj : i < strs.length := by omega
    obtain ⟨⟨q, h1⟩, h2, h3, h4, h5, h6⟩ := H i hj
    rw [List.range'_succ, List.map_cons, List.cons_append] at ho
    have r1 := read_buffer_stub M p d ra buf (a0 + 40 * i)
      ((List.range' (i + 1) k).map (fun j => a0 + 40 * j) ++ rest) strs[i].addr
      (strs[i].octets.length + 1) q hd hr hb ho (by omega) hp (by omega) (by omega) h1 h5 h6
    obtain ⟨m1, m2⟩ := hidl_string_matches_written be M (strings + sizeof_HidlString * i)
      strs[i].addr strs[i].octets true h4 h2 h3 h5 h6
    have hrec := ih (i + 1) (by omega)
      { p with
        ptr := a0 + 40 * i + 40
        objects := some ((List.range' (i + 1) k).map (fun j => a0 + 40 * j) ++ rest) }
      hd (by show a0 + 40 * i + 40 = a0 + 40 * (i + 1); omega) rfl
    have hget : strs.getD i ⟨0, []⟩ = strs[i] := List.getD_eq_getElem _ _ hj
    simp only [hidl_string_vec_loop, r1, m1, if_true, hrec, m2, Option.map_some',
      List.range'_succ, List.map_cons, hget]
    rw [show i + 1 + k = i + (k + 1) by omega]

theorem map_range'_getD (strs : List CString) :
    (List.range' 0 strs.length).map (fun j => (strs.getD j ⟨0, []⟩).octets)
      = strs.map (fun str => str.octets) := by
  apply List.ext_getElem
  · simp
  · intro i h1 h2
    have hi : i < strs.length := by simpa using h2
    simp [List.getD_eq_getElem, hi]

theorem read_hidl_string_vec_stub_empty (be : Bool) (M : Memory) (p : GBinderReaderPriv)
    (d : GBinderReaderData) (ra : Nat) (buf : GBinderBuffer) (a : Nat) (rest : List Nat)
    (vec : Nat) (q1 : Option GBinderParent)
    (hd : p.data = some d) (hr : d.reg = some ⟨ra, stub_io⟩) (hb : d.buffer = some buf)
    (ho : p.objects = some (a :: rest)) (ha : a ≠ 0) (hp : p.ptr = a)
    (hin : buf.data ≤ a) (hfit : a - buf.data + 40 ≤ buf.size)
    (h1 : octets_at M a 40 = stub_encode_buffer_object vec sizeof_HidlVec q1)
    (hV : octets_at M vec sizeof_HidlVec = HidlVec.bytes be ⟨0, 0, true⟩)
    (hvec : vec < 2 ^ 64) :
    gbinder_reader_read_hidl_string_vec be M p
      = (some [], { p with ptr := a + 40, objects := some rest }) := by
  have r1 := read_buffer_stub M p d ra buf a rest vec sizeof_HidlVec q1
    hd hr hb ho ha hp hin hfit h1 hvec (by decide)
  obtain ⟨f1, f2⟩ := HidlVec_fields be M vec ⟨0, 0, true⟩ hV (by norm_num) (by norm_num)
  simp only at f1 f2
  simp only [gbinder_reader_read_hidl_string_vec, r1, if_true, f1, f2, and_self]

theorem read_hidl_string_vec_stub (be : Bool) (M : Memory) (p : GBinderReaderPriv)
    (d : GBinderReaderData) (ra : Nat) (buf : GBinderBuffer) (a : Nat) (rest : List Nat)
    (vec strings : Nat) (strs : List CString) (q1 q2 : Option GBinderParent)
    (hd : p.data = some d) (hr : d.reg = some ⟨ra, stub_io⟩) (hb : d.buffer = some buf)
    (ho : p.objects = some (a :: (a + 40) ::
      ((List.range' 0 strs.length).map (fun j => a + 80 + 40 * j) ++ rest)))
    (ha : a ≠ 0) (hp : p.ptr = a) (hin : buf.data ≤ a)
    (hfit : a - buf.data + 40 * (strs.length + 2) ≤ buf.size)
    (h1 : octets_at M a 40 = stub_encode_buffer_object vec sizeof_HidlVec q1)
    (h2 : octets_at M (a + 40) 40
      = stub_encode_buffer_object strings (sizeof_HidlString * strs.length) q2)
    (hV : octets_at M vec sizeof_HidlVec = HidlVec.bytes be ⟨strings, strs.length, true⟩)
    (hvec : vec < 2 ^ 64) (hstrings : strings ≠ 0) (hsaddr : strings < 2 ^ 64)
    (hcount : sizeof_HidlString * strs.length < 2 ^ 32)
    (H : ∀ j (hj : j < strs.length),
      (∃ q, octets_at M (a + 80 + 40 * j) 40
        = stub_encode_buffer_object strs[j].addr (strs[j].octets.length + 1) q) ∧
      octets_at M (strings + sizeof_HidlString * j) sizeof_HidlString
        = HidlString.bytes be ⟨strs[j].addr, strs[j].octets.length, true⟩ ∧
      octets_at M strs[j].addr (strs[j].octets.length + 1) = strs[j].octets ++ [0] ∧
      (∀ b ∈ strs[j].octets, b ≠ 0) ∧ strs[j].addr < 2 ^ 64 ∧
      strs[j].octets.length + 1 < 2 ^ 32) :
    gbinder_reader_read_hidl_string_vec be M p
      = (some (strs.map (fun str => str.octets)),
         { p with ptr := a + 40 * (strs.length + 2), objects := some rest }) := by
  have hsz : sizeof_HidlString = 16 := rfl
  have r1 := read_buffer_stub M p d ra buf a
    ((a + 40) :: ((List.range' 0 strs.length).map (fun j => a + 80 + 40 * j) ++ rest))
    vec sizeof_HidlVec q1 hd hr hb ho ha hp hin (by omega) h1 hvec (by decide)
  have r2 := read_buffer_stub M
    { p with
      ptr := a + 40
      objects := some ((a + 40) ::
        ((List.range' 0 strs.length).map (fun j => a + 80 + 40 * j) ++ rest)) }
    d ra buf (a + 40) ((List.range' 0 strs.length).map (fun j => a + 80 + 40 * j) ++ rest)
    strings (sizeof_HidlString * strs.length) q2 hd hr hb rfl (by omega) rfl (by omega)
    (by omega) h2 hsaddr hcount
  have hcount16 : 16 * strs.length < 2 ^ 32 := hcount
  obtain ⟨f1, f2⟩ := HidlVec_fields be M vec ⟨strings, strs.length, true⟩ hV hsaddr
    (by show strs.length < 2 ^ 32; omega)
  simp only at f1 f2
  have hloop := hidl_string_vec_loop_stub be M d ra buf strings (a + 80) strs rest hr hb
    (by omega) (by omega) (by omega) H strs.length 0 (by omega)
    { p with
      ptr := a + 40 + 40
      objects := some ((List.range' 0 strs.length).map (fun j => a + 80 + 40 * j) ++ rest) }
    hd (by show a + 40 + 40 = a + 80 + 40 * 0; omega) rfl
  have hne : ¬ (strings = 0 ∧ strs.length = 0) := fun h => hstrings h.1
  simp only [gbinder_reader_read_hidl_string_vec, r1, r2, if_true, f1, f2, hne, if_false,
    and_self, hloop, map_range'_getD, Nat.zero_add]
  congr 2
  omega

theorem hidl_string_vec_count_length (strs : List CString) :
    hidl_string_vec_count strs (strs.length : Int) = strs.length := by
  unfold hidl_string_vec_count
  rw [if_neg (by omega), Int.toNat_natCast]

theorem hidl_string_vec_leaves_all (strs : List CString) (h : ∀ str ∈ strs, str.addr ≠ 0) :
    hidl_string_vec_leaves strs strs.length = List.range strs.length := by
  unfold hidl_string_vec_leaves
  rw [List.filter_eq_self]
  intro i hi
  have hi2 : i < strs.length := List.mem_range.mp hi
  rw [List.getD_eq_getElem _ _ hi2]
  simpa using h _ (List.getElem_mem hi2)

theorem buffer_object_offsets_stub :
    ∀ (objs : List BufferObject) (start : Nat),
      buffer_object_offsets stub_io start objs
        = (List.range' 0 objs.length).map (fun j => start + 40 * j) := by
  intro objs
  induction objs with
  | nil => intro start; rfl
  | cons o rest ih =>
    intro start
    have hl : (stub_io.encode_buffer_object o.ptr o.size o.parent).length = 40 :=
      stub_encode_length _ _ _
    simp only [buffer_object_offsets, hl, ih, List.length_cons, List.range'_succ,
      List.map_cons, Nat.mul_zero, Nat.add_zero, List.cons.injEq, true_and]
    apply List.ext_getElem
    · simp
    · intro i h1 h2
      simp only [List.getElem_map, List.getElem_range']
      omega

theorem hidl_string_of_in_memory (mem : Memory) (str : CString) (h : str.in_memory mem) :
    hidl_string_of str = ⟨str.addr, str.octets.length, true⟩ ∧
    hidl_string_vec_leaf_size str = str.octets.length + 1 := by
  obtain ⟨h1, _, h3, h4, _⟩ := h
  have hsl := strlen_eq_length str.octets h3
  unfold hidl_string_of hidl_string_vec_leaf_size
  rw [if_pos h1, hsl, Nat.mod_eq_of_lt (by omega), Nat.mod_eq_of_lt h4]
  exact ⟨rfl, rfl⟩

/-- The memory the reader of a vector parcel sees: the parcel at `base` (two descriptors
and one per element), the vector block and the array block. -/
theorem vec_memory_layout {α β : Type} (base vec strings : Nat) (ev es VB : List Octet)
    (l : List α) (F : α → List Octet) (descs : List β) (G : β → List Octet) (mem : Memory)
    (hev : ev.length = 40) (hes : es.length = 40) (hF : ∀ x, (F x).length = 40)
    (hG : ∀ x, (G x).length = 16) (hVB : VB.length = 16)
    (hvs : apart vec 16 strings (16 * descs.length))
    (hpv : apart base (40 * (l.length + 2)) vec 16)
    (hps : apart base (40 * (l.length + 2)) strings (16 * descs.length)) :
    octets_at (place base (ev ++ (es ++ (l.flatMap F ++ [])))
        (place vec VB (place strings (descs.flatMap G) mem))) base 40 = ev ∧
    octets_at (place base (ev ++ (es ++ (l.flatMap F ++ [])))
        (place vec VB (place strings (descs.flatMap G) mem))) (base + 40) 40 = es ∧
    (∀ j (hj : j < l.length),
      octets_at (place base (ev ++ (es ++ (l.flatMap F ++ [])))
        (place vec VB (place strings (descs.flatMap G) mem))) (base + 80 + 40 * j) 40
        = F l[j]) ∧
    octets_at (place base (ev ++ (es ++ (l.flatMap F ++ [])))
        (place vec VB (place strings (descs.flatMap G) mem))) vec 16 = VB ∧
    (∀ j (hj : j < descs.length),
      octets_at (place base (ev ++ (es ++ (l.flatMap F ++ [])))
        (place vec VB (place strings (descs.flatMap G) mem))) (strings + 16 * j) 16
        = G descs[j]) ∧
    (∀ a n, apart a n base (40 * (l.length + 2)) → apart a n vec 16 →
      apart a n strings (16 * descs.length) →
      octets_at (place base (ev ++ (es ++ (l.flatMap F ++ [])))
        (place vec VB (place strings (descs.flatMap G) mem))) a n = octets_at mem a n) := by
  have hBl : (ev ++ (es ++ (l.flatMap F ++ []))).length = 40 * (l.length + 2) := by
    simp only [List.length_append, hev, hes, flatMap_length_const F 40 hF, List.length_nil]
    omega
  have hSl : (descs.flatMap G).length = 16 * descs.length := flatMap_length_const G 16 hG descs
  unfold apart at hvs hpv hps
  refine ⟨?_, ?_, ?_, ?_, ?_, ?_⟩
  · have h := octets_at_place_mid base [] ev (es ++ (l.flatMap F ++ []))
      (place vec VB (place strings (descs.flatMap G) mem))
    simpa [hev] using h
  · have h := octets_at_place_mid base ev es (l.flatMap F ++ [])
      (place vec VB (place strings (descs.flatMap G) mem))
    rw [hev, hes] at h
    exact h
  · intro j hj
    have h := octets_at_place_flatMap base (ev ++ es) [] l F 40 hF
      (place vec VB (place strings (descs.flatMap G) mem)) j hj
    rw [List.length_append, hev, hes, List.append_assoc] at h
    rw [show base + 80 + 40 * j = base + (40 + 40 + 40 * j) by omega]
    exact h
  · rw [octets_at_place_outside _ _ _ _ _ (by rw [hBl]; omega)]
    have h := octets_at_place vec VB (place strings (descs.flatMap G) mem)
    rwa [hVB] at h
  · intro j hj
    rw [octets_at_place_outside _ _ _ _ _ (by rw [hBl]; omega),
      octets_at_place_outside _ _ _ _ _ (by rw [hVB]; omega)]
    have h := octets_at_place_flatMap strings [] [] descs G 16 hG mem j hj
    simpa using h
  · intro a n h1 h2 h3
    unfold apart at h1 h2 h3
    rw [octets_at_place_outside _ _ _ _ _ (by rw [hBl]; omega),
      octets_at_place_outside _ _ _ _ _ (by rw [hVB]; omega),
      octets_at_place_outside _ _ _ _ _ (by rw [hSl]; omega)]

/-- What `gbinder_writer_data_append_hidl_string_vec` leaves for a non-empty array of
strings that stand in memory, with the stub driver on an empty parcel. -/
theorem hidl_string_vec_written (be : Bool) (mem : Memory) (junk : Nat → Octet)
    (vec strings : Nat) (strs : List CString) (hstrings : strings ≠ 0)
    (hpos : 0 < strs.length) (hn : sizeof_HidlString * strs.length < 2 ^ 32)
    (hs : ∀ str ∈ strs, str.in_memory mem) :
    (gbinder_writer_data_append_hidl_string_vec be stub_io 40 mem
        (GBinderWriterData.empty junk) vec strings strs (strs.length : Int)).1
      = place vec (HidlVec.bytes be ⟨strings, strs.length, true⟩)
          (place strings
            (((List.range strs.length).map
              (fun i => hidl_string_of (strs.getD i ⟨0, []⟩))).flatMap (HidlString.bytes be))
            mem) ∧
    (gbinder_writer_data_append_hidl_string_vec be stub_io 40 mem
        (GBinderWriterData.empty junk) vec strings strs (strs.length : Int)).2.bytes.toList
      = stub_encode_buffer_object vec sizeof_HidlVec none ++
          (stub_encode_buffer_object strings (sizeof_HidlString * strs.length)
              (some ⟨0, HIDL_VEC_BUFFER_OFFSET⟩) ++
            ((List.range strs.length).flatMap (fun i =>
              stub_encode_buffer_object (strs.getD i ⟨0, []⟩).addr
                (hidl_string_vec_leaf_size (strs.getD i ⟨0, []⟩))
                (some ⟨0 + 1, HIDL_STRING_BUFFER_OFFSET + i * sizeof_HidlString⟩)) ++ [])) ∧
    (gbinder_writer_data_append_hidl_string_vec be stub_io 40 mem
        (GBinderWriterData.empty junk) vec strings strs (strs.length : Int)).2.offsets.getD []
      = (List.range' 0 (strs.length + 2)).map (fun j => 0 + 40 * j) ∧
    (gbinder_writer_data_append_hidl_string_vec be stub_io 40 mem
        (GBinderWriterData.empty junk) vec strings strs (strs.length : Int)).2.bytes.overflow
      = false := by
  have hne : strs.length ≠ 0 := by omega
  have hall : ∀ str ∈ strs, str.addr ≠ 0 := fun str h => (hs str h).1
  have hn16 : 16 * strs.length < 2 ^ 32 := hn
  have hmod : strs.length % 2 ^ 32 = strs.length := Nat.mod_eq_of_lt (by omega)
  rw [append_hidl_string_vec_eq be stub_io 40 mem _ vec strings strs _ hstrings,
    hidl_string_vec_count_length]
  obtain ⟨e1, e2, e3, _, _⟩ := write_buffer_objects_effect stub_io 40 stub_io_max
    (hidl_string_vec_objects vec strings strs strs.length
      ((GBinderWriterData.empty junk).offsets.getD []).length)
    { GBinderWriterData.empty junk with
      offsets := some ((GBinderWriterData.empty junk).offsets.getD [])
      cleanup :=
        if strs.length > 0 then (GBinderWriterData.empty junk).cleanup ++ [strings] ++ [vec]
        else (GBinderWriterData.empty junk).cleanup ++ [vec] }
  have hobjs : hidl_string_vec_objects vec strings strs strs.length
      ((GBinderWriterData.empty junk).offsets.getD []).length
      = ⟨vec, sizeof_HidlVec, none⟩ ::
        ⟨strings, sizeof_HidlString * strs.length, some ⟨0, HIDL_VEC_BUFFER_OFFSET⟩⟩ ::
        (List.range strs.length).map (fun i =>
          ⟨(strs.getD i ⟨0, []⟩).addr, hidl_string_vec_leaf_size (strs.getD i ⟨0, []⟩),
           some ⟨0 + 1, HIDL_STRING_BUFFER_OFFSET + i * sizeof_HidlString⟩⟩) := by
    simp only [hidl_string_vec_objects, hne, if_false, hidl_string_vec_leaves_all strs hall]
    rfl
  refine ⟨?_, ?_, ?_, ?_⟩
  · simp only [gt_iff_lt, hpos, if_true, hmod]
  · simp only
    rw [e1, hobjs]
    simp only [List.flatMap_cons, List.flatMap_map, List.append_nil]
    simp [GBinderWriterData.empty, GByteArray.toList, octets_at, stub_io]
  · simp only
    rw [e3, hobjs, buffer_object_offsets_stub]
    simp [GBinderWriterData.empty]
  · simp only
    rw [e2]
    rfl

theorem stub_positions (base n : Nat) :
    ((List.range' 0 (n + 2)).map (fun j => 0 + 40 * j)).map (fun o => base + o)
      = base :: (base + 40) :: ((List.range' 0 n).map (fun j => base + 80 + 40 * j) ++ []) := by
  rw [List.range'_succ, List.range'_succ, List.append_nil]
  simp only [List.map_cons, List.map_map, Nat.mul_zero, Nat.add_zero, Nat.zero_add,
    Nat.mul_one, List.cons.injEq, true_and]
  rw [List.range'_eq_map_range, List.range'_eq_map_range, List.map_map, List.map_map]
  apply List.map_congr_left
  intro j _
  simp only [Function.comp]
  omega

theorem hidl_string_vec_roundtrip (be : Bool) (mem : Memory) (junk : Nat → Octet)
    (vec strings base : Nat) (strs : List CString) (w : Memory × GBinderWriterData)
    (hw : w = gbinder_writer_data_append_hidl_string_vec be stub_io 40 mem
      (GBinderWriterData.empty junk) vec strings strs (strs.length : Int))
    (hstrings : strings ≠ 0) (hsaddr : strings < 2 ^ 64) (hvec : vec < 2 ^ 64)
    (hbase : base ≠ 0) (hn : sizeof_HidlString * strs.length < 2 ^ 32)
    (hs : ∀ str ∈ strs, str.in_memory mem ∧
      apart str.addr (str.octets.length + 1) base (40 * (strs.length + 2)) ∧
      apart str.addr (str.octets.length + 1) vec 16 ∧
      apart str.addr (str.octets.length + 1) strings (16 * strs.length))
    (hvs : apart vec 16 strings (16 * strs.length))
    (hpv : apart base (40 * (strs.length + 2)) vec 16)
    (hps : apart base (40 * (strs.length + 2)) strings (16 * strs.length)) :
    w.2.bytes.len = (if strs.length = 0 then 40 else 40 * (strs.length + 2)) ∧
    (w.2.offsets.getD []).length = (if strs.length = 0 then 1 else strs.length + 2) ∧
    w.2.bytes.overflow = false ∧
    gbinder_reader_read_hidl_string_vec be (place base w.2.bytes.toList w.1)
        (parcel_reader base w.2)
      = (some (strs.map (fun str => str.octets)),
         { parcel_reader base w.2 with ptr := base + w.2.bytes.len, objects := some [] }) := by
  by_cases h0 : strs.length = 0
  · have hnil : strs = [] := List.length_eq_zero.mp h0
    subst hnil
    have hcount : hidl_string_vec_count [] ((([] : List CString).length : Nat) : Int) = 0 :=
      hidl_string_vec_count_length []
    rw [append_hidl_string_vec_eq be stub_io 40 mem _ vec strings [] _ hstrings, hcount] at hw
    simp only [gt_iff_lt, Nat.lt_irrefl, if_false, hidl_string_vec_objects, if_true,
      Nat.zero_mod] at hw
    obtain ⟨e1, e2, e3, _, _⟩ := write_buffer_objects_effect stub_io 40 stub_io_max
      [⟨vec, sizeof_HidlVec, none⟩]
      { GBinderWriterData.empty junk with
        offsets := some ((GBinderWriterData.empty junk).offsets.getD [])
        cleanup := (GBinderWriterData.empty junk).cleanup ++ [vec] }
    have hB : w.2.bytes.toList = stub_encode_buffer_object vec sizeof_HidlVec none := by
      rw [hw]
      simp only
      rw [e1]
      simp [GBinderWriterData.empty, GByteArray.toList, octets_at, stub_io]
    have hO : w.2.offsets.getD [] = [0] := by
      rw [hw]
      simp only
      rw [e3]
      simp [GBinderWriterData.empty, buffer_object_offsets]
    have hL : w.2.bytes.len = 40 := by
      rw [← toList_length, hB, stub_encode_length]
    have hV : w.2.bytes.overflow = false := by
      rw [hw]
      simp only
      rw [e2]
      rfl
    have hM1 : w.1 = place vec (HidlVec.bytes be ⟨0, 0, true⟩) mem := by
      rw [hw]
    refine ⟨by rw [hL]; rfl, by rw [hO]; rfl, hV, ?_⟩
    have hp0 : parcel_reader base w.2 =
        { start := base, end_ := base + 40, ptr := base,
          data := some { buffer := some { data := base, size := 40 },
                         reg := some { addr := 0x1000, io := stub_io },
                         objects := some [base] },
          objects := some [base] } := by
      simp only [parcel_reader, stub_reader, gbinder_reader_init, hO, hL, List.map_cons,
        List.map_nil, Nat.add_zero]
    rw [hp0, hB, hM1, hL]
    unfold apart at hpv
    have k1 := octets_at_place base (stub_encode_buffer_object vec sizeof_HidlVec none)
      (place vec (HidlVec.bytes be ⟨0, 0, true⟩) mem)
    rw [stub_encode_length] at k1
    have k2 : octets_at
        (place base (stub_encode_buffer_object vec sizeof_HidlVec none)
          (place vec (HidlVec.bytes be ⟨0, 0, true⟩) mem)) vec sizeof_HidlVec
        = HidlVec.bytes be ⟨0, 0, true⟩ := by
      rw [octets_at_place_outside _ _ _ _ _
        (by rw [stub_encode_length]; simp only [List.length_nil] at hpv
            have : sizeof_HidlVec = 16 := rfl
            omega)]
      have h := octets_at_place vec (HidlVec.bytes be ⟨0, 0, true⟩) mem
      rwa [HidlVec_bytes_length] at h
    exact read_hidl_string_vec_stub_empty be _ _ _ 0x1000 ⟨base, 40⟩ base [] vec none
      rfl rfl rfl rfl hbase rfl (Nat.le_refl _) (by simp) k1 k2 hvec
  · have hpos : 0 < strs.length := Nat.pos_of_ne_zero h0
    obtain ⟨hM1, hB, hO, hV⟩ := hidl_string_vec_written be mem junk vec strings strs hstrings
      hpos hn (fun str h => (hs str h).1)
    rw [← hw] at hM1 hB hO hV
    have hL : w.2.bytes.len = 40 * (strs.length + 2) := by
      rw [← toList_length, hB]
      simp only [List.length_append, stub_encode_length, List.length_nil,
        flatMap_length_const _ 40 (fun i => stub_encode_length _ _ _), List.length_range]
      omega
    refine ⟨by rw [hL, if_neg h0], by rw [hO, if_neg h0]; simp, hV, ?_⟩
    have hp0 : parcel_reader base w.2 =
        { start := base, end_ := base + 40 * (strs.length + 2), ptr := base,
          data := some { buffer := some { data := base, size := 40 * (strs.length + 2) },
                         reg := some { addr := 0x1000, io := stub_io },
                         objects := some (base :: (base + 40) ::
                           ((List.range' 0 strs.length).map (fun j => base + 80 + 40 * j)
                             ++ [])) },
          objects := some (base :: (base + 40) ::
            ((List.range' 0 strs.length).map (fun j => base + 80 + 40 * j) ++ [])) } := by
      simp only [parcel_reader, stub_reader, gbinder_reader_init, hO, hL, stub_positions,
        Nat.add_zero]
    rw [hp0, hB, hM1, hL]
    have hdl : ((List.range strs.length).map
        (fun i => hidl_string_of (strs.getD i ⟨0, []⟩))).length = strs.length := by simp
    obtain ⟨l1, l2, l3, l4, l5, l6⟩ := vec_memory_layout base vec strings
      (stub_encode_buffer_object vec sizeof_HidlVec none)
      (stub_encode_buffer_object strings (sizeof_HidlString * strs.length)
        (some ⟨0, HIDL_VEC_BUFFER_OFFSET⟩))
      (HidlVec.bytes be ⟨strings, strs.length, true⟩)
      (List.range strs.length)
      (fun i => stub_encode_buffer_object (strs.getD i ⟨0, []⟩).addr
        (hidl_string_vec_leaf_size (strs.getD i ⟨0, []⟩))
        (some ⟨0 + 1, HIDL_STRING_BUFFER_OFFSET + i * sizeof_HidlString⟩))
      ((List.range strs.length).map (fun i => hidl_string_of (strs.getD i ⟨0, []⟩)))
      (HidlString.bytes be) mem (stub_encode_length _ _ _) (stub_encode_length _ _ _)
      (fun i => stub_encode_length _ _ _) (HidlString_bytes_length be)
      (HidlVec_bytes_length be _) (by rw [hdl]; exact hvs)
      (by rw [List.length_range]; exact hpv) (by rw [List.length_range, hdl]; exact hps)
    rw [List.length_range, hdl] at l6
    refine read_hidl_string_vec_stub be _ _ _ 0x1000 ⟨base, 40 * (strs.length + 2)⟩ base []
      vec strings strs none (some ⟨0, HIDL_VEC_BUFFER_OFFSET⟩) rfl rfl rfl rfl hbase rfl
      (Nat.le_refl _) (by simp) l1 l2 l4 hvec hstrings hsaddr hn ?_
    intro j hj
    obtain ⟨hin, ha1, ha2, ha3⟩ := hs strs[j] (List.getElem_mem hj)
    obtain ⟨hof, hls⟩ := hidl_string_of_in_memory mem strs[j] hin
    have hget : strs.getD j ⟨0, []⟩ = strs[j] := List.getD_eq_getElem _ _ hj
    refine ⟨⟨some ⟨0 + 1, HIDL_STRING_BUFFER_OFFSET + j * sizeof_HidlString⟩, ?_⟩, ?_, ?_,
      hin.2.2.1, hin.2.1, hin.2.2.2.1⟩
    · have h := l3 j (by rw [List.length_range]; exact hj)
      rw [List.getElem_range, hget, hls] at h
      exact h
    · have h := l5 j (by rw [hdl]; exact hj)
      rw [List.getElem_map, List.getElem_range, hget, hof] at h
      exact h
    · rw [l6 _ _ ha1 ha2 ha3]
      exact hin.2.2.2.2

/-! ## What a read does to the reader -/

theorem read_nullable_object_state (mem : Memory) (p : GBinderReaderPriv) (out : Bool) :
    gbinder_reader_read_nullable_object mem p out
        = (false, if out then some none else none, p) ∨
    ∃ d reg head rest, p.data = some d ∧ d.reg = some reg ∧
      p.objects = some (head :: rest) ∧ head ≠ 0 ∧ p.ptr = head ∧
      (reg.io.decode_binder_object mem p.ptr (gbinder_reader_bytes_remaining p)
        reg.addr).1 ≠ 0 ∧
      (gbinder_reader_read_nullable_object mem p out).2.2 =
        { p with
          ptr := p.ptr + (reg.io.decode_binder_object mem p.ptr
            (gbinder_reader_bytes_remaining p) reg.addr).1
          objects := some rest } := by
  cases hd : p.data with
  | none => exact Or.inl (read_nullable_object_none mem p out (Or.inl hd))
  | some d =>
    cases ho : p.objects with
    | none => exact Or.inl (read_nullable_object_none mem p out (Or.inr (Or.inl ho)))
    | some objs =>
      cases hr : d.reg with
      | none =>
        exact Or.inl (read_nullable_object_none mem p out (Or.inr (Or.inr ⟨d, hd, hr⟩)))
      | some reg =>
        rw [read_nullable_object_eq mem p out d reg objs hd hr ho]
        by_cases hc : objs.headD 0 ≠ 0 ∧ p.ptr = objs.headD 0 ∧
            (reg.io.decode_binder_object mem p.ptr (gbinder_reader_bytes_remaining p)
              reg.addr).1 ≠ 0
        · right
          rw [if_pos hc]
          cases objs with
          | nil => exact absurd rfl hc.1
          | cons head rest =>
            exact ⟨d, reg, head, rest, rfl, hr, rfl, hc.1, hc.2.1, hc.2.2, by rw [hd]; rfl⟩
        · left
          rw [if_neg hc]

theorem read_buffer_impl_state (mem : Memory) (p : GBinderReaderPriv) (out : Bool) :
    gbinder_reader_read_buffer_impl mem p out
        = (false, if out then some none else none, p) ∨
    ∃ d reg buf head rest, p.data = some d ∧ d.reg = some reg ∧ d.buffer = some buf ∧
      p.objects = some (head :: rest) ∧ head ≠ 0 ∧ p.ptr = head ∧
      (reg.io.decode_buffer_object mem buf (p.ptr - buf.data)).1 ≠ 0 ∧
      (gbinder_reader_read_buffer_impl mem p out).2.2 =
        { p with
          ptr := p.ptr + (reg.io.decode_buffer_object mem buf (p.ptr - buf.data)).1
          objects := some rest } := by
  cases hd : p.data with
  | none => exact Or.inl (read_buffer_impl_none mem p out (Or.inl hd))
  | some d =>
    cases ho : p.objects with
    | none => exact Or.inl (read_buffer_impl_none mem p out (Or.inr (Or.inl ho)))
    | some objs =>
      cases hr : d.reg with
      | none =>
        exact Or.inl (read_buffer_impl_none mem p out
          (Or.inr (Or.inr ⟨d, hd, Or.inl hr⟩)))
      | some reg =>
        cases hb : d.buffer with
        | none =>
          exact Or.inl (read_buffer_impl_none mem p out
            (Or.inr (Or.inr ⟨d, hd, Or.inr hb⟩)))
        | some buf =>
          rw [read_buffer_impl_eq mem p out d reg buf objs hd hr hb ho]
          by_cases hc : objs.headD 0 ≠ 0 ∧ p.ptr = objs.headD 0 ∧
              (reg.io.decode_buffer_object mem buf (p.ptr - buf.data)).1 ≠ 0
          · right
            rw [if_pos hc]
            cases objs with
            | nil => exact absurd rfl hc.1
            | cons head rest =>
              exact ⟨d, reg, buf, head, rest, rfl, hr, hb, rfl, hc.1, hc.2.1, hc.2.2, by rw [hd]; rfl⟩
          · left
            rw [if_neg hc]

theorem reader_moved_refl (p : GBinderReaderPriv) (h : p.ptr ≤ p.end_) : reader_moved p p :=
  ⟨rfl, rfl, Nat.le_refl _, h, Or.inl rfl⟩

theorem reader_moved_ptr (p : GBinderReaderPriv) (n : Nat) (h : p.ptr + n ≤ p.end_) :
    reader_moved p { p with ptr := p.ptr + n } :=
  ⟨rfl, rfl, Nat.le_add_right _ _, h, Or.inl rfl⟩

theorem read_byte_moved (mem : Memory) (p : GBinderReaderPriv) (value : Bool)
    (h : p.ptr ≤ p.end_) : reader_moved p (gbinder_reader_read_byte mem p value).2.2 := by
  simp only [gbinder_reader_read_byte]
  split_ifs <;>
    first
    | exact reader_moved_refl p h
    | exact reader_moved_ptr p 1 (by omega)

theorem read_bool_moved (mem : Memory) (p : GBinderReaderPriv) (value : Bool)
    (h : p.ptr ≤ p.end_) : reader_moved p (gbinder_reader_read_bool mem p value).2.2 := by
  simp only [gbinder_reader_read_bool, gbinder_reader_can_read, decide_eq_true_eq]
  split_ifs <;>
    first
    | exact reader_moved_refl p h
    | exact reader_moved_ptr p 4 (by omega)

theorem read_uint32_moved (be : Bool) (mem : Memory) (p : GBinderReaderPriv) (value : Bool)
    (h : p.ptr ≤ p.end_) :
    reader_moved p (gbinder_reader_read_uint32 be mem p value).2.2 := by
  simp only [gbinder_reader_read_uint32, gbinder_reader_can_read, decide_eq_true_eq]
  split_ifs <;>
    first
    | exact reader_moved_refl p h
    | exact reader_moved_ptr p 4 (by omega)

theorem read_uint64_moved (be : Bool) (mem : Memory) (p : GBinderReaderPriv) (value : Bool)
    (h : p.ptr ≤ p.end_) :
    reader_moved p (gbinder_reader_read_uint64 be mem p value).2.2 := by
  simp only [gbinder_reader_read_uint64, gbinder_reader_can_read, decide_eq_true_eq]
  split_ifs <;>
    first
    | exact reader_moved_refl p h
    | exact reader_moved_ptr p 8 (by omega)

theorem read_string8_moved (mem : Memory) (p : GBinderReaderPriv) (h : p.ptr ≤ p.end_) :
    reader_moved p (gbinder_reader_read_string8 mem p).2 := by
  simp only [gbinder_reader_read_string8]
  split_ifs with h1 h2
  · exact reader_moved_ptr p _ h2
  · exact reader_moved_refl p h
  · exact reader_moved_refl p h

theorem read_nullable_string16_moved (be : Bool) (mem : Memory) (p : GBinderReaderPriv)
    (out : Bool) (h : p.ptr ≤ p.end_) :
    reader_moved p (gbinder_reader_read_nullable_string16 be mem p out).2.2 := by
  simp only [gbinder_reader_read_nullable_string16]
  split_ifs <;>
    first
    | exact reader_moved_refl p h
    | exact reader_moved_ptr p 4 (by assumption)
    | exact ⟨rfl, rfl, by show p.ptr ≤ p.ptr + _ + 4; omega, by assumption, Or.inl rfl⟩

theorem skip_string16_moved (be : Bool) (mem : Memory) (p : GBinderReaderPriv)
    (h : p.ptr ≤ p.end_) :
    reader_moved p (gbinder_reader_skip_string16 be mem p).2 := by
  simp only [gbinder_reader_skip_string16]
  split_ifs <;>
    first
    | exact reader_moved_refl p h
    | exact reader_moved_ptr p 4 (by assumption)
    | exact ⟨rfl, rfl, by show p.ptr ≤ p.ptr + _ + 4; omega, by assumption, Or.inl rfl⟩

theorem read_nullable_object_moved (mem : Memory) (p : GBinderReaderPriv) (out : Bool)
    (h : p.ptr ≤ p.end_)
    (hio : ∀ d reg, p.data = some d → d.reg = some reg →
      (reg.io.decode_binder_object mem p.ptr (gbinder_reader_bytes_remaining p) reg.addr).1
        ≤ gbinder_reader_bytes_remaining p) :
    reader_moved p (gbinder_reader_read_nullable_object mem p out).2.2 := by
  rcases read_nullable_object_state mem p out with h0 | ⟨d, reg, head, rest, hd, hr, ho, _, _, _, hq⟩
  · rw [h0]
    exact reader_moved_refl p h
  · rw [hq]
    have hle := hio d reg hd hr
    simp only [gbinder_reader_bytes_remaining] at hle ⊢
    exact ⟨rfl, rfl, Nat.le_add_right _ _, by show p.ptr + _ ≤ p.end_; omega,
      Or.inr ⟨head, rest, ho, rfl⟩⟩

theorem read_buffer_impl_moved (mem : Memory) (p : GBinderReaderPriv) (out : Bool)
    (h : p.ptr ≤ p.end_)
    (hio : ∀ d reg buf, p.data = some d → d.reg = some reg → d.buffer = some buf →
      (reg.io.decode_buffer_object mem buf (p.ptr - buf.data)).1
        ≤ gbinder_reader_bytes_remaining p) :
    reader_moved p (gbinder_reader_read_buffer_impl mem p out).2.2 := by
  rcases read_buffer_impl_state mem p out with
    h0 | ⟨d, reg, buf, head, rest, hd, hr, hb, ho, _, _, _, hq⟩
  · rw [h0]
    exact reader_moved_refl p h
  · rw [hq]
    have hle := hio d reg buf hd hr hb
    simp only [gbinder_reader_bytes_remaining] at hle
    exact ⟨rfl, rfl, Nat.le_add_right _ _, by show p.ptr + _ ≤ p.end_; omega,
      Or.inr ⟨head, rest, ho, rfl⟩⟩

/-- The pending object list after a call is the list before it without some of its first
entries. -/
theorem run_op_objects (be : Bool) (mem : Memory) (p : GBinderReaderPriv) (op : ReaderOp) :
    ∃ k, (op.run be mem p).objects = p.objects.map (List.drop k) := by
  have h0 : p.objects = p.objects.map (List.drop 0) := by
    cases p.objects <;> rfl
  have hc : ∀ (q : GBinderReaderPriv) (j : Nat), reader_consumed p q j →
      ∃ k, q.objects = p.objects.map (List.drop k) := by
    intro q j hj
    rcases hj with ⟨_, hq⟩ | ⟨_, _, _, _, _, objs, ho, _, hqo⟩
    · rw [hq]
      exact ⟨0, h0⟩
    · exact ⟨j, by rw [hqo, ho]; rfl⟩
  have hb : ∀ out, ∃ k, (gbinder_reader_read_buffer_impl mem p out).2.2.objects
      = p.objects.map (List.drop k) := by
    intro out
    rcases read_buffer_impl_state mem p out with
      h1 | ⟨d, reg, buf, head, rest, hd, hr, hb, ho, _, _, _, hq⟩
    · rw [h1]
      exact ⟨0, h0⟩
    · rw [hq, ho]
      exact ⟨1, rfl⟩
  have hn : ∀ out, ∃ k, (gbinder_reader_read_nullable_object mem p out).2.2.objects
      = p.objects.map (List.drop k) := by
    intro out
    rcases read_nullable_object_state mem p out with
      h1 | ⟨d, reg, head, rest, hd, hr, ho, _, _, _, hq⟩
    · rw [h1]
      exact ⟨0, h0⟩
    · rw [hq, ho]
      exact ⟨1, rfl⟩
  cases op with
  | at_end => exact ⟨0, h0⟩
  | bytes_read => exact ⟨0, h0⟩
  | bytes_remaining => exact ⟨0, h0⟩
  | read_byte value =>
    refine ⟨0, ?_⟩
    simp only [ReaderOp.run, gbinder_reader_read_byte]
    split_ifs <;> exact h0
  | read_bool value =>
    refine ⟨0, ?_⟩
    simp only [ReaderOp.run, gbinder_reader_read_bool]
    split_ifs <;> exact h0
  | read_int32 value =>
    refine ⟨0, ?_⟩
    simp only [ReaderOp.run, gbinder_reader_read_int32, gbinder_reader_read_uint32]
    split_ifs <;> exact h0
  | read_uint32 value =>
    refine ⟨0, ?_⟩
    simp only [ReaderOp.run, gbinder_reader_read_uint32]
    split_ifs <;> exact h0
  | read_int64 value =>
    refine ⟨0, ?_⟩
    simp only [ReaderOp.run, gbinder_reader_read_int64, gbinder_reader_read_uint64]
    split_ifs <;> exact h0
  | read_uint64 value =>
    refine ⟨0, ?_⟩
    simp only [ReaderOp.run, gbinder_reader_read_uint64]
    split_ifs <;> exact h0
  | read_string8 =>
    refine ⟨0, ?_⟩
    simp only [ReaderOp.run, gbinder_reader_read_string8]
    split_ifs <;> exact h0
  | read_nullable_string16 out =>
    refine ⟨0, ?_⟩
    simp only [ReaderOp.run, gbinder_reader_read_nullable_string16]
    split_ifs <;> exact h0
  | read_string16 =>
    refine ⟨0, ?_⟩
    simp only [ReaderOp.run, gbinder_reader_read_string16,
      gbinder_reader_read_nullable_string16]
    split_ifs <;> exact h0
  | skip_string16 =>
    refine ⟨0, ?_⟩
    simp only [ReaderOp.run, gbinder_reader_skip_string16]
    split_ifs <;> exact h0
  | read_nullable_object out => exact hn out
  | read_object => exact hn true
  | read_buffer => exact hb true
  | skip_buffer => exact hb false
  | read_hidl_string =>
    rcases read_hidl_string_consumed be mem p with ⟨_, h1⟩ | ⟨_, j, _, _, hj⟩
    · exact ⟨0, by simp only [ReaderOp.run]; rw [h1]; exact h0⟩
    · exact hc _ j hj
  | read_hidl_string_vec =>
    rcases read_hidl_string_vec_consumed be mem p with ⟨_, h1⟩ | ⟨_, j, _, hj⟩
    · exact ⟨0, by simp only [ReaderOp.run]; rw [h1]; exact h0⟩
    · exact hc _ j hj

theorem run_reader_objects (be : Bool) (mem : Memory) (ops : List ReaderOp) :
    ∀ p : GBinderReaderPriv,
      ∃ k, (run_reader be mem p ops).objects = p.objects.map (List.drop k) := by
  induction ops with
  | nil =>
    intro p
    exact ⟨0, by cases h : p.objects <;> simp [run_reader, h]⟩
  | cons op ops ih =>
    intro p
    obtain ⟨k1, h1⟩ := run_op_objects be mem p op
    obtain ⟨k2, h2⟩ := ih (op.run be mem p)
    refine ⟨k1 + k2, ?_⟩
    show (run_reader be mem (op.run be mem p) ops).objects = _
    rw [h2, h1]
    cases p.objects with
    | none => rfl
    | some l => simp [List.drop_drop, Nat.add_comm]

theorem past_head_fails (mem : Memory) (p : GBinderReaderPriv) (h : cursor_past_head p)
    (out : Bool) :
    gbinder_reader_read_nullable_object mem p out
        = (false, if out then some none else none, p) ∧
    gbinder_reader_read_buffer_impl mem p out
        = (false, if out then some none else none, p) := by
  obtain ⟨head, rest, ho, hlt⟩ := h
  constructor
  · rcases read_nullable_object_state mem p out with
      h0 | ⟨d, reg, head2, rest2, _, _, ho2, _, hp, _, _⟩
    · exact h0
    · rw [ho, Option.some.injEq, List.cons.injEq] at ho2
      omega
  · rcases read_buffer_impl_state mem p out with
      h0 | ⟨d, reg, buf, head2, rest2, _, _, _, ho2, _, hp, _, _⟩
    · exact h0
    · rw [ho, Option.some.injEq, List.cons.injEq] at ho2
      omega

theorem past_head_hidl (be : Bool) (mem : Memory) (p : GBinderReaderPriv)
    (h : cursor_past_head p) :
    gbinder_reader_read_buffer mem p = (none, p) ∧
    gbinder_reader_read_hidl_string be mem p = (none, p) ∧
    gbinder_reader_read_hidl_string_vec be mem p = (none, p) := by
  have h0 : gbinder_reader_read_buffer mem p = (none, p) := by
    simp only [gbinder_reader_read_buffer, (past_head_fails mem p h true).2]
    rfl
  refine ⟨h0, ?_, ?_⟩
  · simp only [gbinder_reader_read_hidl_string, h0]
  · simp only [gbinder_reader_read_hidl_string_vec, h0]

theorem past_head_step (be : Bool) (mem : Memory) (p : GBinderReaderPriv)
    (h : cursor_past_head p) (op : ReaderOp) :
    (op.run be mem p).objects = p.objects ∧ p.ptr ≤ (op.run be mem p).ptr := by
  have hf := past_head_fails mem p h
  have hh := past_head_hidl be mem p h
  cases op with
  | at_end => exact ⟨rfl, Nat.le_refl _⟩
  | bytes_read => exact ⟨rfl, Nat.le_refl _⟩
  | bytes_remaining => exact ⟨rfl, Nat.le_refl _⟩
  | read_byte value =>
    simp only [ReaderOp.run, gbinder_reader_read_byte]
    split_ifs <;> exact ⟨rfl, by simp⟩
  | read_bool value =>
    simp only [ReaderOp.run, gbinder_reader_read_bool]
    split_ifs <;> exact ⟨rfl, by simp⟩
  | read_int32 value =>
    simp only [ReaderOp.run, gbinder_reader_read_int32, gbinder_reader_read_uint32]
    split_ifs <;> exact ⟨rfl, by simp⟩
  | read_uint32 value =>
    simp only [ReaderOp.run, gbinder_reader_read_uint32]
    split_ifs <;> exact ⟨rfl, by simp⟩
  | read_int64 value =>
    simp only [ReaderOp.run, gbinder_reader_read_int64, gbinder_reader_read_uint64]
    split_ifs <;> exact ⟨rfl, by simp⟩
  | read_uint64 value =>
    simp only [ReaderOp.run, gbinder_reader_read_uint64]
    split_ifs <;> exact ⟨rfl, by simp⟩
  | read_string8 =>
    simp only [ReaderOp.run, gbinder_reader_read_string8]
    split_ifs <;> exact ⟨rfl, by simp⟩
  | read_nullable_string16 out =>
    simp only [ReaderOp.run, gbinder_reader_read_nullable_string16]
    split_ifs <;> exact ⟨rfl, by simp; try omega⟩
  | read_string16 =>
    simp only [ReaderOp.run, gbinder_reader_read_string16,
      gbinder_reader_read_nullable_string16]
    split_ifs <;> exact ⟨rfl, by simp; try omega⟩
  | skip_string16 =>
    simp only [ReaderOp.run, gbinder_reader_skip_string16]
    split_ifs <;> exact ⟨rfl, by simp; try omega⟩
  | read_nullable_object out =>
    show (gbinder_reader_read_nullable_object mem p out).2.2.objects = p.objects ∧
      p.ptr ≤ (gbinder_reader_read_nullable_object mem p out).2.2.ptr
    rw [(hf out).1]
    exact ⟨rfl, Nat.le_refl _⟩
  | read_object =>
    show (gbinder_reader_read_nullable_object mem p true).2.2.objects = p.objects ∧
      p.ptr ≤ (gbinder_reader_read_nullable_object mem p true).2.2.ptr
    rw [(hf true).1]
    exact ⟨rfl, Nat.le_refl _⟩
  | read_buffer =>
    show (gbinder_reader_read_buffer mem p).2.objects = p.objects ∧
      p.ptr ≤ (gbinder_reader_read_buffer mem p).2.ptr
    rw [hh.1]
    exact ⟨rfl, Nat.le_refl _⟩
  | skip_buffer =>
    show (gbinder_reader_read_buffer_impl mem p false).2.2.objects = p.objects ∧
      p.ptr ≤ (gbinder_reader_read_buffer_impl mem p false).2.2.ptr
    rw [(hf false).2]
    exact ⟨rfl, Nat.le_refl _⟩
  | read_hidl_string =>
    show (gbinder_reader_read_hidl_string be mem p).2.objects = p.objects ∧
      p.ptr ≤ (gbinder_reader_read_hidl_string be mem p).2.ptr
    rw [hh.2.1]
    exact ⟨rfl, Nat.le_refl _⟩
  | read_hidl_string_vec =>
    show (gbinder_reader_read_hidl_string_vec be mem p).2.objects = p.objects ∧
      p.ptr ≤ (gbinder_reader_read_hidl_string_vec be mem p).2.ptr
    rw [hh.2.2]
    exact ⟨rfl, Nat.le_refl _⟩

theorem past_head_run (be : Bool) (mem : Memory) (ops : List ReaderOp) :
    ∀ p : GBinderReaderPriv, cursor_past_head p →
      (run_reader be mem p ops).objects = p.objects ∧
      p.ptr ≤ (run_reader be mem p ops).ptr := by
  induction ops with
  | nil =>
    intro p _
    exact ⟨rfl, Nat.le_refl _⟩
  | cons op ops ih =>
    intro p h
    have hs := past_head_step be mem p h op
    have h2 : cursor_past_head (op.run be mem p) := by
      obtain ⟨head, rest, ho, hlt⟩ := h
      exact ⟨head, rest, hs.1.trans ho, Nat.lt_of_lt_of_le hlt hs.2⟩
    have hr := ih (op.run be mem p) h2
    exact ⟨hr.1.trans hs.1, Nat.le_trans hs.2 hr.2⟩

/-! ## A writer call keeps what the parcel held -/

theorem kept_refl (d : GBinderWriterData) : kept d d :=
  ⟨Nat.le_refl _, fun _ _ => rfl, [], (List.append_nil _).symm⟩

theorem kept_trans (d1 d2 d3 : GBinderWriterData) (h1 : kept d1 d2) (h2 : kept d2 d3) :
    kept d1 d3 := by
  obtain ⟨l1, k1, n1, o1⟩ := h1
  obtain ⟨l2, k2, n2, o2⟩ := h2
  refine ⟨Nat.le_trans l1 l2, fun i hi => ?_, n1 ++ n2, ?_⟩
  · rw [k2 i (Nat.lt_of_lt_of_le hi l1), k1 i hi]
  · rw [o2, o1, List.append_assoc]

theorem kept_initial (d1 d2 : GBinderWriterData) (h : kept d1 d2) :
    d1.bytes.toList <+: d2.bytes.toList ∧ d1.offsets.getD [] <+: d2.offsets.getD [] := by
  obtain ⟨hl, hk, new, ho⟩ := h
  refine ⟨⟨octets_at d2.bytes.data d1.bytes.len (d2.bytes.len - d1.bytes.len), ?_⟩, new, ho.symm⟩
  have hlen : d2.bytes.len = d1.bytes.len + (d2.bytes.len - d1.bytes.len) := by omega
  simp only [GByteArray.toList]
  conv_rhs => rw [hlen, octets_at_add]
  rw [Nat.zero_add]
  congr 1
  exact (octets_at_congr _ _ 0 _ (fun i hi => by rw [Nat.zero_add]; exact hk i hi)).symm

theorem block_memcpy_below (a : GByteArray) (dest : Nat) (src : List Octet) (n i : Nat)
    (h : i < dest) : (block_memcpy a dest src n).data i = a.data i := by
  simp only [block_memcpy]
  split_ifs
  · exact memcpy_outside _ _ _ _ _ (Or.inl h)
  · rfl

theorem block_store_below (be : Bool) (a : GByteArray) (addr w x i : Nat) (h : i < addr) :
    (block_store be a addr w x).data i = a.data i :=
  block_memcpy_below a addr _ w i h

theorem block_memset_below (a : GByteArray) (dest : Nat) (c : Octet) (n i : Nat)
    (h : i < dest) : (block_memset a dest c n).data i = a.data i := by
  simp only [block_memset, memset]
  split_ifs <;> first | rfl | omega

/-- A change of the octets alone that leaves those below the old length as they were. -/
theorem kept_bytes (d : GBinderWriterData) (b : GByteArray) (hl : d.bytes.len ≤ b.len)
    (hk : ∀ i, i < d.bytes.len → b.data i = d.bytes.data i) :
    kept d { d with bytes := b } :=
  ⟨hl, hk, [], (List.append_nil _).symm⟩

theorem record_offset_kept (d : GBinderWriterData) (offset : Nat) :
    kept d (gbinder_writer_data_record_offset d offset) := by
  refine ⟨?_, ?_, [offset], ?_⟩ <;>
    cases h : d.offsets <;> simp [gbinder_writer_data_record_offset, h]

theorem append_int32_kept (be : Bool) (d : GBinderWriterData) (value : Nat) :
    kept d (gbinder_writer_data_append_int32 be d value) := by
  refine kept_bytes d _ (by simp only [block_store_len, set_size_len]; omega) (fun i hi => ?_)
  rw [block_store_below _ _ _ _ _ _ (by simp only [set_size_len]; omega), set_size_data]

theorem append_int64_kept (be : Bool) (d : GBinderWriterData) (value : Nat) :
    kept d (gbinder_writer_data_append_int64 be d value) := by
  refine kept_bytes d _ (by simp only [block_store_len, set_size_len]; omega) (fun i hi => ?_)
  rw [block_store_below _ _ _ _ _ _ (by simp only [set_size_len]; omega), set_size_data]

theorem append_bytes_kept (d : GBinderWriterData) (ptr : List Octet) (size : Nat) :
    kept d { d with bytes := g_byte_array_append d.bytes ptr size } := by
  refine kept_bytes d _ ?_ (fun i hi => ?_)
  · simp only [g_byte_array_append, block_memcpy_len, set_size_len]
    omega
  · simp only [g_byte_array_append]
    rw [block_memcpy_below _ _ _ _ _ hi, set_size_data]

theorem append_string8_len_kept (be : Bool) (d : GBinderWriterData)
    (str : Option (List Octet)) (len : Nat) :
    kept d (gbinder_writer_data_append_string8_len be d str len) := by
  cases str with
  | none => exact kept_refl d
  | some s =>
    refine kept_bytes d _ ?_ (fun i hi => ?_)
    · simp only [block_memcpy_len, block_store_len, set_size_len]
      omega
    · have h4 := G_ALIGN4_ge (len + 1)
      rw [block_memcpy_below _ _ _ _ _ hi, block_store_below _ _ _ _ _ _ (by omega),
        set_size_data]

theorem append_string16_len_kept (be : Bool) (d : GBinderWriterData)
    (utf8 : Option (List Octet)) (num_bytes : Int) :
    kept d (gbinder_writer_data_append_string16_len be d utf8 num_bytes) := by
  unfold gbinder_writer_data_append_string16_len
  simp only
  split_ifs <;>
    first
    | exact append_int32_kept be d _
    | (refine kept_bytes d _ (by simp only [set_size_len, block_store_len]; omega)
        (fun i hi => ?_)
       try simp only [set_size_data]
       repeat first
         | rw [block_memset_below _ _ _ _ _ (by omega)]
         | rw [block_store_below _ _ _ _ _ _ (by omega)]
         | rw [block_memcpy_below _ _ _ _ _ (by omega)]
         | rw [set_size_data]
         | split)

theorem write_buffer_object_kept (io : GBinderIo) (MAX : Nat) (d : GBinderWriterData)
    (ptr size : Nat) (parent : Option GBinderParent) :
    kept d (gbinder_writer_data_write_buffer_object io MAX d ptr size parent) := by
  have hf := write_buffer_object_fields io MAX d ptr size parent
  refine ⟨by rw [hf.2.1]; omega, fun i hi => ?_, [d.bytes.len], by rw [hf.1]; rfl⟩
  simp only [gbinder_writer_data_write_buffer_object, gbinder_writer_data_record_offset]
  cases d.offsets <;>
    (simp only [set_size_data]
     rw [block_memcpy_below _ _ _ _ _ hi, set_size_data])

theorem append_local_object_kept (io : GBinderIo) (MAX : Nat) (d : GBinderWriterData)
    (obj : Nat) : kept d (gbinder_writer_data_append_local_object io MAX d obj) := by
  have hf := append_local_object_fields io MAX d obj
  refine ⟨by rw [hf.2.1]; omega, fun i hi => ?_, [d.bytes.len], by rw [hf.1]; rfl⟩
  simp only [gbinder_writer_data_append_local_object, gbinder_writer_data_record_offset]
  cases d.offsets <;>
    (simp only [set_size_data]
     rw [block_memcpy_below _ _ _ _ _ hi, set_size_data])

theorem append_remote_object_kept (io : GBinderIo) (MAX : Nat) (d : GBinderWriterData)
    (obj : Nat) : kept d (gbinder_writer_data_append_remote_object io MAX d obj) := by
  have hf := append_remote_object_fields io MAX d obj
  refine ⟨by rw [hf.2.1]; omega, fun i hi => ?_, [d.bytes.len], by rw [hf.1]; rfl⟩
  simp only [gbinder_writer_data_append_remote_object, gbinder_writer_data_record_offset]
  cases d.offsets <;>
    (simp only [set_size_data]
     rw [block_memcpy_below _ _ _ _ _ hi, set_size_data])

theorem write_buffer_objects_kept (io : GBinderIo) (MAX : Nat) :
    ∀ (objs : List BufferObject) (d : GBinderWriterData),
      kept d (write_buffer_objects io MAX d objs) := by
  intro objs
  induction objs with
  | nil => exact fun d => kept_refl d
  | cons o rest ih =>
    intro d
    rw [write_buffer_objects_cons]
    exact kept_trans _ _ _ (write_buffer_object_kept io MAX d o.ptr o.size o.parent) (ih _)

/-- A change of the offsets from "no array" to "empty array" and of the cleanup list. -/
theorem kept_prepared (d : GBinderWriterData) (c : List Nat) :
    kept d { d with offsets := some (d.offsets.getD []), cleanup := c } :=
  ⟨Nat.le_refl _, fun _ _ => rfl, [], by simp⟩

theorem append_hidl_string_kept (be : Bool) (io : GBinderIo) (MAX : Nat) (mem : Memory)
    (d : GBinderWriterData) (block : Nat) (str : CString) :
    kept d (gbinder_writer_data_append_hidl_string be io MAX mem d block str).2 := by
  rw [append_hidl_string_eq]
  exact kept_trans _ _ _ (kept_prepared d _) (write_buffer_objects_kept io MAX _ _)

theorem append_hidl_string_vec_kept (be : Bool) (io : GBinderIo) (MAX : Nat) (mem : Memory)
    (d : GBinderWriterData) (vec strings : Nat) (strv : List CString) (count : Int) :
    kept d
      (gbinder_writer_data_append_hidl_string_vec be io MAX mem d vec strings strv count).2 := by
  by_cases hs : strings = 0
  · subst hs
    simp only [gbinder_writer_data_append_hidl_string_vec, ite_self, ne_eq, not_true_eq_false,
      if_false]
    refine kept_trans _ _ _ ?_ (write_buffer_object_kept io MAX _ _ _ _)
    rw [(prepare_eq d).1]
    split_ifs <;> exact kept_prepared d _
  · rw [append_hidl_string_vec_eq be io MAX mem d vec strings strv count hs]
    exact kept_trans _ _ _ (kept_prepared d _) (write_buffer_objects_kept io MAX _ _)

theorem prepare_kept (d : GBinderWriterData) : kept d (gbinder_writer_data_prepare d).2 := by
  rw [(prepare_eq d).1]
  exact kept_prepared d _

theorem run_op_kept (be : Bool) (io : GBinderIo) (MAXB MAXO : Nat) (mem : Memory)
    (d : GBinderWriterData) (op : WriterOp) :
    ∃ mem2 d2, WriterOp.run be io MAXB MAXO (mem, some { data := some d }) op
        = (mem2, some { data := some d2 }) ∧ kept d d2 := by
  cases op with
  | int32 value => exact ⟨mem, _, rfl, append_int32_kept be d value⟩
  | int64 value => exact ⟨mem, _, rfl, append_int64_kept be d value⟩
  | bool value => exact ⟨mem, _, rfl, append_bytes_kept d _ 4⟩
  | bytes ptr size => exact ⟨mem, _, rfl, append_bytes_kept d ptr size⟩
  | string8 str => exact ⟨mem, _, rfl, append_string8_len_kept be d str _⟩
  | string8_len str len => exact ⟨mem, _, rfl, append_string8_len_kept be d str len⟩
  | string16 utf8 => exact ⟨mem, _, rfl, append_string16_len_kept be d utf8 _⟩
  | string16_len utf8 num_bytes =>
    exact ⟨mem, _, rfl, append_string16_len_kept be d utf8 num_bytes⟩
  | buffer_object buf len =>
    exact ⟨mem, _, rfl, kept_trans _ _ _ (prepare_kept d)
      (write_buffer_object_kept io MAXB _ buf len none)⟩
  | buffer_object_with_parent buf len parent =>
    exact ⟨mem, _, rfl, kept_trans _ _ _ (prepare_kept d)
      (write_buffer_object_kept io MAXB _ buf len parent)⟩
  | hidl_string block str =>
    exact ⟨_, _, rfl, append_hidl_string_kept be io MAXB mem d block str⟩
  | hidl_string_vec vec strings strv count =>
    exact ⟨_, _, rfl, append_hidl_string_vec_kept be io MAXB mem d vec strings strv count⟩
  | local_object obj => exact ⟨mem, _, rfl, append_local_object_kept io MAXO d obj⟩
  | remote_object obj => exact ⟨mem, _, rfl, append_remote_object_kept io MAXO d obj⟩

theorem run_ops_kept (be : Bool) (io : GBinderIo) (MAXB MAXO : Nat) :
    ∀ (ops : List WriterOp) (mem : Memory) (d : GBinderWriterData),
      ∃ mem2 d2, ops.foldl (WriterOp.run be io MAXB MAXO) (mem, some { data := some d })
          = (mem2, some { data := some d2 }) ∧ kept d d2 := by
  intro ops
  induction ops with
  | nil => exact fun mem d => ⟨mem, d, rfl, kept_refl d⟩
  | cons op rest ih =>
    intro mem d
    obtain ⟨mem1, d1, hrun, h1⟩ := run_op_kept be io MAXB MAXO mem d op
    obtain ⟨mem2, d2, hrest, h2⟩ := ih mem1 d1
    exact ⟨mem2, d2, by rw [List.foldl_cons, hrun, hrest], kept_trans _ _ _ h1 h2⟩

/-! ## The parents of the HIDL appends -/

theorem write_buffer_objects_count (io : GBinderIo) (MAX : Nat) :
    ∀ (objs : List BufferObject) (data : GBinderWriterData),
      ((write_buffer_objects io MAX data objs).offsets.getD []).length
        = (data.offsets.getD []).length + objs.length := by
  intro objs
  induction objs with
  | nil => exact fun data => rfl
  | cons o rest ih =>
    intro data
    rw [write_buffer_objects_cons, ih,
      (write_buffer_object_fields io MAX data o.ptr o.size o.parent).1]
    simp only [Option.getD_some, List.length_append, List.length_cons, List.length_nil]
    omega

/-- The `k`-th buffer object of a list is written to the parcel the first `k` left, in
which `k` more offsets are recorded. -/
theorem write_buffer_objects_moment (io : GBinderIo) (MAX : Nat) (data : GBinderWriterData)
    (objs : List BufferObject) (k : Nat) (hk : k < objs.length) :
    write_buffer_objects io MAX data (objs.take (k + 1))
      = gbinder_writer_data_write_buffer_object io MAX
          (write_buffer_objects io MAX data (objs.take k))
          (objs.getD k ⟨0, 0, none⟩).ptr (objs.getD k ⟨0, 0, none⟩).size
          (objs.getD k ⟨0, 0, none⟩).parent ∧
    ((write_buffer_objects io MAX data (objs.take k)).offsets.getD []).length
      = (data.offsets.getD []).length + k := by
  constructor
  · rw [List.take_succ, write_buffer_objects_append, List.getD_eq_getElem _ _ hk,
      List.getElem?_eq_getElem hk]
    rfl
  · rw [write_buffer_objects_count, List.length_take]
    omega

theorem hidl_string_parents_valid (block : Nat) (str : CString) (index : Nat) :
    parents_valid index [block] (hidl_string_objects block str index) := by
  intro k parent hk hp
  by_cases h0 : str.addr = 0
  · simp only [hidl_string_objects, h0, if_true, List.length_cons, List.length_nil] at hk hp
    have hk0 : k = 0 := by omega
    subst hk0
    simp at hp
  · simp only [hidl_string_objects, h0, if_false, List.length_cons, List.length_nil] at hk hp ⊢
    have hk01 : k = 0 ∨ k = 1 := by omega
    rcases hk01 with hk0 | hk1
    · subst hk0
      simp at hp
    · subst hk1
      simp only [List.getD_cons_succ, List.getD_cons_zero, Option.some.injEq] at hp
      subst hp
      simp [sizeof_pointer, HIDL_STRING_BUFFER_OFFSET, sizeof_HidlString]

theorem hidl_string_vec_parents_valid (vec strings : Nat) (strv : List CString)
    (n index : Nat) :
    parents_valid index [vec, strings] (hidl_string_vec_objects vec strings strv n index) := by
  intro k parent hk hp
  by_cases h0 : n = 0
  · simp only [hidl_string_vec_objects, h0, if_true, List.length_cons, List.length_nil] at hk hp
    have hk0 : k = 0 := by omega
    subst hk0
    simp at hp
  · simp only [hidl_string_vec_objects, h0, if_false, List.length_cons, List.length_map]
      at hk hp ⊢
    match k, hk, hp with
    | 0, _, hp => simp at hp
    | 1, _, hp =>
      simp only [List.getD_cons_succ, List.getD_cons_zero, Option.some.injEq] at hp
      subst hp
      simp [sizeof_pointer, HIDL_VEC_BUFFER_OFFSET, sizeof_HidlVec]
    | j + 2, hk, hp =>
      have hj : j < (hidl_string_vec_leaves strv n).length := by omega
      simp only [List.getD_cons_succ] at hp
      rw [List.getD_eq_getElem _ _ (by rw [List.length_map]; exact hj), List.getElem_map] at hp
      simp only [Option.some.injEq] at hp
      subst hp
      have hmem : (hidl_string_vec_leaves strv n)[j] ∈ hidl_string_vec_leaves strv n :=
        List.getElem_mem _
      have hlt : (hidl_string_vec_leaves strv n)[j] < n := by
        simp only [hidl_string_vec_leaves, List.mem_filter, List.mem_range] at hmem
        exact hmem.1
      simp only [Nat.add_sub_cancel_left, List.getD_cons_succ, List.getD_cons_zero,
        List.mem_cons, List.mem_singleton, or_true, true_and, sizeof_pointer,
        HIDL_STRING_BUFFER_OFFSET, sizeof_HidlString, List.not_mem_nil, or_false]
      omega

/-! ## A vector with a null element -/

/-- The loop of `gbinder_reader_read_hidl_string_vec` ends with `i == n` only after one
pending object per round was read. -/
theorem hidl_string_vec_loop_some (be : Bool) (mem : Memory) (strings : Nat) :
    ∀ (k i : Nat) (p : GBinderReaderPriv) (l : List (List Octet)),
      (hidl_string_vec_loop be mem strings k i p).1 = some l →
      reader_consumed p (hidl_string_vec_loop be mem strings k i p).2 k := by
  intro k
  induction k with
  | zero =>
    intro i p l _
    exact Or.inl ⟨rfl, rfl⟩
  | succ k ih =>
    intro i p l hl
    rcases read_buffer_consumed mem p with ⟨_, h0⟩ | ⟨_, h1⟩
    · simp only [hidl_string_vec_loop, h0] at hl
      exact absurd hl (by simp)
    · cases hb : (gbinder_reader_read_buffer mem p).1 with
      | none =>
        simp only [hidl_string_vec_loop, hb] at hl
        exact absurd hl (by simp)
      | some sbuf =>
        by_cases hm : hidl_string_matches be mem sbuf (strings + sizeof_HidlString * i)
        · simp only [hidl_string_vec_loop, hb, if_pos hm] at hl ⊢
          cases hrest : (hidl_string_vec_loop be mem strings k (i + 1)
              (gbinder_reader_read_buffer mem p).2).1 with
          | none =>
            rw [hrest] at hl
            exact absurd hl (by simp)
          | some l2 =>
            have hcons := ih (i + 1) (gbinder_reader_read_buffer mem p).2 l2 hrest
            have ht := reader_consumed_trans _ _ _ 1 k h1 hcons
            rw [Nat.add_comm 1 k] at ht
            exact ht
        · simp only [hidl_string_vec_loop, hb, if_neg hm] at hl
          exact absurd hl (by simp)

/-- A vector read that finds fewer pending objects than the count in the `HidlVec` asks
for returns null. -/
theorem read_hidl_string_vec_short (be : Bool) (M : Memory) (p : GBinderReaderPriv)
    (d : GBinderReaderData) (ra : Nat) (buf : GBinderBuffer) (a : Nat) (rest : List Nat)
    (vec strings n : Nat) (q1 : Option GBinderParent)
    (hd : p.data = some d) (hr : d.reg = some ⟨ra, stub_io⟩) (hb : d.buffer = some buf)
    (ho : p.objects = some (a :: rest)) (ha : a ≠ 0) (hp : p.ptr = a) (hin : buf.data ≤ a)
    (hfit : a - buf.data + 40 ≤ buf.size)
    (h1 : octets_at M a 40 = stub_encode_buffer_object vec sizeof_HidlVec q1)
    (hV : octets_at M vec sizeof_HidlVec = HidlVec.bytes be ⟨strings, n, true⟩)
    (hvec : vec < 2 ^ 64) (hstrings : strings ≠ 0) (hsaddr : strings < 2 ^ 64)
    (hn : n < 2 ^ 32) (hshort : rest.length < n + 1) :
    (gbinder_reader_read_hidl_string_vec be M p).1 = none := by
  have hfirst := read_buffer_stub M p d ra buf a rest vec sizeof_HidlVec q1 hd hr hb ho ha hp
    hin hfit h1 hvec (by decide)
  obtain ⟨hptr, hcount⟩ := HidlVec_fields be M vec ⟨strings, n, true⟩ hV hsaddr hn
  simp only at hptr hcount
  have hcons := read_buffer_consumed M { p with ptr := a + 40, objects := some rest }
  simp only [gbinder_reader_read_hidl_string_vec, hfirst, if_true, hptr, hcount]
  rw [if_neg (fun h => hstrings h.1)]
  rcases hcons with ⟨_, h0⟩ | ⟨_, hc⟩
  · simp only [h0]
  · cases h2 : (gbinder_reader_read_buffer M
        { p with ptr := a + 40, objects := some rest }).1 with
    | none => rfl
    | some buf2 =>
      simp only
      split_ifs with hcond
      · cases hl : (hidl_string_vec_loop be M buf2.data n 0
            (gbinder_reader_read_buffer M
              { p with ptr := a + 40, objects := some rest }).2).1 with
        | none => rfl
        | some l =>
          exfalso
          have hA := hidl_string_vec_loop_some be M buf2.data n 0 _ l hl
          rcases hc with ⟨h10, _⟩ | ⟨_, _, _, _, _, objs, hobjs, hlen, hq⟩
          · exact absurd h10 (by decide)
          · simp only [Option.some.injEq] at hobjs
            subst hobjs
            rcases hA with ⟨hn0, _⟩ | ⟨_, _, _, _, _, objs2, ho2, hlen2, _⟩
            · omega
            · rw [hq, Option.some.injEq] at ho2
              subst ho2
              rw [List.length_drop] at hlen2
              omega
      · rfl

theorem hidl_string_vec_count_nat (strv : List CString) (n : Nat) :
    hidl_string_vec_count strv (n : Int) = n := by
  simp [hidl_string_vec_count]

/-- A null element among the first `n` is no leaf, so there are fewer leaves than
elements. -/
theorem hidl_string_vec_leaves_null (strv : List CString) (n i : Nat) (hi : i < n)
    (hnull : (strv.getD i ⟨0, []⟩).addr = 0) :
    i ∉ hidl_string_vec_leaves strv n ∧ (hidl_string_vec_leaves strv n).length < n := by
  constructor
  · simp only [hidl_string_vec_leaves, List.mem_filter, List.mem_range, decide_eq_true_eq]
    exact fun h => h.2 hnull
  · have h := (List.length_filter_lt_length_iff_exists
      (p := fun i => decide ((strv.getD i ⟨0, []⟩).addr ≠ 0)) (l := List.range n)).mpr
      ⟨i, List.mem_range.mpr hi, fun h => (of_decide_eq_true h) hnull⟩
    rw [List.length_range] at h
    exact h

/-! ## The valid prefix of a string16 argument -/

theorem utf8_validate_loop_encoded (cs : List Nat)
    (hcs : ∀ c ∈ cs, UNICODE_VALID c ∧ c ≠ 0) :
    ∀ fuel, (cs.flatMap g_unichar_to_utf8).length ≤ fuel →
      utf8_validate_loop fuel (cs.flatMap g_unichar_to_utf8)
        = (cs.flatMap g_unichar_to_utf8).length := by
  induction cs with
  | nil =>
    intro fuel _
    cases fuel <;> simp [utf8_validate_loop, utf8_char]
  | cons c cs ih =>
    intro fuel hf
    obtain ⟨hv, h0⟩ := hcs c (List.mem_cons_self _ _)
    have hdec := utf8_char_of_encoded c (cs.flatMap g_unichar_to_utf8) hv h0
    obtain ⟨_, _, _, _, hkpos⟩ := utf8_char_encodes _ _ _ hdec
    simp only [List.flatMap_cons, List.length_append] at hf
    simp only [List.flatMap_cons]
    cases fuel with
    | zero => omega
    | succ fuel =>
      unfold utf8_validate_loop
      rw [hdec]
      simp only [List.drop_left]
      rw [ih (fun x hx => hcs x (List.mem_cons_of_mem _ hx)) fuel (by omega),
        List.length_append]

/-- The octets from the first invalid one onward play no part: the valid prefix is valid
as a whole. -/
theorem g_utf8_validate_of_valid (s : List Octet) (num_bytes : Int) :
    g_utf8_validate (s.take (g_utf8_validate s num_bytes))
      ((g_utf8_validate s num_bytes : Nat) : Int) = g_utf8_validate s num_bytes := by
  obtain ⟨cs, hcs, htake, hlen, _⟩ := g_utf8_validate_spec s num_bytes
  have key : ∀ (t : List Octet) (k : Nat),
      g_utf8_validate t (k : Int) = utf8_validate_loop (t.take k).length (t.take k) := by
    intro t k
    have hk : ¬ ((k : Int) < 0) := by omega
    simp only [g_utf8_validate, hk, if_false, Int.toNat_natCast]
  rw [key, htake, ← hlen, List.take_length]
  exact utf8_validate_loop_encoded cs hcs _ (Nat.le_refl _)

theorem utf8_strlen_loop_congr (p q : List Octet) (max : Nat)
    (h : ∀ i, i < max → p.getD i 0 = q.getD i 0) :
    ∀ fuel off len, utf8_strlen_loop p max fuel off len = utf8_strlen_loop q max fuel off len := by
  intro fuel
  induction fuel with
  | zero => exact fun _ _ => rfl
  | succ fuel ih =>
    intro off len
    simp only [utf8_strlen_loop]
    by_cases hoff : off < max
    · rw [h off hoff, ih]
    · rw [if_neg (fun hc => hoff hc.1), if_neg (fun hc => hoff hc.1)]

theorem g_utf8_strlen_congr (p q : List Octet) (max : Nat)
    (h : ∀ i, i < max → p.getD i 0 = q.getD i 0) : g_utf8_strlen p max = g_utf8_strlen q max := by
  unfold g_utf8_strlen
  by_cases h0 : max = 0
  · simp [h0]
  · rw [h 0 (Nat.pos_of_ne_zero h0), utf8_strlen_loop_congr p q max h]

theorem getD_take (s : List Octet) (k i : Nat) (h : i < k) :
    (s.take k).getD i 0 = s.getD i 0 := by
  rw [List.getD_eq_getElem?_getD, List.getD_eq_getElem?_getD, List.getElem?_take_of_lt h]

theorem append_string16_len_truncated (be : Bool) (data : GBinderWriterData) (s : List Octet)
    (num_bytes : Int) :
    gbinder_writer_data_append_string16_len be data (some s) num_bytes
      = gbinder_writer_data_append_string16_len be data
          (some (s.take (g_utf8_validate s num_bytes)))
          ((g_utf8_validate s num_bytes : Nat) : Int) := by
  have h1 := g_utf8_validate_of_valid s num_bytes
  have h2 : g_utf8_strlen (s.take (g_utf8_validate s num_bytes)) (g_utf8_validate s num_bytes)
      = g_utf8_strlen s (g_utf8_validate s num_bytes) :=
    g_utf8_strlen_congr _ _ _ (fun i hi => getD_take s _ i hi)
  have h3 : g_utf8_to_utf16 (s.take (g_utf8_validate s num_bytes))
      (g_utf8_validate s num_bytes) = g_utf8_to_utf16 s (g_utf8_validate s num_bytes) := by
    simp only [g_utf8_to_utf16, List.take_take, Nat.min_self]
  conv_rhs => unfold gbinder_writer_data_append_string16_len
  conv_lhs => unfold gbinder_writer_data_append_string16_len
  simp only [h1, h2, h3, Option.getD_some, Option.isSome_some]

/-! ## Typed values: what an append emits and what a read takes -/

theorem g_utf8_validate_nat (t : List Octet) (k : Nat) :
    g_utf8_validate t (k : Int) = utf8_validate_loop (t.take k).length (t.take k) := by
  have hk : ¬ ((k : Int) < 0) := by omega
  simp only [g_utf8_validate, hk, if_false, Int.toNat_natCast]

theorem ascii_encoded (s : List Octet) (h : ∀ b ∈ s, b.val < 128) :
    (s.map (fun b => b.val)).flatMap g_unichar_to_utf8 = s := by
  induction s with
  | nil => rfl
  | cons b t ih =>
    have hb := h b (List.mem_cons_self _ _)
    rw [List.map_cons, List.flatMap_cons, ih (fun x hx => h x (List.mem_cons_of_mem _ hx))]
    have : g_unichar_to_utf8 b.val = [b] := by
      simp only [g_unichar_to_utf8, if_pos hb, octet]
      congr 1
      apply Fin.ext
      simp only
      omega
    rw [this]
    rfl

theorem ascii_code_points (s : List Octet) (h : ∀ b ∈ s, b ≠ 0 ∧ b.val < 128) :
    (∀ c ∈ s.map (fun b => b.val), UNICODE_VALID c ∧ c ≠ 0) ∧
    (∀ c ∈ s.map (fun b => b.val), c < 0x10000) := by
  constructor
  · intro c hc
    obtain ⟨b, hb, rfl⟩ := List.mem_map.mp hc
    obtain ⟨h0, h128⟩ := h b hb
    refine ⟨⟨by omega, by omega⟩, fun hz => h0 (Fin.ext hz)⟩
  · intro c hc
    obtain ⟨b, hb, rfl⟩ := List.mem_map.mp hc
    have := (h b hb).2
    omega

theorem ascii_valid (s : List Octet) (h : ∀ b ∈ s, b ≠ 0 ∧ b.val < 128) :
    g_utf8_validate s (s.length : Int) = s.length := by
  rw [g_utf8_validate_nat, List.take_length]
  have he := ascii_encoded s (fun b hb => (h b hb).2)
  have hl := utf8_validate_loop_encoded (s.map (fun b => b.val)) (ascii_code_points s h).1
    s.length (by rw [he])
  rw [he] at hl
  exact hl

/-- What the append for an admitted value emits. -/
theorem write_value_octets (be : Bool) (d : GBinderWriterData) (v : Value)
    (hv : v.admitted) :
    ∃ d2, write_value be (some { data := some d }) v = some { data := some d2 } ∧
      d2.bytes.toList = d.bytes.toList ++ v.octets be ∧
      d2.bytes.overflow = d.bytes.overflow := by
  cases v with
  | bool v =>
    have hw := byte_array_append_toList d.bytes
      [if (if v then (1 : Int) else 0) ≠ 0 then 1 else 0, 0xff, 0xff, 0xff] (by simp)
    refine ⟨_, rfl, ?_, hw.2⟩
    have h := hw.1
    cases v <;> simpa [Value.octets] using h
  | int32 x => exact ⟨_, rfl, append_int32_toList be d x⟩
  | int64 x => exact ⟨_, rfl, append_int64_toList be d x⟩
  | string8 s =>
    have hs : strlen s = s.length := strlen_eq_length s hv
    have hw := append_string8_len_toList be d s s.length (Nat.le_refl _)
    rw [List.take_length] at hw
    refine ⟨gbinder_writer_data_append_string8_len be d (some s) s.length, ?_, hw⟩
    simp only [write_value, gbinder_writer_append_string8, gbinder_writer_append_string8_len,
      gbinder_writer_data, hs]
  | string16 o =>
    cases o with
    | none =>
      exact ⟨gbinder_writer_data_append_string16_len be d none 0, rfl,
        append_string16_len_null be d 0⟩
    | some s =>
      refine ⟨gbinder_writer_data_append_string16_len be d (some s) (strlen s : Int), rfl, ?_⟩
      have hnz : ∀ b ∈ s, b ≠ 0 := fun b hb => (hv.1 b hb).1
      rw [strlen_eq_length s hnz]
      by_cases h0 : s = []
      · subst h0
        have hn : g_utf8_validate [] (([] : List Octet).length : Int) = 0 :=
          ascii_valid [] (fun b hb => absurd hb (List.not_mem_nil b))
        have hw := append_string16_len_empty be d [] _ hn
        simpa [Value.octets] using hw
      · have hpos : 0 < s.length := List.length_pos.mpr h0
        have hval := ascii_valid s hv.1
        have henc := ascii_encoded s (fun b hb => (hv.1 b hb).2)
        obtain ⟨hcs, hbmp⟩ := ascii_code_points s hv.1
        have hunits := utf16_units_bmp (s.map (fun b => b.val)) hbmp
        have hw := append_string16_len_nonempty be d s (s.length : Int)
          (s.map (fun b => b.val)) hcs (by rw [hval]; exact hpos)
          (by rw [hval, List.take_length, henc]) (by rw [hval, henc])
          (by
            rw [hunits, List.length_map]
            exact set_size_alloc_ge _ _ (by omega))
        rw [hunits, List.length_map] at hw
        simp only [Value.octets, if_neg h0]
        exact hw

theorem write_values_octets (be : Bool) :
    ∀ (vs : List Value) (d : GBinderWriterData), (∀ v ∈ vs, v.admitted) →
      ∃ d2, vs.foldl (write_value be) (some { data := some d }) = some { data := some d2 } ∧
        d2.bytes.toList = d.bytes.toList ++ vs.flatMap (Value.octets be) ∧
        d2.bytes.overflow = d.bytes.overflow := by
  intro vs
  induction vs with
  | nil => exact fun d _ => ⟨d, rfl, by simp, rfl⟩
  | cons v rest ih =>
    intro d hall
    obtain ⟨d1, h1, t1, o1⟩ := write_value_octets be d v (hall v (List.mem_cons_self _ _))
    obtain ⟨d2, h2, t2, o2⟩ := ih d1 (fun x hx => hall x (List.mem_cons_of_mem _ hx))
    refine ⟨d2, by rw [List.foldl_cons, h1, h2], ?_, o2.trans o1⟩
    rw [t2, t1, List.flatMap_cons, List.append_assoc]

theorem octets_at_index (mem : Memory) (a n : Nat) (l : List Octet)
    (h : octets_at mem a n = l) (i : Nat) (hi : i < l.length) : mem (a + i) = l[i] := by
  have hn : i < n := by rw [← h, octets_at_length] at hi; exact hi
  have hg : (octets_at mem a n).getD i 0 = l.getD i 0 := by rw [h]
  rw [List.getD_eq_getElem _ _ (by rw [octets_at_length]; exact hn),
    List.getD_eq_getElem _ _ hi] at hg
  simpa [octets_at] using hg

theorem octets_at_split (mem : Memory) (a : Nat) (l1 l2 : List Octet)
    (h : octets_at mem a (l1 ++ l2).length = l1 ++ l2) :
    octets_at mem a l1.length = l1 ∧ octets_at mem (a + l1.length) l2.length = l2 := by
  rw [List.length_append, octets_at_add] at h
  exact List.append_inj h (by rw [octets_at_length])

/-- A string16 read at a cursor where a length, that many UTF-16 code units, a terminator
and padding stand, with room for them. -/
theorem read_nullable_string16_at (be : Bool) (mem : Memory) (p : GBinderReaderPriv)
    (u : List Nat) (pad : List Octet) (hu : ∀ x ∈ u, x < 65536)
    (hsize : u.length + 2 < 2 ^ 31)
    (hpad : pad.length = G_ALIGN4 ((u.length + 1) * 2) - (u.length + 1) * 2)
    (hmem : octets_at mem p.ptr
      (host_bytes be 4 u.length ++ (utf16_bytes be (u ++ [0]) ++ pad)).length
        = host_bytes be 4 u.length ++ (utf16_bytes be (u ++ [0]) ++ pad))
    (hfit : p.ptr + (host_bytes be 4 u.length ++ (utf16_bytes be (u ++ [0]) ++ pad)).length
      ≤ p.end_) (out : Bool) :
    gbinder_reader_read_nullable_string16 be mem p out
      = (true, if out then some (g_utf16_to_utf8 u u.length) else none,
         { p with ptr := p.ptr
            + (host_bytes be 4 u.length ++ (utf16_bytes be (u ++ [0]) ++ pad)).length }) := by
  have hge := G_ALIGN4_ge ((u.length + 1) * 2)
  have hlt := G_ALIGN4_lt ((u.length + 1) * 2)
  have hlen : (host_bytes be 4 u.length ++ (utf16_bytes be (u ++ [0]) ++ pad)).length
      = 4 + G_ALIGN4 ((u.length + 1) * 2) := by
    simp only [List.length_append, host_bytes_length, utf16_bytes_length, hpad,
      List.length_cons, List.length_nil]
    omega
  obtain ⟨m1, m2⟩ := octets_at_split mem p.ptr _ _ hmem
  rw [host_bytes_length] at m1 m2
  have hload : load be mem p.ptr 4 = u.length := by
    unfold load
    rw [m1, host_value_host_bytes, Nat.mod_eq_of_lt]
    norm_num at hsize ⊢
    omega
  have hunits : utf16_at be mem (p.ptr + 4) u.length = u := by
    apply utf16_at_of_bytes be _ u hu
    rw [utf16_bytes_append, List.append_assoc] at m2
    have := (octets_at_split mem (p.ptr + 4) _ _ m2).1
    rw [utf16_bytes_length] at this
    exact this
  have hmod : G_ALIGN4 ((u.length + 1) * 2) % 2 ^ 32 = G_ALIGN4 ((u.length + 1) * 2) := by
    apply Nat.mod_eq_of_lt
    norm_num at hsize ⊢
    omega
  rw [hlen] at hfit ⊢
  simp only [gbinder_reader_read_nullable_string16, hload, hunits, hmod]
  rw [if_pos (by omega), if_neg (by norm_num at hsize ⊢; omega),
    if_pos (by norm_num at hsize ⊢; omega), if_pos (by omega)]
  simp only [Prod.mk.injEq, true_and]
  congr 1
  omega

theorem ascii_utf16_to_utf8 (s : List Octet) (h : ∀ b ∈ s, b ≠ 0 ∧ b.val < 128) :
    g_utf16_to_utf8 (s.map (fun b => b.val)) (s.map (fun b => b.val)).length = some s := by
  obtain ⟨hcs, hbmp⟩ := ascii_code_points s h
  have hu := utf16_to_ucs_units (s.map (fun b => b.val)) hcs
  rw [utf16_units_bmp _ hbmp] at hu
  simp only [g_utf16_to_utf8, List.take_length, hu, Option.map_some',
    ascii_encoded s (fun b hb => (h b hb).2)]

/-- What the read for the kind of an admitted value takes when the octets of the value
stand at the cursor, with room for them: the value, and exactly those octets. -/
theorem read_kind_octets (be : Bool) (mem : Memory) (p : GBinderReaderPriv) (v : Value)
    (hv : v.admitted)
    (hmem : octets_at mem p.ptr (v.octets be).length = v.octets be)
    (hfit : p.ptr + (v.octets be).length ≤ p.end_) :
    read_kind be mem p v.kind = (some v, { p with ptr := p.ptr + (v.octets be).length }) := by
  cases v with
  | bool v =>
    have h0 := octets_at_index mem p.ptr _ _ hmem 0 (by simp [Value.octets])
    have hf : p.ptr + 4 ≤ p.end_ := hfit
    have hc : gbinder_reader_can_read p 4 = true := by
      simp only [gbinder_reader_can_read, decide_eq_true_eq]
      omega
    simp only [Value.octets, Nat.add_zero, List.getElem_cons_zero] at h0
    simp only [Value.kind, read_kind, gbinder_reader_read_bool, hc, if_true, h0,
      Option.map_some', Value.octets, List.length_cons, List.length_nil]
    cases v <;> simp
  | int32 x =>
    have hf : p.ptr + (host_bytes be 4 x).length ≤ p.end_ := hfit
    have hm : octets_at mem p.ptr (host_bytes be 4 x).length = host_bytes be 4 x := hmem
    rw [host_bytes_length] at hf hm
    have hc : gbinder_reader_can_read p 4 = true := by
      simp only [gbinder_reader_can_read, decide_eq_true_eq]
      omega
    have hl := load_of_octets be mem p.ptr 4 x hm (by
      have : x < 2 ^ 32 := hv
      norm_num at this ⊢
      exact this)
    simp only [Value.kind, read_kind, gbinder_reader_read_uint32, hc, if_true, hl,
      Option.map_some', Value.octets, host_bytes_length]
  | int64 x =>
    have hf : p.ptr + (host_bytes be 8 x).length ≤ p.end_ := hfit
    have hm : octets_at mem p.ptr (host_bytes be 8 x).length = host_bytes be 8 x := hmem
    rw [host_bytes_length] at hf hm
    have hc : gbinder_reader_can_read p 8 = true := by
      simp only [gbinder_reader_can_read, decide_eq_true_eq]
      omega
    have hl := load_of_octets be mem p.ptr 8 x hm (by
      have : x < 2 ^ 64 := hv
      norm_num at this ⊢
      exact this)
    simp only [Value.kind, read_kind, gbinder_reader_read_uint64, hc, if_true, hl,
      Option.map_some', Value.octets, host_bytes_length]
  | string8 s =>
    have hs : ∀ b ∈ s, b ≠ 0 := hv
    have hge := G_ALIGN4_ge (s.length + 1)
    have hm : octets_at mem p.ptr
        (s ++ List.replicate (G_ALIGN4 (s.length + 1) - s.length) 0).length
        = s ++ List.replicate (G_ALIGN4 (s.length + 1) - s.length) 0 := hmem
    have hL : (s ++ List.replicate (G_ALIGN4 (s.length + 1) - s.length) 0).length
        = G_ALIGN4 (s.length + 1) := by
      rw [List.length_append, List.length_replicate]
      omega
    have hf : p.ptr + G_ALIGN4 (s.length + 1) ≤ p.end_ := by
      rw [← hL]
      exact hfit
    obtain ⟨m1, _⟩ := octets_at_split mem p.ptr _ _ hm
    have hnz : ∀ i, i < s.length → mem (p.ptr + i) ≠ 0 := by
      intro i hi
      rw [octets_at_index mem p.ptr _ _ m1 i hi]
      exact hs _ (List.getElem_mem _)
    have h0 : mem (p.ptr + s.length) = 0 := by
      have hi : s.length < (s ++ List.replicate (G_ALIGN4 (s.length + 1) - s.length) 0).length := by
        rw [hL]
        omega
      rw [octets_at_index mem p.ptr _ _ hm s.length hi,
        List.getElem_append_right (Nat.le_refl _)]
      simp
    have hread := read_string8_found mem p s.length (by omega) hnz h0
    rw [if_pos hf] at hread
    have hstr : string_at mem p.ptr (p.end_ - p.ptr) = s := by
      rw [string_at_eq mem s.length p.ptr _ (by omega) hnz h0, m1]
    simp only [Value.kind, read_kind, hread, Option.map_some', hstr, Value.octets, hL]
  | string16 o =>
    cases o with
    | none =>
      have hm : octets_at mem p.ptr 4 = [0xff, 0xff, 0xff, 0xff] := hmem
      have hf : p.ptr + 4 ≤ p.end_ := hfit
      have hl : load be mem p.ptr 4 = 0xffffffff := by
        unfold load
        rw [hm]
        cases be <;> rfl
      simp only [Value.kind, read_kind, gbinder_reader_read_nullable_string16, hl, if_pos hf,
        if_true, Option.map_some', Value.octets, List.length_cons, List.length_nil]
    | some s =>
      by_cases h0 : s = []
      · subst h0
        have hoct : Value.octets be (.string16 (some []))
            = host_bytes be 4 ([] : List Nat).length
              ++ (utf16_bytes be (([] : List Nat) ++ [0]) ++ host_bytes be 2 0xffff) := by
          simp only [Value.octets, if_true, List.length_nil, host_bytes_4_zero, utf16_bytes,
            List.flatMap_cons, List.flatMap_nil, List.nil_append, List.append_nil,
            List.append_assoc]
        rw [hoct] at hmem hfit ⊢
        have hr := read_nullable_string16_at be mem p [] (host_bytes be 2 0xffff)
          (fun x hx => absurd hx (List.not_mem_nil x)) (by decide)
          (by rw [host_bytes_length]; rfl) hmem hfit true
        simp only [Value.kind, read_kind, hr, if_true, Option.map_some']
        rfl
      · have hoct : Value.octets be (.string16 (some s))
            = host_bytes be 4 (s.map (fun b => b.val)).length
              ++ (utf16_bytes be (s.map (fun b => b.val) ++ [0])
                ++ List.replicate (G_ALIGN4 (((s.map (fun b => b.val)).length + 1) * 2)
                  - ((s.map (fun b => b.val)).length + 1) * 2) 0) := by
          simp only [Value.octets, if_neg h0, List.length_map]
        rw [hoct] at hmem hfit ⊢
        have hu : ∀ x ∈ s.map (fun b => b.val), x < 65536 := fun x hx => by
          have := (ascii_code_points s hv.1).2 x hx
          omega
        have hsz : (s.map (fun b => b.val)).length + 2 < 2 ^ 31 := by
          rw [List.length_map]
          exact hv.2
        have hr := read_nullable_string16_at be mem p (s.map (fun b => b.val))
          (List.replicate (G_ALIGN4 (((s.map (fun b => b.val)).length + 1) * 2)
            - ((s.map (fun b => b.val)).length + 1) * 2) 0)
          hu hsz (List.length_replicate _ _) hmem hfit true
        simp only [Value.kind, read_kind, hr, if_true, Option.map_some',
          ascii_utf16_to_utf8 s hv.1]

theorem read_kinds_octets (be : Bool) (mem : Memory) :
    ∀ (vs : List Value) (p : GBinderReaderPriv), (∀ v ∈ vs, v.admitted) →
      octets_at mem p.ptr (vs.flatMap (Value.octets be)).length
        = vs.flatMap (Value.octets be) →
      p.ptr + (vs.flatMap (Value.octets be)).length ≤ p.end_ →
      read_kinds be mem p (vs.map Value.kind)
        = (some vs, { p with ptr := p.ptr + (vs.flatMap (Value.octets be)).length }) := by
  intro vs
  induction vs with
  | nil =>
    intro p _ _ _
    rfl
  | cons v rest ih =>
    intro p hall hmem hfit
    rw [List.flatMap_cons] at hmem hfit ⊢
    obtain ⟨m1, m2⟩ := octets_at_split mem p.ptr _ _ hmem
    rw [List.length_append] at hfit ⊢
    have h1 := read_kind_octets be mem p v (hall v (List.mem_cons_self _ _)) m1 (by omega)
    have h2 := ih { p with ptr := p.ptr + (v.octets be).length }
      (fun x hx => hall x (List.mem_cons_of_mem _ hx)) m2
      (by show p.ptr + (v.octets be).length + _ ≤ p.end_; omega)
    simp only [List.map_cons, read_kinds, h1, h2, Option.map_some', Nat.add_assoc]

/-! ## Claims -/

/-- C1: for a non-null `s` and `len ≤ |s|`, `gbinder_writer_data_append_string8_len`
appends exactly `G_ALIGN4(len + 1)` octets: the first `len` octets of `s` followed only by
zero octets; the octets already in the parcel, `offsets`, `buffers_size` and `cleanup` stay
as they were, whatever the uninitialised block held, and no store leaves the allocated
block.  For a null `s` the parcel is unchanged. -/
theorem C1_append_string8_len (be : Bool) (data : GBinderWriterData) (s : List Octet)
    (len : Nat) (h : len ≤ s.length) :
    (gbinder_writer_data_append_string8_len be data (some s) len).bytes.toList
      = data.bytes.toList ++ (s.take len ++ List.replicate (G_ALIGN4 (len + 1) - len) 0) ∧
    (s.take len ++ List.replicate (G_ALIGN4 (len + 1) - len) (0 : Octet)).length
      = G_ALIGN4 (len + 1) ∧
    (gbinder_writer_data_append_string8_len be data (some s) len).bytes.len
      = data.bytes.len + G_ALIGN4 (len + 1) ∧
    (gbinder_writer_data_append_string8_len be data (some s) len).bytes.overflow
      = data.bytes.overflow ∧
    (gbinder_writer_data_append_string8_len be data (some s) len).offsets = data.offsets ∧
    (gbinder_writer_data_append_string8_len be data (some s) len).buffers_size
      = data.buffers_size ∧
    (gbinder_writer_data_append_string8_len be data (some s) len).cleanup = data.cleanup ∧
    gbinder_writer_data_append_string8_len be data none len = data := by
  refine ⟨(append_string8_len_toList be data s len h).1, ?_, ?_,
    (append_string8_len_toList be data s len h).2, rfl, rfl, rfl, rfl⟩
  · have := G_ALIGN4_ge (len + 1)
    simp [List.length_take, Nat.min_eq_left h]; omega
  · simp [gbinder_writer_data_append_string8_len]

/-- C1 (witness): `len = 2` of the three octets `68 69 21` on an empty parcel appends
`68 69 00 00`. -/
theorem C1_append_string8_len_witness :
    2 ≤ ([0x68, 0x69, 0x21] : List Octet).length ∧
    (gbinder_writer_data_append_string8_len false (GBinderWriterData.empty (fun _ => 0xaa))
      (some [0x68, 0x69, 0x21]) 2).bytes.toList = [0x68, 0x69, 0, 0] :=
  ⟨by decide,
   (C1_append_string8_len false (GBinderWriterData.empty (fun _ => 0xaa))
      [0x68, 0x69, 0x21] 2 (by decide)).1.trans (by decide)⟩

/-- C2: for a string `s` without NUL octet, `append_string8_len(s, |s|)` on an empty
parcel emits `G_ALIGN4(|s| + 1)` octets; `gbinder_reader_read_string8` on a reader over
them returns the pointer to their start, the C string there is `s`, and the cursor ends
at `G_ALIGN4(|s| + 1)`, which is the end of the region. -/
theorem C2_string8_roundtrip (be : Bool) (junk : Nat → Octet) (s : List Octet)
    (hs : ∀ b ∈ s, b ≠ 0) (base : Nat) (rest : Memory) :
    ((gbinder_writer_data_append_string8_len be (GBinderWriterData.empty junk) (some s)
        s.length).bytes.toList).length = G_ALIGN4 (s.length + 1) ∧
    gbinder_reader_read_string8
        (place base (gbinder_writer_data_append_string8_len be (GBinderWriterData.empty junk)
          (some s) s.length).bytes.toList rest)
        (reader_over base (G_ALIGN4 (s.length + 1)))
      = (some base, { reader_over base (G_ALIGN4 (s.length + 1)) with
                      ptr := base + G_ALIGN4 (s.length + 1) }) ∧
    string_at
        (place base (gbinder_writer_data_append_string8_len be (GBinderWriterData.empty junk)
          (some s) s.length).bytes.toList rest) base (G_ALIGN4 (s.length + 1)) = s ∧
    gbinder_reader_bytes_read (gbinder_reader_read_string8
        (place base (gbinder_writer_data_append_string8_len be (GBinderWriterData.empty junk)
          (some s) s.length).bytes.toList rest)
        (reader_over base (G_ALIGN4 (s.length + 1)))).2 = G_ALIGN4 (s.length + 1) ∧
    gbinder_reader_at_end (gbinder_reader_read_string8
        (place base (gbinder_writer_data_append_string8_len be (GBinderWriterData.empty junk)
          (some s) s.length).bytes.toList rest)
        (reader_over base (G_ALIGN4 (s.length + 1)))).2 = true := by
  have hge := G_ALIGN4_ge (s.length + 1)
  rw [(append_string8_len_toList be _ s s.length (Nat.le_refl _)).1, empty_toList]
  simp only [List.take_length, List.nil_append]
  obtain ⟨hnz, h0, hoct⟩ := place_string8 base s (G_ALIGN4 (s.length + 1) - s.length) rest hs
    (by omega)
  have hread := read_string8_found
    (place base (s ++ List.replicate (G_ALIGN4 (s.length + 1) - s.length) 0) rest)
    (reader_over base (G_ALIGN4 (s.length + 1))) s.length
    (by simp [reader_over, gbinder_reader_init]; omega)
    (by simpa [reader_over, gbinder_reader_init] using hnz)
    (by simpa [reader_over, gbinder_reader_init] using h0)
  rw [if_pos (by simp [reader_over, gbinder_reader_init])] at hread
  rw [hread]
  refine ⟨by simp; omega, ?_, ?_, ?_, ?_⟩
  · simp [reader_over, gbinder_reader_init]
  · rw [string_at_eq _ s.length base _ (by omega) hnz h0, hoct]
  · simp [gbinder_reader_bytes_read, reader_over, gbinder_reader_init]
  · simp [gbinder_reader_at_end, reader_over, gbinder_reader_init]

/-- C2 (witness): "hi" gives the octets `68 69 00 00`; reading returns the start pointer,
the C string there is "hi" and 4 octets are consumed. -/
theorem C2_string8_roundtrip_witness :
    (∀ b ∈ ([0x68, 0x69] : List Octet), b ≠ 0) ∧
    (gbinder_writer_data_append_string8_len false (GBinderWriterData.empty (fun _ => 0xaa))
      (some [0x68, 0x69]) 2).bytes.toList = [0x68, 0x69, 0, 0] ∧
    (gbinder_reader_read_string8 (place 4096 [0x68, 0x69, 0, 0] (fun _ => 0xaa))
      (reader_over 4096 4)).1 = some 4096 ∧
    string_at (place 4096 [0x68, 0x69, 0, 0] (fun _ => 0xaa)) 4096 4 = [0x68, 0x69] ∧
    gbinder_reader_bytes_read (gbinder_reader_read_string8
      (place 4096 [0x68, 0x69, 0, 0] (fun _ => 0xaa)) (reader_over 4096 4)).2 = 4 :=
  have h := C2_string8_roundtrip false (fun _ => 0xaa) [0x68, 0x69] (by simp) 4096
    (fun _ => 0xaa)
  ⟨by simp, by decide, congrArg Prod.fst h.2.1, h.2.2.1, h.2.2.2.1⟩

/-- C3 (failing input): the string of four U+1F600 (16 octets of valid UTF-8) written
with `gbinder_writer_data_append_string16` into an empty parcel.  The writer sizes the
array from the 4 characters (4 + 12 octets, a 16-octet block), then copies the 8 code
units and the terminator, 18 octets, to offset 4: the copy runs past the allocated block
(`overflow`), and after the final resize the octets from offset 16 on are not the string:
`gbinder_reader_read_string16` does not return it. -/
theorem C3_string16_supplementary :
    g_utf8_validate [0xf0, 0x9f, 0x98, 0x80, 0xf0, 0x9f, 0x98, 0x80, 0xf0, 0x9f, 0x98, 0x80,
      0xf0, 0x9f, 0x98, 0x80] (-1) = 16 ∧
    (gbinder_writer_data_append_string16 false (GBinderWriterData.empty (fun _ => 0xaa))
      (some [0xf0, 0x9f, 0x98, 0x80, 0xf0, 0x9f, 0x98, 0x80, 0xf0, 0x9f, 0x98, 0x80,
        0xf0, 0x9f, 0x98, 0x80])).bytes.overflow = true ∧
    (gbinder_writer_data_append_string16 false (GBinderWriterData.empty (fun _ => 0xaa))
      (some [0xf0, 0x9f, 0x98, 0x80, 0xf0, 0x9f, 0x98, 0x80, 0xf0, 0x9f, 0x98, 0x80,
        0xf0, 0x9f, 0x98, 0x80])).bytes.toList
      = [8, 0, 0, 0, 0x3d, 0xd8, 0x00, 0xde, 0x3d, 0xd8, 0x00, 0xde, 0x3d, 0xd8, 0x00, 0xde,
         0xaa, 0xaa, 0xaa, 0xaa, 0xaa, 0xaa, 0xaa, 0xaa] ∧
    (gbinder_reader_read_string16 false
      (place 4096 [8, 0, 0, 0, 0x3d, 0xd8, 0x00, 0xde, 0x3d, 0xd8, 0x00, 0xde, 0x3d, 0xd8, 0x00,
        0xde, 0xaa, 0xaa, 0xaa, 0xaa, 0xaa, 0xaa, 0xaa, 0xaa] (fun _ => 0xaa))
      (reader_over 4096 24)).1
      ≠ some [0xf0, 0x9f, 0x98, 0x80, 0xf0, 0x9f, 0x98, 0x80, 0xf0, 0x9f, 0x98, 0x80,
        0xf0, 0x9f, 0x98, 0x80] := by
  refine ⟨by decide, by decide, by decide, by decide⟩

/-- C4 (as amended): `gbinder_writer_data_append_string16_len` takes the prefix of the
input that `g_utf8_validate` accepts (it ends at the first NUL or the first octet that
does not start a well-formed sequence, within `num_bytes`); that prefix is the UTF-8
encoding of a sequence `cs` of non-zero Unicode scalar values.  When the prefix is not
empty and has no character above U+FFFF, the appended octets are: `len16` in host order
(its low 32 bits), where `len16` is the number of UTF-16 code units, here the number of
characters; the `len16` code units and a 0x0000 unit; zero octets up to a 4-byte
boundary: `4 + G_ALIGN4((len16+1)*2)` octets in all, and no store leaves the allocated
block.  When the prefix is empty the input is written like the empty string, as the
16-bit words 0, 0, 0, 0xFFFF.  Nothing else in the parcel changes. -/
theorem C4_append_string16_len (be : Bool) (data : GBinderWriterData) (s : List Octet)
    (num_bytes : Int) :
    (∃ cs : List Nat, (∀ c ∈ cs, UNICODE_VALID c ∧ c ≠ 0) ∧
        s.take (g_utf8_validate s num_bytes) = cs.flatMap g_unichar_to_utf8 ∧
        utf8_char ((if num_bytes < 0 then s else s.take num_bytes.toNat).drop
          (g_utf8_validate s num_bytes)) = none) ∧
    (∀ cs : List Nat, (∀ c ∈ cs, UNICODE_VALID c ∧ c ≠ 0) →
        s.take (g_utf8_validate s num_bytes) = cs.flatMap g_unichar_to_utf8 →
        0 < g_utf8_validate s num_bytes → (∀ c ∈ cs, c < 0x10000) →
        g_utf8_to_utf16 s (g_utf8_validate s num_bytes) = some cs ∧
        (gbinder_writer_data_append_string16_len be data (some s) num_bytes).bytes.toList
          = data.bytes.toList ++ (host_bytes be 4 cs.length ++ (utf16_bytes be (cs ++ [0]) ++
              List.replicate (G_ALIGN4 ((cs.length + 1) * 2) - (cs.length + 1) * 2) 0)) ∧
        (host_bytes be 4 cs.length ++ (utf16_bytes be (cs ++ [0]) ++
              List.replicate (G_ALIGN4 ((cs.length + 1) * 2) - (cs.length + 1) * 2)
                (0 : Octet))).length = 4 + G_ALIGN4 ((cs.length + 1) * 2) ∧
        (gbinder_writer_data_append_string16_len be data (some s) num_bytes).bytes.overflow
          = data.bytes.overflow) ∧
    (g_utf8_validate s num_bytes = 0 →
      (gbinder_writer_data_append_string16_len be data (some s) num_bytes).bytes.toList
        = data.bytes.toList ++ utf16_bytes be [0, 0, 0, 0xffff] ∧
      (gbinder_writer_data_append_string16_len be data (some s) num_bytes).bytes.overflow
        = data.bytes.overflow) ∧
    (gbinder_writer_data_append_string16_len be data (some s) num_bytes).offsets
      = data.offsets ∧
    (gbinder_writer_data_append_string16_len be data (some s) num_bytes).buffers_size
      = data.buffers_size ∧
    (gbinder_writer_data_append_string16_len be data (some s) num_bytes).cleanup
      = data.cleanup := by
  refine ⟨?_, ?_, append_string16_len_empty be data s num_bytes, ?_, ?_, ?_⟩
  · obtain ⟨cs, hcs, htake, _, hmax⟩ := g_utf8_validate_spec s num_bytes
    exact ⟨cs, hcs, htake, hmax⟩
  · intro cs hcs htake hn hbmp
    have hu := utf16_units_bmp cs hbmp
    have hlen : (cs.flatMap g_unichar_to_utf8).length = g_utf8_validate s num_bytes := by
      obtain ⟨cs2, _, htake2, hlen2, _⟩ := g_utf8_validate_spec s num_bytes
      rw [← htake, htake2, hlen2]
    have hw := append_string16_len_nonempty be data s num_bytes cs hcs hn htake hlen
      (by
        rw [hu]
        exact set_size_alloc_ge _ _ (by omega))
    rw [hu] at hw
    refine ⟨?_, hw.1, ?_, hw.2⟩
    · unfold g_utf8_to_utf16
      rw [htake, utf8_to_utf16_loop_encoded cs hcs _ (Nat.le_refl _), hu]
    · have hge := G_ALIGN4_ge ((cs.length + 1) * 2)
      simp only [List.length_append, host_bytes_length, utf16_bytes_length,
        List.length_replicate, List.length_cons, List.length_nil]
      omega
  all_goals
    simp only [gbinder_writer_data_append_string16_len, gbinder_writer_data_append_int32]
    split_ifs <;> rfl

/-- C4 (witness): "A" gives `01 00 00 00 41 00 00 00` on a little-endian host; the input
`FF 41`, whose valid prefix is empty, gives `00 00 00 00 00 00 FF FF`. -/
theorem C4_append_string16_len_witness :
    (∀ c ∈ [0x41], UNICODE_VALID c ∧ c ≠ 0) ∧
    List.take (g_utf8_validate [0x41] 1) [0x41] = [0x41].flatMap g_unichar_to_utf8 ∧
    0 < g_utf8_validate [0x41] 1 ∧ (∀ c ∈ [0x41], c < 0x10000) ∧
    (gbinder_writer_data_append_string16_len false (GBinderWriterData.empty (fun _ => 0xaa))
      (some [0x41]) 1).bytes.toList = [1, 0, 0, 0, 0x41, 0, 0, 0] ∧
    g_utf8_validate [0xff, 0x41] 2 = 0 ∧
    (gbinder_writer_data_append_string16_len false (GBinderWriterData.empty (fun _ => 0xaa))
      (some [0xff, 0x41]) 2).bytes.toList = [0, 0, 0, 0, 0, 0, 0xff, 0xff] := by
  have h := C4_append_string16_len false (GBinderWriterData.empty (fun _ => 0xaa)) [0x41] 1
  have h2 := C4_append_string16_len false (GBinderWriterData.empty (fun _ => 0xaa))
    [0xff, 0x41] 2
  have hs : ∀ c ∈ [0x41], UNICODE_VALID c ∧ c ≠ 0 := by
    intro c hc
    simp only [List.mem_singleton] at hc
    subst hc
    decide
  have hb : ∀ c ∈ [0x41], c < 0x10000 := by
    intro c hc
    simp only [List.mem_singleton] at hc
    subst hc
    decide
  exact ⟨hs, by decide, by decide, hb,
    (h.2.1 [0x41] hs (by decide) (by decide) hb).2.1.trans (by decide), by decide,
    (h2.2.2.1 (by decide)).1.trans (by decide)⟩

/-- C4 (counterexample): the one-octet input `FF` with `num_bytes = 1` is non-empty and
non-null and its valid prefix is empty (`len16 = 0`); the claim gives 32-bit 0, one 0x0000
unit and zero padding, i.e. eight 0 octets, but the code appends `00 00 00 00 00 00 FF FF`. -/
theorem C4_counterexample :
    g_utf8_validate [0xff] 1 = 0 ∧
    (gbinder_writer_data_append_string16_len false (GBinderWriterData.empty (fun _ => 0xaa))
      (some [0xff]) 1).bytes.toList = [0, 0, 0, 0, 0, 0, 0xff, 0xff] ∧
    (gbinder_writer_data_append_string16_len false (GBinderWriterData.empty (fun _ => 0xaa))
      (some [0xff]) 1).bytes.toList
      ≠ host_bytes false 4 0 ++ (utf16_bytes false ([] ++ [0]) ++ List.replicate 2 0) := by
  decide

/-- C5: `gbinder_writer_data_append_string16` with a null string appends exactly the 4
octets `FF FF FF FF` and changes nothing else; `gbinder_reader_read_nullable_string16` on a
reader over them returns TRUE, stores `NULL` through `out` (when given) and advances the
cursor by exactly 4. -/
theorem C5_null_string16 (be : Bool) (data : GBinderWriterData) (base : Nat) (rest : Memory)
    (out : Bool) :
    (gbinder_writer_data_append_string16 be data none).bytes.toList
      = data.bytes.toList ++ [0xff, 0xff, 0xff, 0xff] ∧
    (gbinder_writer_data_append_string16 be data none).bytes.overflow = data.bytes.overflow ∧
    (gbinder_writer_data_append_string16 be data none).offsets = data.offsets ∧
    (gbinder_writer_data_append_string16 be data none).buffers_size = data.buffers_size ∧
    gbinder_reader_read_nullable_string16 be (place base [0xff, 0xff, 0xff, 0xff] rest)
        (reader_over base 4) out
      = (true, if out then some none else none, { reader_over base 4 with ptr := base + 4 }) ∧
    gbinder_reader_bytes_read (gbinder_reader_read_nullable_string16 be
        (place base [0xff, 0xff, 0xff, 0xff] rest) (reader_over base 4) out).2.2 = 4 := by
  have hload : load be (place base [0xff, 0xff, 0xff, 0xff] rest) base 4 = 0xffffffff := by
    have := load_place be base [0xff, 0xff, 0xff, 0xff] rest
    simp only [List.length_cons, List.length_nil] at this
    rw [this]
    cases be <;> rfl
  have hr : gbinder_reader_read_nullable_string16 be (place base [0xff, 0xff, 0xff, 0xff] rest)
        (reader_over base 4) out
      = (true, if out then some none else none,
          { reader_over base 4 with ptr := base + 4 }) := by
    simp only [gbinder_reader_read_nullable_string16, reader_over, gbinder_reader_init,
      Nat.add_zero, hload]
    rw [if_pos (by omega)]
    rfl
  refine ⟨(append_string16_len_null be data _).1, (append_string16_len_null be data _).2,
    rfl, rfl, hr, ?_⟩
  rw [hr]
  simp [gbinder_reader_bytes_read, reader_over, gbinder_reader_init]

/-- C6: `gbinder_writer_data_append_string16` with an empty non-null string appends
exactly 8 octets, the host representation of the 16-bit words 0, 0, 0, 0xFFFF in that
order; `gbinder_reader_read_string16` on a reader over those 8 octets yields the empty
string (not null) and advances the cursor by 8. -/
theorem C6_empty_string16 (be : Bool) (data : GBinderWriterData) (base : Nat) (rest : Memory) :
    (gbinder_writer_data_append_string16 be data (some [])).bytes.toList
      = data.bytes.toList ++ utf16_bytes be [0, 0, 0, 0xffff] ∧
    (utf16_bytes be [0, 0, 0, 0xffff]).length = 8 ∧
    (gbinder_writer_data_append_string16 be data (some [])).bytes.overflow
      = data.bytes.overflow ∧
    gbinder_reader_read_string16 be (place base (utf16_bytes be [0, 0, 0, 0xffff]) rest)
        (reader_over base 8)
      = (some [], { reader_over base 8 with ptr := base + 8 }) ∧
    gbinder_reader_bytes_read (gbinder_reader_read_string16 be
        (place base (utf16_bytes be [0, 0, 0, 0xffff]) rest) (reader_over base 8)).2 = 8 := by
  have hform : utf16_bytes be [0, 0, 0, 0xffff]
      = host_bytes be 4 ([] : List Nat).length
          ++ (utf16_bytes be ([] ++ [0]) ++ host_bytes be 2 0xffff) := by
    cases be <;> rfl
  have hr := read_nullable_string16_written be base rest [] (host_bytes be 2 0xffff)
    (by simp) (by norm_num) true
  rw [← hform] at hr
  have hread : gbinder_reader_read_string16 be
      (place base (utf16_bytes be [0, 0, 0, 0xffff]) rest) (reader_over base 8)
      = (some [], { reader_over base 8 with ptr := base + 8 }) := by
    unfold gbinder_reader_read_string16
    rw [show (8 : Nat) = 4 + G_ALIGN4 ((([] : List Nat).length + 1) * 2) from rfl, hr]
    rfl
  have hw := append_string16_len_empty be data [] ((strlen [] : Nat) : Int) (by decide)
  refine ⟨hw.1, by rw [utf16_bytes_length]; rfl, hw.2, hread, ?_⟩
  rw [hread]
  simp [gbinder_reader_bytes_read, reader_over, gbinder_reader_init]

/-- C7 (as amended): on a little-endian host the octets appended by
`gbinder_writer_data_append_string16` for an empty non-null string are exactly
`00 00 00 00 00 00 FF FF` (the words 0, 0, 0, 0xFFFF: the 0xFFFF is the last word). -/
theorem C7_empty_string16_octets (data : GBinderWriterData) :
    (gbinder_writer_data_append_string16 false data (some [])).bytes.toList
      = data.bytes.toList ++ [0, 0, 0, 0, 0, 0, 0xff, 0xff] :=
  (append_string16_len_empty false data [] ((strlen [] : Nat) : Int) (by decide)).1

/-- C7 (counterexample): on a little-endian host the octets appended to an empty parcel
for the empty string are not `00 00 00 00 FF FF 00 00`. -/
theorem C7_counterexample :
    (gbinder_writer_data_append_string16 false (GBinderWriterData.empty (fun _ => 0xaa))
      (some [])).bytes.toList ≠ [0, 0, 0, 0, 0xff, 0xff, 0, 0] := by
  decide

/-- C8: for a boolean `v` (as a `gboolean`: 1 for TRUE, 0 for FALSE) and a writer with
data, `gbinder_writer_append_bool` appends exactly the 4 octets `v ? 1 : 0, FF, FF, FF`
and changes nothing else; `gbinder_reader_read_bool` on a reader over those octets
returns TRUE, stores `v`, and leaves the cursor at 4. -/
theorem C8_bool_roundtrip (data : GBinderWriterData) (v : Bool) (base : Nat) (rest : Memory) :
    (gbinder_writer_data (gbinder_writer_append_bool (some { data := some data })
        (if v then 1 else 0))).map (fun d => d.bytes.toList)
      = some (data.bytes.toList ++ [if v then 1 else 0, 0xff, 0xff, 0xff]) ∧
    (gbinder_writer_data (gbinder_writer_append_bool (some { data := some data })
        (if v then 1 else 0))).map
          (fun d => (d.bytes.overflow, d.offsets, d.buffers_size, d.cleanup))
      = some (data.bytes.overflow, data.offsets, data.buffers_size, data.cleanup) ∧
    gbinder_reader_read_bool (place base [if v then 1 else 0, 0xff, 0xff, 0xff] rest)
        (reader_over base 4) true
      = (true, some (if v then 1 else 0), { reader_over base 4 with ptr := base + 4 }) ∧
    gbinder_reader_bytes_read (gbinder_reader_read_bool
        (place base [if v then 1 else 0, 0xff, 0xff, 0xff] rest)
        (reader_over base 4) true).2.2 = 4 := by
  have hw := byte_array_append_toList data.bytes
    [if (if v then (1 : Int) else 0) ≠ 0 then 1 else 0, 0xff, 0xff, 0xff] (by simp)
  cases v
  · have h0 := place_at base [0, 0xff, 0xff, 0xff] rest 0 (by simp)
    simp only [Nat.add_zero, List.getElem_cons_zero] at h0
    refine ⟨by simpa [gbinder_writer_append_bool, gbinder_writer_append_bytes,
      gbinder_writer_data] using hw.1, by simpa [gbinder_writer_append_bool,
      gbinder_writer_append_bytes, gbinder_writer_data] using hw.2, ?_, ?_⟩
    · simp [gbinder_reader_read_bool, gbinder_reader_can_read, reader_over,
        gbinder_reader_init, h0]
    · simp [gbinder_reader_read_bool, gbinder_reader_can_read, reader_over,
        gbinder_reader_init, gbinder_reader_bytes_read]
  · have h0 := place_at base [1, 0xff, 0xff, 0xff] rest 0 (by simp)
    simp only [Nat.add_zero, List.getElem_cons_zero] at h0
    refine ⟨by simpa [gbinder_writer_append_bool, gbinder_writer_append_bytes,
      gbinder_writer_data] using hw.1, by simpa [gbinder_writer_append_bool,
      gbinder_writer_append_bytes, gbinder_writer_data] using hw.2, ?_, ?_⟩
    · simp [gbinder_reader_read_bool, gbinder_reader_can_read, reader_over,
        gbinder_reader_init, h0]
    · simp [gbinder_reader_read_bool, gbinder_reader_can_read, reader_over,
        gbinder_reader_init, gbinder_reader_bytes_read]

/-- C9: for a 32-bit value `x`, `gbinder_writer_data_append_int32` appends exactly 4
octets, the host representation of `x`, and `gbinder_reader_read_uint32` over them yields
`x` with the cursor at 4; for a 64-bit value `y`, `gbinder_writer_data_append_int64`
appends exactly 8 octets and `gbinder_reader_read_uint64` yields `y` with the cursor at 8.
Both hold for either host byte order, and neither store leaves the allocated block. -/
theorem C9_int_roundtrip (be : Bool) (data : GBinderWriterData) (x y : Nat)
    (hx : x < 2 ^ 32) (hy : y < 2 ^ 64) (base : Nat) (rest : Memory) :
    (gbinder_writer_data_append_int32 be data x).bytes.toList
      = data.bytes.toList ++ host_bytes be 4 x ∧
    (host_bytes be 4 x).length = 4 ∧
    (gbinder_writer_data_append_int32 be data x).bytes.overflow = data.bytes.overflow ∧
    (gbinder_writer_data_append_int64 be data y).bytes.overflow = data.bytes.overflow ∧
    gbinder_reader_read_uint32 be (place base (host_bytes be 4 x) rest) (reader_over base 4) true
      = (true, some x, { reader_over base 4 with ptr := base + 4 }) ∧
    gbinder_reader_bytes_read (gbinder_reader_read_uint32 be
      (place base (host_bytes be 4 x) rest) (reader_over base 4) true).2.2 = 4 ∧
    (gbinder_writer_data_append_int64 be data y).bytes.toList
      = data.bytes.toList ++ host_bytes be 8 y ∧
    (host_bytes be 8 y).length = 8 ∧
    gbinder_reader_read_uint64 be (place base (host_bytes be 8 y) rest) (reader_over base 8) true
      = (true, some y, { reader_over base 8 with ptr := base + 8 }) ∧
    gbinder_reader_bytes_read (gbinder_reader_read_uint64 be
      (place base (host_bytes be 8 y) rest) (reader_over base 8) true).2.2 = 8 := by
  have l4 := load_place be base (host_bytes be 4 x) rest
  have l8 := load_place be base (host_bytes be 8 y) rest
  rw [host_bytes_length, host_value_host_bytes, Nat.mod_eq_of_lt (by simpa using hx)] at l4
  rw [host_bytes_length, host_value_host_bytes, Nat.mod_eq_of_lt (by simpa using hy)] at l8
  refine ⟨(append_int32_toList be data x).1, host_bytes_length be 4 x,
    (append_int32_toList be data x).2, (append_int64_toList be data y).2, ?_, ?_,
    (append_int64_toList be data y).1, host_bytes_length be 8 y, ?_, ?_⟩
  · simp [gbinder_reader_read_uint32, gbinder_reader_can_read, reader_over,
      gbinder_reader_init, l4]
  · simp [gbinder_reader_read_uint32, gbinder_reader_can_read, reader_over,
      gbinder_reader_init, gbinder_reader_bytes_read]
  · simp [gbinder_reader_read_uint64, gbinder_reader_can_read, reader_over,
      gbinder_reader_init, l8]
  · simp [gbinder_reader_read_uint64, gbinder_reader_can_read, reader_over,
      gbinder_reader_init, gbinder_reader_bytes_read]

/-- C9 (witness): on a little-endian host 0x12345678 is written as `78 56 34 12` and
0x1122334455667788 as `88 77 66 55 44 33 22 11`, and both are read back. -/
theorem C9_int_roundtrip_witness :
    (0x12345678 : Nat) < 2 ^ 32 ∧ (0x1122334455667788 : Nat) < 2 ^ 64 ∧
    (gbinder_writer_data_append_int32 false (GBinderWriterData.empty (fun _ => 0xaa))
      0x12345678).bytes.toList = [0x78, 0x56, 0x34, 0x12] ∧
    (gbinder_reader_read_uint32 false (place 4096 [0x78, 0x56, 0x34, 0x12] (fun _ => 0xaa))
      (reader_over 4096 4) true).2.1 = some 0x12345678 ∧
    (gbinder_writer_data_append_int64 false (GBinderWriterData.empty (fun _ => 0xaa))
      0x1122334455667788).bytes.toList = [0x88, 0x77, 0x66, 0x55, 0x44, 0x33, 0x22, 0x11] ∧
    (gbinder_reader_read_uint64 false
      (place 4096 [0x88, 0x77, 0x66, 0x55, 0x44, 0x33, 0x22, 0x11] (fun _ => 0xaa))
      (reader_over 4096 8) true).2.1 = some 0x1122334455667788 :=
  have h := C9_int_roundtrip false (GBinderWriterData.empty (fun _ => 0xaa))
    0x12345678 0x1122334455667788 (by norm_num) (by norm_num) 4096 (fun _ => 0xaa)
  ⟨by norm_num, by norm_num, h.1.trans (by decide),
   congrArg (fun r => r.2.1) h.2.2.2.2.1,
   h.2.2.2.2.2.2.1.trans (by decide),
   congrArg (fun r => r.2.1) h.2.2.2.2.2.2.2.2.1⟩

/-- C10 (as amended): when the first 0 octet in `[ptr, end)` is at offset `k` from `ptr`,
`gbinder_reader_read_string8` succeeds exactly if the padded size `G_ALIGN4(k + 1)` also
fits in `[ptr, end)`; it then returns `ptr`, the C string there is the `k` octets starting
at `ptr`, and the cursor advances by exactly `G_ALIGN4(k + 1)`.  When the padded size does
not fit it returns null and the reader is unchanged. -/
theorem C10_read_string8 (mem : Memory) (p : GBinderReaderPriv) (k : Nat)
    (hlt : p.ptr + k < p.end_) (hnz : ∀ i, i < k → mem (p.ptr + i) ≠ 0)
    (h0 : mem (p.ptr + k) = 0) :
    (p.ptr + G_ALIGN4 (k + 1) ≤ p.end_ →
      gbinder_reader_read_string8 mem p
        = (some p.ptr, { p with ptr := p.ptr + G_ALIGN4 (k + 1) }) ∧
      string_at mem p.ptr (p.end_ - p.ptr) = octets_at mem p.ptr k) ∧
    (p.end_ < p.ptr + G_ALIGN4 (k + 1) → gbinder_reader_read_string8 mem p = (none, p)) := by
  have h := read_string8_found mem p k hlt hnz h0
  constructor
  · intro hfit
    rw [if_pos hfit] at h
    exact ⟨h, string_at_eq mem k p.ptr _ (by omega) hnz h0⟩
  · intro hno
    rw [if_neg (by omega)] at h
    exact h

/-- C10 (witness): over the 8 octets `68 69 00 00 01 02 03 04` the first 0 is at offset 2,
the padded size 4 fits, the read returns the start pointer and the cursor advances by 4. -/
theorem C10_read_string8_witness :
    (reader_over 4096 8).ptr + 2 < (reader_over 4096 8).end_ ∧
    (∀ i, i < 2 → place 4096 [0x68, 0x69, 0, 0, 1, 2, 3, 4] (fun _ => 0xaa)
      ((reader_over 4096 8).ptr + i) ≠ 0) ∧
    place 4096 [0x68, 0x69, 0, 0, 1, 2, 3, 4] (fun _ => 0xaa) ((reader_over 4096 8).ptr + 2) = 0 ∧
    (gbinder_reader_read_string8 (place 4096 [0x68, 0x69, 0, 0, 1, 2, 3, 4] (fun _ => 0xaa))
      (reader_over 4096 8)).1 = some 4096 ∧
    (gbinder_reader_read_string8 (place 4096 [0x68, 0x69, 0, 0, 1, 2, 3, 4] (fun _ => 0xaa))
      (reader_over 4096 8)).2.ptr = 4100 :=
  have h := (C10_read_string8 (place 4096 [0x68, 0x69, 0, 0, 1, 2, 3, 4] (fun _ => 0xaa))
    (reader_over 4096 8) 2 (by decide) (by decide) (by decide)).1 (by decide)
  ⟨by decide, by decide, by decide, congrArg Prod.fst h.1,
   congrArg (fun r => r.2.ptr) h.1⟩

/-- C10 (counterexample): a region of one octet holding 0 has a 0 octet in `[ptr, end)`
(at offset 0), yet `gbinder_reader_read_string8` returns null and does not move the
cursor, because the padded size 4 does not fit. -/
theorem C10_counterexample :
    (reader_over 4096 1).ptr < (reader_over 4096 1).end_ ∧
    place 4096 [0] (fun _ => 0xaa) (reader_over 4096 1).ptr = 0 ∧
    (gbinder_reader_read_string8 (place 4096 [0] (fun _ => 0xaa)) (reader_over 4096 1)).1
      = none ∧
    (gbinder_reader_read_string8 (place 4096 [0] (fun _ => 0xaa)) (reader_over 4096 1)).2.ptr
      = (reader_over 4096 1).ptr := by
  decide

/-- C11: when the 32-bit length at the cursor is `n` with `0 ≤ n ≤ 2^31 - 1`,
`gbinder_reader_read_nullable_string16` succeeds if and only if at least
`4 + G_ALIGN4((n+1)*2)` octets remain, the alignment being computed in the code's 32-bit
arithmetic (modulo `2^32`); on success the cursor advances by exactly that many octets and
on failure the reader is unchanged.  For `n < 2^31 - 2` the 32-bit value is the exact
`G_ALIGN4((n+1)*2)`; for the two largest `n` it wraps to 0. -/
theorem C11_read_string16_amount (be : Bool) (mem : Memory) (p : GBinderReaderPriv)
    (out : Bool) (n : Nat) (hn : load be mem p.ptr 4 = n) (hlt : n < 2 ^ 31) :
    ((gbinder_reader_read_nullable_string16 be mem p out).1 = true ↔
      4 + G_ALIGN4 ((n + 1) * 2) % 2 ^ 32 ≤ gbinder_reader_bytes_remaining p) ∧
    ((gbinder_reader_read_nullable_string16 be mem p out).1 = true →
      (gbinder_reader_read_nullable_string16 be mem p out).2.2
        = { p with ptr := p.ptr + (4 + G_ALIGN4 ((n + 1) * 2) % 2 ^ 32) }) ∧
    ((gbinder_reader_read_nullable_string16 be mem p out).1 = false →
      gbinder_reader_read_nullable_string16 be mem p out = (false, none, p)) ∧
    (n + 2 < 2 ^ 31 → G_ALIGN4 ((n + 1) * 2) % 2 ^ 32 = G_ALIGN4 ((n + 1) * 2)) ∧
    (2 ^ 31 ≤ n + 2 → G_ALIGN4 ((n + 1) * 2) % 2 ^ 32 = 0) := by
  have h1 : ¬ n = 0xffffffff := by norm_num at hlt ⊢; omega
  have h2 : n < 0x80000000 := by norm_num at hlt ⊢; omega
  have key : gbinder_reader_read_nullable_string16 be mem p out
      = if p.ptr + (4 + G_ALIGN4 ((n + 1) * 2) % 2 ^ 32) ≤ p.end_
        then (true, if out then some (g_utf16_to_utf8 (utf16_at be mem (p.ptr + 4) n) n)
                else none,
              { p with ptr := p.ptr + (4 + G_ALIGN4 ((n + 1) * 2) % 2 ^ 32) })
        else (false, none, p) := by
    simp only [gbinder_reader_read_nullable_string16, hn]
    by_cases h4 : p.ptr + 4 ≤ p.end_
    · rw [if_pos h4, if_neg h1, if_pos h2]
      by_cases h5 : p.ptr + G_ALIGN4 ((n + 1) * 2) % 2 ^ 32 + 4 ≤ p.end_
      · have h6 : p.ptr + (4 + G_ALIGN4 ((n + 1) * 2) % 2 ^ 32) ≤ p.end_ := by omega
        rw [if_pos h5, if_pos h6,
          show p.ptr + G_ALIGN4 ((n + 1) * 2) % 2 ^ 32 + 4
            = p.ptr + (4 + G_ALIGN4 ((n + 1) * 2) % 2 ^ 32) by omega]
      · have h6 : ¬ p.ptr + (4 + G_ALIGN4 ((n + 1) * 2) % 2 ^ 32) ≤ p.end_ := by omega
        rw [if_neg h5, if_neg h6]
    · have h6 : ¬ p.ptr + (4 + G_ALIGN4 ((n + 1) * 2) % 2 ^ 32) ≤ p.end_ := by omega
      rw [if_neg h4, if_neg h6]
  have hexact : n + 2 < 2 ^ 31 → G_ALIGN4 ((n + 1) * 2) % 2 ^ 32 = G_ALIGN4 ((n + 1) * 2) := by
    intro h
    apply Nat.mod_eq_of_lt
    unfold G_ALIGN4
    norm_num at h ⊢
    omega
  have hwrap : 2 ^ 31 ≤ n + 2 → G_ALIGN4 ((n + 1) * 2) % 2 ^ 32 = 0 := by
    intro h
    unfold G_ALIGN4
    norm_num at h hlt ⊢
    omega
  unfold gbinder_reader_bytes_remaining
  by_cases hc : p.ptr + (4 + G_ALIGN4 ((n + 1) * 2) % 2 ^ 32) ≤ p.end_
  · rw [key, if_pos hc]
    refine ⟨⟨fun _ => by omega, fun _ => rfl⟩, fun _ => rfl, fun h => ?_, hexact, hwrap⟩
    simp at h
  · rw [key, if_neg hc]
    refine ⟨⟨fun h => ?_, fun h => ?_⟩, fun h => ?_, fun _ => rfl, hexact, hwrap⟩
    · simp at h
    · exact absurd (by omega) hc
    · simp at h

/-- C11 (witness): over the 8 octets `01 00 00 00 41 00 00 00` (little-endian) the length
is 1, `4 + G_ALIGN4(4) = 8` octets remain, the read succeeds and the cursor advances by 8. -/
theorem C11_read_string16_amount_witness :
    load false (place 4096 [1, 0, 0, 0, 0x41, 0, 0, 0] (fun _ => 0xaa)) (reader_over 4096 8).ptr 4
      = 1 ∧
    (1 : Nat) < 2 ^ 31 ∧
    (gbinder_reader_read_nullable_string16 false
      (place 4096 [1, 0, 0, 0, 0x41, 0, 0, 0] (fun _ => 0xaa)) (reader_over 4096 8) true).1
      = true ∧
    (gbinder_reader_read_nullable_string16 false
      (place 4096 [1, 0, 0, 0, 0x41, 0, 0, 0] (fun _ => 0xaa)) (reader_over 4096 8) true).2.2.ptr
      = 4096 + 8 := by
  have h := C11_read_string16_amount false
    (place 4096 [1, 0, 0, 0, 0x41, 0, 0, 0] (fun _ => 0xaa)) (reader_over 4096 8) true 1
    (by decide) (by norm_num)
  have hs := h.1.mpr (by decide)
  exact ⟨by decide, by norm_num, hs, congrArg GBinderReaderPriv.ptr (h.2.1 hs)⟩

/-- C12: when the 32-bit value at the cursor is negative as a `gint32` (its pattern is
`2^31` or more) and is not -1 (`0xffffffff`), `gbinder_reader_read_nullable_string16`
returns FALSE and stores nothing, `gbinder_reader_read_string16` returns null and
`gbinder_reader_skip_string16` returns FALSE; each leaves the reader unchanged. -/
theorem C12_string16_negative_length (be : Bool) (mem : Memory) (p : GBinderReaderPriv)
    (hneg : 2 ^ 31 ≤ load be mem p.ptr 4) (hne : load be mem p.ptr 4 ≠ 0xffffffff) :
    (∀ out, gbinder_reader_read_nullable_string16 be mem p out = (false, none, p)) ∧
    gbinder_reader_read_string16 be mem p = (none, p) ∧
    gbinder_reader_skip_string16 be mem p = (false, p) := by
  have h2 : ¬ load be mem p.ptr 4 < 0x80000000 := by norm_num at hneg ⊢; omega
  have h1 : ∀ out, gbinder_reader_read_nullable_string16 be mem p out = (false, none, p) := by
    intro out
    simp only [gbinder_reader_read_nullable_string16]
    rw [if_neg hne, if_neg h2]
    split_ifs <;> rfl
  refine ⟨h1, ?_, ?_⟩
  · unfold gbinder_reader_read_string16
    rw [h1]
    rfl
  · simp only [gbinder_reader_skip_string16]
    rw [if_neg hne, if_neg h2]
    split_ifs <;> rfl

/-- C12 (witness): the length -2 (`FE FF FF FF` on a little-endian host) followed by 4 more
octets: the three reads fail and the cursor stays at the start. -/
theorem C12_string16_negative_length_witness :
    2 ^ 31 ≤ load false (place 4096 [0xfe, 0xff, 0xff, 0xff, 0, 0, 0, 0] (fun _ => 0xaa))
      (reader_over 4096 8).ptr 4 ∧
    load false (place 4096 [0xfe, 0xff, 0xff, 0xff, 0, 0, 0, 0] (fun _ => 0xaa))
      (reader_over 4096 8).ptr 4 ≠ 0xffffffff ∧
    (gbinder_reader_read_string16 false
      (place 4096 [0xfe, 0xff, 0xff, 0xff, 0, 0, 0, 0] (fun _ => 0xaa)) (reader_over 4096 8)).1
      = none ∧
    (gbinder_reader_skip_string16 false
      (place 4096 [0xfe, 0xff, 0xff, 0xff, 0, 0, 0, 0] (fun _ => 0xaa)) (reader_over 4096 8)).2.ptr
      = 4096 := by
  have h := C12_string16_negative_length false
    (place 4096 [0xfe, 0xff, 0xff, 0xff, 0, 0, 0, 0] (fun _ => 0xaa)) (reader_over 4096 8)
    (by decide) (by decide)
  exact ⟨by decide, by decide, congrArg Prod.fst h.2.1,
    congrArg (fun r => r.2.ptr) h.2.2⟩

/-- C13: when no octet of `[ptr, end)` is 0 (in particular when the region is empty),
`gbinder_reader_read_string8` returns null and leaves the reader unchanged. -/
theorem C13_read_string8_no_nul (mem : Memory) (p : GBinderReaderPriv)
    (h : ∀ a, p.ptr ≤ a → a < p.end_ → mem a ≠ 0) :
    gbinder_reader_read_string8 mem p = (none, p) := by
  have hscan : ¬ string8_scan mem p.end_ (p.end_ - p.ptr) p.ptr < p.end_ := by
    by_cases hle : p.ptr ≤ p.end_
    · rw [string8_scan_runs mem p.end_ (p.end_ - p.ptr) p.ptr (by omega) h]
      omega
    · rw [show p.end_ - p.ptr = 0 by omega]
      simp only [string8_scan]
      omega
  unfold gbinder_reader_read_string8
  simp only [hscan, if_false]

/-- C13 (witness): over the 4 octets `68 69 21 21`, none of them 0, the read returns null
and the cursor stays at the start. -/
theorem C13_read_string8_no_nul_witness :
    (∀ a, (reader_over 4096 4).ptr ≤ a → a < (reader_over 4096 4).end_ →
      place 4096 [0x68, 0x69, 0x21, 0x21] (fun _ => 0) a ≠ 0) ∧
    (gbinder_reader_read_string8 (place 4096 [0x68, 0x69, 0x21, 0x21] (fun _ => 0))
      (reader_over 4096 4)).1 = none ∧
    (gbinder_reader_read_string8 (place 4096 [0x68, 0x69, 0x21, 0x21] (fun _ => 0))
      (reader_over 4096 4)).2.ptr = 4096 := by
  have hh : ∀ a, (reader_over 4096 4).ptr ≤ a → a < (reader_over 4096 4).end_ →
      place 4096 [0x68, 0x69, 0x21, 0x21] (fun _ => 0) a ≠ 0 := by
    intro a h1 h2
    simp only [reader_over, gbinder_reader_init, Nat.add_zero] at h1 h2
    have : a = 4096 ∨ a = 4097 ∨ a = 4098 ∨ a = 4099 := by omega
    rcases this with rfl | rfl | rfl | rfl <;> decide
  have h := C13_read_string8_no_nul (place 4096 [0x68, 0x69, 0x21, 0x21] (fun _ => 0))
    (reader_over 4096 4) hh
  exact ⟨hh, congrArg Prod.fst h, congrArg (fun r => r.2.ptr) h⟩

/-- C17: `gbinder_reader_skip_string16` and `gbinder_reader_read_nullable_string16`, with
or without an out pointer, return the same success flag and leave the same reader, for
every reader state; without an out pointer nothing is stored, with one a value (a string
or `NULL`) is stored exactly on success. -/
theorem C17_skip_string16_same_walk (be : Bool) (mem : Memory) (p : GBinderReaderPriv)
    (out : Bool) :
    (gbinder_reader_skip_string16 be mem p).1
      = (gbinder_reader_read_nullable_string16 be mem p out).1 ∧
    (gbinder_reader_skip_string16 be mem p).2
      = (gbinder_reader_read_nullable_string16 be mem p out).2.2 ∧
    (gbinder_reader_read_nullable_string16 be mem p false).2.1 = none ∧
    ((gbinder_reader_read_nullable_string16 be mem p true).2.1.isSome
      = (gbinder_reader_read_nullable_string16 be mem p true).1) := by
  simp only [gbinder_reader_skip_string16, gbinder_reader_read_nullable_string16]
  refine ⟨?_, ?_, ?_, ?_⟩ <;> split_ifs <;> first | rfl | contradiction

/-- C14: for every reader state with `start ≤ ptr ≤ end`, `gbinder_reader_read_byte`,
`read_bool`, `read_uint32`/`read_int32` and `read_uint64`/`read_int64` return TRUE exactly
when at least 1, 4, 4 and 8 octets remain; then the cursor has advanced by that width and
the value stored is `byte0`, `byte0 != 0`, and the host-endian 32/64-bit value at the
cursor (as unsigned, or as `gint32`/`gint64`); with fewer octets remaining (so with one
octet fewer than the width) the read returns FALSE, stores nothing and leaves the reader
as it was. -/
theorem C14_scalar_reads (be : Bool) (mem : Memory) (p : GBinderReaderPriv) (value : Bool)
    (hs : p.start ≤ p.ptr) (he : p.ptr ≤ p.end_) :
    (gbinder_reader_read_byte mem p value =
      if 1 ≤ gbinder_reader_bytes_remaining p then
        (true, if value then some (mem p.ptr) else none, { p with ptr := p.ptr + 1 })
      else (false, none, p)) ∧
    (gbinder_reader_read_bool mem p value =
      if 4 ≤ gbinder_reader_bytes_remaining p then
        (true, if value then some (if mem p.ptr ≠ 0 then 1 else 0) else none,
          { p with ptr := p.ptr + 4 })
      else (false, none, p)) ∧
    (gbinder_reader_read_uint32 be mem p value =
      if 4 ≤ gbinder_reader_bytes_remaining p then
        (true, if value then some (host_value be (octets_at mem p.ptr 4)) else none,
          { p with ptr := p.ptr + 4 })
      else (false, none, p)) ∧
    (gbinder_reader_read_int32 be mem p value =
      if 4 ≤ gbinder_reader_bytes_remaining p then
        (true, if value then some (to_gint32 (host_value be (octets_at mem p.ptr 4))) else none,
          { p with ptr := p.ptr + 4 })
      else (false, none, p)) ∧
    (gbinder_reader_read_uint64 be mem p value =
      if 8 ≤ gbinder_reader_bytes_remaining p then
        (true, if value then some (host_value be (octets_at mem p.ptr 8)) else none,
          { p with ptr := p.ptr + 8 })
      else (false, none, p)) ∧
    (gbinder_reader_read_int64 be mem p value =
      if 8 ≤ gbinder_reader_bytes_remaining p then
        (true, if value then some (to_gint64 (host_value be (octets_at mem p.ptr 8))) else none,
          { p with ptr := p.ptr + 8 })
      else (false, none, p)) ∧
    gbinder_reader_bytes_remaining p + (p.ptr - p.start) = p.end_ - p.start := by
  have hb : (p.ptr < p.end_) = (1 ≤ gbinder_reader_bytes_remaining p) := by
    simp only [gbinder_reader_bytes_remaining, eq_iff_iff]
    omega
  refine ⟨?_, ?_, ?_, ?_, ?_, ?_, ?_⟩
  · simp only [gbinder_reader_read_byte, hb]
  · simp only [gbinder_reader_read_bool, gbinder_reader_can_read,
      gbinder_reader_bytes_remaining, ge_iff_le, decide_eq_true_eq]
  · simp only [gbinder_reader_read_uint32, gbinder_reader_can_read,
      gbinder_reader_bytes_remaining, ge_iff_le, decide_eq_true_eq, load]
  · simp only [gbinder_reader_read_int32, gbinder_reader_read_uint32, gbinder_reader_can_read,
      gbinder_reader_bytes_remaining, ge_iff_le, decide_eq_true_eq, load]
    split_ifs <;> rfl
  · simp only [gbinder_reader_read_uint64, gbinder_reader_can_read,
      gbinder_reader_bytes_remaining, ge_iff_le, decide_eq_true_eq, load]
  · simp only [gbinder_reader_read_int64, gbinder_reader_read_uint64, gbinder_reader_can_read,
      gbinder_reader_bytes_remaining, ge_iff_le, decide_eq_true_eq, load]
    split_ifs <;> rfl
  · simp only [gbinder_reader_bytes_remaining]
    omega

/-- C14 (witness): a reader over the 4 octets `2A 00 00 00` on a little-endian host:
`read_uint32` succeeds with 42 and moves the cursor by 4, `read_byte` succeeds with 0x2A,
and `read_uint64`, for which the buffer is too short, fails and leaves the cursor. -/
theorem C14_scalar_reads_witness :
    (reader_over 4096 4).start ≤ (reader_over 4096 4).ptr ∧
    (reader_over 4096 4).ptr ≤ (reader_over 4096 4).end_ ∧
    (gbinder_reader_read_uint32 false (place 4096 [0x2a, 0, 0, 0] (fun _ => 0xaa))
      (reader_over 4096 4) true).1 = true ∧
    (gbinder_reader_read_uint32 false (place 4096 [0x2a, 0, 0, 0] (fun _ => 0xaa))
      (reader_over 4096 4) true).2.1 = some 42 ∧
    (gbinder_reader_read_uint32 false (place 4096 [0x2a, 0, 0, 0] (fun _ => 0xaa))
      (reader_over 4096 4) true).2.2.ptr = 4096 + 4 ∧
    (gbinder_reader_read_byte (place 4096 [0x2a, 0, 0, 0] (fun _ => 0xaa))
      (reader_over 4096 4) true).2.1 = some 0x2a ∧
    (gbinder_reader_read_uint64 false (place 4096 [0x2a, 0, 0, 0] (fun _ => 0xaa))
      (reader_over 4096 4) true).1 = false ∧
    (gbinder_reader_read_uint64 false (place 4096 [0x2a, 0, 0, 0] (fun _ => 0xaa))
      (reader_over 4096 4) true).2.2.ptr = 4096 := by
  have h := C14_scalar_reads false (place 4096 [0x2a, 0, 0, 0] (fun _ => 0xaa))
    (reader_over 4096 4) true (by decide) (by decide)
  refine ⟨by decide, by decide, ?_, ?_, ?_, ?_, ?_, ?_⟩
  · rw [h.2.2.1]; decide
  · rw [h.2.2.1]; decide
  · rw [h.2.2.1]; decide
  · rw [h.1]; decide
  · rw [h.2.2.2.2.1]; decide
  · rw [h.2.2.2.2.1]; decide

/-- C18: `gbinder_reader_read_nullable_object` returns TRUE exactly when the reader has
data with a registry, the pending object list has a (non-NULL) head, the cursor equals
that head, and `decode_binder_object(ptr, remaining, registry)` reports `eaten ≠ 0`; then
the cursor has advanced by exactly `eaten`, exactly one entry has been popped and the
decoded object is what is stored.  In every other case, in particular when the next
object is ahead of the cursor, it returns FALSE, stores `NULL` through `out` and leaves the
reader (cursor and object list) as it was; `gbinder_reader_read_object` then returns
null. -/
theorem C18_read_nullable_object (mem : Memory) (p : GBinderReaderPriv) (out : Bool) :
    ((gbinder_reader_read_nullable_object mem p out).1 = true ↔
      ∃ d reg objs, p.data = some d ∧ d.reg = some reg ∧ p.objects = some objs ∧
        objs.headD 0 ≠ 0 ∧ p.ptr = objs.headD 0 ∧
        (reg.io.decode_binder_object mem p.ptr (gbinder_reader_bytes_remaining p)
          reg.addr).1 ≠ 0) ∧
    (∀ d reg objs, p.data = some d → d.reg = some reg → p.objects = some objs →
      (gbinder_reader_read_nullable_object mem p out).1 = true →
        gbinder_reader_read_nullable_object mem p out =
          (true,
           if out then some (reg.io.decode_binder_object mem p.ptr
             (gbinder_reader_bytes_remaining p) reg.addr).2 else none,
           { p with
             ptr := p.ptr + (reg.io.decode_binder_object mem p.ptr
               (gbinder_reader_bytes_remaining p) reg.addr).1
             objects := some objs.tail }) ∧
        objs.tail.length + 1 = objs.length) ∧
    ((gbinder_reader_read_nullable_object mem p out).1 = false →
      gbinder_reader_read_nullable_object mem p out
        = (false, if out then some none else none, p) ∧
      (gbinder_reader_read_object mem p) = (none, p)) ∧
    (∀ objs, p.objects = some objs → p.ptr < objs.headD 0 →
      (gbinder_reader_read_nullable_object mem p out).1 = false) := by
  have hflag : ∀ o, (gbinder_reader_read_nullable_object mem p out).1
      = (gbinder_reader_read_nullable_object mem p o).1 := by
    intro o
    cases hd : p.data with
    | none =>
      rw [read_nullable_object_none mem p out (Or.inl hd),
        read_nullable_object_none mem p o (Or.inl hd)]
    | some d =>
      cases ho : p.objects with
      | none =>
        rw [read_nullable_object_none mem p out (Or.inr (Or.inl ho)),
          read_nullable_object_none mem p o (Or.inr (Or.inl ho))]
      | some objs =>
        cases hr : d.reg with
        | none =>
          rw [read_nullable_object_none mem p out (Or.inr (Or.inr ⟨d, hd, hr⟩)),
            read_nullable_object_none mem p o (Or.inr (Or.inr ⟨d, hd, hr⟩))]
        | some reg =>
          rw [read_nullable_object_eq mem p out d reg objs hd hr ho,
            read_nullable_object_eq mem p o d reg objs hd hr ho]
          split_ifs <;> rfl
  refine ⟨⟨?_, ?_⟩, ?_, ?_, ?_⟩
  · intro h
    cases hd : p.data with
    | none => rw [read_nullable_object_none mem p out (Or.inl hd)] at h; simp at h
    | some d =>
      cases ho : p.objects with
      | none => rw [read_nullable_object_none mem p out (Or.inr (Or.inl ho))] at h; simp at h
      | some objs =>
        cases hr : d.reg with
        | none =>
          rw [read_nullable_object_none mem p out (Or.inr (Or.inr ⟨d, hd, hr⟩))] at h
          simp at h
        | some reg =>
          rw [read_nullable_object_eq mem p out d reg objs hd hr ho] at h
          by_cases hc : objs.headD 0 ≠ 0 ∧ p.ptr = objs.headD 0 ∧
              (reg.io.decode_binder_object mem p.ptr (gbinder_reader_bytes_remaining p)
                reg.addr).1 ≠ 0
          · exact ⟨d, reg, objs, rfl, hr, rfl, hc⟩
          · rw [if_neg hc] at h
            simp at h
  · rintro ⟨d, reg, objs, hd, hr, ho, hc⟩
    rw [read_nullable_object_eq mem p out d reg objs hd hr ho, if_pos hc]
  · intro d reg objs hd hr ho h
    rw [read_nullable_object_eq mem p out d reg objs hd hr ho] at h ⊢
    by_cases hc : objs.headD 0 ≠ 0 ∧ p.ptr = objs.headD 0 ∧
        (reg.io.decode_binder_object mem p.ptr (gbinder_reader_bytes_remaining p)
          reg.addr).1 ≠ 0
    · rw [if_pos hc]
      refine ⟨rfl, ?_⟩
      cases objs with
      | nil => exact absurd rfl hc.1
      | cons a t => rfl
    · rw [if_neg hc] at h
      simp at h
  · intro h
    refine ⟨read_nullable_object_false mem p out h, ?_⟩
    have h2 : (gbinder_reader_read_nullable_object mem p true).1 = false := by
      rw [← hflag true]; exact h
    simp only [gbinder_reader_read_object]
    rw [read_nullable_object_false mem p true h2]
    rfl
  · intro objs ho hlt
    cases hd : p.data with
    | none => rw [read_nullable_object_none mem p out (Or.inl hd)]
    | some d =>
      cases hr : d.reg with
      | none => rw [read_nullable_object_none mem p out (Or.inr (Or.inr ⟨d, hd, hr⟩))]
      | some reg =>
        rw [read_nullable_object_eq mem p out d reg objs hd hr ho, if_neg]
        intro hc
        omega

/-- C19: `gbinder_reader_read_buffer_impl` (behind `gbinder_reader_read_buffer` and
`gbinder_reader_skip_buffer`) returns TRUE exactly when the reader has data with a
registry and a buffer, the pending object list has a (non-NULL) head, the cursor equals
that head (the precondition of the object read), and `decode_buffer_object`, called with
the enclosing buffer and the offset `ptr - buffer.data`, reports `eaten ≠ 0`; then the
cursor has advanced by exactly `eaten`, one entry has been popped, `read_buffer` returns
the decoded sub-buffer and `skip_buffer` TRUE.  Otherwise `read_buffer` returns null and
`skip_buffer` FALSE, and the reader is as before.  For a reader that
`gbinder_reader_init` placed at `offset` of the buffer, the offset passed at the first
read is `offset` (the offset from the reader's start would be 0). -/
theorem C19_read_buffer (mem : Memory) (p : GBinderReaderPriv) (out : Bool) :
    ((gbinder_reader_read_buffer_impl mem p out).1 = true ↔
      ∃ d reg buf objs, p.data = some d ∧ d.reg = some reg ∧ d.buffer = some buf ∧
        p.objects = some objs ∧ objs.headD 0 ≠ 0 ∧ p.ptr = objs.headD 0 ∧
        (reg.io.decode_buffer_object mem buf (p.ptr - buf.data)).1 ≠ 0) ∧
    (∀ d reg buf objs, p.data = some d → d.reg = some reg → d.buffer = some buf →
      p.objects = some objs → (gbinder_reader_read_buffer_impl mem p out).1 = true →
        gbinder_reader_read_buffer mem p =
          ((reg.io.decode_buffer_object mem buf (p.ptr - buf.data)).2,
           { p with
             ptr := p.ptr + (reg.io.decode_buffer_object mem buf (p.ptr - buf.data)).1
             objects := some objs.tail }) ∧
        gbinder_reader_skip_buffer mem p =
          (true,
           { p with
             ptr := p.ptr + (reg.io.decode_buffer_object mem buf (p.ptr - buf.data)).1
             objects := some objs.tail }) ∧
        objs.tail.length + 1 = objs.length) ∧
    ((gbinder_reader_read_buffer_impl mem p out).1 = false →
      gbinder_reader_read_buffer mem p = (none, p) ∧
      gbinder_reader_skip_buffer mem p = (false, p)) ∧
    (∀ d reg buf objs offset len, d.reg = some reg → d.buffer = some buf →
      d.objects = some objs → objs.headD 0 ≠ 0 → objs.headD 0 = buf.data + offset →
        (gbinder_reader_init (some d) offset len).ptr
          - (gbinder_reader_init (some d) offset len).start = 0 ∧
        (gbinder_reader_read_buffer_impl mem (gbinder_reader_init (some d) offset len) out).1
          = decide ((reg.io.decode_buffer_object mem buf offset).1 ≠ 0)) := by
  refine ⟨⟨?_, ?_⟩, ?_, ?_, ?_⟩
  · intro h
    cases hd : p.data with
    | none => rw [read_buffer_impl_none mem p out (Or.inl hd)] at h; simp at h
    | some d =>
      cases ho : p.objects with
      | none => rw [read_buffer_impl_none mem p out (Or.inr (Or.inl ho))] at h; simp at h
      | some objs =>
        cases hr : d.reg with
        | none =>
          rw [read_buffer_impl_none mem p out (Or.inr (Or.inr ⟨d, hd, Or.inl hr⟩))] at h
          simp at h
        | some reg =>
          cases hb : d.buffer with
          | none =>
            rw [read_buffer_impl_none mem p out (Or.inr (Or.inr ⟨d, hd, Or.inr hb⟩))] at h
            simp at h
          | some buf =>
            rw [read_buffer_impl_eq mem p out d reg buf objs hd hr hb ho] at h
            by_cases hc : objs.headD 0 ≠ 0 ∧ p.ptr = objs.headD 0 ∧
                (reg.io.decode_buffer_object mem buf (p.ptr - buf.data)).1 ≠ 0
            · exact ⟨d, reg, buf, objs, rfl, hr, hb, rfl, hc⟩
            · rw [if_neg hc] at h
              simp at h
  · rintro ⟨d, reg, buf, objs, hd, hr, hb, ho, hc⟩
    rw [read_buffer_impl_eq mem p out d reg buf objs hd hr hb ho, if_pos hc]
  · intro d reg buf objs hd hr hb ho h
    rw [read_buffer_impl_eq mem p out d reg buf objs hd hr hb ho] at h
    by_cases hc : objs.headD 0 ≠ 0 ∧ p.ptr = objs.headD 0 ∧
        (reg.io.decode_buffer_object mem buf (p.ptr - buf.data)).1 ≠ 0
    · simp only [gbinder_reader_read_buffer, gbinder_reader_skip_buffer]
      rw [read_buffer_impl_eq mem p true d reg buf objs hd hr hb ho,
        read_buffer_impl_eq mem p false d reg buf objs hd hr hb ho, if_pos hc, if_pos hc]
      refine ⟨rfl, rfl, ?_⟩
      cases objs with
      | nil => exact absurd rfl hc.1
      | cons a t => rfl
    · rw [if_neg hc] at h
      simp at h
  · intro h
    have h1 : (gbinder_reader_read_buffer_impl mem p true).1 = false := by
      rw [(read_buffer_impl_flag mem p true out).1]; exact h
    have h2 : (gbinder_reader_read_buffer_impl mem p false).1 = false := by
      rw [(read_buffer_impl_flag mem p false out).1]; exact h
    simp only [gbinder_reader_read_buffer, gbinder_reader_skip_buffer]
    rw [read_buffer_impl_false mem p true h1, read_buffer_impl_false mem p false h2]
    exact ⟨rfl, rfl⟩
  · intro d reg buf objs offset len hr hb ho hne hhead
    have hdat : (gbinder_reader_init (some d) offset len).data = some d := by
      simp only [gbinder_reader_init, hb]
    have hobj : (gbinder_reader_init (some d) offset len).objects = some objs := by
      simp only [gbinder_reader_init, hb, ho]
    have hptr : (gbinder_reader_init (some d) offset len).ptr = buf.data + offset := by
      simp only [gbinder_reader_init, hb]
    have hstart : (gbinder_reader_init (some d) offset len).start = buf.data + offset := by
      simp only [gbinder_reader_init, hb]
    refine ⟨by rw [hptr, hstart]; omega, ?_⟩
    rw [read_buffer_impl_eq mem _ out d reg buf objs hdat hr hb hobj, hptr,
      Nat.add_sub_cancel_left]
    by_cases he : (reg.io.decode_buffer_object mem buf offset).1 ≠ 0
    · rw [if_pos ⟨hne, hhead.symm, he⟩]
      exact (decide_eq_true he).symm
    · rw [if_neg (fun hc => he hc.2.2)]
      exact (decide_eq_false he).symm

/-- C16 (counterexample): a reader with the stub driver whose one pending object, at the
cursor, is a buffer object of size 8 (neither `sizeof(HidlString)` nor `sizeof(HidlVec)`):
`gbinder_reader_read_hidl_string` and `gbinder_reader_read_hidl_string_vec` return null,
yet the cursor has moved from 4096 to 4136 and the pending object has been popped. -/
theorem C16_counterexample :
    (gbinder_reader_read_hidl_string false
      (place 4096 (stub_encode_buffer_object 8192 8 none) (fun _ => 0))
      (stub_reader 4096 40 0 40 [4096])).1 = none ∧
    (stub_reader 4096 40 0 40 [4096]).ptr = 4096 ∧
    (stub_reader 4096 40 0 40 [4096]).objects = some [4096] ∧
    (gbinder_reader_read_hidl_string false
      (place 4096 (stub_encode_buffer_object 8192 8 none) (fun _ => 0))
      (stub_reader 4096 40 0 40 [4096])).2.ptr = 4136 ∧
    (gbinder_reader_read_hidl_string false
      (place 4096 (stub_encode_buffer_object 8192 8 none) (fun _ => 0))
      (stub_reader 4096 40 0 40 [4096])).2.objects = some [] ∧
    (gbinder_reader_read_hidl_string_vec false
      (place 4096 (stub_encode_buffer_object 8192 8 none) (fun _ => 0))
      (stub_reader 4096 40 0 40 [4096])).1 = none ∧
    (gbinder_reader_read_hidl_string_vec false
      (place 4096 (stub_encode_buffer_object 8192 8 none) (fun _ => 0))
      (stub_reader 4096 40 0 40 [4096])).2.ptr = 4136 ∧
    (gbinder_reader_read_hidl_string_vec false
      (place 4096 (stub_encode_buffer_object 8192 8 none) (fun _ => 0))
      (stub_reader 4096 40 0 40 [4096])).2.objects = some [] := by
  decide

/-- C16 (amended): when the first `gbinder_reader_read_buffer` of
`gbinder_reader_read_hidl_string` or `gbinder_reader_read_hidl_string_vec` fails, the call
returns null and the reader is exactly as before.  When that first read succeeds, the
buffer objects read stay consumed whatever the call returns: the cursor is ahead of where
it was and the first `j` entries of the pending object list are gone, with `1 ≤ j ≤ 2`
for a string and `1 ≤ k` for a vector. -/
theorem C16_hidl_read_failure (be : Bool) (mem : Memory) (p : GBinderReaderPriv) :
    ((gbinder_reader_read_buffer_impl mem p true).1 = false →
      gbinder_reader_read_hidl_string be mem p = (none, p) ∧
      gbinder_reader_read_hidl_string_vec be mem p = (none, p)) ∧
    ((gbinder_reader_read_buffer_impl mem p true).1 = true →
      ∃ objs j k, p.objects = some objs ∧
        0 < j ∧ j ≤ 2 ∧ j ≤ objs.length ∧ 0 < k ∧ k ≤ objs.length ∧
        p.ptr < (gbinder_reader_read_hidl_string be mem p).2.ptr ∧
        (gbinder_reader_read_hidl_string be mem p).2.objects = some (objs.drop j) ∧
        p.ptr < (gbinder_reader_read_hidl_string_vec be mem p).2.ptr ∧
        (gbinder_reader_read_hidl_string_vec be mem p).2.objects = some (objs.drop k)) := by
  constructor
  · intro hf
    rcases read_hidl_string_consumed be mem p with ⟨_, hs⟩ | ⟨ht, _⟩
    · rcases read_hidl_string_vec_consumed be mem p with ⟨_, hv⟩ | ⟨ht, _⟩
      · exact ⟨hs, hv⟩
      · rw [hf] at ht
        exact absurd ht (by simp)
    · rw [hf] at ht
      exact absurd ht (by simp)
  · intro ht
    rcases read_hidl_string_consumed be mem p with ⟨hf, _⟩ | ⟨_, j, hj, hj2, hs⟩
    · rw [ht] at hf
      exact absurd hf (by simp)
    · rcases read_hidl_string_vec_consumed be mem p with ⟨hf, _⟩ | ⟨_, k, hk, hv⟩
      · rw [ht] at hf
        exact absurd hf (by simp)
      · rcases hs with ⟨h0, _⟩ | ⟨_, _, _, _, hsp, objs, ho, hjl, hso⟩
        · omega
        · rcases hv with ⟨h0, _⟩ | ⟨_, _, _, _, hvp, objs2, ho2, hkl, hvo⟩
          · omega
          · rw [ho, Option.some.injEq] at ho2
            subst ho2
            exact ⟨objs, j, k, ho, hj, hj2, hjl, hk, hkl, hsp, hso, hvp, hvo⟩

/-- C20: for every parcel state, pointer, size and optional parent, when the `n` octets
that `encode_buffer_object(ptr, size, parent)` writes are at most
`GBINDER_MAX_BUFFER_OBJECT_SIZE`, `gbinder_writer_data_append_buffer_object` appends the
previous `bytes->len` to `offsets` (creating the array if there was none), extends `bytes`
by exactly those `n` octets (stored within the block), adds `G_ALIGN8(size)`, the least
multiple of 8 that is at least `size`, to `buffers_size`, leaves `cleanup`, and returns the
number of offsets recorded before the call, which is the index of the new entry. -/
theorem C20_append_buffer_object (io : GBinderIo) (GBINDER_MAX_BUFFER_OBJECT_SIZE : Nat)
    (data : GBinderWriterData) (ptr size : Nat) (parent : Option GBinderParent)
    (hmax : (io.encode_buffer_object ptr size parent).length ≤ GBINDER_MAX_BUFFER_OBJECT_SIZE) :
    (gbinder_writer_data_append_buffer_object io GBINDER_MAX_BUFFER_OBJECT_SIZE data ptr size
      parent).1 = (data.offsets.getD []).length ∧
    (gbinder_writer_data_append_buffer_object io GBINDER_MAX_BUFFER_OBJECT_SIZE data ptr size
      parent).2.offsets = some (data.offsets.getD [] ++ [data.bytes.len]) ∧
    (data.offsets.getD [] ++ [data.bytes.len]).get?
      (gbinder_writer_data_append_buffer_object io GBINDER_MAX_BUFFER_OBJECT_SIZE data ptr size
        parent).1 = some data.bytes.len ∧
    (gbinder_writer_data_append_buffer_object io GBINDER_MAX_BUFFER_OBJECT_SIZE data ptr size
      parent).2.bytes.toList = data.bytes.toList ++ io.encode_buffer_object ptr size parent ∧
    (gbinder_writer_data_append_buffer_object io GBINDER_MAX_BUFFER_OBJECT_SIZE data ptr size
      parent).2.bytes.len = data.bytes.len + (io.encode_buffer_object ptr size parent).length ∧
    (gbinder_writer_data_append_buffer_object io GBINDER_MAX_BUFFER_OBJECT_SIZE data ptr size
      parent).2.bytes.overflow = data.bytes.overflow ∧
    (gbinder_writer_data_append_buffer_object io GBINDER_MAX_BUFFER_OBJECT_SIZE data ptr size
      parent).2.buffers_size = data.buffers_size + G_ALIGN8 size ∧
    (gbinder_writer_data_append_buffer_object io GBINDER_MAX_BUFFER_OBJECT_SIZE data ptr size
      parent).2.cleanup = data.cleanup ∧
    (G_ALIGN8 size % 8 = 0 ∧ size ≤ G_ALIGN8 size ∧ G_ALIGN8 size < size + 8) := by
  have hb := write_buffer_object_bytes data.bytes (io.encode_buffer_object ptr size parent)
    GBINDER_MAX_BUFFER_OBJECT_SIZE hmax
  have hidx : (data.offsets.getD [] ++ [data.bytes.len]).get? (data.offsets.getD []).length
      = some data.bytes.len := by
    simp
  have halign : G_ALIGN8 size % 8 = 0 ∧ size ≤ G_ALIGN8 size ∧ G_ALIGN8 size < size + 8 := by
    unfold G_ALIGN8
    omega
  cases ho : data.offsets with
  | none =>
    rw [ho] at hidx
    simp only [gbinder_writer_data_append_buffer_object, gbinder_writer_data_prepare,
      gbinder_writer_data_write_buffer_object, gbinder_writer_data_record_offset, ho,
      Option.getD_none, List.length_nil, List.nil_append, set_size_len]
    exact ⟨trivial, trivial, hidx, hb.1, trivial, hb.2, trivial, trivial, halign⟩
  | some offsets =>
    rw [ho] at hidx
    simp only [gbinder_writer_data_append_buffer_object, gbinder_writer_data_prepare,
      gbinder_writer_data_write_buffer_object, gbinder_writer_data_record_offset, ho,
      Option.getD_some, set_size_len]
    exact ⟨trivial, trivial, hidx, hb.1, trivial, hb.2, trivial, trivial, halign⟩

/-- C20 (witness): the stub driver's 40-octet descriptor of a 2-octet buffer at 8192,
appended to an empty parcel: index 0 is returned, `offsets` is `[0]`, `bytes` holds the 40
octets of the descriptor and `buffers_size` is 8. -/
theorem C20_append_buffer_object_witness :
    (stub_io.encode_buffer_object 8192 2 none).length ≤ 40 ∧
    (gbinder_writer_data_append_buffer_object stub_io 40
      (GBinderWriterData.empty (fun _ => 0xaa)) 8192 2 none).1 = 0 ∧
    (gbinder_writer_data_append_buffer_object stub_io 40
      (GBinderWriterData.empty (fun _ => 0xaa)) 8192 2 none).2.offsets = some [0] ∧
    (gbinder_writer_data_append_buffer_object stub_io 40
      (GBinderWriterData.empty (fun _ => 0xaa)) 8192 2 none).2.bytes.toList
      = [0x85, 0x2a, 0x74, 0x70, 2, 0, 0, 0, 0, 0x20, 0, 0, 0, 0, 0, 0,
         0, 0, 0, 0, 0, 0, 0, 0, 0, 0, 0, 0, 0, 0, 0, 0, 0, 0, 0, 0, 0, 0, 0, 0] ∧
    (gbinder_writer_data_append_buffer_object stub_io 40
      (GBinderWriterData.empty (fun _ => 0xaa)) 8192 2 none).2.buffers_size = 8 := by
  have h := C20_append_buffer_object stub_io 40 (GBinderWriterData.empty (fun _ => 0xaa))
    8192 2 none (by decide)
  obtain ⟨h1, h2, _, h4, _, _, h7, _, _⟩ := h
  refine ⟨by decide, ?_, ?_, ?_, ?_⟩
  · rw [h1]; rfl
  · rw [h2]; rfl
  · rw [h4, empty_toList]; decide
  · rw [h7]; rfl

/-- C21: for every parcel state and object, when the `n` octets the driver's encoder writes
are at most `GBINDER_MAX_BINDER_OBJECT_SIZE`, `gbinder_writer_data_append_local_object`
and `gbinder_writer_data_append_remote_object` append the previous `bytes->len` to
`offsets`, extend `bytes` by exactly those `n` octets (stored within the block), and
leave `buffers_size` and `cleanup` unchanged. -/
theorem C21_append_binder_objects (io : GBinderIo) (GBINDER_MAX_BINDER_OBJECT_SIZE : Nat)
    (data : GBinderWriterData) (obj : Nat)
    (hl : (io.encode_local_object obj).length ≤ GBINDER_MAX_BINDER_OBJECT_SIZE)
    (hr : (io.encode_remote_object obj).length ≤ GBINDER_MAX_BINDER_OBJECT_SIZE) :
    ((gbinder_writer_data_append_local_object io GBINDER_MAX_BINDER_OBJECT_SIZE data obj).offsets
        = some (data.offsets.getD [] ++ [data.bytes.len]) ∧
      (gbinder_writer_data_append_local_object io GBINDER_MAX_BINDER_OBJECT_SIZE data
        obj).bytes.toList = data.bytes.toList ++ io.encode_local_object obj ∧
      (gbinder_writer_data_append_local_object io GBINDER_MAX_BINDER_OBJECT_SIZE data
        obj).bytes.len = data.bytes.len + (io.encode_local_object obj).length ∧
      (gbinder_writer_data_append_local_object io GBINDER_MAX_BINDER_OBJECT_SIZE data
        obj).bytes.overflow = data.bytes.overflow ∧
      (gbinder_writer_data_append_local_object io GBINDER_MAX_BINDER_OBJECT_SIZE data
        obj).buffers_size = data.buffers_size ∧
      (gbinder_writer_data_append_local_object io GBINDER_MAX_BINDER_OBJECT_SIZE data
        obj).cleanup = data.cleanup) ∧
    ((gbinder_writer_data_append_remote_object io GBINDER_MAX_BINDER_OBJECT_SIZE data obj).offsets
        = some (data.offsets.getD [] ++ [data.bytes.len]) ∧
      (gbinder_writer_data_append_remote_object io GBINDER_MAX_BINDER_OBJECT_SIZE data
        obj).bytes.toList = data.bytes.toList ++ io.encode_remote_object obj ∧
      (gbinder_writer_data_append_remote_object io GBINDER_MAX_BINDER_OBJECT_SIZE data
        obj).bytes.len = data.bytes.len + (io.encode_remote_object obj).length ∧
      (gbinder_writer_data_append_remote_object io GBINDER_MAX_BINDER_OBJECT_SIZE data
        obj).bytes.overflow = data.bytes.overflow ∧
      (gbinder_writer_data_append_remote_object io GBINDER_MAX_BINDER_OBJECT_SIZE data
        obj).buffers_size = data.buffers_size ∧
      (gbinder_writer_data_append_remote_object io GBINDER_MAX_BINDER_OBJECT_SIZE data
        obj).cleanup = data.cleanup) := by
  obtain ⟨l1, l2, l3, l4⟩ := append_local_object_fields io GBINDER_MAX_BINDER_OBJECT_SIZE data obj
  obtain ⟨l5, l6⟩ := append_local_object_octets io GBINDER_MAX_BINDER_OBJECT_SIZE data obj hl
  obtain ⟨r1, r2, r3, r4⟩ :=
    append_remote_object_fields io GBINDER_MAX_BINDER_OBJECT_SIZE data obj
  obtain ⟨r5, r6⟩ := append_remote_object_octets io GBINDER_MAX_BINDER_OBJECT_SIZE data obj hr
  exact ⟨⟨l1, l5, l2, l6, l3, l4⟩, ⟨r1, r5, r2, r6, r3, r4⟩⟩

/-- C21 (witness): the stub driver's 24-octet descriptor of the local object 0x1234,
appended to an empty parcel: `offsets` is `[0]`, `bytes` holds the 24 octets and
`buffers_size` stays 0; the same for a remote object, with its tag. -/
theorem C21_append_binder_objects_witness :
    (stub_io.encode_local_object 0x1234).length ≤ 24 ∧
    (stub_io.encode_remote_object 0x1234).length ≤ 24 ∧
    (gbinder_writer_data_append_local_object stub_io 24
      (GBinderWriterData.empty (fun _ => 0xaa)) 0x1234).offsets = some [0] ∧
    (gbinder_writer_data_append_local_object stub_io 24
      (GBinderWriterData.empty (fun _ => 0xaa)) 0x1234).bytes.toList
      = [0x85, 0x2a, 0x62, 0x73, 0, 0, 0, 0, 0x34, 0x12, 0, 0, 0, 0, 0, 0,
         0, 0, 0, 0, 0, 0, 0, 0] ∧
    (gbinder_writer_data_append_local_object stub_io 24
      (GBinderWriterData.empty (fun _ => 0xaa)) 0x1234).buffers_size = 0 ∧
    (gbinder_writer_data_append_remote_object stub_io 24
      (GBinderWriterData.empty (fun _ => 0xaa)) 0x1234).bytes.toList
      = [0x85, 0x2a, 0x68, 0x73, 0, 0, 0, 0, 0x34, 0x12, 0, 0, 0, 0, 0, 0,
         0, 0, 0, 0, 0, 0, 0, 0] := by
  obtain ⟨⟨l1, l2, _, _, l5, _⟩, ⟨_, r2, _, _, _, _⟩⟩ :=
    C21_append_binder_objects stub_io 24 (GBinderWriterData.empty (fun _ => 0xaa)) 0x1234
      (by decide) (by decide)
  refine ⟨by decide, by decide, ?_, ?_, ?_, ?_⟩
  · rw [l1]; rfl
  · rw [l2, empty_toList]; decide
  · rw [l5]; rfl
  · rw [r2, empty_toList]; decide

/-- C22: for every sequence of calls of the writer interface on an empty parcel (the
blocks `g_new0` returned being non-null), the number of recorded offsets is the number of
descriptors written: none for the scalar, bytes and AIDL string appends, one for a
local, remote or buffer object, 1 or 2 for a HIDL string (null or not), and for a HIDL
string vector 1 when the count is 0 and otherwise 2 plus the number of non-null
elements. -/
theorem C22_offsets_count (be : Bool) (io : GBinderIo)
    (GBINDER_MAX_BUFFER_OBJECT_SIZE GBINDER_MAX_BINDER_OBJECT_SIZE : Nat) (mem : Memory)
    (junk : Nat → Octet) (ops : List WriterOp) (hall : ∀ op ∈ ops, op.allocated) :
    (gbinder_writer_data (run_writer be io GBINDER_MAX_BUFFER_OBJECT_SIZE
        GBINDER_MAX_BINDER_OBJECT_SIZE mem junk ops).2).map
      (fun d => (d.offsets.getD []).length) = some (ops.map WriterOp.descriptors).sum := by
  obtain ⟨mem2, d2, hrun, _, hlen, _, _⟩ := run_writer_appended (· ≤ ·)
    (fun _ _ _ h1 h2 => Nat.le_trans h1 h2) be io GBINDER_MAX_BUFFER_OBJECT_SIZE
    GBINDER_MAX_BINDER_OBJECT_SIZE (fun _ _ _ _ => Nat.le_add_right _ _)
    (fun _ _ => Nat.le_add_right _ _) (fun _ _ => Nat.le_add_right _ _) mem junk ops hall
  rw [hrun]
  simp only [gbinder_writer_data, Option.map_some', hlen]

/-- C22 (witness): an `int32`, the HIDL string "x", a local object and the HIDL string
vector ["a", "b"] with the stub driver: 0 + 2 + 1 + 4 = 7 offsets. -/
theorem C22_offsets_count_witness :
    (∀ op ∈ example_ops, op.allocated) ∧
    (gbinder_writer_data (run_writer false stub_io 40 24 (fun _ => 0) (fun _ => 0xaa)
        example_ops).2).map (fun d => (d.offsets.getD []).length) = some 7 :=
  ⟨example_ops_allocated,
   (C22_offsets_count false stub_io 40 24 (fun _ => 0) (fun _ => 0xaa) example_ops
      example_ops_allocated).trans (by decide)⟩

/-- C23: for every sequence of calls of the writer interface on an empty parcel,
`buffers_size` is the sum of `G_ALIGN8(size)` over the buffer objects written, those of
the HIDL string and string vector appends included; the calls that write no buffer
object contribute nothing. -/
theorem C23_buffers_size (be : Bool) (io : GBinderIo)
    (GBINDER_MAX_BUFFER_OBJECT_SIZE GBINDER_MAX_BINDER_OBJECT_SIZE : Nat) (mem : Memory)
    (junk : Nat → Octet) (ops : List WriterOp) (hall : ∀ op ∈ ops, op.allocated) :
    (gbinder_writer_data (run_writer be io GBINDER_MAX_BUFFER_OBJECT_SIZE
        GBINDER_MAX_BINDER_OBJECT_SIZE mem junk ops).2).map (fun d => d.buffers_size)
      = some (((ops.flatMap WriterOp.buffer_sizes).map G_ALIGN8).sum) := by
  obtain ⟨mem2, d2, hrun, hsize, _, _, _⟩ := run_writer_appended (· ≤ ·)
    (fun _ _ _ h1 h2 => Nat.le_trans h1 h2) be io GBINDER_MAX_BUFFER_OBJECT_SIZE
    GBINDER_MAX_BINDER_OBJECT_SIZE (fun _ _ _ _ => Nat.le_add_right _ _)
    (fun _ _ => Nat.le_add_right _ _) (fun _ _ => Nat.le_add_right _ _) mem junk ops hall
  rw [hrun]
  simp only [gbinder_writer_data, Option.map_some', hsize]

/-- C23 (witness): for the example sequence the buffer objects have sizes 16, 2 (HIDL
string "x") and 16, 32, 2, 2 (vector ["a", "b"]): `buffers_size` is
16 + 8 + 16 + 32 + 8 + 8 = 88. -/
theorem C23_buffers_size_witness :
    (∀ op ∈ example_ops, op.allocated) ∧
    example_ops.flatMap WriterOp.buffer_sizes = [16, 2, 16, 32, 2, 2] ∧
    (gbinder_writer_data (run_writer false stub_io 40 24 (fun _ => 0) (fun _ => 0xaa)
        example_ops).2).map (fun d => d.buffers_size) = some 88 :=
  ⟨example_ops_allocated, by decide,
   (C23_buffers_size false stub_io 40 24 (fun _ => 0) (fun _ => 0xaa) example_ops
      example_ops_allocated).trans (by decide)⟩

/-- C24: for every sequence of calls of the writer interface on an empty parcel and every
driver table, the recorded offsets are non-decreasing in recording order (and none
exceeds `bytes->len`). -/
theorem C24_offsets_non_decreasing (be : Bool) (io : GBinderIo)
    (GBINDER_MAX_BUFFER_OBJECT_SIZE GBINDER_MAX_BINDER_OBJECT_SIZE : Nat) (mem : Memory)
    (junk : Nat → Octet) (ops : List WriterOp) (hall : ∀ op ∈ ops, op.allocated) :
    ∃ d, gbinder_writer_data (run_writer be io GBINDER_MAX_BUFFER_OBJECT_SIZE
        GBINDER_MAX_BINDER_OBJECT_SIZE mem junk ops).2 = some d ∧
      (d.offsets.getD []).Pairwise (· ≤ ·) ∧ ∀ o ∈ d.offsets.getD [], o ≤ d.bytes.len := by
  obtain ⟨mem2, d2, hrun, _, _, hpair, hbound⟩ := run_writer_appended (· ≤ ·)
    (fun _ _ _ h1 h2 => Nat.le_trans h1 h2) be io GBINDER_MAX_BUFFER_OBJECT_SIZE
    GBINDER_MAX_BINDER_OBJECT_SIZE (fun _ _ _ _ => Nat.le_add_right _ _)
    (fun _ _ => Nat.le_add_right _ _) (fun _ _ => Nat.le_add_right _ _) mem junk ops hall
  exact ⟨d2, by rw [hrun]; rfl, hpair, hbound⟩

/-- C24 (witness): the example sequence with the stub driver records the offsets
4, 44, 84, 108, 148, 188, 228. -/
theorem C24_offsets_non_decreasing_witness :
    (∀ op ∈ example_ops, op.allocated) ∧
    (gbinder_writer_data (run_writer false stub_io 40 24 (fun _ => 0) (fun _ => 0xaa)
        example_ops).2).map (fun d => d.offsets) = some (some [4, 44, 84, 108, 148, 188, 228]) ∧
    ∃ d, gbinder_writer_data (run_writer false stub_io 40 24 (fun _ => 0) (fun _ => 0xaa)
        example_ops).2 = some d ∧
      (d.offsets.getD []).Pairwise (· ≤ ·) ∧ ∀ o ∈ d.offsets.getD [], o ≤ d.bytes.len :=
  ⟨example_ops_allocated, by decide,
   C24_offsets_non_decreasing false stub_io 40 24 (fun _ => 0) (fun _ => 0xaa) example_ops
     example_ops_allocated⟩

/-- C25: for every sequence of calls of the writer interface on an empty parcel, with a
driver table whose encoders each write at least one octet, the recorded offsets are
strictly increasing and each is less than `bytes->len`. -/
theorem C25_offsets_strictly_increasing (be : Bool) (io : GBinderIo)
    (GBINDER_MAX_BUFFER_OBJECT_SIZE GBINDER_MAX_BINDER_OBJECT_SIZE : Nat) (mem : Memory)
    (junk : Nat → Octet) (ops : List WriterOp) (hall : ∀ op ∈ ops, op.allocated)
    (hb : ∀ ptr size parent, 0 < (io.encode_buffer_object ptr size parent).length)
    (hl : ∀ obj, 0 < (io.encode_local_object obj).length)
    (hr : ∀ obj, 0 < (io.encode_remote_object obj).length) :
    ∃ d, gbinder_writer_data (run_writer be io GBINDER_MAX_BUFFER_OBJECT_SIZE
        GBINDER_MAX_BINDER_OBJECT_SIZE mem junk ops).2 = some d ∧
      (d.offsets.getD []).Pairwise (· < ·) ∧ ∀ o ∈ d.offsets.getD [], o < d.bytes.len := by
  obtain ⟨mem2, d2, hrun, _, _, hpair, hbound⟩ := run_writer_appended (· < ·)
    (fun _ _ _ h1 h2 => Nat.lt_of_lt_of_le h1 h2) be io GBINDER_MAX_BUFFER_OBJECT_SIZE
    GBINDER_MAX_BINDER_OBJECT_SIZE
    (fun ptr size parent x => Nat.lt_add_of_pos_right (hb ptr size parent))
    (fun obj x => Nat.lt_add_of_pos_right (hl obj))
    (fun obj x => Nat.lt_add_of_pos_right (hr obj)) mem junk ops hall
  exact ⟨d2, by rw [hrun]; rfl, hpair, hbound⟩

/-- C25 (witness): the stub driver's encoders write 40 and 24 octets; the example
sequence ends with `bytes->len` = 268, above each of its offsets. -/
theorem C25_offsets_strictly_increasing_witness :
    (∀ op ∈ example_ops, op.allocated) ∧
    (∀ ptr size parent, 0 < (stub_io.encode_buffer_object ptr size parent).length) ∧
    (∀ obj, 0 < (stub_io.encode_local_object obj).length) ∧
    (∀ obj, 0 < (stub_io.encode_remote_object obj).length) ∧
    (gbinder_writer_data (run_writer false stub_io 40 24 (fun _ => 0) (fun _ => 0xaa)
        example_ops).2).map (fun d => d.bytes.len) = some 268 ∧
    ∃ d, gbinder_writer_data (run_writer false stub_io 40 24 (fun _ => 0) (fun _ => 0xaa)
        example_ops).2 = some d ∧
      (d.offsets.getD []).Pairwise (· < ·) ∧ ∀ o ∈ d.offsets.getD [], o < d.bytes.len :=
  ⟨example_ops_allocated, stub_io_writes.1, stub_io_writes.2.1, stub_io_writes.2.2, by decide,
   C25_offsets_strictly_increasing false stub_io 40 24 (fun _ => 0) (fun _ => 0xaa)
     example_ops example_ops_allocated stub_io_writes.1 stub_io_writes.2.1
     stub_io_writes.2.2⟩

/-- C26: for every parcel state and string `str`, when the driver's encoder keeps to
`GBINDER_MAX_BUFFER_OBJECT_SIZE`, `gbinder_writer_data_append_hidl_string` fills the block
from `g_new0` with the descriptor `{str, len = strlen(str) (0 for null, in the 32 bits
of the field), owns_buffer = true}`, registers the block in `cleanup`, and writes the
buffer objects of `hidl_string_objects`: the descriptor, of size `sizeof(HidlString)`,
without parent, at index `I` = the previous number of offsets, and, exactly when `str` is
non-null, the string, of size `strlen(str) + 1`, with parent
`{I, HIDL_STRING_BUFFER_OFFSET}`.  The octets, offsets and `buffers_size` are those of
these writes. -/
theorem C26_append_hidl_string (be : Bool) (io : GBinderIo)
    (GBINDER_MAX_BUFFER_OBJECT_SIZE : Nat) (mem : Memory) (data : GBinderWriterData)
    (block : Nat) (str : CString)
    (hmax : ∀ ptr size parent,
      (io.encode_buffer_object ptr size parent).length ≤ GBINDER_MAX_BUFFER_OBJECT_SIZE) :
    octets_at (gbinder_writer_data_append_hidl_string be io GBINDER_MAX_BUFFER_OBJECT_SIZE mem
        data block str).1 block sizeof_HidlString
      = HidlString.bytes be
          { str := str.addr
            len := (if str.addr ≠ 0 then strlen str.octets else 0) % 2 ^ 32
            owns_buffer := true } ∧
    (gbinder_writer_data_append_hidl_string be io GBINDER_MAX_BUFFER_OBJECT_SIZE mem data
        block str).2
      = write_buffer_objects io GBINDER_MAX_BUFFER_OBJECT_SIZE
          { data with
            offsets := some (data.offsets.getD [])
            cleanup := data.cleanup ++ [block] }
          (hidl_string_objects block str (data.offsets.getD []).length) ∧
    (str.addr = 0 →
      hidl_string_objects block str (data.offsets.getD []).length
        = [⟨block, sizeof_HidlString, none⟩]) ∧
    (str.addr ≠ 0 →
      hidl_string_objects block str (data.offsets.getD []).length
        = [⟨block, sizeof_HidlString, none⟩,
           ⟨str.addr, strlen str.octets + 1,
            some ⟨(data.offsets.getD []).length, HIDL_STRING_BUFFER_OFFSET⟩⟩]) ∧
    (gbinder_writer_data_append_hidl_string be io GBINDER_MAX_BUFFER_OBJECT_SIZE mem data
        block str).2.bytes.toList
      = data.bytes.toList ++
          (hidl_string_objects block str (data.offsets.getD []).length).flatMap
            (fun o => io.encode_buffer_object o.ptr o.size o.parent) ∧
    (gbinder_writer_data_append_hidl_string be io GBINDER_MAX_BUFFER_OBJECT_SIZE mem data
        block str).2.bytes.overflow = data.bytes.overflow ∧
    (gbinder_writer_data_append_hidl_string be io GBINDER_MAX_BUFFER_OBJECT_SIZE mem data
        block str).2.offsets.getD []
      = data.offsets.getD [] ++ buffer_object_offsets io data.bytes.len
          (hidl_string_objects block str (data.offsets.getD []).length) ∧
    (gbinder_writer_data_append_hidl_string be io GBINDER_MAX_BUFFER_OBJECT_SIZE mem data
        block str).2.buffers_size
      = data.buffers_size +
          ((hidl_string_objects block str (data.offsets.getD []).length).map
            (fun o => G_ALIGN8 o.size)).sum ∧
    (gbinder_writer_data_append_hidl_string be io GBINDER_MAX_BUFFER_OBJECT_SIZE mem data
        block str).2.cleanup = data.cleanup ++ [block] := by
  obtain ⟨e1, e2, e3, e4, e5⟩ := write_buffer_objects_effect io GBINDER_MAX_BUFFER_OBJECT_SIZE
    hmax (hidl_string_objects block str (data.offsets.getD []).length)
    { data with
      offsets := some (data.offsets.getD [])
      cleanup := data.cleanup ++ [block] }
  rw [append_hidl_string_eq]
  refine ⟨?_, rfl, ?_, ?_, e1, e2, e3, e4, e5⟩
  · have h := octets_at_place block
      (HidlString.bytes be
        { str := str.addr
          len := (if str.addr ≠ 0 then strlen str.octets else 0) % 2 ^ 32
          owns_buffer := true }) mem
    rw [HidlString_bytes_length] at h
    exact h
  · intro h0
    simp only [hidl_string_objects, h0, if_true]
  · intro h0
    simp only [hidl_string_objects, h0, if_false]

/-- C26 (witness): with the stub driver on an empty parcel, the string "x" (at 0x3000)
records the two offsets 0 and 40 and `buffers_size` is `G_ALIGN8(16) + G_ALIGN8(2)` = 24;
the second descriptor names the first (index 0, offset 0) as parent; the null string
records one offset and `buffers_size` is 16. -/
theorem C26_append_hidl_string_witness :
    (∀ ptr size parent, (stub_io.encode_buffer_object ptr size parent).length ≤ 40) ∧
    (gbinder_writer_data_append_hidl_string false stub_io 40 (fun _ => 0)
      (GBinderWriterData.empty (fun _ => 0xaa)) 0x2000 ⟨0x3000, [0x78]⟩).2.offsets
      = some [0, 40] ∧
    (gbinder_writer_data_append_hidl_string false stub_io 40 (fun _ => 0)
      (GBinderWriterData.empty (fun _ => 0xaa)) 0x2000 ⟨0x3000, [0x78]⟩).2.buffers_size
      = G_ALIGN8 sizeof_HidlString + G_ALIGN8 2 ∧
    (gbinder_writer_data_append_hidl_string false stub_io 40 (fun _ => 0)
      (GBinderWriterData.empty (fun _ => 0xaa)) 0x2000 ⟨0x3000, [0x78]⟩).2.bytes.toList
      = stub_encode_buffer_object 0x2000 16 none
        ++ stub_encode_buffer_object 0x3000 2 (some ⟨0, 0⟩) ∧
    octets_at (gbinder_writer_data_append_hidl_string false stub_io 40 (fun _ => 0)
      (GBinderWriterData.empty (fun _ => 0xaa)) 0x2000 ⟨0x3000, [0x78]⟩).1 0x2000 16
      = [0, 0x30, 0, 0, 0, 0, 0, 0, 1, 0, 0, 0, 1, 0, 0, 0] ∧
    (gbinder_writer_data_append_hidl_string false stub_io 40 (fun _ => 0)
      (GBinderWriterData.empty (fun _ => 0xaa)) 0x2000 ⟨0, []⟩).2.offsets = some [0] ∧
    (gbinder_writer_data_append_hidl_string false stub_io 40 (fun _ => 0)
      (GBinderWriterData.empty (fun _ => 0xaa)) 0x2000 ⟨0, []⟩).2.buffers_size = 16 := by
  obtain ⟨h1, _, _, _, h5, _, _, h8, _⟩ :=
    C26_append_hidl_string false stub_io 40 (fun _ => 0)
      (GBinderWriterData.empty (fun _ => 0xaa)) 0x2000 ⟨0x3000, [0x78]⟩ stub_io_max
  refine ⟨stub_io_max, by decide, ?_, ?_, ?_, by decide, by decide⟩
  · rw [h8]; decide
  · rw [h5, empty_toList]; decide
  · exact h1.trans (by decide)

/-- C27: for every parcel state and array `strv` with element count `n` (the argument
`count`, or the length of the NULL-terminated array when `count < 0`), when the driver's
encoder keeps to `GBINDER_MAX_BUFFER_OBJECT_SIZE`,
`gbinder_writer_data_append_hidl_string_vec` writes the buffer objects of
`hidl_string_vec_objects`, in this order: the vector descriptor, of size
`sizeof(HidlVec)`, without parent, at index `Iv` = the previous number of offsets; for
`n > 0` the array of string descriptors, of size `sizeof(HidlString) * n`, with parent
`{Iv, HIDL_VEC_BUFFER_OFFSET}`, at index `Iv + 1`, and for each non-null element `i`, in
increasing `i`, the string, of size `hidl_str->len + 1` (which is `strlen + 1` below
4 GiB), with parent `{Iv + 1, HIDL_STRING_BUFFER_OFFSET + i * sizeof(HidlString)}`; for
`n = 0` only the vector descriptor.  The blocks hold the vector and the string
descriptors, and the octets, offsets and `buffers_size` are those of these writes. -/
theorem C27_append_hidl_string_vec (be : Bool) (io : GBinderIo)
    (GBINDER_MAX_BUFFER_OBJECT_SIZE : Nat) (mem : Memory) (data : GBinderWriterData)
    (vec strings : Nat) (strv : List CString) (count : Int) (hstrings : strings ≠ 0)
    (hmax : ∀ ptr size parent,
      (io.encode_buffer_object ptr size parent).length ≤ GBINDER_MAX_BUFFER_OBJECT_SIZE) :
    (gbinder_writer_data_append_hidl_string_vec be io GBINDER_MAX_BUFFER_OBJECT_SIZE mem data
        vec strings strv count).1
      = place vec
          (HidlVec.bytes be
            { ptr := if hidl_string_vec_count strv count > 0 then strings else 0
              count := hidl_string_vec_count strv count % 2 ^ 32
              owns_buffer := true })
          (if hidl_string_vec_count strv count > 0 then
            place strings
              (((List.range (hidl_string_vec_count strv count)).map
                (fun i => hidl_string_of (strv.getD i ⟨0, []⟩))).flatMap (HidlString.bytes be))
              mem
           else mem) ∧
    (gbinder_writer_data_append_hidl_string_vec be io GBINDER_MAX_BUFFER_OBJECT_SIZE mem data
        vec strings strv count).2
      = write_buffer_objects io GBINDER_MAX_BUFFER_OBJECT_SIZE
          { data with
            offsets := some (data.offsets.getD [])
            cleanup :=
              if hidl_string_vec_count strv count > 0 then data.cleanup ++ [strings] ++ [vec]
              else data.cleanup ++ [vec] }
          (hidl_string_vec_objects vec strings strv (hidl_string_vec_count strv count)
            (data.offsets.getD []).length) ∧
    (hidl_string_vec_count strv count = 0 →
      hidl_string_vec_objects vec strings strv (hidl_string_vec_count strv count)
        (data.offsets.getD []).length = [⟨vec, sizeof_HidlVec, none⟩]) ∧
    (hidl_string_vec_count strv count > 0 →
      hidl_string_vec_objects vec strings strv (hidl_string_vec_count strv count)
        (data.offsets.getD []).length
        = ⟨vec, sizeof_HidlVec, none⟩ ::
          ⟨strings, sizeof_HidlString * hidl_string_vec_count strv count,
            some ⟨(data.offsets.getD []).length, HIDL_VEC_BUFFER_OFFSET⟩⟩ ::
          ((List.range (hidl_string_vec_count strv count)).filter
            (fun i => decide ((strv.getD i ⟨0, []⟩).addr ≠ 0))).map (fun i =>
              ⟨(strv.getD i ⟨0, []⟩).addr, hidl_string_vec_leaf_size (strv.getD i ⟨0, []⟩),
               some ⟨(data.offsets.getD []).length + 1,
                 HIDL_STRING_BUFFER_OFFSET + i * sizeof_HidlString⟩⟩)) ∧
    (∀ str : CString, strlen str.octets + 1 < 2 ^ 32 →
      hidl_string_vec_leaf_size str = strlen str.octets + 1) ∧
    (gbinder_writer_data_append_hidl_string_vec be io GBINDER_MAX_BUFFER_OBJECT_SIZE mem data
        vec strings strv count).2.bytes.toList
      = data.bytes.toList ++
          (hidl_string_vec_objects vec strings strv (hidl_string_vec_count strv count)
            (data.offsets.getD []).length).flatMap
            (fun o => io.encode_buffer_object o.ptr o.size o.parent) ∧
    (gbinder_writer_data_append_hidl_string_vec be io GBINDER_MAX_BUFFER_OBJECT_SIZE mem data
        vec strings strv count).2.bytes.overflow = data.bytes.overflow ∧
    (gbinder_writer_data_append_hidl_string_vec be io GBINDER_MAX_BUFFER_OBJECT_SIZE mem data
        vec strings strv count).2.offsets.getD []
      = data.offsets.getD [] ++ buffer_object_offsets io data.bytes.len
          (hidl_string_vec_objects vec strings strv (hidl_string_vec_count strv count)
            (data.offsets.getD []).length) ∧
    (gbinder_writer_data_append_hidl_string_vec be io GBINDER_MAX_BUFFER_OBJECT_SIZE mem data
        vec strings strv count).2.buffers_size
      = data.buffers_size +
          ((hidl_string_vec_objects vec strings strv (hidl_string_vec_count strv count)
            (data.offsets.getD []).length).map (fun o => G_ALIGN8 o.size)).sum := by
  obtain ⟨e1, e2, e3, e4, _⟩ := write_buffer_objects_effect io GBINDER_MAX_BUFFER_OBJECT_SIZE
    hmax (hidl_string_vec_objects vec strings strv (hidl_string_vec_count strv count)
      (data.offsets.getD []).length)
    { data with
      offsets := some (data.offsets.getD [])
      cleanup :=
        if hidl_string_vec_count strv count > 0 then data.cleanup ++ [strings] ++ [vec]
        else data.cleanup ++ [vec] }
  rw [append_hidl_string_vec_eq be io GBINDER_MAX_BUFFER_OBJECT_SIZE mem data vec strings strv
    count hstrings]
  refine ⟨rfl, rfl, ?_, ?_, ?_, e1, e2, e3, e4⟩
  · intro h0
    simp only [hidl_string_vec_objects, h0, if_true]
  · intro hpos
    have h0 : hidl_string_vec_count strv count ≠ 0 := by omega
    simp only [hidl_string_vec_objects, h0, if_false, hidl_string_vec_leaves]
  · intro str hlt
    unfold hidl_string_vec_leaf_size
    omega

/-- C27 (witness): with the stub driver on an empty parcel, the array ["a", "b"] (at
0x6000 and 0x6010, blocks at 0x4000 and 0x5000) records four offsets; the buffer objects
are the vector, the array with parent `{0, 0}`, "a" with parent `{1, 0}` and "b" with
parent `{1, 16}`.  In ["a", NULL, "b"] the string "b" has parent `{1, 32}`. -/
theorem C27_append_hidl_string_vec_witness :
    (0x5000 : Nat) ≠ 0 ∧
    (∀ ptr size parent, (stub_io.encode_buffer_object ptr size parent).length ≤ 40) ∧
    hidl_string_vec_objects 0x4000 0x5000 [⟨0x6000, [0x61]⟩, ⟨0x6010, [0x62]⟩] 2 0
      = [⟨0x4000, 16, none⟩, ⟨0x5000, 32, some ⟨0, 0⟩⟩, ⟨0x6000, 2, some ⟨1, 0⟩⟩,
         ⟨0x6010, 2, some ⟨1, 16⟩⟩] ∧
    (gbinder_writer_data_append_hidl_string_vec false stub_io 40 (fun _ => 0)
      (GBinderWriterData.empty (fun _ => 0xaa)) 0x4000 0x5000
      [⟨0x6000, [0x61]⟩, ⟨0x6010, [0x62]⟩] 2).2.offsets.getD [] = [0, 40, 80, 120] ∧
    (gbinder_writer_data_append_hidl_string_vec false stub_io 40 (fun _ => 0)
      (GBinderWriterData.empty (fun _ => 0xaa)) 0x4000 0x5000
      [⟨0x6000, [0x61]⟩, ⟨0x6010, [0x62]⟩] 2).2.buffers_size = 16 + 32 + 8 + 8 ∧
    hidl_string_vec_objects 0x4000 0x5000 [⟨0x6000, [0x61]⟩, ⟨0, []⟩, ⟨0x6010, [0x62]⟩] 3 0
      = [⟨0x4000, 16, none⟩, ⟨0x5000, 48, some ⟨0, 0⟩⟩, ⟨0x6000, 2, some ⟨1, 0⟩⟩,
         ⟨0x6010, 2, some ⟨1, 32⟩⟩] := by
  obtain ⟨_, _, _, _, _, _, _, h8, h9⟩ :=
    C27_append_hidl_string_vec false stub_io 40 (fun _ => 0)
      (GBinderWriterData.empty (fun _ => 0xaa)) 0x4000 0x5000
      [⟨0x6000, [0x61]⟩, ⟨0x6010, [0x62]⟩] 2 (by decide) stub_io_max
  exact ⟨by decide, stub_io_max, by decide, h8.trans (by decide), h9.trans (by decide),
    by decide⟩

/-- C30: `gbinder_reader_read_hidl_string` returns a non-null string exactly when two
consecutive `gbinder_reader_read_buffer` calls at the cursor succeed, the first buffer
has size `sizeof(HidlString)` and, for the `HidlString` `s` it holds, the second has size
`s.len + 1` (the `guint32` sum), its data pointer equals `s.str`, and
`s.str[s.len] = 0`; the result is then the copy `g_strdup(s.str)`.  In every other case
(a buffer read fails or a check fails) it returns null. -/
theorem C30_read_hidl_string (be : Bool) (mem : Memory) (p : GBinderReaderPriv) :
    ((gbinder_reader_read_hidl_string be mem p).1 ≠ none ↔
      ∃ buf sbuf, (gbinder_reader_read_buffer mem p).1 = some buf ∧
        buf.size = sizeof_HidlString ∧
        (gbinder_reader_read_buffer mem (gbinder_reader_read_buffer mem p).2).1 = some sbuf ∧
        sbuf.size = (HidlString_len be mem buf.data + 1) % 2 ^ 32 ∧
        sbuf.data = HidlString_str be mem buf.data ∧
        mem (HidlString_str be mem buf.data + HidlString_len be mem buf.data) = 0) ∧
    (∀ buf sbuf, (gbinder_reader_read_buffer mem p).1 = some buf →
      buf.size = sizeof_HidlString →
      (gbinder_reader_read_buffer mem (gbinder_reader_read_buffer mem p).2).1 = some sbuf →
      sbuf.size = (HidlString_len be mem buf.data + 1) % 2 ^ 32 →
      sbuf.data = HidlString_str be mem buf.data →
      mem (HidlString_str be mem buf.data + HidlString_len be mem buf.data) = 0 →
        gbinder_reader_read_hidl_string be mem p =
          (some (g_strdup mem (HidlString_str be mem buf.data)
            (HidlString_len be mem buf.data + 1)),
           (gbinder_reader_read_buffer mem (gbinder_reader_read_buffer mem p).2).2)) ∧
    (∀ s, HidlString_len be mem s < 2 ^ 32 ∧
      (HidlString_len be mem s + 1 < 2 ^ 32 →
        (HidlString_len be mem s + 1) % 2 ^ 32 = HidlString_len be mem s + 1)) := by
  have hsucc : ∀ buf sbuf, (gbinder_reader_read_buffer mem p).1 = some buf →
      buf.size = sizeof_HidlString →
      (gbinder_reader_read_buffer mem (gbinder_reader_read_buffer mem p).2).1 = some sbuf →
      sbuf.size = (HidlString_len be mem buf.data + 1) % 2 ^ 32 →
      sbuf.data = HidlString_str be mem buf.data →
      mem (HidlString_str be mem buf.data + HidlString_len be mem buf.data) = 0 →
        gbinder_reader_read_hidl_string be mem p =
          (some (g_strdup mem (HidlString_str be mem buf.data)
            (HidlString_len be mem buf.data + 1)),
           (gbinder_reader_read_buffer mem (gbinder_reader_read_buffer mem p).2).2) := by
    intro buf sbuf h1 h2 h3 h4 h5 h6
    have hm : hidl_string_matches be mem sbuf buf.data := ⟨h4, h5, h6⟩
    simp only [gbinder_reader_read_hidl_string, h1, h2, h3, if_true, hm]
  refine ⟨⟨?_, ?_⟩, hsucc, fun s => ⟨?_, fun hs => Nat.mod_eq_of_lt hs⟩⟩
  · intro hne
    cases h1 : (gbinder_reader_read_buffer mem p).1 with
    | none =>
      exfalso
      apply hne
      simp only [gbinder_reader_read_hidl_string, h1]
    | some buf =>
      by_cases h2 : buf.size = sizeof_HidlString
      · cases h3 : (gbinder_reader_read_buffer mem (gbinder_reader_read_buffer mem p).2).1 with
        | none =>
          exfalso
          apply hne
          simp only [gbinder_reader_read_hidl_string, h1, h2, h3, if_true]
        | some sbuf =>
          by_cases hm : hidl_string_matches be mem sbuf buf.data
          · exact ⟨buf, sbuf, rfl, h2, rfl, hm.1, hm.2.1, hm.2.2⟩
          · exfalso
            apply hne
            simp only [gbinder_reader_read_hidl_string, h1, h2, h3, if_true, hm, if_false]
      · exfalso
        apply hne
        simp only [gbinder_reader_read_hidl_string, h1, h2, if_false]
  · rintro ⟨buf, sbuf, h1, h2, h3, h4, h5, h6⟩
    rw [hsucc buf sbuf h1 h2 h3 h4 h5 h6]
    simp
  · unfold HidlString_len load
    rw [show (2 : Nat) ^ 32 = 256 ^ 4 by norm_num]
    cases be
    · have := le_value_lt (octets_at mem (s + 8) 4)
      rw [octets_at_length] at this
      simpa [host_value] using this
    · have := le_value_lt (octets_at mem (s + 8) 4).reverse
      rw [List.length_reverse, octets_at_length] at this
      simpa [host_value] using this

/-- C28: with the stub driver, for every non-null string `str` (NUL-free octets followed
by a NUL in memory, shorter than 4 GiB, with the string, the `HidlString` block and the
place of the parcel not overlapping), after `gbinder_writer_data_append_hidl_string` on an
empty parcel (`w` is its outcome: the memory and the parcel, of 80 octets with the
offsets 0 and 40), `gbinder_reader_read_hidl_string` on a reader over the parcel with the
two recorded object positions returns a copy of the string and leaves the cursor at the
end with no pending object. -/
theorem C28_hidl_string_roundtrip (be : Bool) (mem : Memory) (junk : Nat → Octet)
    (block base : Nat) (str : CString) (w : Memory × GBinderWriterData)
    (hw : w = gbinder_writer_data_append_hidl_string be stub_io 40 mem
      (GBinderWriterData.empty junk) block str)
    (hnull : str.addr ≠ 0) (hnz : ∀ b ∈ str.octets, b ≠ 0)
    (hlen : str.octets.length + 1 < 2 ^ 32)
    (hstr : octets_at mem str.addr (str.octets.length + 1) = str.octets ++ [0])
    (haddr : str.addr < 2 ^ 64) (hblock : block < 2 ^ 64) (hbase : base ≠ 0)
    (hd1 : block + 16 ≤ str.addr ∨ str.addr + (str.octets.length + 1) ≤ block)
    (hd2 : base + 80 ≤ block ∨ block + 16 ≤ base)
    (hd3 : base + 80 ≤ str.addr ∨ str.addr + (str.octets.length + 1) ≤ base) :
    w.2.bytes.len = 80 ∧ w.2.offsets = some [0, 40] ∧ w.2.bytes.overflow = false ∧
    (parcel_reader base w.2).objects = some [base, base + 40] ∧
    (gbinder_reader_read_hidl_string be (place base w.2.bytes.toList w.1)
      (parcel_reader base w.2)).1 = some str.octets ∧
    (gbinder_reader_read_hidl_string be (place base w.2.bytes.toList w.1)
      (parcel_reader base w.2)).2.objects = some [] ∧
    (gbinder_reader_read_hidl_string be (place base w.2.bytes.toList w.1)
      (parcel_reader base w.2)).2.ptr = (parcel_reader base w.2).end_ ∧
    gbinder_reader_bytes_remaining
      (gbinder_reader_read_hidl_string be (place base w.2.bytes.toList w.1)
        (parcel_reader base w.2)).2 = 0 := by
  obtain ⟨hL, hO, hV, hR⟩ := hidl_string_roundtrip be mem junk block base str w hw hnull hnz
    hlen hstr haddr hblock hbase hd1 hd2 hd3
  have hend : (parcel_reader base w.2).end_ = base + 80 := by
    simp only [parcel_reader, stub_reader, gbinder_reader_init, hL, Nat.add_zero]
  have hobj : (parcel_reader base w.2).objects = some [base, base + 40] := by
    simp only [parcel_reader, stub_reader, gbinder_reader_init, hO, Option.getD_some,
      List.map_cons, List.map_nil, Nat.add_zero]
  rw [hR]
  refine ⟨hL, hO, hV, hobj, rfl, rfl, hend.symm, ?_⟩
  simp only [gbinder_reader_bytes_remaining, hend]
  omega

/-- C28 (witness): the string "x" at 0x3000, the `HidlString` block at 0x2000, the parcel
read at 0x8000, little-endian: the reader returns "x" and ends at 0x8000 + 80 with no
pending object. -/
theorem C28_hidl_string_roundtrip_witness :
    ((⟨0x3000, [0x78]⟩ : CString).addr ≠ 0) ∧
    (∀ b ∈ (⟨0x3000, [0x78]⟩ : CString).octets, b ≠ 0) ∧
    octets_at (place 0x3000 [0x78, 0] (fun _ => 0xaa)) 0x3000 2 = [0x78] ++ [0] ∧
    (gbinder_reader_read_hidl_string false
      (place 0x8000
        (gbinder_writer_data_append_hidl_string false stub_io 40
          (place 0x3000 [0x78, 0] (fun _ => 0xaa)) (GBinderWriterData.empty (fun _ => 0xaa))
          0x2000 ⟨0x3000, [0x78]⟩).2.bytes.toList
        (gbinder_writer_data_append_hidl_string false stub_io 40
          (place 0x3000 [0x78, 0] (fun _ => 0xaa)) (GBinderWriterData.empty (fun _ => 0xaa))
          0x2000 ⟨0x3000, [0x78]⟩).1)
      (parcel_reader 0x8000
        (gbinder_writer_data_append_hidl_string false stub_io 40
          (place 0x3000 [0x78, 0] (fun _ => 0xaa)) (GBinderWriterData.empty (fun _ => 0xaa))
          0x2000 ⟨0x3000, [0x78]⟩).2)).1 = some [0x78] ∧
    (gbinder_reader_read_hidl_string false
      (place 0x8000
        (gbinder_writer_data_append_hidl_string false stub_io 40
          (place 0x3000 [0x78, 0] (fun _ => 0xaa)) (GBinderWriterData.empty (fun _ => 0xaa))
          0x2000 ⟨0x3000, [0x78]⟩).2.bytes.toList
        (gbinder_writer_data_append_hidl_string false stub_io 40
          (place 0x3000 [0x78, 0] (fun _ => 0xaa)) (GBinderWriterData.empty (fun _ => 0xaa))
          0x2000 ⟨0x3000, [0x78]⟩).1)
      (parcel_reader 0x8000
        (gbinder_writer_data_append_hidl_string false stub_io 40
          (place 0x3000 [0x78, 0] (fun _ => 0xaa)) (GBinderWriterData.empty (fun _ => 0xaa))
          0x2000 ⟨0x3000, [0x78]⟩).2)).2.objects = some [] := by
  have h := C28_hidl_string_roundtrip false (place 0x3000 [0x78, 0] (fun _ => 0xaa))
    (fun _ => 0xaa) 0x2000 0x8000 ⟨0x3000, [0x78]⟩ _ rfl (by decide) (by simp)
    (by norm_num) (by decide) (by norm_num) (by norm_num) (by decide) (by decide)
    (by decide) (by decide)
  exact ⟨by decide, by simp, by decide, h.2.2.2.2.1, h.2.2.2.2.2.1⟩

/-- C29: with the stub driver, for every list `strs` (possibly empty) of non-null strings
that stand in memory (NUL-free, each followed by a NUL, shorter than 4 GiB, fewer than
`2^28` of them), the blocks from `g_new0`, the strings and the place of the parcel not
overlapping: after `gbinder_writer_data_append_hidl_string_vec` on an empty parcel (`w`
is its outcome), `gbinder_reader_read_hidl_string_vec` on a reader over the parcel with
the recorded object positions returns the same strings in the same order (the empty
array for the empty list), and leaves the cursor at the end with no pending object. -/
theorem C29_hidl_string_vec_roundtrip (be : Bool) (mem : Memory) (junk : Nat → Octet)
    (vec strings base : Nat) (strs : List CString) (w : Memory × GBinderWriterData)
    (hw : w = gbinder_writer_data_append_hidl_string_vec be stub_io 40 mem
      (GBinderWriterData.empty junk) vec strings strs (strs.length : Int))
    (hstrings : strings ≠ 0) (hsaddr : strings < 2 ^ 64) (hvec : vec < 2 ^ 64)
    (hbase : base ≠ 0) (hn : sizeof_HidlString * strs.length < 2 ^ 32)
    (hs : ∀ str ∈ strs, str.in_memory mem ∧
      apart str.addr (str.octets.length + 1) base (40 * (strs.length + 2)) ∧
      apart str.addr (str.octets.length + 1) vec 16 ∧
      apart str.addr (str.octets.length + 1) strings (16 * strs.length))
    (hvs : apart vec 16 strings (16 * strs.length))
    (hpv : apart base (40 * (strs.length + 2)) vec 16)
    (hps : apart base (40 * (strs.length + 2)) strings (16 * strs.length)) :
    (w.2.offsets.getD []).length = (if strs.length = 0 then 1 else strs.length + 2) ∧
    (parcel_reader base w.2).objects = some ((w.2.offsets.getD []).map (fun o => base + o)) ∧
    w.2.bytes.overflow = false ∧
    (gbinder_reader_read_hidl_string_vec be (place base w.2.bytes.toList w.1)
      (parcel_reader base w.2)).1 = some (strs.map (fun str => str.octets)) ∧
    (gbinder_reader_read_hidl_string_vec be (place base w.2.bytes.toList w.1)
      (parcel_reader base w.2)).2.objects = some [] ∧
    (gbinder_reader_read_hidl_string_vec be (place base w.2.bytes.toList w.1)
      (parcel_reader base w.2)).2.ptr = (parcel_reader base w.2).end_ := by
  obtain ⟨hL, hO, hV, hR⟩ := hidl_string_vec_roundtrip be mem junk vec strings base strs w hw
    hstrings hsaddr hvec hbase hn hs hvs hpv hps
  have hend : (parcel_reader base w.2).end_ = base + w.2.bytes.len := by
    simp only [parcel_reader, stub_reader, gbinder_reader_init, Nat.add_zero]
  have hobj : (parcel_reader base w.2).objects
      = some ((w.2.offsets.getD []).map (fun o => base + o)) := by
    simp only [parcel_reader, stub_reader, gbinder_reader_init]
  rw [hR]
  exact ⟨hO, hobj, hV, rfl, rfl, hend.symm⟩

/-- C29 (witness): the array ["a", "b"] (strings at 0x6000 and 0x6010, blocks at 0x4000
and 0x5000, the parcel read at 0x8000, little-endian): four offsets are recorded and the
reader returns ["a", "b"] with no pending object left. -/
theorem C29_hidl_string_vec_roundtrip_witness :
    (∀ str ∈ example_strv, str.in_memory example_memory ∧
      apart str.addr (str.octets.length + 1) 0x8000 (40 * (example_strv.length + 2)) ∧
      apart str.addr (str.octets.length + 1) 0x4000 16 ∧
      apart str.addr (str.octets.length + 1) 0x5000 (16 * example_strv.length)) ∧
    apart 0x4000 16 0x5000 (16 * example_strv.length) ∧
    apart 0x8000 (40 * (example_strv.length + 2)) 0x4000 16 ∧
    apart 0x8000 (40 * (example_strv.length + 2)) 0x5000 (16 * example_strv.length) ∧
    ((gbinder_writer_data_append_hidl_string_vec false stub_io 40 example_memory
        (GBinderWriterData.empty (fun _ => 0xaa)) 0x4000 0x5000 example_strv
        (example_strv.length : Int)).2.offsets.getD []).length = 4 ∧
    (gbinder_reader_read_hidl_string_vec false
      (place 0x8000
        (gbinder_writer_data_append_hidl_string_vec false stub_io 40 example_memory
          (GBinderWriterData.empty (fun _ => 0xaa)) 0x4000 0x5000 example_strv
          (example_strv.length : Int)).2.bytes.toList
        (gbinder_writer_data_append_hidl_string_vec false stub_io 40 example_memory
          (GBinderWriterData.empty (fun _ => 0xaa)) 0x4000 0x5000 example_strv
          (example_strv.length : Int)).1)
      (parcel_reader 0x8000
        (gbinder_writer_data_append_hidl_string_vec false stub_io 40 example_memory
          (GBinderWriterData.empty (fun _ => 0xaa)) 0x4000 0x5000 example_strv
          (example_strv.length : Int)).2)).1 = some [[0x61], [0x62]] ∧
    (gbinder_reader_read_hidl_string_vec false
      (place 0x8000
        (gbinder_writer_data_append_hidl_string_vec false stub_io 40 example_memory
          (GBinderWriterData.empty (fun _ => 0xaa)) 0x4000 0x5000 example_strv
          (example_strv.length : Int)).2.bytes.toList
        (gbinder_writer_data_append_hidl_string_vec false stub_io 40 example_memory
          (GBinderWriterData.empty (fun _ => 0xaa)) 0x4000 0x5000 example_strv
          (example_strv.length : Int)).1)
      (parcel_reader 0x8000
        (gbinder_writer_data_append_hidl_string_vec false stub_io 40 example_memory
          (GBinderWriterData.empty (fun _ => 0xaa)) 0x4000 0x5000 example_strv
          (example_strv.length : Int)).2)).2.objects = some [] := by
  have hs : ∀ str ∈ example_strv, str.in_memory example_memory ∧
      apart str.addr (str.octets.length + 1) 0x8000 (40 * (example_strv.length + 2)) ∧
      apart str.addr (str.octets.length + 1) 0x4000 16 ∧
      apart str.addr (str.octets.length + 1) 0x5000 (16 * example_strv.length) := by
    intro str h
    simp only [example_strv, List.mem_cons, List.mem_singleton, List.not_mem_nil,
      or_false] at h
    rcases h with rfl | rfl
    · exact ⟨⟨by decide, by norm_num, by simp, by norm_num, by decide⟩,
        Or.inl (by decide), Or.inr (by decide), Or.inr (by decide)⟩
    · exact ⟨⟨by decide, by norm_num, by simp, by norm_num, by decide⟩,
        Or.inl (by decide), Or.inr (by decide), Or.inr (by decide)⟩
  have hvs : apart 0x4000 16 0x5000 (16 * example_strv.length) := Or.inl (by decide)
  have hpv : apart 0x8000 (40 * (example_strv.length + 2)) 0x4000 16 := Or.inr (by decide)
  have hps : apart 0x8000 (40 * (example_strv.length + 2)) 0x5000
      (16 * example_strv.length) := Or.inr (by decide)
  have h := C29_hidl_string_vec_roundtrip false example_memory (fun _ => 0xaa) 0x4000 0x5000
    0x8000 example_strv _ rfl (by decide) (by norm_num) (by norm_num) (by decide)
    (by decide) hs hvs hpv hps
  exact ⟨hs, hvs, hpv, hps, h.1, h.2.2.2.1, h.2.2.2.2.1⟩


/-- C32: `gbinder_reader_at_end`, `gbinder_reader_bytes_remaining` and
`gbinder_reader_bytes_read` leave the reader as it was (cursor, bounds, object list); for
a reader with `start ≤ ptr ≤ end` the octets read and the octets remaining add up to
`end - start`, and `gbinder_reader_at_end` is TRUE exactly when no octets remain. -/
theorem C32_reader_queries (be : Bool) (mem : Memory) (p : GBinderReaderPriv)
    (h : p.start ≤ p.ptr ∧ p.ptr ≤ p.end_) :
    ReaderOp.at_end.run be mem p = p ∧
    ReaderOp.bytes_remaining.run be mem p = p ∧
    ReaderOp.bytes_read.run be mem p = p ∧
    gbinder_reader_bytes_read p + gbinder_reader_bytes_remaining p = p.end_ - p.start ∧
    (gbinder_reader_at_end p = true ↔ gbinder_reader_bytes_remaining p = 0) := by
  refine ⟨rfl, rfl, rfl, ?_, ?_⟩
  · simp only [gbinder_reader_bytes_read, gbinder_reader_bytes_remaining]
    omega
  · simp only [gbinder_reader_at_end, gbinder_reader_bytes_remaining, decide_eq_true_eq]
    omega

/-- Witness of C32: a reader over 8 octets at 0x1000 whose cursor stands after the first
4 of them. -/
theorem C32_reader_queries_witness :
    ((0x1000 : Nat) ≤ 0x1004 ∧ (0x1004 : Nat) ≤ 0x1008) ∧
    gbinder_reader_bytes_read { reader_over 0x1000 8 with ptr := 0x1004 }
      + gbinder_reader_bytes_remaining { reader_over 0x1000 8 with ptr := 0x1004 } = 8 ∧
    gbinder_reader_at_end { reader_over 0x1000 8 with ptr := 0x1004 } = false :=
  ⟨by decide,
   (C32_reader_queries false (fun _ => 0) { reader_over 0x1000 8 with ptr := 0x1004 }
      (by decide)).2.2.2.1,
   by decide⟩

/-- C33: for a reader with `start ≤ ptr ≤ end`, each of `read_byte`, `read_bool`,
`read_(u)int32`, `read_(u)int64`, `read_string8`, `read_nullable_string16`,
`read_string16` and `skip_string16` leaves the range as it was, does not move the cursor
back and leaves it at or before the end, whatever the memory holds (every 32-bit length
included); the same holds for the object and buffer reads when the decoder of the driver
reports no more octets than remain; and whatever sequence of calls is made, the pending
object list afterwards is the list before without some of its first entries. -/
theorem C33_reader_invariant (be : Bool) (mem : Memory) (p : GBinderReaderPriv)
    (h : p.start ≤ p.ptr ∧ p.ptr ≤ p.end_) :
    (∀ value, reader_moved p (gbinder_reader_read_byte mem p value).2.2) ∧
    (∀ value, reader_moved p (gbinder_reader_read_bool mem p value).2.2) ∧
    (∀ value, reader_moved p (gbinder_reader_read_int32 be mem p value).2.2) ∧
    (∀ value, reader_moved p (gbinder_reader_read_uint32 be mem p value).2.2) ∧
    (∀ value, reader_moved p (gbinder_reader_read_int64 be mem p value).2.2) ∧
    (∀ value, reader_moved p (gbinder_reader_read_uint64 be mem p value).2.2) ∧
    reader_moved p (gbinder_reader_read_string8 mem p).2 ∧
    (∀ out, reader_moved p (gbinder_reader_read_nullable_string16 be mem p out).2.2) ∧
    reader_moved p (gbinder_reader_read_string16 be mem p).2 ∧
    reader_moved p (gbinder_reader_skip_string16 be mem p).2 ∧
    ((∀ d reg, p.data = some d → d.reg = some reg →
        (reg.io.decode_binder_object mem p.ptr (gbinder_reader_bytes_remaining p)
          reg.addr).1 ≤ gbinder_reader_bytes_remaining p) →
      (∀ out, reader_moved p (gbinder_reader_read_nullable_object mem p out).2.2) ∧
      reader_moved p (gbinder_reader_read_object mem p).2) ∧
    ((∀ d reg buf, p.data = some d → d.reg = some reg → d.buffer = some buf →
        (reg.io.decode_buffer_object mem buf (p.ptr - buf.data)).1
          ≤ gbinder_reader_bytes_remaining p) →
      (∀ out, reader_moved p (gbinder_reader_read_buffer_impl mem p out).2.2) ∧
      reader_moved p (gbinder_reader_read_buffer mem p).2 ∧
      reader_moved p (gbinder_reader_skip_buffer mem p).2) ∧
    (∀ ops, ∃ k, (run_reader be mem p ops).objects = p.objects.map (List.drop k)) :=
  ⟨fun value => read_byte_moved mem p value h.2,
   fun value => read_bool_moved mem p value h.2,
   fun value => read_uint32_moved be mem p value h.2,
   fun value => read_uint32_moved be mem p value h.2,
   fun value => read_uint64_moved be mem p value h.2,
   fun value => read_uint64_moved be mem p value h.2,
   read_string8_moved mem p h.2,
   fun out => read_nullable_string16_moved be mem p out h.2,
   read_nullable_string16_moved be mem p true h.2,
   skip_string16_moved be mem p h.2,
   fun hio => ⟨fun out => read_nullable_object_moved mem p out h.2 hio,
     read_nullable_object_moved mem p true h.2 hio⟩,
   fun hio => ⟨fun out => read_buffer_impl_moved mem p out h.2 hio,
     read_buffer_impl_moved mem p true h.2 hio,
     read_buffer_impl_moved mem p false h.2 hio⟩,
   fun ops => run_reader_objects be mem ops p⟩

/-- Witness of C33: a reader of the stub driver over one 40-octet buffer object at
0x1000, which is pending. -/
theorem C33_reader_invariant_witness :
    ((stub_reader 0x1000 40 0 40 [0x1000]).start ≤ (stub_reader 0x1000 40 0 40 [0x1000]).ptr
      ∧ (stub_reader 0x1000 40 0 40 [0x1000]).ptr
        ≤ (stub_reader 0x1000 40 0 40 [0x1000]).end_) ∧
    reader_moved (stub_reader 0x1000 40 0 40 [0x1000])
      (gbinder_reader_read_string8 (fun _ => 0) (stub_reader 0x1000 40 0 40 [0x1000])).2 :=
  ⟨by decide,
   (C33_reader_invariant false (fun _ => 0) (stub_reader 0x1000 40 0 40 [0x1000])
      (by decide)).2.2.2.2.2.2.1⟩

/-- C37: once the cursor is strictly past the address at the head of the pending object
list, whatever sequence of reader calls follows, the object list is still the same, the
cursor has not moved back, and `read_nullable_object`, `read_object`, `read_buffer`,
`skip_buffer` and both HIDL reads fail (FALSE, a stored NULL, a NULL result) and leave
the reader as it is. -/
theorem C37_objects_stuck (be : Bool) (mem : Memory) (p : GBinderReaderPriv)
    (h : cursor_past_head p) (ops : List ReaderOp) :
    (run_reader be mem p ops).objects = p.objects ∧
    p.ptr ≤ (run_reader be mem p ops).ptr ∧
    (∀ out, gbinder_reader_read_nullable_object mem (run_reader be mem p ops) out
      = (false, if out then some none else none, run_reader be mem p ops)) ∧
    gbinder_reader_read_object mem (run_reader be mem p ops)
      = (none, run_reader be mem p ops) ∧
    (∀ out, gbinder_reader_read_buffer_impl mem (run_reader be mem p ops) out
      = (false, if out then some none else none, run_reader be mem p ops)) ∧
    gbinder_reader_read_buffer mem (run_reader be mem p ops)
      = (none, run_reader be mem p ops) ∧
    gbinder_reader_skip_buffer mem (run_reader be mem p ops)
      = (false, run_reader be mem p ops) ∧
    gbinder_reader_read_hidl_string be mem (run_reader be mem p ops)
      = (none, run_reader be mem p ops) ∧
    gbinder_reader_read_hidl_string_vec be mem (run_reader be mem p ops)
      = (none, run_reader be mem p ops) := by
  have hr := past_head_run be mem ops p h
  have hq : cursor_past_head (run_reader be mem p ops) := by
    obtain ⟨head, rest, ho, hlt⟩ := h
    exact ⟨head, rest, hr.1.trans ho, Nat.lt_of_lt_of_le hlt hr.2⟩
  have hf := past_head_fails mem _ hq
  have hh := past_head_hidl be mem _ hq
  refine ⟨hr.1, hr.2, fun out => (hf out).1, ?_, fun out => (hf out).2, hh.1, ?_,
    hh.2.1, hh.2.2⟩
  · simp only [gbinder_reader_read_object, (hf true).1]
    rfl
  · simp only [gbinder_reader_skip_buffer, (hf false).2]

/-- Witness of C37: the four octets at the start of a pending buffer object were read as
a `uint32`; after a `skip_string16`, a `read_buffer` and a `read_byte` the object is
still pending. -/
theorem C37_objects_stuck_witness :
    cursor_past_head example_reader_past_head ∧
    (run_reader false (fun _ => 0) example_reader_past_head
      [.skip_string16, .read_buffer, .read_byte true]).objects = some [0x1000] :=
  ⟨⟨0x1000, [], rfl, by decide⟩,
   (C37_objects_stuck false (fun _ => 0) example_reader_past_head
      ⟨0x1000, [], rfl, by decide⟩ [.skip_string16, .read_buffer, .read_byte true]).1⟩


/-- C31: every call of the writer interface, on every parcel, leaves a parcel whose
octets start with the octets before the call and whose offsets start with the offsets
before the call; so does every sequence of calls. -/
theorem C31_writer_only_appends (be : Bool) (io : GBinderIo) (MAXB MAXO : Nat) (mem : Memory)
    (d : GBinderWriterData) :
    (∀ op : WriterOp, ∃ mem2 d2,
      WriterOp.run be io MAXB MAXO (mem, some { data := some d }) op
        = (mem2, some { data := some d2 }) ∧
      d.bytes.toList <+: d2.bytes.toList ∧ d.offsets.getD [] <+: d2.offsets.getD []) ∧
    (∀ ops : List WriterOp, ∃ mem2 d2,
      ops.foldl (WriterOp.run be io MAXB MAXO) (mem, some { data := some d })
        = (mem2, some { data := some d2 }) ∧
      d.bytes.toList <+: d2.bytes.toList ∧ d.offsets.getD [] <+: d2.offsets.getD []) := by
  constructor
  · intro op
    obtain ⟨mem2, d2, hrun, hk⟩ := run_op_kept be io MAXB MAXO mem d op
    exact ⟨mem2, d2, hrun, kept_initial d d2 hk⟩
  · intro ops
    obtain ⟨mem2, d2, hrun, hk⟩ := run_ops_kept be io MAXB MAXO ops mem d
    exact ⟨mem2, d2, hrun, kept_initial d d2 hk⟩


/-- C34: `gbinder_writer_data_append_hidl_string` and
`gbinder_writer_data_append_hidl_string_vec` (with its blocks allocated) write a list of
buffer objects one after the other, the `k`-th when `k` offsets more than before the call
are recorded, and every parent `{index, offset}` among them is valid at that moment:
`index` is at least the number of offsets before the call and below the number recorded
when the child is written, the object it names is the `HidlString`, the `HidlVec` or the
`HidlString` array written earlier by the same call, and `offset` plus the size of a
pointer does not exceed the size of that buffer. -/
theorem C34_parents_valid (be : Bool) (io : GBinderIo) (MAX : Nat) (mem : Memory)
    (data : GBinderWriterData) (block : Nat) (str : CString) (vec strings : Nat)
    (strv : List CString) (count : Int) (hstrings : strings ≠ 0) :
    (∃ start : GBinderWriterData,
      (start.offsets.getD []).length = (data.offsets.getD []).length ∧
      (gbinder_writer_data_append_hidl_string be io MAX mem data block str).2
        = write_buffer_objects io MAX start
            (hidl_string_objects block str (data.offsets.getD []).length) ∧
      ∀ k, k < (hidl_string_objects block str (data.offsets.getD []).length).length →
        write_buffer_objects io MAX start
            ((hidl_string_objects block str (data.offsets.getD []).length).take (k + 1))
          = gbinder_writer_data_write_buffer_object io MAX
              (write_buffer_objects io MAX start
                ((hidl_string_objects block str (data.offsets.getD []).length).take k))
              ((hidl_string_objects block str (data.offsets.getD []).length).getD k
                ⟨0, 0, none⟩).ptr
              ((hidl_string_objects block str (data.offsets.getD []).length).getD k
                ⟨0, 0, none⟩).size
              ((hidl_string_objects block str (data.offsets.getD []).length).getD k
                ⟨0, 0, none⟩).parent ∧
        ((write_buffer_objects io MAX start
            ((hidl_string_objects block str (data.offsets.getD []).length).take
              k)).offsets.getD []).length
          = (data.offsets.getD []).length + k) ∧
    parents_valid (data.offsets.getD []).length [block]
      (hidl_string_objects block str (data.offsets.getD []).length) ∧
    (∃ start : GBinderWriterData,
      (start.offsets.getD []).length = (data.offsets.getD []).length ∧
      (gbinder_writer_data_append_hidl_string_vec be io MAX mem data vec strings strv count).2
        = write_buffer_objects io MAX start
            (hidl_string_vec_objects vec strings strv (hidl_string_vec_count strv count)
              (data.offsets.getD []).length) ∧
      ∀ k, k < (hidl_string_vec_objects vec strings strv (hidl_string_vec_count strv count)
            (data.offsets.getD []).length).length →
        write_buffer_objects io MAX start
            ((hidl_string_vec_objects vec strings strv (hidl_string_vec_count strv count)
              (data.offsets.getD []).length).take (k + 1))
          = gbinder_writer_data_write_buffer_object io MAX
              (write_buffer_objects io MAX start
                ((hidl_string_vec_objects vec strings strv (hidl_string_vec_count strv count)
                  (data.offsets.getD []).length).take k))
              ((hidl_string_vec_objects vec strings strv (hidl_string_vec_count strv count)
                (data.offsets.getD []).length).getD k ⟨0, 0, none⟩).ptr
              ((hidl_string_vec_objects vec strings strv (hidl_string_vec_count strv count)
                (data.offsets.getD []).length).getD k ⟨0, 0, none⟩).size
              ((hidl_string_vec_objects vec strings strv (hidl_string_vec_count strv count)
                (data.offsets.getD []).length).getD k ⟨0, 0, none⟩).parent ∧
        ((write_buffer_objects io MAX start
            ((hidl_string_vec_objects vec strings strv (hidl_string_vec_count strv count)
              (data.offsets.getD []).length).take k)).offsets.getD []).length
          = (data.offsets.getD []).length + k) ∧
    parents_valid (data.offsets.getD []).length [vec, strings]
      (hidl_string_vec_objects vec strings strv (hidl_string_vec_count strv count)
        (data.offsets.getD []).length) := by
  refine ⟨⟨_, ?_, congrArg Prod.snd (append_hidl_string_eq be io MAX mem data block str),
      fun k hk => ?_⟩,
    hidl_string_parents_valid block str _,
    ⟨_, ?_, congrArg Prod.snd
      (append_hidl_string_vec_eq be io MAX mem data vec strings strv count hstrings),
      fun k hk => ?_⟩,
    hidl_string_vec_parents_valid vec strings strv _ _⟩
  · rfl
  · exact write_buffer_objects_moment io MAX _ _ k hk
  · rfl
  · exact write_buffer_objects_moment io MAX _ _ k hk

/-- Witness of C34: the vector ["a", NULL] with its blocks at 0x4000 and 0x5000, on an
empty parcel; the parent of its one string is the array, at index 1 and offset 0. -/
theorem C34_parents_valid_witness :
    (0x5000 : Nat) ≠ 0 ∧
    parents_valid 0 [0x4000, 0x5000]
      (hidl_string_vec_objects 0x4000 0x5000 [⟨0x6000, [0x61]⟩, ⟨0, []⟩]
        (hidl_string_vec_count [⟨0x6000, [0x61]⟩, ⟨0, []⟩] 2) 0) :=
  ⟨by decide,
   (C34_parents_valid false stub_io 40 (fun _ => 0) (GBinderWriterData.empty (fun _ => 0))
      0x2000 ⟨0x3000, [0x78]⟩ 0x4000 0x5000 [⟨0x6000, [0x61]⟩, ⟨0, []⟩] 2 (by decide)).2.2.2⟩


/-- C38: with the stub driver, `gbinder_writer_data_append_hidl_string_vec` on an empty
parcel for an array with explicit count `n > 0` (below `2^32`) whose element `i` is null
writes the vector, the array and one leaf for each non-null element only, so fewer than
`n` leaves: element `i` is no leaf and its `HidlString` is `{str = NULL, len = 0}`; and
`gbinder_reader_read_hidl_string_vec` over the resulting payload returns null. -/
theorem C38_null_element (be : Bool) (mem : Memory) (junk : Nat → Octet)
    (vec strings base : Nat) (strv : List CString) (n i : Nat)
    (w : Memory × GBinderWriterData)
    (hw : w = gbinder_writer_data_append_hidl_string_vec be stub_io 40 mem
      (GBinderWriterData.empty junk) vec strings strv (n : Int))
    (hn : 0 < n) (hn32 : n < 2 ^ 32) (hi : i < n)
    (hnull : (strv.getD i ⟨0, []⟩).addr = 0)
    (hstrings : strings ≠ 0) (hsaddr : strings < 2 ^ 64) (hvec : vec < 2 ^ 64)
    (hbase : base ≠ 0)
    (hpv : apart base (40 * ((hidl_string_vec_leaves strv n).length + 2)) vec 16) :
    w.1 = place vec (HidlVec.bytes be ⟨strings, n, true⟩)
      (place strings
        (((List.range n).map
          (fun j => hidl_string_of (strv.getD j ⟨0, []⟩))).flatMap (HidlString.bytes be))
        mem) ∧
    hidl_string_of (strv.getD i ⟨0, []⟩) = ⟨0, 0, false⟩ ∧
    w.2.bytes.toList
      = stub_encode_buffer_object vec sizeof_HidlVec none ++
          (stub_encode_buffer_object strings (sizeof_HidlString * n)
              (some ⟨0, HIDL_VEC_BUFFER_OFFSET⟩) ++
            (hidl_string_vec_leaves strv n).flatMap (fun j =>
              stub_encode_buffer_object (strv.getD j ⟨0, []⟩).addr
                (hidl_string_vec_leaf_size (strv.getD j ⟨0, []⟩))
                (some ⟨0 + 1, HIDL_STRING_BUFFER_OFFSET + j * sizeof_HidlString⟩))) ∧
    i ∉ hidl_string_vec_leaves strv n ∧
    (w.2.offsets.getD []).length = (hidl_string_vec_leaves strv n).length + 2 ∧
    (hidl_string_vec_leaves strv n).length < n ∧
    (gbinder_reader_read_hidl_string_vec be (place base w.2.bytes.toList w.1)
        (parcel_reader base w.2)).1 = none := by
  have hne : n ≠ 0 := by omega
  have hmod : n % 2 ^ 32 = n := Nat.mod_eq_of_lt hn32
  obtain ⟨hnot, hless⟩ := hidl_string_vec_leaves_null strv n i hi hnull
  rw [append_hidl_string_vec_eq be stub_io 40 mem _ vec strings strv _ hstrings,
    hidl_string_vec_count_nat] at hw
  obtain ⟨e1, _, e3, _, _⟩ := write_buffer_objects_effect stub_io 40 stub_io_max
    (hidl_string_vec_objects vec strings strv n
      ((GBinderWriterData.empty junk).offsets.getD []).length)
    { GBinderWriterData.empty junk with
      offsets := some ((GBinderWriterData.empty junk).offsets.getD [])
      cleanup :=
        if n > 0 then (GBinderWriterData.empty junk).cleanup ++ [strings] ++ [vec]
        else (GBinderWriterData.empty junk).cleanup ++ [vec] }
  have hobjs : hidl_string_vec_objects vec strings strv n
      ((GBinderWriterData.empty junk).offsets.getD []).length
      = ⟨vec, sizeof_HidlVec, none⟩ ::
        ⟨strings, sizeof_HidlString * n, some ⟨0, HIDL_VEC_BUFFER_OFFSET⟩⟩ ::
        (hidl_string_vec_leaves strv n).map (fun j =>
          ⟨(strv.getD j ⟨0, []⟩).addr, hidl_string_vec_leaf_size (strv.getD j ⟨0, []⟩),
           some ⟨0 + 1, HIDL_STRING_BUFFER_OFFSET + j * sizeof_HidlString⟩⟩) := by
    simp only [hidl_string_vec_objects, hne, if_false]
    rfl
  have hM1 : w.1 = place vec (HidlVec.bytes be ⟨strings, n, true⟩)
      (place strings
        (((List.range n).map
          (fun j => hidl_string_of (strv.getD j ⟨0, []⟩))).flatMap (HidlString.bytes be))
        mem) := by
    rw [hw]
    simp only [gt_iff_lt, hn, if_true, hmod]
  have hB : w.2.bytes.toList
      = stub_encode_buffer_object vec sizeof_HidlVec none ++
          (stub_encode_buffer_object strings (sizeof_HidlString * n)
              (some ⟨0, HIDL_VEC_BUFFER_OFFSET⟩) ++
            (hidl_string_vec_leaves strv n).flatMap (fun j =>
              stub_encode_buffer_object (strv.getD j ⟨0, []⟩).addr
                (hidl_string_vec_leaf_size (strv.getD j ⟨0, []⟩))
                (some ⟨0 + 1, HIDL_STRING_BUFFER_OFFSET + j * sizeof_HidlString⟩))) := by
    rw [hw]
    simp only
    rw [e1, hobjs]
    simp only [List.flatMap_cons, List.flatMap_map]
    simp [GBinderWriterData.empty, GByteArray.toList, octets_at, stub_io]
  have hO : w.2.offsets.getD []
      = (List.range' 0 ((hidl_string_vec_leaves strv n).length + 2)).map
          (fun j => 0 + 40 * j) := by
    rw [hw]
    simp only
    rw [e3, hobjs, buffer_object_offsets_stub]
    simp [GBinderWriterData.empty]
  have hL : w.2.bytes.len = 40 * ((hidl_string_vec_leaves strv n).length + 2) := by
    rw [← toList_length, hB]
    simp only [List.length_append, stub_encode_length,
      flatMap_length_const _ 40 (fun j => stub_encode_length _ _ _)]
    omega
  have hof : hidl_string_of (strv.getD i ⟨0, []⟩) = ⟨0, 0, false⟩ := by
    simp only [hidl_string_of, hnull, ne_eq, not_true_eq_false, if_false]
  refine ⟨hM1, hof, hB, hnot, by rw [hO]; simp, hless, ?_⟩
  have hp0 : parcel_reader base w.2 =
      { start := base, end_ := base + 40 * ((hidl_string_vec_leaves strv n).length + 2),
        ptr := base,
        data := some
          { buffer := some
              { data := base, size := 40 * ((hidl_string_vec_leaves strv n).length + 2) },
            reg := some { addr := 0x1000, io := stub_io },
            objects := some (base :: (base + 40) ::
              ((List.range' 0 (hidl_string_vec_leaves strv n).length).map
                (fun j => base + 80 + 40 * j) ++ [])) },
        objects := some (base :: (base + 40) ::
          ((List.range' 0 (hidl_string_vec_leaves strv n).length).map
            (fun j => base + 80 + 40 * j) ++ [])) } := by
    simp only [parcel_reader, stub_reader, gbinder_reader_init, hO, hL, stub_positions,
      Nat.add_zero]
  rw [hp0, hB, hM1]
  have k1 := octets_at_place_mid base [] (stub_encode_buffer_object vec sizeof_HidlVec none)
    (stub_encode_buffer_object strings (sizeof_HidlString * n)
        (some ⟨0, HIDL_VEC_BUFFER_OFFSET⟩) ++
      (hidl_string_vec_leaves strv n).flatMap (fun j =>
        stub_encode_buffer_object (strv.getD j ⟨0, []⟩).addr
          (hidl_string_vec_leaf_size (strv.getD j ⟨0, []⟩))
          (some ⟨0 + 1, HIDL_STRING_BUFFER_OFFSET + j * sizeof_HidlString⟩)))
    (place vec (HidlVec.bytes be ⟨strings, n, true⟩)
      (place strings
        (((List.range n).map
          (fun j => hidl_string_of (strv.getD j ⟨0, []⟩))).flatMap (HidlString.bytes be))
        mem))
  rw [stub_encode_length, List.length_nil, Nat.add_zero, List.nil_append] at k1
  have k2 : octets_at
      (place base
        (stub_encode_buffer_object vec sizeof_HidlVec none ++
          (stub_encode_buffer_object strings (sizeof_HidlString * n)
              (some ⟨0, HIDL_VEC_BUFFER_OFFSET⟩) ++
            (hidl_string_vec_leaves strv n).flatMap (fun j =>
              stub_encode_buffer_object (strv.getD j ⟨0, []⟩).addr
                (hidl_string_vec_leaf_size (strv.getD j ⟨0, []⟩))
                (some ⟨0 + 1, HIDL_STRING_BUFFER_OFFSET + j * sizeof_HidlString⟩))))
        (place vec (HidlVec.bytes be ⟨strings, n, true⟩)
          (place strings
            (((List.range n).map
              (fun j => hidl_string_of (strv.getD j ⟨0, []⟩))).flatMap (HidlString.bytes be))
            mem))) vec sizeof_HidlVec
      = HidlVec.bytes be ⟨strings, n, true⟩ := by
    rw [octets_at_place_outside _ _ _ _ _
      (by
        unfold apart at hpv
        simp only [List.length_append, stub_encode_length,
          flatMap_length_const _ 40 (fun j => stub_encode_length _ _ _)]
        have : sizeof_HidlVec = 16 := rfl
        omega)]
    have h := octets_at_place vec (HidlVec.bytes be ⟨strings, n, true⟩)
      (place strings
        (((List.range n).map
          (fun j => hidl_string_of (strv.getD j ⟨0, []⟩))).flatMap (HidlString.bytes be))
        mem)
    rwa [HidlVec_bytes_length] at h
  exact read_hidl_string_vec_short be _ _ _ 0x1000
    ⟨base, 40 * ((hidl_string_vec_leaves strv n).length + 2)⟩ base _ vec strings n none
    rfl rfl rfl rfl hbase rfl (Nat.le_refl _) (by simp) k1 k2 hvec hstrings hsaddr hn32
    (by simp only [List.length_cons, List.length_append, List.length_map, List.length_range',
          List.length_nil]
        omega)

/-- Witness of C38: the array ["a", NULL, "b"] with explicit count 3, its blocks at 0x4000
and 0x5000 and the payload at 0x1000. -/
theorem C38_null_element_witness :
    ((0 : Nat) < 3 ∧ (3 : Nat) < 2 ^ 32 ∧ (1 : Nat) < 3 ∧
      (([⟨0x6000, [0x61]⟩, ⟨0, []⟩, ⟨0x6010, [0x62]⟩] : List CString).getD 1 ⟨0, []⟩).addr = 0 ∧
      (0x5000 : Nat) ≠ 0 ∧
      apart 0x1000 (40 * ((hidl_string_vec_leaves
        [⟨0x6000, [0x61]⟩, ⟨0, []⟩, ⟨0x6010, [0x62]⟩] 3).length + 2)) 0x4000 16) ∧
    (gbinder_reader_read_hidl_string_vec false
      (place 0x1000
        (gbinder_writer_data_append_hidl_string_vec false stub_io 40 example_memory
          (GBinderWriterData.empty (fun _ => 0)) 0x4000 0x5000
          [⟨0x6000, [0x61]⟩, ⟨0, []⟩, ⟨0x6010, [0x62]⟩] ((3 : Nat) : Int)).2.bytes.toList
        (gbinder_writer_data_append_hidl_string_vec false stub_io 40 example_memory
          (GBinderWriterData.empty (fun _ => 0)) 0x4000 0x5000
          [⟨0x6000, [0x61]⟩, ⟨0, []⟩, ⟨0x6010, [0x62]⟩] ((3 : Nat) : Int)).1)
      (parcel_reader 0x1000
        (gbinder_writer_data_append_hidl_string_vec false stub_io 40 example_memory
          (GBinderWriterData.empty (fun _ => 0)) 0x4000 0x5000
          [⟨0x6000, [0x61]⟩, ⟨0, []⟩, ⟨0x6010, [0x62]⟩] ((3 : Nat) : Int)).2)).1 = none :=
  ⟨⟨by decide, by decide, by decide, rfl, by decide, Or.inl (by decide)⟩,
   (C38_null_element false example_memory (fun _ => 0) 0x4000 0x5000 0x1000
      [⟨0x6000, [0x61]⟩, ⟨0, []⟩, ⟨0x6010, [0x62]⟩] 3 1 _ rfl
      (by decide) (by decide) (by decide) rfl (by decide) (by decide) (by decide)
      (by decide) (Or.inl (by decide))).2.2.2.2.2.2⟩


/-- C35: for a non-null `s` and a byte count `n`, `gbinder_writer_data_append_string16_len`
leaves the same parcel as it does for the longest valid UTF-8 prefix `p` of the first `n`
octets of `s` with the byte count `|p|`; `p` is the encoding of valid non-zero code
points, `|p|` is what `g_utf8_validate` returns and no well-formed sequence starts
after it; two inputs with the same valid prefix give the same parcel, and an input with
no valid first octet is written like the empty string. -/
theorem C35_string16_valid_part (be : Bool) (data : GBinderWriterData) (s : List Octet)
    (n : Int) :
    gbinder_writer_data_append_string16_len be data (some s) n
      = gbinder_writer_data_append_string16_len be data (some (s.take (g_utf8_validate s n)))
          ((s.take (g_utf8_validate s n)).length : Int) ∧
    (s.take (g_utf8_validate s n)).length = g_utf8_validate s n ∧
    (∃ cs : List Nat, (∀ c ∈ cs, UNICODE_VALID c ∧ c ≠ 0) ∧
      s.take (g_utf8_validate s n) = cs.flatMap g_unichar_to_utf8) ∧
    utf8_char ((if n < 0 then s else s.take n.toNat).drop (g_utf8_validate s n)) = none ∧
    (∀ (s2 : List Octet) (n2 : Int),
      s2.take (g_utf8_validate s2 n2) = s.take (g_utf8_validate s n) →
      gbinder_writer_data_append_string16_len be data (some s2) n2
        = gbinder_writer_data_append_string16_len be data (some s) n) ∧
    (g_utf8_validate s n = 0 →
      gbinder_writer_data_append_string16_len be data (some s) n
        = gbinder_writer_data_append_string16_len be data (some []) 0) := by
  obtain ⟨cs, hcs, htake, hlen, hmax⟩ := g_utf8_validate_spec s n
  have hl : (s.take (g_utf8_validate s n)).length = g_utf8_validate s n := by
    rw [htake, hlen]
  refine ⟨?_, hl, ⟨cs, hcs, htake⟩, hmax, ?_, ?_⟩
  · rw [hl]
    exact append_string16_len_truncated be data s n
  · intro s2 n2 h
    obtain ⟨cs2, _, htake2, hlen2, _⟩ := g_utf8_validate_spec s2 n2
    have hk : g_utf8_validate s2 n2 = g_utf8_validate s n := by
      rw [← hlen2, ← htake2, h, hl]
    rw [append_string16_len_truncated be data s2 n2, append_string16_len_truncated be data s n, h, hk]
  · intro h0
    rw [append_string16_len_truncated be data s n, h0]
    rfl


/-- C36: for every list of admitted values (booleans, 32-bit and 64-bit integers,
NUL-free string8, and string16 that is null, empty or ASCII), appending them in order to
an empty parcel gives a parcel whose octets are the octets of the values one after the
other, with no store outside the block; reading the same kinds in the same order from a
reader over these octets succeeds at every step, returns the values written and leaves
the reader at end.  Each append emits the octets of its value after whatever the parcel
held, and each read takes exactly the octets of its value wherever they stand and
whatever follows them. -/
theorem C36_values_roundtrip (be : Bool) (junk : Nat → Octet) (base : Nat) (rest : Memory)
    (vs : List Value) (hv : ∀ v ∈ vs, v.admitted) :
    (∃ d, write_values be junk vs = some { data := some d } ∧
      d.bytes.toList = vs.flatMap (Value.octets be) ∧
      d.bytes.overflow = false ∧
      read_kinds be (place base d.bytes.toList rest) (reader_over base d.bytes.len)
          (vs.map Value.kind)
        = (some vs, { reader_over base d.bytes.len with ptr := base + d.bytes.len }) ∧
      gbinder_reader_at_end
        (read_kinds be (place base d.bytes.toList rest) (reader_over base d.bytes.len)
          (vs.map Value.kind)).2 = true) ∧
    (∀ (d : GBinderWriterData) (v : Value), v.admitted →
      ∃ d2, write_value be (some { data := some d }) v = some { data := some d2 } ∧
        d2.bytes.toList = d.bytes.toList ++ v.octets be) ∧
    (∀ (mem : Memory) (p : GBinderReaderPriv) (v : Value), v.admitted →
      octets_at mem p.ptr (v.octets be).length = v.octets be →
      p.ptr + (v.octets be).length ≤ p.end_ →
      read_kind be mem p v.kind
        = (some v, { p with ptr := p.ptr + (v.octets be).length })) := by
  refine ⟨?_, fun d v h => ?_, fun mem p v h hm hf => read_kind_octets be mem p v h hm hf⟩
  · obtain ⟨d, hw, ht, ho⟩ := write_values_octets be vs (GBinderWriterData.empty junk) hv
    rw [empty_toList, List.nil_append] at ht
    have hlen : d.bytes.len = (vs.flatMap (Value.octets be)).length := by
      rw [← ht, toList_length]
    have hr := read_kinds_octets be (place base (vs.flatMap (Value.octets be)) rest) vs
      (reader_over base (vs.flatMap (Value.octets be)).length) hv
      (by
        show octets_at _ (base + 0) _ = _
        rw [Nat.add_zero]
        exact octets_at_place base _ rest)
      (by
        show base + 0 + _ ≤ base + 0 + _
        exact Nat.le_refl _)
    refine ⟨d, hw, ht, ho, ?_, ?_⟩
    · rw [ht, hlen, hr]
      rfl
    · rw [ht, hlen, hr]
      simp [gbinder_reader_at_end, reader_over, gbinder_reader_init]
  · obtain ⟨d2, h1, h2, _⟩ := write_value_octets be d v h
    exact ⟨d2, h1, h2⟩

/-- Witness of C36: TRUE, 7, 2^40, the string8 "hi", a null string16, the empty string16
and the string16 "A", written and read back at 0x1000. -/
theorem C36_values_roundtrip_witness :
    (∀ v ∈ example_values, v.admitted) ∧
    ∃ d, write_values false (fun _ => 0xaa) example_values = some { data := some d } ∧
      d.bytes.toList = example_values.flatMap (Value.octets false) ∧
      d.bytes.overflow = false ∧
      read_kinds false (place 0x1000 d.bytes.toList (fun _ => 0)) (reader_over 0x1000 d.bytes.len)
          (example_values.map Value.kind)
        = (some example_values,
           { reader_over 0x1000 d.bytes.len with ptr := 0x1000 + d.bytes.len }) ∧
      gbinder_reader_at_end
        (read_kinds false (place 0x1000 d.bytes.toList (fun _ => 0))
          (reader_over 0x1000 d.bytes.len) (example_values.map Value.kind)).2 = true :=
  ⟨by simp [example_values, Value.admitted]; decide,
   (C36_values_roundtrip false (fun _ => 0xaa) 0x1000 (fun _ => 0) example_values
      (by simp [example_values, Value.admitted]; decide)).1⟩

end GBinder
